import Mathlib

/-!
# PAL: assembler (`palsm/palexer`) and stack VM (`pal/palVm.go`)

A shallow embedding of the assembler's lexer/encoder and of the virtual
machine, followed by theorems about them.

Conventions of the embedding
* A Go `string` is a sequence of bytes: `Bytes := List Nat`.
* `uint32` values are `Nat` (reduced modulo `2^32` where a conversion can
  truncate), `int32` values are `Int` (wrapped by `wrap32`).
* `os.Exit(1)` after a diagnostic and a Go runtime panic are the two ways the
  assembler fails; both are values of `LexError`.
* Loops are driven by a fuel argument; a loop function returns `none` when the
  fuel runs out before the loop ends and `some r` when the loop ends with `r`.
-/

namespace PAL

/-! ## Byte strings -/

/-- A Go string: its bytes, in order. -/
abbrev Bytes := List Nat

/-- The bytes of an ASCII text. -/
def ascii (s : String) : Bytes := s.toList.map Char.toNat

/-- Go `string(b)` for a byte `b`: the UTF-8 encoding of the code point `b`. -/
def byteToString (b : Nat) : Bytes :=
  if b < 128 then [b] else [192 + b / 64, 128 + b % 64]

/-! ## Lexer data (palexer.go) -/

/-- States of the lexer (`type State int`). -/
inductive State where
  | START
  | END
  | COMMENT
  | DUMP
  | GROUP
  | BUILDCOMM
deriving DecidableEq, Repr

/-- Ways in which assembly stops without a result. The first ten are the
diagnostics after which the source calls `os.Exit(1)`; `indexOutOfRange` is a Go
runtime panic (index or slice bound out of range). -/
inductive LexError where
  | emptyLabelDecleration
  | duplicateLabel
  | emptyLabelReference
  | arityMismatch
  | maxAbsInt
  | registerExpected
  | invalidR0
  | labelExpected
  | unrecognizedCommand
  | unresolvedLabels
  | indexOutOfRange
deriving DecidableEq, Repr

/-- The `Lexer` struct. `Parameters` is `none` for a nil slice. The two maps are
association lists with pairwise distinct keys. `NumParams` is an `int8`: an
integer from -128 to 127, whose increment wraps (`wrapInt8`). -/
structure Lexer where
  Current_State : State
  BeginningChar : Nat
  BuiltString : Bytes
  Index : Nat
  Parameters : Option (List Nat)
  ParametersIndex : Nat
  CurrentInstruction : Nat
  LexemesIndex : Nat
  NumParams : Int
  Line : Nat
  LabelToIndex : List (Bytes × Nat)
  LabelToInstructions : List (Bytes × List Nat)
deriving DecidableEq, Repr

/-- The lexer built by the callers: `Lexer{Current_State: START, Index: 0}`. -/
def freshLexer : Lexer :=
  { Current_State := State.START, BeginningChar := 0, BuiltString := [], Index := 0,
    Parameters := none, ParametersIndex := 0, CurrentInstruction := 0, LexemesIndex := 0,
    NumParams := 0, Line := 0, LabelToIndex := [], LabelToInstructions := [] }

/-- Map lookup `m[k]` with the `ok` flag. -/
def mapGet {β : Type} (m : List (Bytes × β)) (k : Bytes) : Option β :=
  match m with
  | [] => none
  | (k1, v) :: rest => if k1 = k then some v else mapGet rest k

/-- Map deletion `delete(m, k)`. -/
def mapDelete {β : Type} (m : List (Bytes × β)) (k : Bytes) : List (Bytes × β) :=
  m.filter (fun p => decide (p.1 ≠ k))

/-- Map assignment `m[k] = v`. -/
def mapSet {β : Type} (m : List (Bytes × β)) (k : Bytes) (v : β) : List (Bytes × β) :=
  (k, v) :: mapDelete m k

/-- Slice assignment `(*lexemes)[i] = w`, which panics outside the slice. -/
def writeWord (lexemes : List Nat) (i w : Nat) : Except LexError (List Nat) :=
  if i < lexemes.length then Except.ok (lexemes.set i w) else Except.error LexError.indexOutOfRange

/-- The function `IsWhitespace`. -/
def IsWhitespace (char : Nat) : Bool :=
  char = 32 || char = 9 || char = 10 || char = 12 || char = 13 || char = 11

/-- The loop of `IsNumeric` from byte index `i` on. A byte of a multi-byte
rune is above `'9'`, so ranging over bytes rejects at the same place as ranging
over runes. -/
def isNumericFrom (i : Nat) (num : Bytes) : Bool :=
  match num with
  | [] => true
  | char :: rest =>
    if i = 0 ∧ char = 45 then isNumericFrom (i + 1) rest
    else if char < 48 ∨ char > 57 then false
    else isNumericFrom (i + 1) rest

/-- The function `IsNumeric`. -/
def IsNumeric (num : Bytes) : Bool := isNumericFrom 0 num

/-- Value of a run of decimal digits, `none` when a byte is not a digit. -/
def parseDigits (acc : Nat) (s : Bytes) : Option Nat :=
  match s with
  | [] => some acc
  | c :: rest => if 48 ≤ c ∧ c ≤ 57 then parseDigits (acc * 10 + (c - 48)) rest else none

/-- Library function `strconv.Atoi` on a 64-bit platform: an optional sign, then
one or more decimal digits, the value in the range of `int`; `none` stands for a
non-nil `err`. -/
def Atoi (s : Bytes) : Option Int :=
  match s with
  | [] => none
  | c :: rest =>
    let neg := decide (c = 45)
    let digits := if c = 45 ∨ c = 43 then rest else s
    match digits with
    | [] => none
    | _ :: _ =>
      match parseDigits 0 digits with
      | none => none
      | some v =>
        if neg then (if v ≤ 9223372036854775808 then some (-(v : Int)) else none)
        else (if v ≤ 9223372036854775807 then some (v : Int) else none)

/-- The test `regexp.MatchString("^R[0-9]$", s)`. -/
def matchRegister (s : Bytes) : Bool :=
  match s with
  | [r, d] => r = 82 && (48 ≤ d && d ≤ 57)
  | _ => false

/-- The function `ValidateNumParameter`. -/
def ValidateNumParameter (command : Nat) (paramIndex : Nat) : Bool :=
  if command = 0x40000009 then false
  else if command = 0x4000000A then (if paramIndex = 0 then false else true)
  else if command = 0x40000011 then false
  else true

/-- The `switch lexer.BuiltString` of `GetCommand`: instruction word and number
of parameters of a mnemonic. -/
def mnemonic (s : Bytes) : Option (Nat × Nat) :=
  if s = ascii "HALT" then some (0x40000000, 0)
  else if s = ascii "PEEK" then some (0x40000001, 0)
  else if s = ascii "ADD" then some (0x40000002, 2)
  else if s = ascii "SUB" then some (0x40000003, 2)
  else if s = ascii "MUL" then some (0x40000004, 2)
  else if s = ascii "DIV" then some (0x40000005, 2)
  else if s = ascii "AND" then some (0x40000006, 2)
  else if s = ascii "OR" then some (0x40000007, 2)
  else if s = ascii "PUSH" then some (0x40000008, 1)
  else if s = ascii "POP" then some (0x40000009, 1)
  else if s = ascii "MOV" then some (0x4000000A, 2)
  else if s = ascii "EQ" then some (0x4000000B, 2)
  else if s = ascii "NEQ" then some (0x4000000C, 2)
  else if s = ascii "GT" then some (0x4000000D, 2)
  else if s = ascii "LT" then some (0x4000000E, 2)
  else if s = ascii "GTE" then some (0x4000000F, 2)
  else if s = ascii "LTE" then some (0x40000010, 2)
  else if s = ascii "JMP" then some (0x40000011, 1)
  else if s = ascii "JMPF" then some (0x40000012, 1)
  else none

/-- The loop `for _, param := range lexer.Parameters` of `DumpCommand`. -/
def dumpParams (params : List Nat) (lexemes : List Nat) (idx : Nat) :
    Except LexError (List Nat × Nat) :=
  match params with
  | [] => Except.ok (lexemes, idx)
  | param :: rest =>
    match writeWord lexemes idx param with
    | Except.error e => Except.error e
    | Except.ok lexemes1 => dumpParams rest lexemes1 (idx + 1)

/-- The method `Lexer.DumpCommand`. -/
def DumpCommand (lexer : Lexer) (lexemes : List Nat) : Except LexError (Lexer × List Nat) :=
  match lexer.Parameters with
  | some params =>
    if (params.length : Int) ≠ lexer.NumParams then Except.error LexError.arityMismatch
    else
      match dumpParams params lexemes lexer.LexemesIndex with
      | Except.error e => Except.error e
      | Except.ok (lexemes1, idx) =>
        match writeWord lexemes1 idx lexer.CurrentInstruction with
        | Except.error e => Except.error e
        | Except.ok lexemes2 =>
          Except.ok ({ lexer with LexemesIndex := idx + 1, ParametersIndex := 0, NumParams := 0,
                                  CurrentInstruction := 0 }, lexemes2)
  | none =>
    Except.ok ({ lexer with ParametersIndex := 0, NumParams := 0, CurrentInstruction := 0 }, lexemes)

/-- The backpatch loop `for _, i := range val` of `HandleLabelDecleration`. -/
def backpatch (val : List Nat) (w : Nat) (lexemes : List Nat) : Except LexError (List Nat) :=
  match val with
  | [] => Except.ok lexemes
  | i :: rest =>
    match writeWord lexemes i w with
    | Except.error e => Except.error e
    | Except.ok lexemes1 => backpatch rest w lexemes1

/-- The method `Lexer.HandleLabelDecleration`. The slice expression
`lexer.BuiltString[:len(lexer.BuiltString)-1]` panics on an empty string. -/
def HandleLabelDecleration (lexer : Lexer) (lexemes : List Nat) :
    Except LexError (Lexer × List Nat) :=
  if lexer.BuiltString.length = 1 then Except.error LexError.emptyLabelDecleration
  else if lexer.BuiltString.length = 0 then Except.error LexError.indexOutOfRange
  else
    let name := lexer.BuiltString.dropLast
    match mapGet lexer.LabelToIndex name with
    | some _ => Except.error LexError.duplicateLabel
    | none =>
      let lexer1 := { lexer with BuiltString := name,
                                 LabelToIndex := mapSet lexer.LabelToIndex name lexer.LexemesIndex }
      match mapGet lexer1.LabelToInstructions name with
      | some val =>
        match backpatch val (lexer1.LexemesIndex % 4294967296) lexemes with
        | Except.error e => Except.error e
        | Except.ok lexemes1 =>
          Except.ok ({ lexer1 with LabelToInstructions := mapDelete lexer1.LabelToInstructions name },
                     lexemes1)
      | none => Except.ok (lexer1, lexemes)

/-- Wrap an integer to the range of `int8` (two's complement): the result of
`lexer.NumParams++` is `wrapInt8 (lexer.NumParams + 1)`. -/
def wrapInt8 (x : Int) : Int := (x + 128) % 256 - 128

/-- Assignment `lexer.Parameters[lexer.ParametersIndex] = w`, which panics on a
nil slice or outside the slice. -/
def setParameter (lexer : Lexer) (w : Nat) : Except LexError Lexer :=
  match lexer.Parameters with
  | none => Except.error LexError.indexOutOfRange
  | some params =>
    if lexer.ParametersIndex < params.length then
      Except.ok { lexer with Parameters := some (params.set lexer.ParametersIndex w) }
    else Except.error LexError.indexOutOfRange

/-- Length of `lexer.Parameters` (`0` for nil). -/
def paramsLen (lexer : Lexer) : Nat :=
  match lexer.Parameters with
  | none => 0
  | some params => params.length

/-- The method `Lexer.HandleLabelParameter`. -/
def HandleLabelParameter (lexer : Lexer) : Except LexError Lexer :=
  if lexer.BuiltString.length = 1 then Except.error LexError.emptyLabelReference
  else
    let r :=
      match mapGet lexer.LabelToIndex lexer.BuiltString with
      | some indexOfLabel => setParameter lexer (indexOfLabel % 4294967296)
      | none =>
        match setParameter lexer 0 with
        | Except.error e => Except.error e
        | Except.ok lexer1 =>
          match mapGet lexer1.LabelToInstructions lexer1.BuiltString with
          | some instructions =>
            let waiting := instructions ++ [lexer1.LexemesIndex]
            let m := mapSet lexer1.LabelToInstructions lexer1.BuiltString waiting
            Except.ok { lexer1 with LabelToInstructions := m }
          | none =>
            let m := mapSet lexer1.LabelToInstructions lexer1.BuiltString [lexer1.LexemesIndex]
            Except.ok { lexer1 with LabelToInstructions := m }
    match r with
    | Except.error e => Except.error e
    | Except.ok lexer2 =>
      Except.ok { lexer2 with ParametersIndex := lexer2.ParametersIndex + 1,
                              NumParams := wrapInt8 (lexer2.NumParams + 1) }

/-- The integer encoding of `GetCommand`: `uint32(num & 0xBFFFFFFF)`, `num` a
64-bit two's-complement `int`. -/
def encodeInt (num : Int) : Nat :=
  ((num % 18446744073709551616).toNat &&& 0xBFFFFFFF) % 4294967296

/-- The register encoding of `GetCommand`:
`uint32(0b11<<30) | uint32((BuiltString[1] - '1') & 15)`, the subtraction on bytes. -/
def encodeRegister (digit : Nat) : Nat :=
  0xC0000000 ||| (((digit + 256 - 49) % 256) &&& 15)

/-- The method `Lexer.GetCommand`. -/
def GetCommand (lexer : Lexer) (lexemes : List Nat) : Except LexError (Lexer × List Nat) :=
  match lexer.BuiltString.getLast? with
  | none => Except.error LexError.indexOutOfRange
  | some last =>
    if last = 58 then
      match DumpCommand lexer lexemes with
      | Except.error e => Except.error e
      | Except.ok (lexer1, lexemes1) =>
        match HandleLabelDecleration lexer1 lexemes1 with
        | Except.error e => Except.error e
        | Except.ok (lexer2, lexemes2) => Except.ok ({ lexer2 with Parameters := none }, lexemes2)
    else
      match Atoi lexer.BuiltString with
      | some num =>
        if num > 1073741823 ∨ num < -1073741823 then Except.error LexError.maxAbsInt
        else if lexer.ParametersIndex = paramsLen lexer then Except.error LexError.arityMismatch
        else if ValidateNumParameter lexer.CurrentInstruction lexer.ParametersIndex = false then
          Except.error LexError.registerExpected
        else
          match setParameter lexer (encodeInt num) with
          | Except.error e => Except.error e
          | Except.ok lexer1 =>
            Except.ok ({ lexer1 with ParametersIndex := lexer1.ParametersIndex + 1,
                                     NumParams := wrapInt8 (lexer1.NumParams + 1) }, lexemes)
      | none =>
        if IsNumeric lexer.BuiltString then Except.error LexError.maxAbsInt
        else if matchRegister lexer.BuiltString then
          if lexer.BuiltString.getD 1 0 = 48 then Except.error LexError.invalidR0
          else if lexer.CurrentInstruction = 0x40000011 ∨ lexer.CurrentInstruction = 0x40000012 then
            Except.error LexError.labelExpected
          else if lexer.ParametersIndex = paramsLen lexer then Except.error LexError.arityMismatch
          else
            match setParameter lexer (encodeRegister (lexer.BuiltString.getD 1 0)) with
            | Except.error e => Except.error e
            | Except.ok lexer1 =>
              Except.ok ({ lexer1 with ParametersIndex := lexer1.ParametersIndex + 1,
                                       NumParams := wrapInt8 (lexer1.NumParams + 1) }, lexemes)
        else if (lexer.CurrentInstruction = 0x40000011 ∨ lexer.CurrentInstruction = 0x40000012)
            ∧ lexer.NumParams = 0 then
          match HandleLabelParameter lexer with
          | Except.error e => Except.error e
          | Except.ok lexer1 => Except.ok (lexer1, lexemes)
        else
          match DumpCommand lexer lexemes with
          | Except.error e => Except.error e
          | Except.ok (lexer1, lexemes1) =>
            match mnemonic lexer1.BuiltString with
            | none => Except.error LexError.unrecognizedCommand
            | some (instruction, numParams) =>
              Except.ok ({ lexer1 with CurrentInstruction := instruction,
                                       Parameters := some (List.replicate numParams 0) }, lexemes1)

/-- The method `Lexer.VerifyLabelResolution`. -/
def VerifyLabelResolution (lexer : Lexer) : Except LexError Unit :=
  if lexer.LabelToInstructions.length > 0 then Except.error LexError.unresolvedLabels
  else Except.ok ()

/-- The comparison `data[i:i+2] == s` for a two-byte `s`; `none` when the slice
expression panics (`i+2 > len(data)`). -/
def sliceIs (data : Bytes) (i : Nat) (c1 c2 : Nat) : Option Bool :=
  if i + 2 ≤ data.length then some (decide (data.getD i 0 = c1 ∧ data.getD (i + 1) 0 = c2))
  else none

/-- The tail of the loop body of `Lex` when `dumping` is false: step over the
current byte (over both bytes of a CR LF) and count lines. -/
def advance (data : Bytes) (lexer : Lexer) : Except LexError Lexer :=
  if lexer.Index + 1 < data.length ∧ sliceIs data lexer.Index 13 10 = some true then
    Except.ok { lexer with Line := lexer.Line + 1, Index := lexer.Index + 1 + 1 }
  else
    match data[lexer.Index]? with
    | none => Except.error LexError.indexOutOfRange
    | some c =>
      if c = 10 then Except.ok { lexer with Line := lexer.Line + 1, Index := lexer.Index + 1 }
      else Except.ok { lexer with Index := lexer.Index + 1 }

/-- Outcome of one iteration of the loop of `Lex`. -/
inductive LoopStep where
  | next (lexer : Lexer) (lexemes : List Nat)
  | done (lexemes : List Nat)

/-- The `switch lexer.Current_State` of the loop of `Lex`, for a state other than
`END`, at an index inside `data`. The result carries the `dumping` flag. -/
def lexSwitch (data : Bytes) (lexer : Lexer) (lexemes : List Nat) :
    Except LexError (Lexer × List Nat × Bool) :=
  match data[lexer.Index]? with
  | none => Except.error LexError.indexOutOfRange
  | some c =>
    match lexer.Current_State with
    | State.START =>
      let lexer1 := { lexer with BuiltString := [] }
      if IsWhitespace c then Except.ok (lexer1, lexemes, false)
      else if c = 47 then
        match data[lexer.Index + 1]? with
        | none => Except.error LexError.indexOutOfRange
        | some c1 =>
          if c1 = 47 then
            Except.ok ({ lexer1 with Index := lexer1.Index + 1, Current_State := State.COMMENT },
                       lexemes, false)
          else if c1 = 42 then
            Except.ok ({ lexer1 with BeginningChar := 42, Index := lexer1.Index + 1,
                                     Current_State := State.COMMENT }, lexemes, false)
          else
            Except.ok ({ lexer1 with BuiltString := lexer1.BuiltString ++ byteToString c,
                                     Current_State := State.BUILDCOMM }, lexemes, false)
      else
        Except.ok ({ lexer1 with BuiltString := lexer1.BuiltString ++ byteToString c,
                                 Current_State := State.BUILDCOMM }, lexemes, false)
    | State.COMMENT =>
      if lexer.BeginningChar = 42 then
        match sliceIs data lexer.Index 42 47 with
        | none => Except.error LexError.indexOutOfRange
        | some true =>
          Except.ok ({ lexer with Current_State := State.START, BeginningChar := 0,
                                  Index := lexer.Index + 1 }, lexemes, false)
        | some false => Except.ok (lexer, lexemes, false)
      else if c = 10 ∨ (lexer.Index + 1 < data.length ∧ sliceIs data lexer.Index 13 10 = some true) then
        Except.ok ({ lexer with Current_State := State.START }, lexemes, false)
      else Except.ok (lexer, lexemes, false)
    | State.BUILDCOMM =>
      if IsWhitespace c ∨ c = 58 then
        let lexer1 := if c = 58 then { lexer with BuiltString := lexer.BuiltString ++ [58] } else lexer
        Except.ok ({ lexer1 with Current_State := State.DUMP }, lexemes, true)
      else
        let lexer1 := { lexer with BuiltString := lexer.BuiltString ++ byteToString c }
        if lexer1.Index + 1 = data.length then
          Except.ok ({ lexer1 with Current_State := State.DUMP }, lexemes, true)
        else Except.ok (lexer1, lexemes, false)
    | State.DUMP =>
      match GetCommand lexer lexemes with
      | Except.error e => Except.error e
      | Except.ok (lexer1, lexemes1) =>
        Except.ok ({ lexer1 with Current_State := State.START }, lexemes1, false)
    | State.END => Except.ok (lexer, lexemes, false)
    | State.GROUP => Except.ok (lexer, lexemes, false)

/-- The `case END:` of the loop of `Lex`: flush the pending command, check that
no label is unresolved, write the terminator and return the buffer. -/
def lexEnd (lexer : Lexer) (lexemes : List Nat) : Except LexError (List Nat) :=
  match DumpCommand lexer lexemes with
  | Except.error e => Except.error e
  | Except.ok (lexer1, lexemes1) =>
    match VerifyLabelResolution lexer1 with
    | Except.error e => Except.error e
    | Except.ok _ => writeWord lexemes1 lexer1.LexemesIndex 0x40000000

/-- One iteration of the loop `for { ... }` of `Lex`. -/
def lexStep (data : Bytes) (lexer : Lexer) (lexemes : List Nat) : Except LexError LoopStep :=
  if lexer.Index ≥ data.length ∨ lexer.Current_State = State.END then
    match lexEnd lexer lexemes with
    | Except.error e => Except.error e
    | Except.ok out => Except.ok (LoopStep.done out)
  else
    match lexSwitch data lexer lexemes with
    | Except.error e => Except.error e
    | Except.ok (lexer1, lexemes1, dumping) =>
      if dumping then Except.ok (LoopStep.next lexer1 lexemes1)
      else
        match advance data lexer1 with
        | Except.error e => Except.error e
        | Except.ok lexer2 => Except.ok (LoopStep.next lexer2 lexemes1)

/-- The loop `for { ... }` of `Lex`, run for at most `fuel` iterations. -/
def lexLoop (data : Bytes) (fuel : Nat) (lexer : Lexer) (lexemes : List Nat) :
    Option (Except LexError (List Nat)) :=
  match fuel with
  | 0 => none
  | fuel1 + 1 =>
    match lexStep data lexer lexemes with
    | Except.error e => some (Except.error e)
    | Except.ok (LoopStep.done out) => some (Except.ok out)
    | Except.ok (LoopStep.next lexer1 lexemes1) => lexLoop data fuel1 lexer1 lexemes1

/-- The method `Lexer.Lex`: the whole output buffer, of length `len(data)+1`,
or the failure. An iteration either moves `Index` forward or is the `dumping`
iteration between `BUILDCOMM` and `DUMP`, so twice the length of the input (plus
the final `END` iteration) bounds the number of iterations. -/
def Lex (lexer : Lexer) (source : Bytes) : Option (Except LexError (List Nat)) :=
  let data := source ++ [10]
  let lexemes := List.replicate data.length 0
  let lexer1 := { lexer with LabelToIndex := [], LabelToInstructions := [] }
  if data.length = 0 then some (Except.ok lexemes)
  else
    let lexer2 := { lexer1 with LexemesIndex := 0, Line := lexer1.Line + 1 }
    lexLoop data (2 * data.length + 3) lexer2 lexemes

/-- Assembly as the two programs run it: `Lex` on a fresh lexer. -/
def assemble (source : Bytes) : Option (Except LexError (List Nat)) := Lex freshLexer source

/-! ## Virtual machine (palVm.go) -/

/-- Wrap an integer to the range of `int32` (two's complement). -/
def wrap32 (x : Int) : Int := (x + 2147483648) % 4294967296 - 2147483648

/-- Conversion `uint32(v)` of an `int32`. -/
def toUint32 (v : Int) : Nat := (v % 4294967296).toNat

/-- Conversion `int32(w)` of a `uint32`. -/
def toInt32 (w : Nat) : Int := wrap32 (w : Int)

/-- The `MemStack` struct: `sp`, `bp` are `uint32`, `stack` holds `int32`, `ip`
is an `int`. -/
structure MemStack where
  sp : Nat
  bp : Nat
  stack : List Int
  ip : Int
deriving DecidableEq, Repr

/-- A line printed by the VM: PEEK prints `ip` and the top of the stack, HALT
prints `ip`. -/
inductive Printed where
  | peek (ip : Int) (top : Int)
  | halt (ip : Int)
deriving DecidableEq, Repr

/-- The machine: the globals `MemRegisters` (nine cells) and `FlagRegister`, the
`MemStack`, and the lines printed so far. -/
structure VM where
  MemRegisters : List Int
  FlagRegister : Bool
  memStack : MemStack
  printed : List Printed
deriving DecidableEq, Repr

/-- Ways in which execution stops inside an opcode: `os.Exit` from HALT, or a Go
runtime panic (index out of range, integer divide by zero). -/
inductive VMStop where
  | exit (code : Nat) (vm : VM)
  | indexOutOfRange
  | divideByZero
deriving DecidableEq, Repr

/-- The function `InitMemStack`. -/
def InitMemStack (pointer : Nat) (size : Nat) : MemStack :=
  { bp := pointer, sp := pointer, stack := List.replicate size 0, ip := 0 }

/-- The machine at the start of `main`, with a stack of `size` slots (`main`
uses `InitMemStack(0, 1000000)`). -/
def freshVM (size : Nat) : VM :=
  { MemRegisters := List.replicate 9 0, FlagRegister := false,
    memStack := InitMemStack 0 size, printed := [] }

/-- The method `MemStack.push`. -/
def MemStack.push (stack : MemStack) (val : Int) : Except VMStop MemStack :=
  if stack.sp < stack.stack.length then
    Except.ok { stack with stack := stack.stack.set stack.sp val,
                           sp := (stack.sp + 1) % 4294967296 }
  else Except.error VMStop.indexOutOfRange

/-- The method `MemStack.pop`: the value returned and the stack afterwards. -/
def MemStack.pop (stack : MemStack) : Except VMStop (Int × MemStack) :=
  if stack.sp < stack.bp then Except.ok (0, stack)
  else
    let sp1 := (stack.sp + 4294967296 - 1) % 4294967296
    match stack.stack[sp1]? with
    | none => Except.error VMStop.indexOutOfRange
    | some val => Except.ok (val, { stack with sp := sp1 })

/-- The method `MemStack.peek`. -/
def MemStack.peek (stack : MemStack) : Except VMStop Int :=
  if stack.sp = stack.bp then Except.ok 0
  else
    match stack.stack[(stack.sp + 4294967296 - 1) % 4294967296]? with
    | none => Except.error VMStop.indexOutOfRange
    | some val => Except.ok val

/-- The constants of type `ArithmeticOperation`. -/
inductive ArithmeticOperation where
  | ADD
  | SUB
  | MUL
  | DIV
  | PUSH
  | POP
  | MOV
deriving DecidableEq, Repr

/-- The constants of type `BooleanOperation`. -/
inductive BooleanOperation where
  | AND
  | OR
  | EQ
  | NEQ
  | GT
  | LT
  | GTE
  | LTE
deriving DecidableEq, Repr

/-- The function `CheckIfRegister`. -/
def CheckIfRegister (val : Nat) : Bool := (val &&& 0xC0000000) >>> 30 = 3

/-- The expression `val & 0x3FFFFFFF` on an `int32`. -/
def payload (val : Int) : Nat := toUint32 val &&& 0x3FFFFFFF

/-- Read `MemRegisters[reg]`, which panics outside the array. -/
def readRegister (vm : VM) (reg : Nat) : Except VMStop Int :=
  match vm.MemRegisters[reg]? with
  | none => Except.error VMStop.indexOutOfRange
  | some v => Except.ok v

/-- The function `StoreInRegister`. -/
def StoreInRegister (vm : VM) (reg : Nat) (val : Int) : Except VMStop VM :=
  if reg < vm.MemRegisters.length then
    Except.ok { vm with MemRegisters := vm.MemRegisters.set reg val }
  else Except.error VMStop.indexOutOfRange

/-- The function `ExecuteArithmatic`: the value returned and the machine
afterwards (the `POP` case pops the stack). -/
def ExecuteArithmatic (val1 val2 : Int) (op : ArithmeticOperation) (vm : VM) :
    Except VMStop (Int × VM) :=
  match op with
  | ArithmeticOperation.ADD => Except.ok (wrap32 (val1 + val2), vm)
  | ArithmeticOperation.SUB => Except.ok (wrap32 (val1 - val2), vm)
  | ArithmeticOperation.MUL => Except.ok (wrap32 (val1 * val2), vm)
  | ArithmeticOperation.DIV =>
    if val2 = 0 then Except.error VMStop.divideByZero
    else Except.ok (wrap32 (Int.tdiv val1 val2), vm)
  | ArithmeticOperation.PUSH => Except.ok (val2, vm)
  | ArithmeticOperation.POP =>
    match vm.memStack.pop with
    | Except.error e => Except.error e
    | Except.ok (v, ms) => Except.ok (v, { vm with memStack := ms })
  | ArithmeticOperation.MOV => Except.ok (0, vm)

/-- The step `if CheckIfRegister(uint32(val2)) { val2 = MemRegisters[val2&0x3FFFFFFF] }`. -/
def resolveOperand (vm : VM) (val : Int) : Except VMStop Int :=
  if CheckIfRegister (toUint32 val) then readRegister vm (payload val) else Except.ok val

/-- The function `ArithmeticOperationHelper`. -/
def ArithmeticOperationHelper (val1 val2 : Int) (op : ArithmeticOperation) (vm : VM) :
    Except VMStop VM :=
  if CheckIfRegister (toUint32 val1) then
    let reg := payload val1
    match readRegister vm reg with
    | Except.error e => Except.error e
    | Except.ok v1 =>
      match resolveOperand vm val2 with
      | Except.error e => Except.error e
      | Except.ok v2 =>
        match ExecuteArithmatic v1 v2 op vm with
        | Except.error e => Except.error e
        | Except.ok (r, vm1) => StoreInRegister vm1 reg r
  else
    match resolveOperand vm val2 with
    | Except.error e => Except.error e
    | Except.ok v2 =>
      match ExecuteArithmatic val1 v2 op vm with
      | Except.error e => Except.error e
      | Except.ok (r, vm1) =>
        match vm1.memStack.push r with
        | Except.error e => Except.error e
        | Except.ok ms => Except.ok { vm1 with memStack := ms }

/-- The function `ExecuteBooleanOperation`. -/
def ExecuteBooleanOperation (val1 val2 : Int) (op : BooleanOperation) : Bool :=
  match op with
  | BooleanOperation.AND => decide ((toUint32 val1 &&& toUint32 val2) ≠ 0)
  | BooleanOperation.OR => decide ((toUint32 val1 ||| toUint32 val2) ≠ 0)
  | BooleanOperation.GT => decide (val1 > val2)
  | BooleanOperation.LT => decide (val1 < val2)
  | BooleanOperation.GTE => decide (val1 ≥ val2)
  | BooleanOperation.LTE => decide (val1 ≤ val2)
  | BooleanOperation.EQ => decide (val1 = val2)
  | BooleanOperation.NEQ => decide (val1 ≠ val2)

/-- The function `BooleanOperationHelper`. -/
def BooleanOperationHelper (val1 val2 : Int) (op : BooleanOperation) (vm : VM) :
    Except VMStop VM :=
  match resolveOperand vm val1 with
  | Except.error e => Except.error e
  | Except.ok v1 =>
    match resolveOperand vm val2 with
    | Except.error e => Except.error e
    | Except.ok v2 => Except.ok { vm with FlagRegister := ExecuteBooleanOperation v1 v2 op }

/-- The statement `val2, val1 := memStack.pop(), memStack.pop()`: the result is
`(val1, val2, machine)`. -/
def popTwo (vm : VM) : Except VMStop (Int × Int × VM) :=
  match vm.memStack.pop with
  | Except.error e => Except.error e
  | Except.ok (val2, ms1) =>
    match ms1.pop with
    | Except.error e => Except.error e
    | Except.ok (val1, ms2) => Except.ok (val1, val2, { vm with memStack := ms2 })

/-- A case `val2, val1 := pop(), pop(); ArithmeticOperationHelper(val1, val2, op, memStack)`. -/
def binaryArithmetic (op : ArithmeticOperation) (vm : VM) : Except VMStop (Bool × VM) :=
  match popTwo vm with
  | Except.error e => Except.error e
  | Except.ok (val1, val2, vm1) =>
    match ArithmeticOperationHelper val1 val2 op vm1 with
    | Except.error e => Except.error e
    | Except.ok vm2 => Except.ok (false, vm2)

/-- A case `val2, val1 := pop(), pop(); BooleanOperationHelper(val1, val2, op)`. -/
def binaryBoolean (op : BooleanOperation) (vm : VM) : Except VMStop (Bool × VM) :=
  match popTwo vm with
  | Except.error e => Except.error e
  | Except.ok (val1, val2, vm1) =>
    match BooleanOperationHelper val1 val2 op vm1 with
    | Except.error e => Except.error e
    | Except.ok vm2 => Except.ok (false, vm2)

/-- The function `VMExecuteOpCode`: the returned flag (`true` when `ip` was
reassigned by a jump) and the machine afterwards. HALT is modelled with
`deleteBin = false`: it prints and exits with status 0. -/
def VMExecuteOpCode (instruction : Nat) (vm : VM) : Except VMStop (Bool × VM) :=
  match instruction with
  | 0 =>
    Except.error (VMStop.exit 0 { vm with printed := vm.printed ++ [Printed.halt vm.memStack.ip] })
  | 1 =>
    match vm.memStack.peek with
    | Except.error e => Except.error e
    | Except.ok top =>
      Except.ok (false, { vm with printed := vm.printed ++ [Printed.peek vm.memStack.ip top] })
  | 2 => binaryArithmetic ArithmeticOperation.ADD vm
  | 3 => binaryArithmetic ArithmeticOperation.SUB vm
  | 4 => binaryArithmetic ArithmeticOperation.MUL vm
  | 5 => binaryArithmetic ArithmeticOperation.DIV vm
  | 6 => binaryBoolean BooleanOperation.AND vm
  | 7 => binaryBoolean BooleanOperation.OR vm
  | 8 =>
    match vm.memStack.pop with
    | Except.error e => Except.error e
    | Except.ok (val, ms) =>
      match ArithmeticOperationHelper 0 val ArithmeticOperation.PUSH { vm with memStack := ms } with
      | Except.error e => Except.error e
      | Except.ok vm1 => Except.ok (false, vm1)
  | 9 =>
    match vm.memStack.pop with
    | Except.error e => Except.error e
    | Except.ok (val, ms) =>
      match ArithmeticOperationHelper val 0 ArithmeticOperation.POP { vm with memStack := ms } with
      | Except.error e => Except.error e
      | Except.ok vm1 => Except.ok (false, vm1)
  | 10 =>
    match popTwo vm with
    | Except.error e => Except.error e
    | Except.ok (val1, val2, vm1) =>
      match StoreInRegister vm1 (payload val1) val2 with
      | Except.error e => Except.error e
      | Except.ok vm2 => Except.ok (false, vm2)
  | 11 => binaryBoolean BooleanOperation.EQ vm
  | 12 => binaryBoolean BooleanOperation.EQ vm
  | 13 => binaryBoolean BooleanOperation.EQ vm
  | 14 => binaryBoolean BooleanOperation.EQ vm
  | 15 => binaryBoolean BooleanOperation.EQ vm
  | 16 => binaryBoolean BooleanOperation.EQ vm
  | 17 =>
    match vm.memStack.pop with
    | Except.error e => Except.error e
    | Except.ok (index, ms) => Except.ok (true, { vm with memStack := { ms with ip := index } })
  | 18 =>
    match vm.memStack.pop with
    | Except.error e => Except.error e
    | Except.ok (index, ms) =>
      if vm.FlagRegister then Except.ok (true, { vm with memStack := { ms with ip := index } })
      else Except.ok (false, { vm with memStack := ms })
  | _ => Except.ok (false, vm)

/-- The value pushed by the fetch step of `VMExecute` for a stream word whose
`dataType` is not 1: `(int32(dataType) << 30) | data`, with `dataType` 2 turned
into 3. -/
def fetchValue (word : Nat) : Int :=
  let dataType := (word &&& 0xC0000000) >>> 30
  let data := word &&& 0x3FFFFFFF
  let dataType1 := if dataType % 2 = 0 ∧ dataType = 2 then 3 else dataType
  toInt32 (((dataType1 <<< 30) % 4294967296) ||| data)

/-- The body of the loop of `VMExecute` at stream index `d`: the index for the
next iteration (after `d++`) and the machine. -/
def vmStep (dataStream : List Nat) (d : Int) (vm : VM) : Except VMStop (Int × VM) :=
  if d < 0 then Except.error VMStop.indexOutOfRange
  else
    match dataStream[d.toNat]? with
    | none => Except.error VMStop.indexOutOfRange
    | some word =>
      let dataType := (word &&& 0xC0000000) >>> 30
      if dataType % 2 = 0 ∨ dataType = 3 then
        match vm.memStack.push (fetchValue word) with
        | Except.error e => Except.error e
        | Except.ok ms => Except.ok (d + 1, { vm with memStack := ms })
      else
        match VMExecuteOpCode (word &&& 0x3FFFFFFF) vm with
        | Except.error e => Except.error e
        | Except.ok (reassignIndex, vm1) =>
          if reassignIndex then Except.ok (vm1.memStack.ip - 1 + 1, vm1)
          else
            Except.ok (d + 1, { vm1 with memStack := { vm1.memStack with ip := vm1.memStack.ip + 1 } })

/-- The loop `for d := 0; d < len(dataStream); d++` of `VMExecute` from index
`d`, for at most `fuel` iterations; `Except.ok` is the loop running off the end
of the stream. -/
def vmLoop (dataStream : List Nat) (fuel : Nat) (d : Int) (vm : VM) :
    Option (Except VMStop VM) :=
  match fuel with
  | 0 => none
  | fuel1 + 1 =>
    if d < (dataStream.length : Int) then
      match vmStep dataStream d vm with
      | Except.error e => some (Except.error e)
      | Except.ok (d1, vm1) => vmLoop dataStream fuel1 d1 vm1
    else some (Except.ok vm)

/-- The function `VMExecute`, for at most `fuel` iterations of its loop. -/
def VMExecute (fuel : Nat) (dataStream : List Nat) (vm : VM) : Option (Except VMStop VM) :=
  vmLoop dataStream fuel 0 vm

/-! ## Definitions used to state the properties -/

/-- The result that the specification gives to a binary arithmetic opcode
(2 ADD, 3 SUB, 4 MUL, 5 DIV) on the resolved operand values `a` and `b`: signed
32-bit arithmetic, overflow wraps, division truncates. -/
def arithResult (opcode : Nat) (a b : Int) : Int :=
  if opcode = 2 then wrap32 (a + b)
  else if opcode = 3 then wrap32 (a - b)
  else if opcode = 4 then wrap32 (a * b)
  else wrap32 (Int.tdiv a b)

/-- The fresh machine after the fetch step has pushed the values `a` and `b`. -/
def operandsVM (size : Nat) (a b : Int) : VM :=
  { MemRegisters := List.replicate 9 0, FlagRegister := false,
    memStack := { sp := 2, bp := 0, stack := ((List.replicate size 0).set 0 a).set 1 b, ip := 0 },
    printed := [] }

/-- Measure that decreases along the iterations of the loop of `Lex`. -/
def lexMeasure (data : Bytes) (lexer : Lexer) : Nat :=
  if lexer.Index ≥ data.length then 0
  else 2 * (data.length - lexer.Index) + (if lexer.Current_State = State.DUMP then 0 else 1)

/-- A buffer of `n` words holding the words `emitted` followed by zeros. -/
def padded (n : Nat) (emitted : List Nat) : List Nat :=
  emitted ++ List.replicate (n - emitted.length) 0

/-- The lexer after `DumpCommand` has flushed `count` words. -/
def flushed (lexer : Lexer) (count : Nat) : Lexer :=
  { lexer with LexemesIndex := lexer.LexemesIndex + count, ParametersIndex := 0, NumParams := 0,
               CurrentInstruction := 0 }

/-- The words that `DumpCommand` writes for the pending command. -/
def pendingWords (lexer : Lexer) : List Nat :=
  match lexer.Parameters with
  | none => []
  | some params => params ++ [lexer.CurrentInstruction]

/-- The emitted words after the backpatch loop has overwritten the slots `val` with `w`. -/
def patch (emitted : List Nat) (val : List Nat) (w : Nat) : List Nat :=
  val.foldl (fun acc i => acc.set i w) emitted

/-- The condition under which `GetCommand` hands `BuiltString` to
`HandleLabelParameter`: the token is the label operand of a pending JMP or JMPF. -/
def isLabelReference (lexer : Lexer) : Prop :=
  lexer.BuiltString.getLast? ≠ some 58 ∧ Atoi lexer.BuiltString = none ∧
  IsNumeric lexer.BuiltString = false ∧ matchRegister lexer.BuiltString = false ∧
  (lexer.CurrentInstruction = 0x40000011 ∨ lexer.CurrentInstruction = 0x40000012) ∧
  lexer.NumParams = 0

/-- The fields of the lexer that the scanning states (`START`, `COMMENT`,
`BUILDCOMM`) and the advance step never write: the pending command, the
emission index and the two label maps. -/
def lexCore (lexer : Lexer) :
    Option (List Nat) × Nat × Nat × Nat × Int × List (Bytes × Nat) × List (Bytes × List Nat) :=
  (lexer.Parameters, lexer.ParametersIndex, lexer.CurrentInstruction, lexer.LexemesIndex,
    lexer.NumParams, lexer.LabelToIndex, lexer.LabelToInstructions)

/-- The calls of `GetCommand` made by the loop of `Lex` within `fuel` iterations,
in order: each entry is the lexer (with the token in `BuiltString`) and the
buffer that one call receives. -/
def lexTrace (data : Bytes) (fuel : Nat) (lexer : Lexer) (lexemes : List Nat) :
    List (Lexer × List Nat) :=
  match fuel with
  | 0 => []
  | fuel1 + 1 =>
    let call :=
      if lexer.Index < data.length ∧ lexer.Current_State = State.DUMP then [(lexer, lexemes)]
      else []
    match lexStep data lexer lexemes with
    | Except.ok (LoopStep.next lexer1 lexemes1) => call ++ lexTrace data fuel1 lexer1 lexemes1
    | _ => call

/-- Slot `s` lies among the emitted words, or is the operand slot of the pending
command, which has received its one operand. -/
def slotPending (e : List Nat) (lexer : Lexer) (s : Nat) : Prop :=
  s < e.length ∨ (s = e.length ∧ lexer.NumParams = 1 ∧ ∃ p, lexer.Parameters = some [p])

/-- Slot `s` holds the word `w`: among the emitted words, or as the operand of
the pending command that the next flush writes there. -/
def slotHolds (e : List Nat) (lexer : Lexer) (s w : Nat) : Prop :=
  (s < e.length ∧ e[s]? = some w) ∨ (s = e.length ∧ lexer.Parameters = some [w])

/-- State of the label reference made by the call `c`: its slot is accounted for,
and either its label is declared and the slot holds the label's index, or the label
is not declared yet and the slot waits in the backpatch list of that label. -/
def refSettled (e : List Nat) (lexer : Lexer) (c : Lexer × List Nat) : Prop :=
  slotPending e lexer c.1.LexemesIndex ∧
  ((∃ v, mapGet lexer.LabelToIndex c.1.BuiltString = some v ∧
      slotHolds e lexer c.1.LexemesIndex (v % 4294967296)) ∨
   (mapGet lexer.LabelToIndex c.1.BuiltString = none ∧
      ∃ val, mapGet lexer.LabelToInstructions c.1.BuiltString = some val ∧
        c.1.LexemesIndex ∈ val))

/-- Invariant of the loop of `Lex` that relates the calls `H` of `GetCommand`
made so far, the lexer and the emitted words `e`. -/
structure LabelInvAt (n : Nat) (H : List (Lexer × List Nat)) (lexer : Lexer) (e : List Nat) :
    Prop where
  index : e.length = lexer.LexemesIndex
  fits : e.length ≤ n
  counts : lexer.ParametersIndex = lexer.NumParams
  jump : (lexer.CurrentInstruction = 0x40000011 ∨ lexer.CurrentInstruction = 0x40000012) →
    ∃ p, lexer.Parameters = some [p]
  refs : ∀ c ∈ H, isLabelReference c.1 → refSettled e lexer c
  origin : ∀ name val, mapGet lexer.LabelToInstructions name = some val → ∀ s ∈ val,
    ∃ c ∈ H, isLabelReference c.1 ∧ c.1.BuiltString = name ∧ c.1.LexemesIndex = s
  unique : ∀ c ∈ H, ∀ c1 ∈ H, isLabelReference c.1 → isLabelReference c1.1 →
    c.1.LexemesIndex = c1.1.LexemesIndex → c.1.BuiltString = c1.1.BuiltString
  declared : ∀ name v, mapGet lexer.LabelToIndex name = some v → v ≤ e.length ∧
    ∃ d ∈ H, d.1.BuiltString = name ++ [58] ∧
      ∃ lx1 buf1, DumpCommand d.1 d.2 = Except.ok (lx1, buf1) ∧ lx1.LexemesIndex = v
  arity : ∀ params, lexer.Parameters = some params → params.length ≤ 2

/-- The invariant on the lexer and the output buffer of `n` words. -/
def LabelInv (n : Nat) (H : List (Lexer × List Nat)) (lexer : Lexer) (lexemes : List Nat) :
    Prop :=
  ∃ e, lexemes = padded n e ∧ LabelInvAt n H lexer e

/-- The lexer with which `Lex` enters its loop when it is called on the fresh
lexer: both maps made, `LexemesIndex = 0`, `Line` incremented. -/
def startLexer : Lexer :=
  { freshLexer with LabelToIndex := [], LabelToInstructions := [], LexemesIndex := 0,
                    Line := freshLexer.Line + 1 }

/-- The calls of `GetCommand` made while assembling `source`. -/
def assembleTrace (source : Bytes) : List (Lexer × List Nat) :=
  lexTrace (source ++ [10]) (2 * (source ++ [10]).length + 3) startLexer
    (List.replicate (source ++ [10]).length 0)

/-- Every byte of `s` is whitespace. -/
def allWhitespace (s : Bytes) : Prop := ∀ c ∈ s, IsWhitespace c = true

/-- A token that the scanner reads as one piece and hands over unchanged: not
empty, not starting with `/`, made of ASCII bytes other than whitespace and `:`. -/
def cleanToken (tok : Bytes) : Prop :=
  tok ≠ [] ∧ tok.head? ≠ some 47 ∧ ∀ c ∈ tok, IsWhitespace c = false ∧ c ≠ 58 ∧ c < 128

/-- The loop of `Lex` gets from the first state to the second in `steps`
iterations. -/
def Reaches (data : Bytes) (steps : Nat) (lexer : Lexer) (lexemes : List Nat)
    (lexer1 : Lexer) (lexemes1 : List Nat) : Prop :=
  ∀ fuel, lexLoop data (fuel + steps) lexer lexemes = lexLoop data fuel lexer1 lexemes1

/-- The text of a sequence of tokens, each followed by its separator. -/
def renderLayout : List (Bytes × Bytes) → Bytes
  | [] => []
  | p :: rest => p.1 ++ p.2 ++ renderLayout rest

/-- The opcode table of the specification: mnemonic, opcode value and arity. -/
def opcodeTable : List (Bytes × (Nat × Nat)) :=
  [(ascii "HALT", (0, 0)), (ascii "PEEK", (1, 0)), (ascii "ADD", (2, 2)), (ascii "SUB", (3, 2)),
   (ascii "MUL", (4, 2)), (ascii "DIV", (5, 2)), (ascii "AND", (6, 2)), (ascii "OR", (7, 2)),
   (ascii "PUSH", (8, 1)), (ascii "POP", (9, 1)), (ascii "MOV", (10, 2)), (ascii "EQ", (11, 2)),
   (ascii "NEQ", (12, 2)), (ascii "GT", (13, 2)), (ascii "LT", (14, 2)), (ascii "GTE", (15, 2)),
   (ascii "LTE", (16, 2)), (ascii "JMP", (17, 1)), (ascii "JMPF", (18, 1))]

/-- Value of a run of decimal digits. -/
def digitsValue (s : Bytes) : Nat := s.foldl (fun acc c => acc * 10 + (c - 48)) 0

/-- A non-empty run of decimal digits. -/
def isDigits (s : Bytes) : Bool := !s.isEmpty && s.all (fun c => decide (48 ≤ c ∧ c ≤ 57))

/-- Integer literal of the lexical grammar, an optional `-` and then decimal
digits, with its value (of any size); `none` for any other token. -/
def decimalValue (tok : Bytes) : Option Int :=
  if tok.head? = some 45 then
    (if isDigits tok.tail then some (-(digitsValue tok.tail : Int)) else none)
  else if isDigits tok then some (digitsValue tok : Int)
  else none

/-- Register token of the lexical grammar that the assembler accepts: `R1` to `R9`. -/
def registerToken (tok : Bytes) : Bool :=
  match tok with
  | [r, d] => r = 82 && (49 ≤ d && d ≤ 57)
  | _ => false

/-- The operand kinds that the specification allows for the opcode `value` at
operand position `index`: an integer literal within the bounds, except for `POP`
(9) and for the first operand of `MOV` (10), or a register `R1` to `R9`; the jumps
(17, 18) take neither. -/
def legalOperand (value index : Nat) (tok : Bytes) : Bool :=
  decide (value ≠ 17 ∧ value ≠ 18) &&
  match decimalValue tok with
  | some n => decide (-1073741823 ≤ n ∧ n ≤ 1073741823 ∧ value ≠ 9 ∧ ¬ (value = 10 ∧ index = 0))
  | none => registerToken tok

/-- The word that `GetCommand` stores for an operand token: `encodeInt` of an
integer literal, `encodeRegister` of the digit of a register. -/
def operandWord (tok : Bytes) : Nat :=
  match decimalValue tok with
  | some n => encodeInt n
  | none => encodeRegister (tok.getD 1 0)

/-- One instruction of a source text: the mnemonic and the operand tokens, each
with the whitespace that follows it. -/
structure SourceInstr where
  name : Bytes
  nameSep : Bytes
  operands : List (Bytes × Bytes)

/-- The tokens of an instruction, each with its separator. -/
def SourceInstr.tokens (ins : SourceInstr) : List (Bytes × Bytes) :=
  (ins.name, ins.nameSep) :: ins.operands

/-- The text of a sequence of instructions. -/
def renderProgram : List SourceInstr → Bytes
  | [] => []
  | ins :: rest => renderLayout ins.tokens ++ renderProgram rest

/-- Opcode value of a mnemonic in the opcode table (`0` outside the table). -/
def opcodeValue (name : Bytes) : Nat :=
  match mapGet opcodeTable name with
  | some r => r.1
  | none => 0

/-- The words of one instruction: the operand words in source order, then the
opcode word `0x40000000 | value`. -/
def instrWords (ins : SourceInstr) : List Nat :=
  ins.operands.map (fun p => operandWord p.1) ++ [0x40000000 ||| opcodeValue ins.name]

/-- The words of a sequence of instructions, in source order. -/
def programWords : List SourceInstr → List Nat
  | [] => []
  | ins :: rest => instrWords ins ++ programWords rest

/-- A well-formed instruction: a mnemonic of the opcode table followed by exactly
its arity of legal operands, every token followed by at least one whitespace byte. -/
def wellFormedInstr (ins : SourceInstr) : Prop :=
  ∃ value arity, mapGet opcodeTable ins.name = some (value, arity) ∧
    ins.operands.length = arity ∧
    (∀ q ∈ ins.operands.enum, legalOperand value q.1 q.2.1 = true) ∧
    (∀ p ∈ ins.tokens, p.2 ≠ [] ∧ allWhitespace p.2)

/-- Assembler state between two instructions: the buffer of `n` words holds the
words flushed so far, and these together with the pending command (complete, and
not a jump) are the words `e`; no label is waiting. -/
def AtBoundary (n : Nat) (e : List Nat) (lexer : Lexer) (lexemes : List Nat) : Prop :=
  lexer.LabelToInstructions = [] ∧ lexer.CurrentInstruction ≠ 0x40000011 ∧
  lexer.CurrentInstruction ≠ 0x40000012 ∧
  ∃ e0, lexemes = padded n e0 ∧ lexer.LexemesIndex = e0.length ∧
    e = e0 ++ pendingWords lexer ∧
    ∀ params, lexer.Parameters = some params → params.length = lexer.NumParams

/-- Assembler state inside an instruction: the buffer of `n` words holds the words
`e`, the command `w` of arity `arity` is pending and has received the operand
words `ops`. -/
def Staged (n : Nat) (e : List Nat) (w arity : Nat) (ops : List Nat) (lexer : Lexer)
    (lexemes : List Nat) : Prop :=
  lexemes = padded n e ∧ lexer.LexemesIndex = e.length ∧
  lexer.Parameters = some (padded arity ops) ∧ lexer.ParametersIndex = ops.length ∧
  lexer.NumParams = ops.length ∧ lexer.CurrentInstruction = w ∧
  lexer.LabelToInstructions = [] ∧ ops.length ≤ arity

/-- Assembler state after `i` tokens of an instruction with operand words `ops`. -/
def InstrStage (n : Nat) (e : List Nat) (w arity : Nat) (ops : List Nat) (i : Nat)
    (lexer : Lexer) (lexemes : List Nat) : Prop :=
  (i = 0 ∧ AtBoundary n e lexer lexemes) ∨
  (∃ j, i = j + 1 ∧ Staged n e w arity (ops.take j) lexer lexemes)

/-- The token `tok` is accepted as an integer operand and emitted as `word`:
`GetCommand` stores `word` as the next operand of any pending command that has a
free operand slot and admits an integer there (and increments the `int8` counter
`NumParams`, which wraps), and the source `PUSH tok` assembles to `word`, the
opcode word of `PUSH` and the terminator. -/
def emitsOperand (tok : Bytes) (word : Nat) : Prop :=
  (∀ (lexer : Lexer) (lexemes params : List Nat), lexer.BuiltString = tok →
    lexer.Parameters = some params → lexer.ParametersIndex < params.length →
    ValidateNumParameter lexer.CurrentInstruction lexer.ParametersIndex = true →
    GetCommand lexer lexemes = Except.ok
      ({ lexer with Parameters := some (params.set lexer.ParametersIndex word),
                    ParametersIndex := lexer.ParametersIndex + 1,
                    NumParams := wrapInt8 (lexer.NumParams + 1) }, lexemes)) ∧
  operandWord tok = word ∧
  assemble (ascii "PUSH " ++ tok) =
    some (Except.ok (padded (tok.length + 6) [word, 0x40000008, 0x40000000]))

/-- The token `tok` makes assembly fail with the integer-bound diagnostic:
`GetCommand` fails on it whatever the pending command, and so does the assembly
of `PUSH tok`. -/
def rejectsOperand (tok : Bytes) : Prop :=
  (∀ (lexer : Lexer) (lexemes : List Nat), lexer.BuiltString = tok →
    GetCommand lexer lexemes = Except.error LexError.maxAbsInt) ∧
  assemble (ascii "PUSH " ++ tok) = some (Except.error LexError.maxAbsInt)

/-- The machine that has run `ADD 2 3 PEEK HALT` up to the exit made by HALT. -/
def haltedVM (size : Nat) : VM :=
  { MemRegisters := List.replicate 9 0, FlagRegister := false,
    memStack := { sp := 1, bp := 0,
                  stack := (((List.replicate size 0).set 0 2).set 1 3).set 0 5, ip := 2 },
    printed := [Printed.peek 1 5, Printed.halt 2] }

/-- The inner loop of `WriteBinaryFile`, `for i := 3; i >= 0; i--`, on the buffer
`buff`: `buff[3-i] = byte((inst >> (8 * i)) & 0xFF)`. The argument `k` counts the
iterations left, so `i = k - 1`. -/
def fillBuff (inst : Nat) (k : Nat) (buff : List Nat) : List Nat :=
  match k with
  | 0 => buff
  | i + 1 => fillBuff inst i (buff.set (3 - i) (((inst >>> (8 * i)) &&& 0xFF) % 256))

/-- The loop `for _, inst := range instructions` of `WriteBinaryFile`: the bytes
written to the file, every `file.Write` writing its four bytes. -/
def WriteBinaryFile (instructions : List Nat) : List Nat :=
  instructions.foldl (fun file inst => file ++ fillBuff inst 4 (List.replicate 4 0)) []

/-- The library function `binary.BigEndian.Uint32` on a slice of four bytes. -/
def bigEndianUint32 (b0 b1 b2 b3 : Nat) : Nat :=
  (b3 ||| (b2 <<< 8) ||| (b1 <<< 16) ||| (b0 <<< 24)) % 4294967296

/-- The loop of `ReadBinaryFile` over the bytes from index `i` on (the argument
is `bytes[i:]`): `bytes[i:i+4]` panics when fewer than four bytes are left, the
store into `instructionList` panics outside the list. -/
def readWords (rest : List Nat) (nextInstruction : Nat) (instructionList : List Nat) :
    Except VMStop (List Nat) :=
  match rest with
  | [] => Except.ok instructionList
  | b0 :: b1 :: b2 :: b3 :: rest1 =>
    if nextInstruction < instructionList.length then
      readWords rest1 (nextInstruction + 1)
        (instructionList.set nextInstruction (bigEndianUint32 b0 b1 b2 b3))
    else Except.error VMStop.indexOutOfRange
  | _ => Except.error VMStop.indexOutOfRange

/-- The function `ReadBinaryFile` on the bytes of the file. -/
def ReadBinaryFile (bytes : List Nat) : Except VMStop (List Nat) :=
  readWords bytes 0 (List.replicate (bytes.length / 4) 0)

/-- The register token `tok` is accepted as an operand and emitted as `word`:
`GetCommand` stores `word` as the next operand of any pending command other than
a jump that has a free operand slot (and increments the `int8` counter
`NumParams`, which wraps), `word` is the operand word of `tok` in the
well-formed programs, and the source `PUSH tok` assembles to `word`, the opcode
word of `PUSH` and the terminator. -/
def emitsRegister (tok : Bytes) (word : Nat) : Prop :=
  (∀ (lexer : Lexer) (lexemes params : List Nat), lexer.BuiltString = tok →
    lexer.Parameters = some params → lexer.ParametersIndex < params.length →
    lexer.CurrentInstruction ≠ 0x40000011 → lexer.CurrentInstruction ≠ 0x40000012 →
    GetCommand lexer lexemes = Except.ok
      ({ lexer with Parameters := some (params.set lexer.ParametersIndex word),
                    ParametersIndex := lexer.ParametersIndex + 1,
                    NumParams := wrapInt8 (lexer.NumParams + 1) }, lexemes)) ∧
  operandWord tok = word ∧
  assemble (ascii "PUSH " ++ tok) =
    some (Except.ok (padded (tok.length + 6) [word, 0x40000008, 0x40000000]))

/-- The tag of a word: its two most significant bits, the `dataType` of
`VMExecute` and the test of `CheckIfRegister`. -/
def wordTag (w : Nat) : Nat := (w &&& 0xC0000000) >>> 30

/-- The emitted words `e` respect the register-required positions: the word
before a POP opcode word and the word two places before a MOV opcode word carry
the register tag, and the word right before a MOV opcode word is not an opcode
word. -/
def RegisterPositions (e : List Nat) : Prop :=
  (∀ i, e[i]? = some 0x40000009 → 1 ≤ i ∧ ∃ p, e[i - 1]? = some p ∧ wordTag p = 3) ∧
  (∀ i, e[i]? = some 0x4000000A → 2 ≤ i ∧ (∃ p, e[i - 2]? = some p ∧ wordTag p = 3) ∧
    ∃ q, e[i - 1]? = some q ∧ wordTag q ≠ 1)

/-- Slot `s` of the emitted words is the operand slot of a jump: the word is not
an opcode word and the next word is the opcode word of JMP or JMPF. -/
def jumpSlot (e : List Nat) (s : Nat) : Prop :=
  ∃ q j, e[s]? = some q ∧ wordTag q ≠ 1 ∧ e[s + 1]? = some j ∧
    (j = 0x40000011 ∨ j = 0x40000012)

/-- The state of the assembler right after a flush, as far as the
register-required positions are concerned. -/
structure FlushedInv (n : Nat) (lexer : Lexer) (e : List Nat) : Prop where
  index : e.length = lexer.LexemesIndex
  fits : e.length ≤ n
  positions : RegisterPositions e
  slots : ∀ name val, mapGet lexer.LabelToInstructions name = some val → ∀ s ∈ val, jumpSlot e s
  labels : ∀ name v, mapGet lexer.LabelToIndex name = some v → v ≤ n

/-- Invariant of the loop of `Lex` for the register-required positions: the
emitted words respect them, the waiting slots are operand slots of jumps, and the
pending command has a register in its first operand when it is POP or MOV. -/
structure OperandInvAt (n : Nat) (lexer : Lexer) (e : List Nat) : Prop where
  index : e.length = lexer.LexemesIndex
  fits : e.length ≤ n
  positions : RegisterPositions e
  slots : ∀ name val, mapGet lexer.LabelToInstructions name = some val → ∀ s ∈ val,
    jumpSlot e s ∨ (s = e.length ∧ lexer.NumParams = 1 ∧
      (lexer.CurrentInstruction = 0x40000011 ∨ lexer.CurrentInstruction = 0x40000012))
  labels : ∀ name v, mapGet lexer.LabelToIndex name = some v → v ≤ n
  counts : lexer.ParametersIndex = lexer.NumParams
  idle : lexer.Parameters = none → lexer.NumParams = 0
  pending : ∀ params, lexer.Parameters = some params →
    lexer.NumParams ≤ params.length ∧ (∀ p ∈ params, wordTag p ≠ 1) ∧
    wordTag lexer.CurrentInstruction = 1 ∧
    (lexer.CurrentInstruction = 0x40000009 → params.length = 1 ∧
      (1 ≤ lexer.NumParams → ∃ p, params[0]? = some p ∧ wordTag p = 3)) ∧
    (lexer.CurrentInstruction = 0x4000000A → params.length = 2 ∧
      (1 ≤ lexer.NumParams → ∃ p, params[0]? = some p ∧ wordTag p = 3)) ∧
    ((lexer.CurrentInstruction = 0x40000011 ∨ lexer.CurrentInstruction = 0x40000012) →
      params.length = 1)
  arity : ∀ params, lexer.Parameters = some params → params.length ≤ 2

/-- The invariant on the lexer and the output buffer of `n` words. -/
def OperandInv (n : Nat) (lexer : Lexer) (lexemes : List Nat) : Prop :=
  ∃ e, lexemes = padded n e ∧ OperandInvAt n lexer e

/-- The lexer with the fields that only the scanning states use replaced. -/
def reframe (s : State) (b i l : Nat) (lexer : Lexer) : Lexer :=
  { lexer with Current_State := s, BeginningChar := b, Index := i, Line := l }

/-- The result of a method of the lexer with the scanning fields replaced. -/
def reframeResult (s : State) (b i l : Nat) (r : Except LexError (Lexer × List Nat)) :
    Except LexError (Lexer × List Nat) :=
  match r with
  | Except.error e => Except.error e
  | Except.ok (lexer, lexemes) => Except.ok (reframe s b i l lexer, lexemes)

/-- Lexical modes of the scanner of `Lex`: between tokens (`START`), inside a
token of which `tok` has been read (`BUILDCOMM`), inside a line comment and
inside a block comment (`COMMENT`, told apart by `BeginningChar`). -/
inductive Mode where
  | code
  | token (tok : Bytes)
  | line
  | block
deriving DecidableEq, Repr

/-- The scanning states of `Lex` as a function of the text left to read: the
tokens handed to `GetCommand`, in order, and how the scan ends: `some mode` when
the end of the text is reached in `mode`, `none` when an index or slice
expression runs past the end of the text (a `/` as last byte in `START`, a last
byte inside a block comment). -/
def scan : Mode → Bytes → List Bytes × Option Mode
  | mode, [] => ([], some mode)
  | Mode.code, c :: rest =>
    if IsWhitespace c then scan Mode.code rest
    else if c = 47 then
      match rest with
      | [] => ([], none)
      | c1 :: rest1 =>
        if c1 = 47 then scan Mode.line rest1
        else if c1 = 42 then scan Mode.block rest1
        else scan (Mode.token (byteToString c)) (c1 :: rest1)
    else scan (Mode.token (byteToString c)) rest
  | Mode.token tok, c :: rest =>
    if IsWhitespace c then (tok :: (scan Mode.code rest).1, (scan Mode.code rest).2)
    else if c = 58 then ((tok ++ [58]) :: (scan Mode.code rest).1, (scan Mode.code rest).2)
    else
      match rest with
      | [] => ([tok ++ byteToString c], some Mode.code)
      | c1 :: rest1 => scan (Mode.token (tok ++ byteToString c)) (c1 :: rest1)
  | Mode.line, c :: rest => if c = 10 then scan Mode.code rest else scan Mode.line rest
  | Mode.block, [_] => ([], none)
  | Mode.block, c :: c1 :: rest =>
    if c = 42 ∧ c1 = 47 then scan Mode.code rest
    else if c = 13 ∧ c1 = 10 then scan Mode.block rest
    else scan Mode.block (c1 :: rest)

/-- The calls of `GetCommand` on the tokens `toks`, in order, followed by the
`END` case of `Lex` when the scan reached the end of the text. -/
def runTokens (toks : List Bytes) (fin : Option Mode) (lexer : Lexer) (lexemes : List Nat) :
    Except LexError (List Nat) :=
  match toks with
  | [] =>
    match fin with
    | none => Except.error LexError.indexOutOfRange
    | some _ => lexEnd lexer lexemes
  | tok :: rest =>
    match GetCommand { lexer with BuiltString := tok } lexemes with
    | Except.error e => Except.error e
    | Except.ok (lexer1, lexemes1) => runTokens rest fin lexer1 lexemes1

/-- The mode of the scanner in a state of the lexer other than `DUMP`. -/
def modeOf (lexer : Lexer) : Mode :=
  match lexer.Current_State with
  | State.BUILDCOMM => Mode.token lexer.BuiltString
  | State.COMMENT => if lexer.BeginningChar = 42 then Mode.block else Mode.line
  | _ => Mode.code

/-- The tokens of the text `text`, scanned from mode `m`, processed by `GetCommand`
from the lexer and buffer given, and then the `END` case. -/
def runScan (m : Mode) (text : Bytes) (lexer : Lexer) (lexemes : List Nat) :
    Except LexError (List Nat) :=
  runTokens (scan m text).1 (scan m text).2 lexer lexemes

/-- One byte of a token may have been read before the text scanned. -/
def modeSlack : Mode → Nat
  | Mode.token _ => 1
  | _ => 0

/-- A result over the emitted words, as a result over the buffer of `n` words. -/
def repad (n : Nat) (r : Except LexError (Lexer × List Nat)) :
    Except LexError (Lexer × List Nat) :=
  match r with
  | Except.error e => Except.error e
  | Except.ok (lexer, emitted) => Except.ok (lexer, padded n emitted)

/-- The number of words emitted once the pending command is flushed. -/
def weight (lexer : Lexer) (e : List Nat) : Nat :=
  e.length +
    (match lexer.Parameters with
     | none => 0
     | some _ => (lexer.NumParams + 1).toNat)

/-- Invariant of the emitted words `e` and the lexer under which no write of the
assembler leaves a buffer that has room for the pending command: the emission
index is the number of emitted words, the slots that wait for a label are
emitted words or words of the pending command, and the counter `NumParams` is in
the range of `int8`. -/
structure RoomInv (lexer : Lexer) (e : List Nat) : Prop where
  index : lexer.LexemesIndex = e.length
  slots : ∀ name val, mapGet lexer.LabelToInstructions name = some val → ∀ s ∈ val,
    s < e.length + (pendingWords lexer).length
  range : -128 ≤ lexer.NumParams ∧ lexer.NumParams ≤ 127

/-- A final result over the emitted words, as a result over the buffer of `n` words. -/
def repadOut (n : Nat) (r : Except LexError (List Nat)) : Except LexError (List Nat) :=
  match r with
  | Except.error e => Except.error e
  | Except.ok emitted => Except.ok (padded n emitted)

/-- The mode in which the scanner is after reading `text` from the start of a
source (`none` when the scan runs past the end of the text). -/
def endMode (text : Bytes) : Option Mode := (scan Mode.code text).2

/-- Two sources assemble alike: `Lex` succeeds on one exactly when it succeeds on
the other, and when it does the two buffers hold the same program words up to and
including the terminating HALT, followed by zero words only. -/
def sameAssembly (s1 s2 : Bytes) : Prop :=
  ((∃ out, assemble s1 = some (Except.ok out)) ↔ (∃ out, assemble s2 = some (Except.ok out))) ∧
  ∀ out1 out2, assemble s1 = some (Except.ok out1) → assemble s2 = some (Except.ok out2) →
    ∃ prog, out1 = prog ++ [0x40000000] ++ List.replicate (s1.length - prog.length) 0 ∧
      out2 = prog ++ [0x40000000] ++ List.replicate (s2.length - prog.length) 0

/-- The words of a sequence of instructions, each given by its operand words and
its opcode word: for every instruction the operand words, then the opcode word. -/
def programOf : List (List Nat × Nat) → List Nat
  | [] => []
  | b :: rest => b.1 ++ [b.2] ++ programOf rest

/-- The opcode words of JMP and JMPF. -/
def isJump (op : Nat) : Prop := op = 0x40000011 ∨ op = 0x40000012

/-- An instruction as the assembler may emit it: the opcode word is that of a
mnemonic, the number of operand words is the arity of the mnemonic, and the first
operand word of POP and of MOV carries the register tag. -/
def wellFormedBlock (b : List Nat × Nat) : Prop :=
  (∃ s, mnemonic s = some (b.2, b.1.length)) ∧
  ((b.2 = 0x40000009 ∨ b.2 = 0x4000000A) → ∃ p, b.1[0]? = some p ∧ CheckIfRegister p = true)

/-- Word index `s` is the operand slot of a jump among the instructions `blocks`. -/
def jumpBlockAt (blocks : List (List Nat × Nat)) (s : Nat) : Prop :=
  ∃ k, k < blocks.length ∧ s = (programOf (blocks.take k)).length ∧
    ∃ b, blocks[k]? = some b ∧ isJump b.2

/-- The state of the assembler right after a flush, as far as the sequence of
emitted instructions is concerned. -/
structure FlushedBlocks (lexer : Lexer) (blocks : List (List Nat × Nat)) : Prop where
  index : (programOf blocks).length = lexer.LexemesIndex
  wf : ∀ b ∈ blocks, wellFormedBlock b
  slots : ∀ name val, mapGet lexer.LabelToInstructions name = some val → ∀ s ∈ val,
    jumpBlockAt blocks s

/-- Invariant of the loop of `Lex`: the emitted words are a sequence of
well-formed instructions, the slots that wait for a label are operand slots of
jumps, emitted or pending, and the pending command has the arity of its mnemonic
and, when it is POP or MOV, a register as first operand. -/
structure BlockInvAt (lexer : Lexer) (blocks : List (List Nat × Nat)) : Prop where
  index : (programOf blocks).length = lexer.LexemesIndex
  wf : ∀ b ∈ blocks, wellFormedBlock b
  counts : lexer.ParametersIndex = lexer.NumParams
  idle : lexer.Parameters = none → lexer.NumParams = 0
  slots : ∀ name val, mapGet lexer.LabelToInstructions name = some val → ∀ s ∈ val,
    jumpBlockAt blocks s ∨
      (s = (programOf blocks).length ∧ lexer.NumParams = 1 ∧ isJump lexer.CurrentInstruction)
  pending : ∀ params, lexer.Parameters = some params →
    lexer.NumParams ≤ params.length ∧
    (∃ s, mnemonic s = some (lexer.CurrentInstruction, params.length)) ∧
    ((lexer.CurrentInstruction = 0x40000009 ∨ lexer.CurrentInstruction = 0x4000000A) →
      1 ≤ lexer.NumParams → ∃ p, params[0]? = some p ∧ CheckIfRegister p = true)

/-- The invariant on the lexer and the output buffer of `n` words. -/
def BlockInv (n : Nat) (lexer : Lexer) (lexemes : List Nat) : Prop :=
  ∃ blocks, lexemes = padded n (programOf blocks) ∧ (programOf blocks).length ≤ n ∧
    BlockInvAt lexer blocks

/-- Bytes of a token read before the index at which a state of the loop stands:
one in `BUILDCOMM` and in `DUMP`, where a token of at least one byte has been
read and not yet counted, none elsewhere. -/
def slack (s : State) : Nat :=
  match s with
  | State.BUILDCOMM => 1
  | State.DUMP => 1
  | _ => 0

/-- The states in which the loop of `Lex` starts its iterations, within `fuel`
iterations, in order: the lexer and the buffer at the head of the loop. -/
def lexStates (data : Bytes) (fuel : Nat) (lexer : Lexer) (lexemes : List Nat) :
    List (Lexer × List Nat) :=
  match fuel with
  | 0 => []
  | fuel1 + 1 =>
    (lexer, lexemes) ::
      (match lexStep data lexer lexemes with
       | Except.ok (LoopStep.next lexer1 lexemes1) => lexStates data fuel1 lexer1 lexemes1
       | _ => [])

/-- The states at the head of the loop while `source` is assembled. -/
def assembleStates (source : Bytes) : List (Lexer × List Nat) :=
  lexStates (source ++ [10]) (2 * (source ++ [10]).length + 3) startLexer
    (List.replicate (source ++ [10]).length 0)

/-- Invariant of the loop of `Lex` for the room in the buffer of `n` words: the
words emitted and pending take at most half of the bytes read so far. -/
def SafeInv (n : Nat) (lexer : Lexer) (lexemes : List Nat) : Prop :=
  ∃ e, lexemes = padded n e ∧ RoomInv lexer e ∧
    2 * weight lexer e + slack lexer.Current_State ≤ lexer.Index ∧ lexer.Index ≤ n

/-- The state at the head of the iteration in which the loop of `Lex`, on the
source `JMP ab ab:`, hands the token `ab:` to `GetCommand`. -/
def labelDumpState : Lexer × List Nat :=
  (assembleStates (ascii "JMP ab ab:")).getD 12 (startLexer, [])

/-- Invariant of the loop of `Lex`: while a token is built (`BUILDCOMM`) and when
it is handed to `GetCommand` (`DUMP`), the token has at least one byte. -/
def TokenInv (lexer : Lexer) : Prop :=
  (lexer.Current_State = State.BUILDCOMM ∨ lexer.Current_State = State.DUMP) →
    lexer.BuiltString ≠ []

/-! ## Theorems -/

/-! ### The counter of operands -/

theorem wrapInt8_small (x : Int) (h0 : -128 ≤ x) (h1 : x ≤ 127) : wrapInt8 x = x := by
  unfold wrapInt8
  omega

/-- The counter `NumParams` follows `ParametersIndex` while the index stays
below a length of at most 127 (the length of `Parameters` is the arity of a
mnemonic, at most 2). -/
theorem wrapInt8_succ (i k : Nat) (x : Int) (hx : (i : Int) = x) (hlt : i < k) (hk : k ≤ 127) :
    ((i + 1 : Nat) : Int) = wrapInt8 (x + 1) := by
  rw [wrapInt8_small _ (by omega) (by omega)]
  omega

theorem wrapInt8_range (x : Int) : -128 ≤ wrapInt8 x ∧ wrapInt8 x ≤ 127 := by
  unfold wrapInt8
  omega

theorem wrapInt8_le (x : Int) (h0 : -128 ≤ x) (h1 : x ≤ 127) : wrapInt8 (x + 1) ≤ x + 1 := by
  unfold wrapInt8
  omega

/-! ### Bit-level facts -/

theorem and_two_pow_eq (x k : Nat) : x &&& 2 ^ k = 2 ^ k * (x / 2 ^ k % 2) := by
  apply Nat.eq_of_testBit_eq
  intro i
  rw [Nat.testBit_and, Nat.testBit_two_pow]
  rcases Nat.mod_two_eq_zero_or_one (x / 2 ^ k) with h | h
  · rw [h]
    by_cases hi : k = i
    · subst hi
      simp [Nat.testBit_to_div_mod, h]
    · simp [hi]
  · rw [h, Nat.mul_one, Nat.testBit_two_pow]
    by_cases hi : k = i
    · subst hi
      simp [Nat.testBit_to_div_mod, h]
    · simp [hi]

theorem and_bit31 (x : Nat) : x &&& 2147483648 = 2147483648 * (x / 2147483648 % 2) := by
  have h := and_two_pow_eq x 31
  norm_num at h
  exact h

theorem and_bit30 (x : Nat) : x &&& 1073741824 = 1073741824 * (x / 1073741824 % 2) := by
  have h := and_two_pow_eq x 30
  norm_num at h
  exact h

theorem and_low30 (x : Nat) : x &&& 1073741823 = x % 1073741824 := by
  have h := Nat.and_pow_two_sub_one_eq_mod x 30
  norm_num at h
  exact h

theorem and_BFFFFFFF (x : Nat) :
    x &&& 3221225471 = 2147483648 * (x / 2147483648 % 2) + x % 1073741824 := by
  have hm : (3221225471 : Nat) = 2147483648 ||| 1073741823 := by decide
  rw [hm, Nat.and_or_distrib_left, and_bit31, and_low30]
  have h := Nat.mul_add_lt_is_or (i := 31) (b := x % 1073741824) (by norm_num; omega) (x / 2147483648 % 2)
  norm_num at h
  exact h.symm

theorem and_C0000000 (x : Nat) :
    x &&& 3221225472 = 1073741824 * (x / 1073741824 % 4) := by
  have hm : (3221225472 : Nat) = 2147483648 ||| 1073741824 := by decide
  rw [hm, Nat.and_or_distrib_left, and_bit31, and_bit30]
  have h := Nat.mul_add_lt_is_or (i := 31) (b := 1073741824 * (x / 1073741824 % 2)) (by norm_num; omega) (x / 2147483648 % 2)
  norm_num at h
  rw [← h]
  omega

theorem tagOf (x : Nat) : (x &&& 3221225472) >>> 30 = x / 1073741824 % 4 := by
  rw [and_C0000000, Nat.shiftRight_eq_div_pow]
  norm_num

theorem or_low30 (a d : Nat) (hd : d < 1073741824) :
    (1073741824 * a) ||| d = 1073741824 * a + d := by
  have h := Nat.mul_add_lt_is_or (i := 30) (b := d) (by norm_num; omega) a
  norm_num at h
  exact h.symm

theorem encodeInt_nonneg (n : Int) (h0 : 0 ≤ n) (h1 : n ≤ 1073741823) :
    encodeInt n = n.toNat := by
  unfold encodeInt
  have hx : (n % 18446744073709551616).toNat = n.toNat := by omega
  rw [hx]
  show (n.toNat &&& 3221225471) % 4294967296 = n.toNat
  rw [and_BFFFFFFF]
  omega

theorem encodeInt_neg (n : Int) (h0 : -1073741823 ≤ n) (h1 : n < 0) :
    encodeInt n = 2147483648 + (n + 1073741824).toNat := by
  unfold encodeInt
  show ((n % 18446744073709551616).toNat &&& 3221225471) % 4294967296 = _
  rw [and_BFFFFFFF]
  omega

theorem payload_eq (v : Int) : payload v = (v % 1073741824).toNat := by
  unfold payload toUint32
  show (v % 4294967296).toNat &&& 1073741823 = _
  rw [and_low30]
  omega

theorem fetchValue_encodeInt (n : Int) (h0 : -1073741823 ≤ n) (h1 : n ≤ 1073741823) :
    fetchValue (encodeInt n) = n := by
  unfold fetchValue
  simp only []
  show toInt32 ((((if ((encodeInt n &&& 3221225472) >>> 30) % 2 = 0 ∧ (encodeInt n &&& 3221225472) >>> 30 = 2 then 3 else (encodeInt n &&& 3221225472) >>> 30) <<< 30) % 4294967296) ||| (encodeInt n &&& 1073741823)) = n
  rw [tagOf, and_low30]
  by_cases hn : 0 ≤ n
  · rw [encodeInt_nonneg n hn h1]
    have ht : n.toNat / 1073741824 % 4 = 0 := by omega
    rw [ht]
    simp
    unfold toInt32 wrap32
    omega
  · rw [encodeInt_neg n h0 (by omega)]
    have ht : (2147483648 + (n + 1073741824).toNat) / 1073741824 % 4 = 2 := by omega
    rw [ht]
    simp
    have h3 : (3221225472 : Nat) = 1073741824 * 3 := by decide
    rw [h3, or_low30 3 _ (by omega)]
    unfold toInt32 wrap32
    omega

/-! ### Stack and register access -/

theorem push_ok (ms : MemStack) (v : Int) (h : ms.sp < ms.stack.length) :
    ms.push v = Except.ok { ms with stack := ms.stack.set ms.sp v, sp := (ms.sp + 1) % 4294967296 } := by
  unfold MemStack.push
  rw [if_pos h]

theorem pop_ok (ms : MemStack) (v : Int) (hbp : ms.bp < ms.sp) (hsp : ms.sp < 4294967296)
    (hv : ms.stack[ms.sp - 1]? = some v) :
    ms.pop = Except.ok (v, { ms with sp := ms.sp - 1 }) := by
  have h1 : ¬ ms.sp < ms.bp := by omega
  have h2 : (ms.sp + 4294967296 - 1) % 4294967296 = ms.sp - 1 := by omega
  unfold MemStack.pop
  rw [if_neg h1]
  simp only [h2, hv]

theorem popTwo_ok (vm : VM) (v1 v2 : Int) (hbp : vm.memStack.bp + 2 ≤ vm.memStack.sp)
    (hsp : vm.memStack.sp < 4294967296)
    (h1 : vm.memStack.stack[vm.memStack.sp - 2]? = some v1)
    (h2 : vm.memStack.stack[vm.memStack.sp - 1]? = some v2) :
    popTwo vm = Except.ok (v1, v2, { vm with memStack := { vm.memStack with sp := vm.memStack.sp - 2 } }) := by
  unfold popTwo
  rw [pop_ok vm.memStack v2 (by omega) hsp h2]
  have h3 : vm.memStack.sp - 1 - 1 = vm.memStack.sp - 2 := by omega
  simp only []
  rw [pop_ok _ v1 (by simp only []; omega) (by simp only []; omega) (by simp only [h3]; exact h1)]
  simp only [h3]

theorem pop_base_zero (ms : MemStack) (hsp : ms.sp = 0) (hbp : ms.bp = 0)
    (hlen : ms.stack.length ≤ 4294967295) :
    ms.pop = Except.error VMStop.indexOutOfRange := by
  have h2 : ms.stack[4294967295]? = none := List.getElem?_eq_none hlen
  unfold MemStack.pop
  rw [hsp, hbp, if_neg (by omega)]
  simp only [h2]

theorem pop_base_pos (ms : MemStack) (v : Int) (hsp : ms.sp = ms.bp) (hpos : 0 < ms.bp)
    (hlt : ms.sp < 4294967296) (hv : ms.stack[ms.bp - 1]? = some v) :
    ms.pop = Except.ok (v, { ms with sp := ms.bp - 1 }) := by
  have h1 : ¬ ms.sp < ms.bp := by omega
  have h2 : (ms.sp + 4294967296 - 1) % 4294967296 = ms.bp - 1 := by omega
  unfold MemStack.pop
  rw [if_neg h1]
  simp only [h2, hv]

/-! ### Virtual machine: operands, arithmetic, comparison, MOV, pop -/

theorem checkReg_registerWord (i : Nat) (hi : i ≤ 8) :
    CheckIfRegister (toUint32 (fetchValue (0xC0000000 ||| i))) = true := by
  interval_cases i <;> decide

theorem payload_registerWord (i : Nat) (hi : i ≤ 8) :
    payload (fetchValue (0xC0000000 ||| i)) = i := by
  interval_cases i <;> decide

theorem checkReg_nonneg (v : Int) (h0 : 0 ≤ v) (h1 : v ≤ 1073741823) :
    CheckIfRegister (toUint32 v) = false := by
  unfold CheckIfRegister toUint32
  show decide (((v % 4294967296).toNat &&& 3221225472) >>> 30 = 3) = false
  rw [tagOf]
  simp only [decide_eq_false_iff_not]
  omega

theorem readRegister_ok (vm : VM) (i : Nat) (h : i < vm.MemRegisters.length) :
    readRegister vm i = Except.ok (vm.MemRegisters.getD i 0) := by
  unfold readRegister
  simp [List.getD, List.getElem?_eq_getElem h]

theorem readRegister_panics (vm : VM) (i : Nat) (h : vm.MemRegisters.length ≤ i) :
    readRegister vm i = Except.error VMStop.indexOutOfRange := by
  unfold readRegister
  rw [List.getElem?_eq_none h]

theorem binaryArithmetic_register_word (vm : VM) (i : Nat) (val1 val2 bv r : Int)
    (aop : ArithmeticOperation)
    (hregs : vm.MemRegisters.length = 9) (hi : i ≤ 8)
    (hbp : vm.memStack.bp + 2 ≤ vm.memStack.sp) (hsp : vm.memStack.sp < 4294967296)
    (hc : CheckIfRegister (toUint32 val1) = true) (hpl : payload val1 = i)
    (h1 : vm.memStack.stack[vm.memStack.sp - 2]? = some val1)
    (h2 : vm.memStack.stack[vm.memStack.sp - 1]? = some val2)
    (hres : resolveOperand { vm with memStack := { vm.memStack with sp := vm.memStack.sp - 2 } } val2
      = Except.ok bv)
    (hex : ∀ vm1 : VM, ExecuteArithmatic (vm.MemRegisters.getD i 0) bv aop vm1 =
        Except.ok (r, vm1)) :
    binaryArithmetic aop vm = Except.ok (false,
      { vm with MemRegisters := vm.MemRegisters.set i r,
                memStack := { vm.memStack with sp := vm.memStack.sp - 2 } }) := by
  unfold binaryArithmetic
  rw [popTwo_ok vm _ _ hbp hsp h1 h2]
  simp only []
  unfold ArithmeticOperationHelper
  rw [hc, if_pos rfl]
  simp only [hpl]
  rw [readRegister_ok _ i (by simp only []; omega), hres]
  simp only [hex]
  unfold StoreInRegister
  rw [if_pos (by simp only []; omega)]

theorem resolveOperand_cases (vm : VM) (val2 bv : Int) (hregs : vm.MemRegisters.length = 9)
    (hv : (∃ j, j ≤ 8 ∧ val2 = fetchValue (0xC0000000 ||| j) ∧ bv = vm.MemRegisters.getD j 0) ∨
          (0 ≤ val2 ∧ val2 ≤ 1073741823 ∧ bv = val2)) :
    resolveOperand vm val2 = Except.ok bv := by
  unfold resolveOperand
  rcases hv with ⟨j, hj, hval, hbv⟩ | ⟨h0, h1, hbv⟩
  · have hc := checkReg_registerWord j hj
    have hp := payload_registerWord j hj
    rw [← hval] at hc hp
    rw [hc, if_pos rfl, hp, readRegister_ok _ j (by omega), hbv]
  · rw [checkReg_nonneg val2 h0 h1, hbv]
    simp

/-- C7. Destination rule, register case: for an opcode in 2..5 (ADD, SUB, MUL,
DIV) executed on a machine whose two top stack words are, first-pushed, the
register word of index `i ≤ 8` and, second-pushed, either the register word of an
index `j ≤ 8` or a non-negative integer literal (resolved value `bv`, non-zero for
DIV), `VMExecuteOpCode` succeeds without a jump, sets `MemRegisters[i]` to
`arithResult opcode MemRegisters[i] bv` (wrapping 32-bit), lowers `sp` by two and
changes nothing else: every other register, the flag, `bp`, `ip`, the printed
lines and the stack contents are as before. -/
theorem arithmetic_register_destination (opcode : Nat) (vm : VM) (i : Nat) (val2 bv : Int)
    (hop : 2 ≤ opcode ∧ opcode ≤ 5)
    (hregs : vm.MemRegisters.length = 9) (hi : i ≤ 8)
    (hbp : vm.memStack.bp + 2 ≤ vm.memStack.sp) (hsp : vm.memStack.sp < 4294967296)
    (h1 : vm.memStack.stack[vm.memStack.sp - 2]? = some (fetchValue (0xC0000000 ||| i)))
    (h2 : vm.memStack.stack[vm.memStack.sp - 1]? = some val2)
    (hv : (∃ j, j ≤ 8 ∧ val2 = fetchValue (0xC0000000 ||| j) ∧ bv = vm.MemRegisters.getD j 0) ∨
          (0 ≤ val2 ∧ val2 ≤ 1073741823 ∧ bv = val2))
    (hdiv : opcode = 5 → bv ≠ 0) :
    VMExecuteOpCode opcode vm = Except.ok (false,
      { vm with MemRegisters := vm.MemRegisters.set i (arithResult opcode (vm.MemRegisters.getD i 0) bv),
                memStack := { vm.memStack with sp := vm.memStack.sp - 2 } }) := by
  have hc := checkReg_registerWord i hi
  have hp := payload_registerWord i hi
  generalize fetchValue (0xC0000000 ||| i) = val1 at h1 hc hp
  have hres := resolveOperand_cases
    { vm with memStack := { vm.memStack with sp := vm.memStack.sp - 2 } } val2 bv hregs hv
  obtain ⟨hlo, hhi⟩ := hop
  interval_cases opcode
  · exact binaryArithmetic_register_word vm i val1 val2 bv _ ArithmeticOperation.ADD hregs hi hbp hsp
      hc hp h1 h2 hres (fun vm1 => rfl)
  · exact binaryArithmetic_register_word vm i val1 val2 bv _ ArithmeticOperation.SUB hregs hi hbp hsp
      hc hp h1 h2 hres (fun vm1 => rfl)
  · exact binaryArithmetic_register_word vm i val1 val2 bv _ ArithmeticOperation.MUL hregs hi hbp hsp
      hc hp h1 h2 hres (fun vm1 => rfl)
  · refine binaryArithmetic_register_word vm i val1 val2 bv _ ArithmeticOperation.DIV hregs hi hbp hsp
      hc hp h1 h2 hres (fun vm1 => ?_)
    unfold ExecuteArithmatic
    simp only []
    rw [if_neg (hdiv rfl)]
    rfl


theorem vmLoop_succ (ds : List Nat) (fuel : Nat) (d : Int) (vm : VM) :
    vmLoop ds (fuel + 1) d vm =
      if d < (ds.length : Int) then
        match vmStep ds d vm with
        | Except.error e => some (Except.error e)
        | Except.ok (d1, vm1) => vmLoop ds fuel d1 vm1
      else some (Except.ok vm) := rfl

theorem vmStep_push (ds : List Nat) (d : Nat) (vm : VM) (w : Nat) (hw : ds[d]? = some w)
    (htag : ((w &&& 0xC0000000) >>> 30) % 2 = 0 ∨ (w &&& 0xC0000000) >>> 30 = 3)
    (hroom : vm.memStack.sp < vm.memStack.stack.length) :
    vmStep ds (d : Int) vm = Except.ok ((d : Int) + 1,
      { vm with memStack := { vm.memStack with
          stack := vm.memStack.stack.set vm.memStack.sp (fetchValue w),
          sp := (vm.memStack.sp + 1) % 4294967296 } }) := by
  unfold vmStep
  rw [if_neg (by omega)]
  simp only [Int.toNat_ofNat, hw]
  rw [if_pos htag, push_ok _ _ hroom]

theorem vmStep_opcode (ds : List Nat) (d : Nat) (vm : VM) (w : Nat) (hw : ds[d]? = some w)
    (htag : (w &&& 0xC0000000) >>> 30 = 1) :
    vmStep ds (d : Int) vm =
      match VMExecuteOpCode (w &&& 0x3FFFFFFF) vm with
      | Except.error e => Except.error e
      | Except.ok (reassignIndex, vm1) =>
        if reassignIndex then Except.ok (vm1.memStack.ip - 1 + 1, vm1)
        else
          Except.ok ((d : Int) + 1,
            { vm1 with memStack := { vm1.memStack with ip := vm1.memStack.ip + 1 } }) := by
  unfold vmStep
  rw [if_neg (by omega)]
  simp only [Int.toNat_ofNat, hw]
  rw [if_neg (by omega)]

theorem encodeInt_tag (n : Int) (h0 : -1073741823 ≤ n) (h1 : n ≤ 1073741823) :
    ((encodeInt n &&& 0xC0000000) >>> 30) % 2 = 0 := by
  show ((encodeInt n &&& 3221225472) >>> 30) % 2 = 0
  rw [tagOf]
  by_cases hn : 0 ≤ n
  · rw [encodeInt_nonneg n hn h1]
    omega
  · rw [encodeInt_neg n h0 (by omega)]
    omega

/-- C4. Integer literals round-trip from assembler to VM: for every `n` with
`|n| ≤ 2^30 - 1`, the value computed by the fetch step from the word
`encodeInt n` that the assembler emits is `n` itself, and when that word is at
index `d` of the stream the loop body of `VMExecute` pushes exactly `n` on the
operand stack and moves on to index `d + 1`. -/
theorem integer_literal_round_trip (n : Int) (hlo : -1073741823 ≤ n) (hhi : n ≤ 1073741823)
    (dataStream : List Nat) (d : Nat) (vm : VM)
    (hword : dataStream[d]? = some (encodeInt n))
    (hroom : vm.memStack.sp < vm.memStack.stack.length) :
    fetchValue (encodeInt n) = n ∧
    vmStep dataStream (d : Int) vm = Except.ok ((d : Int) + 1,
      { vm with memStack := { vm.memStack with
          stack := vm.memStack.stack.set vm.memStack.sp n,
          sp := (vm.memStack.sp + 1) % 4294967296 } }) := by
  refine ⟨fetchValue_encodeInt n hlo hhi, ?_⟩
  rw [vmStep_push dataStream d vm _ hword (Or.inl (encodeInt_tag n hlo hhi)) hroom,
    fetchValue_encodeInt n hlo hhi]

theorem integer_literal_round_trip_witness :
    fetchValue (encodeInt (-5)) = -5 ∧
    vmStep [encodeInt (-5)] ((0 : Nat) : Int) (freshVM 4) = Except.ok (((0 : Nat) : Int) + 1,
      { freshVM 4 with memStack := { (freshVM 4).memStack with
          stack := (freshVM 4).memStack.stack.set (freshVM 4).memStack.sp (-5),
          sp := ((freshVM 4).memStack.sp + 1) % 4294967296 } }) :=
  integer_literal_round_trip (-5) (by decide) (by decide) [encodeInt (-5)] 0 (freshVM 4)
    (by decide) (by decide)


theorem fetch_two_operands (size w1 w2 opw fuel : Nat) (hsize : 2 ≤ size)
    (ht1 : ((w1 &&& 0xC0000000) >>> 30) % 2 = 0 ∨ (w1 &&& 0xC0000000) >>> 30 = 3)
    (ht2 : ((w2 &&& 0xC0000000) >>> 30) % 2 = 0 ∨ (w2 &&& 0xC0000000) >>> 30 = 3) :
    VMExecute (fuel + 2) [w1, w2, opw] (freshVM size) =
      vmLoop [w1, w2, opw] fuel 2 (operandsVM size (fetchValue w1) (fetchValue w2)) := by
  unfold VMExecute
  have hlen : ∀ a : Int, ((List.replicate size (0 : Int)).set 0 a).length = size := by
    intro a
    rw [List.length_set, List.length_replicate]
  rw [vmLoop_succ, if_pos (by simp)]
  have s1 := vmStep_push [w1, w2, opw] 0 (freshVM size) w1 rfl ht1
    (by show 0 < (List.replicate size (0 : Int)).length; rw [List.length_replicate]; omega)
  rw [show ((0 : Nat) : Int) = 0 from rfl] at s1
  rw [s1]
  simp only []
  rw [vmLoop_succ, if_pos (by simp)]
  have s2 := vmStep_push [w1, w2, opw] 1
    { freshVM size with memStack := { (freshVM size).memStack with
        stack := (freshVM size).memStack.stack.set (freshVM size).memStack.sp (fetchValue w1),
        sp := ((freshVM size).memStack.sp + 1) % 4294967296 } } w2 rfl ht2
    (by show 1 < ((List.replicate size (0 : Int)).set 0 (fetchValue w1)).length; rw [hlen]; omega)
  rw [show ((1 : Nat) : Int) = 0 + 1 from rfl] at s2
  rw [s2]
  rfl

theorem popTwo_operandsVM (size : Nat) (a b : Int) (hsize : 2 ≤ size) :
    popTwo (operandsVM size a b) = Except.ok (a, b,
      { operandsVM size a b with memStack := { (operandsVM size a b).memStack with sp := 0 } }) := by
  have h1 : (operandsVM size a b).memStack.stack[(operandsVM size a b).memStack.sp - 2]? = some a := by
    show (((List.replicate size (0 : Int)).set 0 a).set 1 b)[0]? = some a
    rw [List.getElem?_set_ne (by omega), List.getElem?_set_self]
    simp
    omega
  have h2 : (operandsVM size a b).memStack.stack[(operandsVM size a b).memStack.sp - 1]? = some b := by
    show (((List.replicate size (0 : Int)).set 0 a).set 1 b)[1]? = some b
    rw [List.getElem?_set_self]
    simp
    omega
  exact popTwo_ok (operandsVM size a b) a b (by show 0 + 2 ≤ 2; omega) (by show 2 < 4294967296; omega) h1 h2


theorem dispatch_two_operands (size w1 w2 opw fuel : Nat) (hsize : 2 ≤ size)
    (ht1 : ((w1 &&& 0xC0000000) >>> 30) % 2 = 0 ∨ (w1 &&& 0xC0000000) >>> 30 = 3)
    (ht2 : ((w2 &&& 0xC0000000) >>> 30) % 2 = 0 ∨ (w2 &&& 0xC0000000) >>> 30 = 3)
    (hto : (opw &&& 0xC0000000) >>> 30 = 1) :
    VMExecute (fuel + 3) [w1, w2, opw] (freshVM size) =
      match VMExecuteOpCode (opw &&& 0x3FFFFFFF) (operandsVM size (fetchValue w1) (fetchValue w2)) with
      | Except.error e => some (Except.error e)
      | Except.ok (reassignIndex, vm1) =>
        if reassignIndex then vmLoop [w1, w2, opw] fuel (vm1.memStack.ip - 1 + 1) vm1
        else vmLoop [w1, w2, opw] fuel 3
          { vm1 with memStack := { vm1.memStack with ip := vm1.memStack.ip + 1 } } := by
  rw [show fuel + 3 = (fuel + 1) + 2 from rfl, fetch_two_operands size w1 w2 opw _ hsize ht1 ht2,
    vmLoop_succ, if_pos (by simp)]
  have s3 := vmStep_opcode [w1, w2, opw] 2 (operandsVM size (fetchValue w1) (fetchValue w2)) opw rfl hto
  rw [show ((2 : Nat) : Int) = 2 from rfl] at s3
  rw [s3]
  generalize VMExecuteOpCode (opw &&& 0x3FFFFFFF) (operandsVM size (fetchValue w1) (fetchValue w2)) = r
  match r with
  | Except.error e => rfl
  | Except.ok (true, vm1) => rfl
  | Except.ok (false, vm1) => rfl

theorem add_negative_literal_any_size (size : Nat) (hsize : 2 ≤ size) :
    VMExecute 3 [encodeInt (-1), encodeInt 1, 0x40000002] (freshVM size) =
      some (Except.error VMStop.indexOutOfRange) := by
  have hd := dispatch_two_operands size (encodeInt (-1)) (encodeInt 1) 0x40000002 0 hsize
    (Or.inl (encodeInt_tag (-1) (by omega) (by omega)))
    (Or.inl (encodeInt_tag 1 (by omega) (by omega))) (by decide)
  rw [fetchValue_encodeInt (-1) (by omega) (by omega),
    fetchValue_encodeInt 1 (by omega) (by omega)] at hd
  rw [show (0 + 3 : Nat) = 3 from rfl] at hd
  rw [hd, show (0x40000002 &&& 0x3FFFFFFF : Nat) = 2 from by decide]
  have hop : VMExecuteOpCode 2 (operandsVM size (-1) 1) = Except.error VMStop.indexOutOfRange := by
    show binaryArithmetic ArithmeticOperation.ADD (operandsVM size (-1) 1) = _
    unfold binaryArithmetic
    rw [popTwo_operandsVM size (-1) 1 hsize]
    simp only []
    unfold ArithmeticOperationHelper
    rw [show CheckIfRegister (toUint32 (-1)) = true from by decide, if_pos rfl]
    simp only []
    rw [show payload (-1) = 1073741823 from by decide,
      readRegister_panics _ _ (by show (List.replicate 9 (0 : Int)).length ≤ _; decide)]
  rw [hop]

/-- C6, at the failing input `ADD -1 1`: on the fresh machine the stream
`[int(-1), int(1), op(ADD)]` does not leave `0` on the stack. The fetch step
pushes `-1` with its two top bits set, `ArithmeticOperationHelper` takes it for a
register word and indexes `MemRegisters` at `0x3FFFFFFF`, a runtime panic. -/
theorem add_negative_literal_panics :
    VMExecute 3 [encodeInt (-1), encodeInt 1, 0x40000002] (freshVM 1000000) =
      some (Except.error VMStop.indexOutOfRange) :=
  add_negative_literal_any_size 1000000 (by omega)


theorem neq_literals_any_size (size : Nat) (hsize : 2 ≤ size) :
    VMExecute 4 [1, 2, 0x4000000C] (freshVM size) =
      some (Except.ok { operandsVM size 1 2 with
        FlagRegister := false,
        memStack := { (operandsVM size 1 2).memStack with sp := 0, ip := 1 } }) := by
  have hd := dispatch_two_operands size 1 2 0x4000000C 1 hsize (Or.inl (by decide))
    (Or.inl (by decide)) (by decide)
  rw [show fetchValue 1 = 1 from by decide, show fetchValue 2 = 2 from by decide,
    show (1 + 3 : Nat) = 4 from rfl, show (0x4000000C &&& 0x3FFFFFFF : Nat) = 12 from by decide] at hd
  have hop : VMExecuteOpCode 12 (operandsVM size 1 2) = Except.ok (false,
      { operandsVM size 1 2 with
          FlagRegister := false,
          memStack := { (operandsVM size 1 2).memStack with sp := 0 } }) := by
    show binaryBoolean BooleanOperation.EQ (operandsVM size 1 2) = _
    unfold binaryBoolean
    rw [popTwo_operandsVM size 1 2 hsize]
    simp only []
    unfold BooleanOperationHelper resolveOperand
    rw [checkReg_nonneg 1 (by omega) (by omega), checkReg_nonneg 2 (by omega) (by omega)]
    rfl
  rw [hd, hop]
  rfl

/-- C8, at the failing input `NEQ 1 2`: on the fresh machine the stream
`[int(1), int(2), op(NEQ)]` ends with the flag `false`, the result of the equality
test that `case 12` dispatches to, although `1 != 2` holds. -/
theorem neq_opcode_runs_equality :
    VMExecute 4 [1, 2, 0x4000000C] (freshVM 1000000) =
      some (Except.ok { operandsVM 1000000 1 2 with
        FlagRegister := false,
        memStack := { (operandsVM 1000000 1 2).memStack with sp := 0, ip := 1 } }) :=
  neq_literals_any_size 1000000 (by omega)

theorem mov_register_source_any_size (size : Nat) (hsize : 2 ≤ size) :
    VMExecute 4 [0xC0000000, 0xC0000001, 0x4000000A] (freshVM size) =
      some (Except.ok { operandsVM size (-1073741824) (-1073741823) with
        MemRegisters := (List.replicate 9 0).set 0 (-1073741823),
        memStack := { (operandsVM size (-1073741824) (-1073741823)).memStack with
          sp := 0, ip := 1 } }) := by
  have hd := dispatch_two_operands size 0xC0000000 0xC0000001 0x4000000A 1 hsize
    (Or.inr (by decide)) (Or.inr (by decide)) (by decide)
  rw [show fetchValue 0xC0000000 = -1073741824 from by decide,
    show fetchValue 0xC0000001 = -1073741823 from by decide,
    show (1 + 3 : Nat) = 4 from rfl,
    show (0x4000000A &&& 0x3FFFFFFF : Nat) = 10 from by decide] at hd
  have hop : VMExecuteOpCode 10 (operandsVM size (-1073741824) (-1073741823)) = Except.ok (false,
      { operandsVM size (-1073741824) (-1073741823) with
          MemRegisters := (List.replicate 9 0).set 0 (-1073741823),
          memStack := { (operandsVM size (-1073741824) (-1073741823)).memStack with sp := 0 } }) := by
    show (match popTwo (operandsVM size (-1073741824) (-1073741823)) with
      | Except.error e => Except.error e
      | Except.ok (val1, val2, vm1) =>
        match StoreInRegister vm1 (payload val1) val2 with
        | Except.error e => Except.error e
        | Except.ok vm2 => Except.ok (false, vm2)) = _
    rw [popTwo_operandsVM size _ _ hsize]
    simp only []
    rw [show payload (-1073741824) = 0 from by decide]
    unfold StoreInRegister
    rw [if_pos (by show 0 < (List.replicate 9 (0 : Int)).length; decide)]
    rfl
  rw [hd, hop]
  rfl

/-- C9, at the failing input `MOV R1 R2`: on the fresh machine (all registers `0`)
the stream `[reg(0), reg(1), op(MOV)]` ends with `MemRegisters[0] = -1073741823`,
the register word of `R2` read as an `int32`, not with the value `0` held in `R2`:
`case 10` stores the popped word without resolving it. -/
theorem mov_register_source_stores_word :
    VMExecute 4 [0xC0000000, 0xC0000001, 0x4000000A] (freshVM 1000000) =
      some (Except.ok { operandsVM 1000000 (-1073741824) (-1073741823) with
        MemRegisters := (List.replicate 9 0).set 0 (-1073741823),
        memStack := { (operandsVM 1000000 (-1073741824) (-1073741823)).memStack with
          sp := 0, ip := 1 } }) :=
  mov_register_source_any_size 1000000 (by omega)

/-- C10, at the failing input: `pop` on the fresh stack of `main`
(`InitMemStack(0, 1000000)`, so `sp = bp = 0`) does not return `0`. The guard
`sp < bp` is false, `sp--` wraps to `4294967295` and `stack[sp]` panics. -/
theorem pop_fresh_stack_panics :
    (InitMemStack 0 1000000).pop = Except.error VMStop.indexOutOfRange := by
  have hlen : (InitMemStack 0 1000000).stack.length ≤ 4294967295 := by
    show (List.replicate 1000000 (0 : Int)).length ≤ 4294967295
    rw [List.length_replicate]
    omega
  exact pop_base_zero _ (Eq.refl 0) (Eq.refl 0) hlen

theorem arithmetic_register_destination_witness :
    VMExecuteOpCode 2
      { MemRegisters := [5, 0, 0, 0, 0, 0, 0, 0, 0], FlagRegister := false,
        memStack := { sp := 2, bp := 0, stack := [fetchValue (0xC0000000 ||| 0), 3, 0, 0], ip := 0 },
        printed := [] } =
    Except.ok (false,
      { MemRegisters := [8, 0, 0, 0, 0, 0, 0, 0, 0], FlagRegister := false,
        memStack := { sp := 0, bp := 0, stack := [fetchValue (0xC0000000 ||| 0), 3, 0, 0], ip := 0 },
        printed := [] }) :=
  arithmetic_register_destination 2
    { MemRegisters := [5, 0, 0, 0, 0, 0, 0, 0, 0], FlagRegister := false,
      memStack := { sp := 2, bp := 0, stack := [fetchValue (0xC0000000 ||| 0), 3, 0, 0], ip := 0 },
      printed := [] } 0 3 3 (by decide) (by decide) (by decide) (by decide) (by decide) (by decide)
      (by decide) (Or.inr (by decide)) (by decide)

/-! ### The loop of `Lex`: unfolding, fuel, termination -/

theorem lexLoop_succ (data : Bytes) (fuel : Nat) (lexer : Lexer) (lexemes : List Nat) :
    lexLoop data (fuel + 1) lexer lexemes =
      match lexStep data lexer lexemes with
      | Except.error e => some (Except.error e)
      | Except.ok (LoopStep.done out) => some (Except.ok out)
      | Except.ok (LoopStep.next lexer1 lexemes1) => lexLoop data fuel lexer1 lexemes1 := rfl

theorem lexLoop_mono (data : Bytes) (k : Nat) :
    ∀ (fuel : Nat) (lexer : Lexer) (lexemes : List Nat) (r : Except LexError (List Nat)),
      lexLoop data fuel lexer lexemes = some r → lexLoop data (fuel + k) lexer lexemes = some r := by
  intro fuel
  induction fuel with
  | zero => intro lexer lexemes r h; simp [lexLoop] at h
  | succ fuel ih =>
    intro lexer lexemes r h
    rw [show fuel + 1 + k = (fuel + k) + 1 from by omega, lexLoop_succ]
    rw [lexLoop_succ] at h
    cases hs : lexStep data lexer lexemes with
    | error e => rw [hs] at h; exact h
    | ok st =>
      cases st with
      | done out => rw [hs] at h; exact h
      | next lexer1 lexemes1 =>
        rw [hs] at h
        exact ih lexer1 lexemes1 r h

theorem setParameter_frame (lexer lexer1 : Lexer) (w : Nat)
    (h : setParameter lexer w = Except.ok lexer1) :
    ∃ params, lexer.Parameters = some params ∧ lexer.ParametersIndex < params.length ∧
      lexer1 = { lexer with Parameters := some (params.set lexer.ParametersIndex w) } := by
  unfold setParameter at h
  split at h
  · cases h
  · rename_i params hp
    split at h
    · rename_i hlt
      injection h with h
      exact ⟨params, hp, hlt, h.symm⟩
    · cases h

theorem DumpCommand_Index (lexer lexer1 : Lexer) (lexemes lexemes1 : List Nat)
    (h : DumpCommand lexer lexemes = Except.ok (lexer1, lexemes1)) :
    lexer1.Index = lexer.Index := by
  unfold DumpCommand at h
  split at h
  · split at h
    · cases h
    · split at h
      · cases h
      · split at h
        · cases h
        · injection h with h
          injection h with h1 h2
          rw [← h1]
  · injection h with h
    injection h with h1 h2
    rw [← h1]

theorem HandleLabelDecleration_Index (lexer lexer1 : Lexer) (lexemes lexemes1 : List Nat)
    (h : HandleLabelDecleration lexer lexemes = Except.ok (lexer1, lexemes1)) :
    lexer1.Index = lexer.Index := by
  unfold HandleLabelDecleration at h
  split at h
  · cases h
  · split at h
    · cases h
    · simp only [] at h
      split at h
      · cases h
      · split at h
        · split at h
          · cases h
          · injection h with h
            injection h with h1 h2
            rw [← h1]
        · injection h with h
          injection h with h1 h2
          rw [← h1]

theorem HandleLabelParameter_Index (lexer lexer1 : Lexer)
    (h : HandleLabelParameter lexer = Except.ok lexer1) :
    lexer1.Index = lexer.Index := by
  unfold HandleLabelParameter at h
  split at h
  · cases h
  · simp only [] at h
    split at h
    · cases h
    · rename_i lexer2 hr
      injection h with h
      rw [← h]
      show lexer2.Index = lexer.Index
      split at hr
      · obtain ⟨params, _, _, h3⟩ := setParameter_frame _ _ _ hr
        rw [h3]
      · split at hr
        · cases hr
        · rename_i lexer3 hs
          obtain ⟨params, _, _, h3⟩ := setParameter_frame _ _ _ hs
          split at hr
          · injection hr with hr
            rw [← hr, h3]
          · injection hr with hr
            rw [← hr, h3]

theorem GetCommand_Index (lexer lexer1 : Lexer) (lexemes lexemes1 : List Nat)
    (h : GetCommand lexer lexemes = Except.ok (lexer1, lexemes1)) :
    lexer1.Index = lexer.Index := by
  unfold GetCommand at h
  split at h
  · cases h
  · split at h
    · split at h
      · cases h
      · rename_i lx1 buf1 hD
        split at h
        · cases h
        · rename_i lx2 buf2 hH
          injection h with h
          injection h with h1 h2
          rw [← h1]
          show lx2.Index = _
          rw [HandleLabelDecleration_Index _ _ _ _ hH, DumpCommand_Index _ _ _ _ hD]
    · split at h
      · split at h
        · cases h
        · split at h
          · cases h
          · split at h
            · cases h
            · split at h
              · cases h
              · rename_i lx1 hS
                obtain ⟨params, _, _, h3⟩ := setParameter_frame _ _ _ hS
                injection h with h
                injection h with h1 h2
                rw [← h1, h3]
      · split at h
        · cases h
        · split at h
          · split at h
            · cases h
            · split at h
              · cases h
              · split at h
                · cases h
                · split at h
                  · cases h
                  · rename_i lx1 hS
                    obtain ⟨params, _, _, h3⟩ := setParameter_frame _ _ _ hS
                    injection h with h
                    injection h with h1 h2
                    rw [← h1, h3]
          · split at h
            · split at h
              · cases h
              · rename_i lx1 hP
                injection h with h
                injection h with h1 h2
                rw [← h1]
                exact HandleLabelParameter_Index _ _ hP
            · split at h
              · cases h
              · rename_i lx1 buf1 hD
                split at h
                · cases h
                · injection h with h
                  injection h with h1 h2
                  rw [← h1]
                  show lx1.Index = _
                  exact DumpCommand_Index _ _ _ _ hD

theorem advance_Index (data : Bytes) (lexer lexer1 : Lexer)
    (h : advance data lexer = Except.ok lexer1) : lexer.Index < lexer1.Index := by
  unfold advance at h
  split at h
  · injection h with h
    rw [← h]
    show lexer.Index < lexer.Index + 1 + 1
    omega
  · split at h
    · cases h
    · split at h
      · injection h with h
        rw [← h]
        show lexer.Index < lexer.Index + 1
        omega
      · injection h with h
        rw [← h]
        show lexer.Index < lexer.Index + 1
        omega

theorem lexSwitch_Index (data : Bytes) (lexer lexer1 : Lexer) (lexemes lexemes1 : List Nat)
    (dumping : Bool) (h : lexSwitch data lexer lexemes = Except.ok (lexer1, lexemes1, dumping)) :
    lexer.Index ≤ lexer1.Index ∧
    (dumping = true → lexer1.Index = lexer.Index ∧ lexer1.Current_State = State.DUMP ∧
      lexer.Current_State ≠ State.DUMP) := by
  unfold lexSwitch at h
  split at h
  · cases h
  · split at h
    · -- START
      simp only [] at h
      split at h
      · injection h with h; injection h with h1 h2; injection h2 with h2 h3
        subst h1 h3
        exact ⟨Nat.le_refl _, fun hd => by cases hd⟩
      · split at h
        · split at h
          · cases h
          · split at h
            · injection h with h; injection h with h1 h2; injection h2 with h2 h3
              subst h1 h3
              exact ⟨Nat.le_succ _, fun hd => by cases hd⟩
            · split at h
              · injection h with h; injection h with h1 h2; injection h2 with h2 h3
                subst h1 h3
                exact ⟨Nat.le_succ _, fun hd => by cases hd⟩
              · injection h with h; injection h with h1 h2; injection h2 with h2 h3
                subst h1 h3
                exact ⟨Nat.le_refl _, fun hd => by cases hd⟩
        · injection h with h; injection h with h1 h2; injection h2 with h2 h3
          subst h1 h3
          exact ⟨Nat.le_refl _, fun hd => by cases hd⟩
    · -- COMMENT
      split at h
      · split at h
        · cases h
        · injection h with h; injection h with h1 h2; injection h2 with h2 h3
          subst h1 h3
          exact ⟨Nat.le_succ _, fun hd => by cases hd⟩
        · injection h with h; injection h with h1 h2; injection h2 with h2 h3
          subst h1 h3
          exact ⟨Nat.le_refl _, fun hd => by cases hd⟩
      · split at h
        · injection h with h; injection h with h1 h2; injection h2 with h2 h3
          subst h1 h3
          exact ⟨Nat.le_refl _, fun hd => by cases hd⟩
        · injection h with h; injection h with h1 h2; injection h2 with h2 h3
          subst h1 h3
          exact ⟨Nat.le_refl _, fun hd => by cases hd⟩
    · -- BUILDCOMM
      rename_i hst
      split at h
      · injection h with h; injection h with h1 h2; injection h2 with h2 h3
        subst h1
        refine ⟨?_, fun _ => ⟨?_, rfl, by rw [hst]; decide⟩⟩
        · show lexer.Index ≤ (if _ then _ else lexer).Index
          split <;> exact Nat.le_refl _
        · show (if _ then _ else lexer).Index = lexer.Index
          split <;> rfl
      · simp only [] at h
        split at h
        · injection h with h; injection h with h1 h2; injection h2 with h2 h3
          subst h1
          exact ⟨Nat.le_refl _, fun _ => ⟨rfl, rfl, by rw [hst]; decide⟩⟩
        · injection h with h; injection h with h1 h2; injection h2 with h2 h3
          subst h1 h3
          exact ⟨Nat.le_refl _, fun hd => by cases hd⟩
    · -- DUMP
      split at h
      · cases h
      · rename_i lx1 buf1 hG
        injection h with h; injection h with h1 h2; injection h2 with h2 h3
        subst h1 h3
        refine ⟨?_, fun hd => by cases hd⟩
        show lexer.Index ≤ lx1.Index
        rw [GetCommand_Index _ _ _ _ hG]
    · injection h with h; injection h with h1 h2; injection h2 with h2 h3
      subst h1 h3
      exact ⟨Nat.le_refl _, fun hd => by cases hd⟩
    · injection h with h; injection h with h1 h2; injection h2 with h2 h3
      subst h1 h3
      exact ⟨Nat.le_refl _, fun hd => by cases hd⟩

theorem lexStep_measure (data : Bytes) (lexer lexer1 : Lexer) (lexemes lexemes1 : List Nat)
    (h : lexStep data lexer lexemes = Except.ok (LoopStep.next lexer1 lexemes1)) :
    lexMeasure data lexer1 < lexMeasure data lexer := by
  unfold lexStep at h
  split at h
  · split at h
    · cases h
    · injection h with h; cases h
  · rename_i hcond
    have hlt : lexer.Index < data.length := by omega
    split at h
    · cases h
    · rename_i lx1 buf1 dumping hS
      obtain ⟨hle, hdump⟩ := lexSwitch_Index _ _ _ _ _ _ hS
      split at h
      · rename_i hd
        injection h with h; injection h with h1 h2
        subst h1
        obtain ⟨hi, hs1, hs0⟩ := hdump hd
        have e1 : lexMeasure data lx1 = 2 * (data.length - lexer.Index) + 0 := by
          unfold lexMeasure
          rw [hi, if_neg (by omega), if_pos hs1]
        have e2 : lexMeasure data lexer = 2 * (data.length - lexer.Index) + 1 := by
          unfold lexMeasure
          rw [if_neg (by omega), if_neg hs0]
        omega
      · split at h
        · cases h
        · rename_i lx2 hA
          injection h with h; injection h with h1 h2
          subst h1
          have hadv := advance_Index _ _ _ hA
          unfold lexMeasure
          rw [if_neg (show ¬ lexer.Index ≥ data.length by omega)]
          split
          · split <;> omega
          · split <;> split <;> omega

theorem lexLoop_total (data : Bytes) :
    ∀ (fuel : Nat) (lexer : Lexer) (lexemes : List Nat), lexMeasure data lexer < fuel →
      ∃ r, lexLoop data fuel lexer lexemes = some r := by
  intro fuel
  induction fuel with
  | zero => intro lexer lexemes h; omega
  | succ fuel ih =>
    intro lexer lexemes h
    rw [lexLoop_succ]
    cases hs : lexStep data lexer lexemes with
    | error e => exact ⟨_, rfl⟩
    | ok st =>
      cases st with
      | done out => exact ⟨_, rfl⟩
      | next lexer1 lexemes1 =>
        have := lexStep_measure _ _ _ _ _ hs
        exact ih lexer1 lexemes1 (by omega)

theorem lexMeasure_le (data : Bytes) (lexer : Lexer) : lexMeasure data lexer ≤ 2 * data.length + 1 := by
  unfold lexMeasure
  split
  · omega
  · split <;> omega

/-- The loop of `Lex` always ends within the fuel that `Lex` gives it: `Lex` is
total. -/
theorem Lex_total (lexer : Lexer) (source : Bytes) : ∃ r, Lex lexer source = some r := by
  unfold Lex
  simp only []
  split
  · exact ⟨_, rfl⟩
  · apply lexLoop_total
    have := lexMeasure_le (source ++ [10])
      { lexer with LabelToIndex := [], LabelToInstructions := [], LexemesIndex := 0,
                   Line := lexer.Line + 1 }
    omega

/-! ### The output buffer as emitted words followed by zeros -/

theorem padded_length (n : Nat) (e : List Nat) (h : e.length ≤ n) : (padded n e).length = n := by
  unfold padded
  rw [List.length_append, List.length_replicate]
  omega

theorem padded_set_end (n : Nat) (e : List Nat) (w : Nat) (h : e.length < n) :
    (padded n e).set e.length w = padded n (e ++ [w]) := by
  unfold padded
  rw [List.set_append_right _ _ (Nat.le_refl _), Nat.sub_self, List.length_append,
    List.length_singleton]
  obtain ⟨k, hk⟩ : ∃ k, n - e.length = k + 1 := ⟨n - e.length - 1, by omega⟩
  rw [hk, show n - (e.length + 1) = k from by omega, List.replicate_succ, List.set_cons_zero,
    List.append_assoc]
  rfl

theorem padded_set_inside (n : Nat) (e : List Nat) (i w : Nat) (h : i < e.length) :
    (padded n e).set i w = padded n (e.set i w) := by
  unfold padded
  rw [List.set_append_left _ _ h, List.length_set]

theorem writeWord_end (n : Nat) (e : List Nat) (w : Nat) (h : e.length < n) :
    writeWord (padded n e) e.length w = Except.ok (padded n (e ++ [w])) := by
  unfold writeWord
  rw [padded_length n e (by omega), if_pos h, padded_set_end n e w h]

theorem writeWord_full (n : Nat) (e : List Nat) (w : Nat) (h : e.length = n) :
    writeWord (padded n e) e.length w = Except.error LexError.indexOutOfRange := by
  unfold writeWord
  rw [padded_length n e (by omega), if_neg (by omega)]

theorem writeWord_inside (n : Nat) (e : List Nat) (i w : Nat) (h : i < e.length)
    (hn : e.length ≤ n) :
    writeWord (padded n e) i w = Except.ok (padded n (e.set i w)) := by
  unfold writeWord
  rw [padded_length n e hn, if_pos (by omega), padded_set_inside n e i w h]

theorem dumpParams_padded (n : Nat) (params : List Nat) :
    ∀ e : List Nat, e.length ≤ n →
      dumpParams params (padded n e) e.length =
        if e.length + params.length ≤ n then
          Except.ok (padded n (e ++ params), e.length + params.length)
        else Except.error LexError.indexOutOfRange := by
  induction params with
  | nil =>
    intro e he
    rw [if_pos (by simpa using he)]
    simp [dumpParams]
  | cons p rest ih =>
    intro e he
    unfold dumpParams
    by_cases hlt : e.length < n
    · rw [writeWord_end n e p hlt]
      simp only []
      have := ih (e ++ [p]) (by rw [List.length_append, List.length_singleton]; omega)
      rw [List.length_append, List.length_singleton] at this
      rw [this]
      simp only [List.length_cons, List.append_assoc, List.singleton_append]
      by_cases hfit : e.length + (rest.length + 1) ≤ n
      · rw [if_pos hfit, if_pos (by omega)]
        congr 2
        omega
      · rw [if_neg hfit, if_neg (by omega)]
    · rw [writeWord_full n e p (by omega)]
      simp only [List.length_cons]
      rw [if_neg (by omega)]

theorem DumpCommand_padded (n : Nat) (lexer : Lexer) (e : List Nat) (he : e.length ≤ n)
    (hidx : lexer.LexemesIndex = e.length) :
    DumpCommand lexer (padded n e) =
      match lexer.Parameters with
      | none => Except.ok (flushed lexer 0, padded n e)
      | some params =>
        if (params.length : Int) ≠ lexer.NumParams then Except.error LexError.arityMismatch
        else if e.length + params.length < n then
          Except.ok (flushed lexer (params.length + 1), padded n (e ++ pendingWords lexer))
        else Except.error LexError.indexOutOfRange := by
  unfold DumpCommand
  cases hp : lexer.Parameters with
  | none => simp only [flushed, hp, Nat.add_zero]
  | some params =>
    simp only []
    by_cases har : (params.length : Int) ≠ lexer.NumParams
    · rw [if_pos har, if_pos har]
    · rw [if_neg har, if_neg har, hidx, dumpParams_padded n params e he]
      by_cases hfit : e.length + params.length ≤ n
      · rw [if_pos hfit]
        simp only []
        have hw := fun h => writeWord_end n (e ++ params) lexer.CurrentInstruction
          (show (e ++ params).length < n from h)
        rw [List.length_append] at hw
        by_cases hlt : e.length + params.length < n
        · rw [hw hlt, if_pos hlt]
          simp only [flushed, pendingWords, hp, hidx, List.append_assoc, Nat.add_assoc]
        · have hf := writeWord_full n (e ++ params) lexer.CurrentInstruction
            (by rw [List.length_append]; omega)
          rw [List.length_append] at hf
          rw [hf, if_neg hlt]
      · rw [if_neg hfit, if_neg (by omega)]

/-! ### Label maps, backpatching and the cases of GetCommand -/

theorem mapGet_mapDelete {β : Type} (m : List (Bytes × β)) (k k1 : Bytes) :
    mapGet (mapDelete m k) k1 = if k = k1 then none else mapGet m k1 := by
  induction m with
  | nil => simp [mapDelete, mapGet]
  | cons p rest ih =>
    obtain ⟨pk, pv⟩ := p
    unfold mapDelete at ih ⊢
    rw [List.filter_cons]
    by_cases hpk : pk = k
    · subst hpk
      simp only [ne_eq, not_true_eq_false, decide_False, Bool.false_eq_true, if_false]
      rw [ih]
      by_cases hk : pk = k1
      · simp only [if_pos hk]
      · simp only [if_neg hk]
        simp [mapGet, hk]
    · simp only [ne_eq, hpk, not_false_eq_true, decide_True, if_true]
      unfold mapGet
      by_cases hk : pk = k1
      · rw [if_pos hk, if_pos hk]
        rw [if_neg (by rw [← hk]; exact fun h => hpk h.symm)]
      · rw [if_neg hk, if_neg hk]
        exact ih

theorem mapDelete_absent {β : Type} (m : List (Bytes × β)) (k : Bytes)
    (h : mapGet m k = none) : mapDelete m k = m := by
  induction m with
  | nil => rfl
  | cons p rest ih =>
    obtain ⟨pk, pv⟩ := p
    unfold mapGet at h
    by_cases hpk : pk = k
    · rw [if_pos hpk] at h
      cases h
    · rw [if_neg hpk] at h
      unfold mapDelete at ih ⊢
      rw [List.filter_cons]
      simp only [ne_eq, hpk, not_false_eq_true, decide_True, if_true]
      rw [ih h]

theorem mapGet_mapSet {β : Type} (m : List (Bytes × β)) (k k1 : Bytes) (v : β) :
    mapGet (mapSet m k v) k1 = if k = k1 then some v else mapGet m k1 := by
  unfold mapSet
  show (if k = k1 then some v else mapGet (mapDelete m k) k1) = _
  by_cases hk : k = k1
  · rw [if_pos hk, if_pos hk]
  · rw [if_neg hk, if_neg hk, mapGet_mapDelete, if_neg hk]

theorem mapGet_of_length_zero {β : Type} (m : List (Bytes × β)) (k : Bytes)
    (h : ¬ m.length > 0) : mapGet m k = none := by
  cases m with
  | nil => rfl
  | cons p rest => simp at h

theorem patch_length (val : List Nat) (w : Nat) :
    ∀ e : List Nat, (patch e val w).length = e.length := by
  induction val with
  | nil => intro e; rfl
  | cons i rest ih =>
    intro e
    show (patch (e.set i w) rest w).length = e.length
    rw [ih, List.length_set]

theorem patch_getElem?_not_mem (val : List Nat) (w s : Nat) :
    ∀ e : List Nat, s ∉ val → (patch e val w)[s]? = e[s]? := by
  induction val with
  | nil => intro e _; rfl
  | cons i rest ih =>
    intro e hs
    show (patch (e.set i w) rest w)[s]? = e[s]?
    rw [ih _ (fun h => hs (List.mem_cons_of_mem _ h)),
      List.getElem?_set_ne (fun h => hs (by rw [h]; exact List.mem_cons_self _ _))]

theorem patch_getElem?_mem (val : List Nat) (w s : Nat) :
    ∀ e : List Nat, s ∈ val → s < e.length → (patch e val w)[s]? = some w := by
  induction val with
  | nil => intro e hs; cases hs
  | cons i rest ih =>
    intro e hs hlt
    show (patch (e.set i w) rest w)[s]? = some w
    by_cases hin : s ∈ rest
    · exact ih _ hin (by rw [List.length_set]; exact hlt)
    · rw [patch_getElem?_not_mem rest w s _ hin]
      have : s = i := by
        rcases List.mem_cons.mp hs with h | h
        · exact h
        · exact absurd h hin
      subst this
      exact List.getElem?_set_self hlt

theorem backpatch_padded (n : Nat) (val : List Nat) (w : Nat) :
    ∀ e : List Nat, e.length ≤ n → (∀ s ∈ val, s < e.length) →
      backpatch val w (padded n e) = Except.ok (padded n (patch e val w)) := by
  induction val with
  | nil => intro e _ _; rfl
  | cons i rest ih =>
    intro e he hs
    unfold backpatch
    rw [writeWord_inside n e i w (hs i (List.mem_cons_self _ _)) he]
    simp only []
    exact ih (e.set i w) (by rw [List.length_set]; exact he)
      (fun s h => by rw [List.length_set]; exact hs s (List.mem_cons_of_mem _ h))

theorem setParameter_ok (lexer : Lexer) (params : List Nat) (w : Nat)
    (hp : lexer.Parameters = some params) (hlt : lexer.ParametersIndex < params.length) :
    setParameter lexer w =
      Except.ok { lexer with Parameters := some (params.set lexer.ParametersIndex w) } := by
  unfold setParameter
  rw [hp]
  simp only []
  rw [if_pos hlt]

theorem HandleLabelDecleration_frame (lexer lexer1 : Lexer) (lexemes lexemes1 : List Nat)
    (h : HandleLabelDecleration lexer lexemes = Except.ok (lexer1, lexemes1)) :
    lexer.BuiltString.length ≠ 1 ∧
    mapGet lexer.LabelToIndex lexer.BuiltString.dropLast = none ∧
    backpatch ((mapGet lexer.LabelToInstructions lexer.BuiltString.dropLast).getD [])
      (lexer.LexemesIndex % 4294967296) lexemes = Except.ok lexemes1 ∧
    lexer1 = { lexer with
      BuiltString := lexer.BuiltString.dropLast,
      LabelToIndex := mapSet lexer.LabelToIndex lexer.BuiltString.dropLast lexer.LexemesIndex,
      LabelToInstructions := mapDelete lexer.LabelToInstructions lexer.BuiltString.dropLast } := by
  unfold HandleLabelDecleration at h
  split at h
  · cases h
  · rename_i hlen
    split at h
    · cases h
    · simp only [] at h
      split at h
      · cases h
      · rename_i hget
        refine ⟨hlen, hget, ?_⟩
        split at h
        · rename_i val hval
          split at h
          · cases h
          · rename_i buf1 hb
            injection h with h
            injection h with h1 h2
            subst h2
            rw [hval]
            exact ⟨hb, h1.symm⟩
        · rename_i hval
          injection h with h
          injection h with h1 h2
          subst h2
          rw [hval]
          refine ⟨rfl, ?_⟩
          rw [← h1]
          rw [mapDelete_absent _ _ hval]

theorem HandleLabelParameter_frame (lexer lexer1 : Lexer)
    (h : HandleLabelParameter lexer = Except.ok lexer1) :
    lexer.BuiltString.length ≠ 1 ∧
    ∃ params, lexer.Parameters = some params ∧ lexer.ParametersIndex < params.length ∧
      ((∃ v, mapGet lexer.LabelToIndex lexer.BuiltString = some v ∧
          lexer1 = { lexer with
            Parameters := some (params.set lexer.ParametersIndex (v % 4294967296)),
            ParametersIndex := lexer.ParametersIndex + 1,
            NumParams := wrapInt8 (lexer.NumParams + 1) }) ∨
       (mapGet lexer.LabelToIndex lexer.BuiltString = none ∧
          lexer1 = { lexer with
            Parameters := some (params.set lexer.ParametersIndex 0),
            LabelToInstructions := mapSet lexer.LabelToInstructions lexer.BuiltString
              ((mapGet lexer.LabelToInstructions lexer.BuiltString).getD [] ++ [lexer.LexemesIndex]),
            ParametersIndex := lexer.ParametersIndex + 1,
            NumParams := wrapInt8 (lexer.NumParams + 1) })) := by
  unfold HandleLabelParameter at h
  by_cases hlen : lexer.BuiltString.length = 1
  · rw [if_pos hlen] at h
    cases h
  · rw [if_neg hlen] at h
    refine ⟨hlen, ?_⟩
    simp only [] at h
    cases hget : mapGet lexer.LabelToIndex lexer.BuiltString with
    | some v =>
      rw [hget] at h
      simp only [] at h
      cases hs : setParameter lexer (v % 4294967296) with
      | error e => rw [hs] at h; cases h
      | ok lx2 =>
        rw [hs] at h
        simp only [] at h
        obtain ⟨params, hp, hlt, h3⟩ := setParameter_frame _ _ _ hs
        refine ⟨params, hp, hlt, Or.inl ⟨v, rfl, ?_⟩⟩
        injection h with h
        rw [← h, h3]
    | none =>
      rw [hget] at h
      simp only [] at h
      cases hs : setParameter lexer 0 with
      | error e => rw [hs] at h; cases h
      | ok lx2 =>
        rw [hs] at h
        simp only [] at h
        obtain ⟨params, hp, hlt, h3⟩ := setParameter_frame _ _ _ hs
        refine ⟨params, hp, hlt, Or.inr ⟨rfl, ?_⟩⟩
        subst h3
        simp only [] at h
        cases hw : mapGet lexer.LabelToInstructions lexer.BuiltString with
        | some instructions =>
          rw [hw] at h
          simp only [] at h
          injection h with h
          rw [← h]
          rfl
        | none =>
          rw [hw] at h
          simp only [] at h
          injection h with h
          rw [← h]
          rfl

theorem GetCommand_cases (lexer lexer1 : Lexer) (lexemes lexemes1 : List Nat)
    (h : GetCommand lexer lexemes = Except.ok (lexer1, lexemes1)) :
    (lexer.BuiltString.getLast? = some 58 ∧
      ∃ lx1 buf1 lx2, DumpCommand lexer lexemes = Except.ok (lx1, buf1) ∧
        HandleLabelDecleration lx1 buf1 = Except.ok (lx2, lexemes1) ∧
        lexer1 = { lx2 with Parameters := none }) ∨
    (¬ isLabelReference lexer ∧ lexer.BuiltString.getLast? ≠ some 58 ∧ lexemes1 = lexemes ∧
      ∃ w params, lexer.Parameters = some params ∧ lexer.ParametersIndex < params.length ∧
        lexer1 = { lexer with
          Parameters := some (params.set lexer.ParametersIndex w),
          ParametersIndex := lexer.ParametersIndex + 1,
          NumParams := wrapInt8 (lexer.NumParams + 1) }) ∨
    (isLabelReference lexer ∧ lexemes1 = lexemes ∧ HandleLabelParameter lexer = Except.ok lexer1) ∨
    (¬ isLabelReference lexer ∧ lexer.BuiltString.getLast? ≠ some 58 ∧
      ∃ lx1 instruction numParams, DumpCommand lexer lexemes = Except.ok (lx1, lexemes1) ∧
        mnemonic lx1.BuiltString = some (instruction, numParams) ∧
        lexer1 = { lx1 with CurrentInstruction := instruction,
                            Parameters := some (List.replicate numParams 0) }) := by
  unfold GetCommand at h
  cases hlast : lexer.BuiltString.getLast? with
  | none => rw [hlast] at h; cases h
  | some c =>
    rw [hlast] at h
    simp only [] at h
    by_cases hc : c = 58
    · rw [if_pos hc] at h
      subst hc
      left
      refine ⟨rfl, ?_⟩
      cases hD : DumpCommand lexer lexemes with
      | error e => rw [hD] at h; cases h
      | ok r =>
        obtain ⟨lx1, buf1⟩ := r
        rw [hD] at h
        simp only [] at h
        cases hH : HandleLabelDecleration lx1 buf1 with
        | error e => rw [hH] at h; cases h
        | ok r2 =>
          obtain ⟨lx2, buf2⟩ := r2
          rw [hH] at h
          simp only [] at h
          injection h with h
          injection h with h1 h2
          subst h2
          exact ⟨lx1, buf1, lx2, rfl, hH, h1.symm⟩
    · rw [if_neg hc] at h
      have hne : some c ≠ some 58 := fun hh => hc (Option.some.inj hh)
      right
      cases hA : Atoi lexer.BuiltString with
      | some num =>
        rw [hA] at h
        simp only [] at h
        left
        refine ⟨fun hl => (by rw [hl.2.1] at hA; cases hA), hne, ?_⟩
        split at h
        · cases h
        · split at h
          · cases h
          · split at h
            · cases h
            · cases hs : setParameter lexer (encodeInt num) with
              | error e => rw [hs] at h; cases h
              | ok lx2 =>
                rw [hs] at h
                simp only [] at h
                obtain ⟨params, hp, hlt, h3⟩ := setParameter_frame _ _ _ hs
                injection h with h
                injection h with h1 h2
                refine ⟨h2.symm, encodeInt num, params, hp, hlt, ?_⟩
                rw [← h1, h3]
      | none =>
        rw [hA] at h
        simp only [] at h
        split at h
        · cases h
        · rename_i hisnum
          split at h
          · rename_i hreg
            left
            refine ⟨fun hl => (by rw [hl.2.2.2.1] at hreg; cases hreg), hne, ?_⟩
            split at h
            · cases h
            · split at h
              · cases h
              · split at h
                · cases h
                · cases hs : setParameter lexer (encodeRegister (lexer.BuiltString.getD 1 0)) with
                  | error e => rw [hs] at h; cases h
                  | ok lx2 =>
                    rw [hs] at h
                    simp only [] at h
                    obtain ⟨params, hp, hlt, h3⟩ := setParameter_frame _ _ _ hs
                    injection h with h
                    injection h with h1 h2
                    refine ⟨h2.symm, encodeRegister (lexer.BuiltString.getD 1 0), params, hp, hlt, ?_⟩
                    rw [← h1, h3]
          · rename_i hreg
            right
            split at h
            · rename_i hjump
              left
              cases hP : HandleLabelParameter lexer with
              | error e => rw [hP] at h; cases h
              | ok lx2 =>
                rw [hP] at h
                simp only [] at h
                injection h with h
                injection h with h1 h2
                refine ⟨⟨by rw [hlast]; exact hne, hA, ?_, ?_, hjump.1, hjump.2⟩, h2.symm, ?_⟩
                · simpa using hisnum
                · simpa using hreg
                · rw [h1]
            · rename_i hjump
              right
              refine ⟨fun hl => hjump ⟨hl.2.2.2.2.1, hl.2.2.2.2.2⟩, hne, ?_⟩
              cases hD : DumpCommand lexer lexemes with
              | error e => rw [hD] at h; cases h
              | ok r =>
                obtain ⟨lx1, buf1⟩ := r
                rw [hD] at h
                simp only [] at h
                cases hm : mnemonic lx1.BuiltString with
                | none => rw [hm] at h; cases h
                | some r2 =>
                  obtain ⟨instruction, numParams⟩ := r2
                  rw [hm] at h
                  simp only [] at h
                  injection h with h
                  injection h with h1 h2
                  subst h2
                  exact ⟨lx1, instruction, numParams, rfl, hm, h1.symm⟩

/-! ### The calls of GetCommand along the loop, and loop invariants -/

theorem advance_core (data : Bytes) (lexer lexer1 : Lexer)
    (h : advance data lexer = Except.ok lexer1) : lexCore lexer1 = lexCore lexer := by
  unfold advance at h
  split at h
  · injection h with h
    rw [← h]
    rfl
  · split at h
    · cases h
    · split at h
      · injection h with h
        rw [← h]
        rfl
      · injection h with h
        rw [← h]
        rfl

theorem lexSwitch_core (data : Bytes) (lexer lexer1 : Lexer) (lexemes lexemes1 : List Nat)
    (dumping : Bool) (h : lexSwitch data lexer lexemes = Except.ok (lexer1, lexemes1, dumping)) :
    (lexer.Current_State = State.DUMP ∧
      ∃ lxg, GetCommand lexer lexemes = Except.ok (lxg, lexemes1) ∧ lexCore lexer1 = lexCore lxg) ∨
    (lexer.Current_State ≠ State.DUMP ∧ lexemes1 = lexemes ∧ lexCore lexer1 = lexCore lexer) := by
  unfold lexSwitch at h
  split at h
  · cases h
  · split at h
    · -- START
      rename_i hst
      right
      refine ⟨by rw [hst]; decide, ?_⟩
      simp only [] at h
      split at h
      · injection h with h; injection h with h1 h2; injection h2 with h2 h3
        subst h1 h2
        exact ⟨rfl, rfl⟩
      · split at h
        · split at h
          · cases h
          · split at h
            · injection h with h; injection h with h1 h2; injection h2 with h2 h3
              subst h1 h2
              exact ⟨rfl, rfl⟩
            · split at h
              · injection h with h; injection h with h1 h2; injection h2 with h2 h3
                subst h1 h2
                exact ⟨rfl, rfl⟩
              · injection h with h; injection h with h1 h2; injection h2 with h2 h3
                subst h1 h2
                exact ⟨rfl, rfl⟩
        · injection h with h; injection h with h1 h2; injection h2 with h2 h3
          subst h1 h2
          exact ⟨rfl, rfl⟩
    · -- COMMENT
      rename_i hst
      right
      refine ⟨by rw [hst]; decide, ?_⟩
      split at h
      · split at h
        · cases h
        · injection h with h; injection h with h1 h2; injection h2 with h2 h3
          subst h1 h2
          exact ⟨rfl, rfl⟩
        · injection h with h; injection h with h1 h2; injection h2 with h2 h3
          subst h1 h2
          exact ⟨rfl, rfl⟩
      · split at h
        · injection h with h; injection h with h1 h2; injection h2 with h2 h3
          subst h1 h2
          exact ⟨rfl, rfl⟩
        · injection h with h; injection h with h1 h2; injection h2 with h2 h3
          subst h1 h2
          exact ⟨rfl, rfl⟩
    · -- BUILDCOMM
      rename_i hst
      right
      refine ⟨by rw [hst]; decide, ?_⟩
      split at h
      · injection h with h; injection h with h1 h2; injection h2 with h2 h3
        subst h1 h2
        refine ⟨rfl, ?_⟩
        show lexCore (if _ then _ else lexer) = lexCore lexer
        split <;> rfl
      · simp only [] at h
        split at h
        · injection h with h; injection h with h1 h2; injection h2 with h2 h3
          subst h1 h2
          exact ⟨rfl, rfl⟩
        · injection h with h; injection h with h1 h2; injection h2 with h2 h3
          subst h1 h2
          exact ⟨rfl, rfl⟩
    · -- DUMP
      rename_i hst
      left
      refine ⟨hst, ?_⟩
      split at h
      · cases h
      · rename_i lx1 buf1 hG
        injection h with h; injection h with h1 h2; injection h2 with h2 h3
        subst h1 h2
        exact ⟨lx1, hG, rfl⟩
    · rename_i hst
      right
      injection h with h; injection h with h1 h2; injection h2 with h2 h3
      subst h1 h2
      exact ⟨by rw [hst]; decide, rfl, rfl⟩
    · rename_i hst
      right
      injection h with h; injection h with h1 h2; injection h2 with h2 h3
      subst h1 h2
      exact ⟨by rw [hst]; decide, rfl, rfl⟩

theorem lexStep_cases (data : Bytes) (lexer lexer1 : Lexer) (lexemes lexemes1 : List Nat)
    (h : lexStep data lexer lexemes = Except.ok (LoopStep.next lexer1 lexemes1)) :
    ((lexer.Index < data.length ∧ lexer.Current_State = State.DUMP) ∧
      ∃ lxg, GetCommand lexer lexemes = Except.ok (lxg, lexemes1) ∧ lexCore lexer1 = lexCore lxg) ∨
    (¬ (lexer.Index < data.length ∧ lexer.Current_State = State.DUMP) ∧ lexemes1 = lexemes ∧
      lexCore lexer1 = lexCore lexer) := by
  unfold lexStep at h
  split at h
  · split at h
    · cases h
    · injection h with h; cases h
  · rename_i hcond
    have hlt : lexer.Index < data.length := by omega
    split at h
    · cases h
    · rename_i lx1 buf1 dumping hS
      have hadv : lexemes1 = buf1 ∧ lexCore lexer1 = lexCore lx1 := by
        split at h
        · injection h with h; injection h with h1 h2
          subst h1 h2
          exact ⟨rfl, rfl⟩
        · split at h
          · cases h
          · rename_i lx2 hA
            injection h with h; injection h with h1 h2
            subst h1 h2
            exact ⟨rfl, advance_core _ _ _ hA⟩
      obtain ⟨hb, hcore⟩ := hadv
      subst hb
      rcases lexSwitch_core _ _ _ _ _ _ hS with ⟨hst, lxg, hG, hc⟩ | ⟨hst, hb, hc⟩
      · exact Or.inl ⟨⟨hlt, hst⟩, lxg, hG, hcore.trans hc⟩
      · exact Or.inr ⟨fun hh => hst hh.2, hb, hcore.trans hc⟩

theorem lexStep_done (data : Bytes) (lexer : Lexer) (lexemes out : List Nat)
    (h : lexStep data lexer lexemes = Except.ok (LoopStep.done out)) :
    ¬ (lexer.Index < data.length ∧ lexer.Current_State = State.DUMP) ∧
    lexEnd lexer lexemes = Except.ok out := by
  unfold lexStep at h
  split at h
  · rename_i hcond
    refine ⟨fun hh => ?_, ?_⟩
    · rcases hcond with hc | hc
      · omega
      · rw [hc] at hh
        exact absurd hh.2 (by decide)
    · split at h
      · cases h
      · rename_i out1 hE
        injection h with h
        injection h with h
        rw [hE, h]
  · split at h
    · cases h
    · split at h
      · injection h with h; cases h
      · split at h
        · cases h
        · injection h with h; cases h

theorem lexLoop_invariant (data : Bytes)
    (Q : List (Lexer × List Nat) → Lexer → List Nat → Prop)
    (hcore : ∀ H lx lx1 buf, lexCore lx1 = lexCore lx → Q H lx buf → Q H lx1 buf)
    (hcmd : ∀ H lx lx1 buf buf1, Q H lx buf → GetCommand lx buf = Except.ok (lx1, buf1) →
      Q (H ++ [(lx, buf)]) lx1 buf1) :
    ∀ (fuel : Nat) (H : List (Lexer × List Nat)) (lexer : Lexer) (lexemes out : List Nat),
      Q H lexer lexemes → lexLoop data fuel lexer lexemes = some (Except.ok out) →
      ∃ lxE bufE, Q (H ++ lexTrace data fuel lexer lexemes) lxE bufE ∧
        lexEnd lxE bufE = Except.ok out := by
  intro fuel
  induction fuel with
  | zero => intro H lexer lexemes out _ h; simp [lexLoop] at h
  | succ fuel ih =>
    intro H lexer lexemes out hQ h
    rw [lexLoop_succ] at h
    unfold lexTrace
    cases hs : lexStep data lexer lexemes with
    | error e => rw [hs] at h; cases h
    | ok st =>
      cases st with
      | done out1 =>
        rw [hs] at h
        simp only [] at h
        injection h with h
        injection h with h
        subst h
        obtain ⟨hnd, hE⟩ := lexStep_done _ _ _ _ hs
        simp only [if_neg hnd, List.append_nil]
        exact ⟨lexer, lexemes, hQ, hE⟩
      | next lexer1 lexemes1 =>
        rw [hs] at h
        simp only [] at h
        rcases lexStep_cases _ _ _ _ _ hs with ⟨hd, lxg, hG, hc⟩ | ⟨hnd, hb, hc⟩
        · simp only [if_pos hd]
          have hQ1 := hcore _ _ _ _ hc (hcmd H lexer lxg lexemes lexemes1 hQ hG)
          obtain ⟨lxE, bufE, hQE, hE⟩ := ih _ lexer1 lexemes1 out hQ1 h
          rw [List.append_assoc] at hQE
          exact ⟨lxE, bufE, hQE, hE⟩
        · simp only [if_neg hnd, List.nil_append]
          rw [hb] at h ⊢
          have hQ1 := hcore _ _ _ _ hc hQ
          exact ih _ lexer1 lexemes out hQ1 h

/-! ### Label references: the invariant of the loop of Lex -/

theorem LabelInvAt_snoc (n : Nat) (H : List (Lexer × List Nat)) (lexer : Lexer) (e : List Nat)
    (c : Lexer × List Nat) (hc : ¬ isLabelReference c.1) (h : LabelInvAt n H lexer e) :
    LabelInvAt n (H ++ [c]) lexer e := by
  have hmem : ∀ x, x ∈ H ++ [c] → isLabelReference x.1 → x ∈ H := by
    intro x hx hr
    rcases List.mem_append.mp hx with hx | hx
    · exact hx
    · rw [List.mem_singleton] at hx
      rw [hx] at hr
      exact absurd hr hc
  refine ⟨h.index, h.fits, h.counts, h.jump, ?_, ?_, ?_, ?_, h.arity⟩
  · intro x hx hr
    exact h.refs x (hmem x hx hr) hr
  · intro name val hv s hs
    obtain ⟨x, hx, hx2⟩ := h.origin name val hv s hs
    exact ⟨x, List.mem_append_left _ hx, hx2⟩
  · intro x hx y hy hrx hry
    exact h.unique x (hmem x hx hrx) y (hmem y hy hry) hrx hry
  · intro name v hv
    obtain ⟨hle, d, hd, hd2⟩ := h.declared name v hv
    exact ⟨hle, d, List.mem_append_left _ hd, hd2⟩

theorem pendingWords_holds (e : List Nat) (lexer : Lexer) (s w : Nat)
    (h : slotHolds e lexer s w) :
    s < (e ++ pendingWords lexer).length ∧ (e ++ pendingWords lexer)[s]? = some w := by
  rcases h with ⟨hlt, hget⟩ | ⟨heq, hp⟩
  · refine ⟨by rw [List.length_append]; omega, ?_⟩
    rw [List.getElem?_append_left hlt]
    exact hget
  · unfold pendingWords
    rw [hp]
    simp only []
    subst heq
    refine ⟨by simp, ?_⟩
    rw [List.getElem?_append_right (Nat.le_refl _), Nat.sub_self]
    rfl

theorem pendingWords_pending (e : List Nat) (lexer : Lexer) (s : Nat)
    (h : slotPending e lexer s) : s < (e ++ pendingWords lexer).length := by
  rcases h with hlt | ⟨heq, _, p, hp⟩
  · rw [List.length_append]; omega
  · unfold pendingWords
    rw [hp]
    simp only []
    subst heq
    simp

theorem LabelInvAt_flush (n : Nat) (H : List (Lexer × List Nat)) (lexer : Lexer) (e : List Nat)
    (hfit : (e ++ pendingWords lexer).length ≤ n) (h : LabelInvAt n H lexer e) :
    LabelInvAt n H (flushed lexer (pendingWords lexer).length) (e ++ pendingWords lexer) ∧
    ∀ c ∈ H, isLabelReference c.1 → c.1.LexemesIndex < (e ++ pendingWords lexer).length := by
  have hslot : ∀ c ∈ H, isLabelReference c.1 →
      c.1.LexemesIndex < (e ++ pendingWords lexer).length :=
    fun c hc hr => pendingWords_pending e lexer _ (h.refs c hc hr).1
  refine ⟨⟨?_, hfit, rfl, ?_, ?_, h.origin, h.unique, ?_, h.arity⟩, hslot⟩
  · show (e ++ pendingWords lexer).length = lexer.LexemesIndex + (pendingWords lexer).length
    rw [List.length_append, h.index]
  · intro hj
    rcases hj with hj | hj <;> cases hj
  · intro c hc hr
    obtain ⟨_, hval⟩ := h.refs c hc hr
    refine ⟨Or.inl (hslot c hc hr), ?_⟩
    rcases hval with ⟨v, hv, hh⟩ | hw
    · exact Or.inl ⟨v, hv, Or.inl (pendingWords_holds e lexer _ _ hh)⟩
    · exact Or.inr hw
  · intro name v hv
    obtain ⟨hle, hd⟩ := h.declared name v hv
    exact ⟨by rw [List.length_append]; omega, hd⟩

theorem LabelInvAt_mnemonic (n : Nat) (H : List (Lexer × List Nat)) (lexer : Lexer) (e : List Nat)
    (instruction numParams : Nat)
    (hnp : (instruction = 0x40000011 ∨ instruction = 0x40000012) → numParams = 1)
    (hle : numParams ≤ 2)
    (hslot : ∀ c ∈ H, isLabelReference c.1 → c.1.LexemesIndex < e.length)
    (h : LabelInvAt n H lexer e) :
    LabelInvAt n H { lexer with CurrentInstruction := instruction,
                                Parameters := some (List.replicate numParams 0) } e := by
  refine ⟨h.index, h.fits, h.counts, ?_, ?_, h.origin, h.unique, h.declared, ?_⟩
  rotate_right
  · intro params hps
    injection hps with hps
    rw [← hps, List.length_replicate]
    exact hle
  · intro hj
    rw [hnp hj]
    exact ⟨0, rfl⟩
  · intro c hc hr
    obtain ⟨_, hval⟩ := h.refs c hc hr
    have hlt := hslot c hc hr
    refine ⟨Or.inl hlt, ?_⟩
    rcases hval with ⟨v, hv, hh⟩ | hw
    · refine Or.inl ⟨v, hv, Or.inl ⟨hlt, ?_⟩⟩
      rcases hh with ⟨_, hget⟩ | ⟨heq, _⟩
      · exact hget
      · omega
    · exact Or.inr hw

theorem LabelInvAt_operand (n : Nat) (H : List (Lexer × List Nat)) (lexer : Lexer) (e : List Nat)
    (params : List Nat) (w : Nat) (hp : lexer.Parameters = some params)
    (hlt : lexer.ParametersIndex < params.length) (h : LabelInvAt n H lexer e) :
    LabelInvAt n H { lexer with
      Parameters := some (params.set lexer.ParametersIndex w),
      ParametersIndex := lexer.ParametersIndex + 1,
      NumParams := wrapInt8 (lexer.NumParams + 1) } e := by
  have hslot : ∀ c ∈ H, isLabelReference c.1 → c.1.LexemesIndex < e.length := by
    intro c hc hr
    rcases (h.refs c hc hr).1 with hl | ⟨_, hnp, p, hpp⟩
    · exact hl
    · rw [hp] at hpp
      injection hpp with hpp
      rw [hpp] at hlt
      have := h.counts
      simp at hlt
      omega
  have harity : ∀ ps, some (params.set lexer.ParametersIndex w) = some ps → ps.length ≤ 2 := by
    intro ps hps
    injection hps with hps
    rw [← hps, List.length_set]
    exact h.arity params hp
  refine ⟨h.index, h.fits, ?_, ?_, ?_, h.origin, h.unique, h.declared, harity⟩
  · exact wrapInt8_succ _ _ _ h.counts hlt (by have := h.arity params hp; omega)
  · intro hj
    obtain ⟨p, hpp⟩ := h.jump hj
    rw [hp] at hpp
    injection hpp with hpp
    subst hpp
    have h0 : lexer.ParametersIndex = 0 := by simpa using hlt
    exact ⟨w, by show some ([p].set lexer.ParametersIndex w) = some [w]; rw [h0]; rfl⟩
  · intro c hc hr
    obtain ⟨_, hval⟩ := h.refs c hc hr
    have hl := hslot c hc hr
    refine ⟨Or.inl hl, ?_⟩
    rcases hval with ⟨v, hv, hh⟩ | hw
    · refine Or.inl ⟨v, hv, Or.inl ⟨hl, ?_⟩⟩
      rcases hh with ⟨_, hget⟩ | ⟨heq, _⟩
      · exact hget
      · omega
    · exact Or.inr hw

theorem LabelInvAt_labelReference (n : Nat) (H : List (Lexer × List Nat)) (lexer lexer1 : Lexer)
    (buf e : List Nat) (hr : isLabelReference lexer)
    (hP : HandleLabelParameter lexer = Except.ok lexer1) (h : LabelInvAt n H lexer e) :
    LabelInvAt n (H ++ [(lexer, buf)]) lexer1 e := by
  obtain ⟨_, params, hp, hlt, hcases⟩ := HandleLabelParameter_frame _ _ hP
  obtain ⟨p, hpp⟩ := h.jump hr.2.2.2.2.1
  have hnp : lexer.NumParams = 0 := hr.2.2.2.2.2
  have hpi : lexer.ParametersIndex = 0 := by have := h.counts; omega
  rw [hp] at hpp
  injection hpp with hpp
  subst hpp
  have hset : ∀ w, [p].set lexer.ParametersIndex w = [w] := by
    intro w
    rw [hpi]
    rfl
  have harity : ∀ w ps, some ([p].set lexer.ParametersIndex w) = some ps → ps.length ≤ 2 := by
    intro w ps hps
    rw [hset] at hps
    injection hps with hps
    rw [← hps]
    exact Nat.le_succ 1
  have hone : wrapInt8 (lexer.NumParams + 1) = 1 := by rw [hnp]; rfl
  have hold : ∀ c ∈ H, isLabelReference c.1 → c.1.LexemesIndex < e.length := by
    intro c hc hrc
    rcases (h.refs c hc hrc).1 with hl | ⟨_, h1, _⟩
    · exact hl
    · omega
  have hmem : ∀ x, x ∈ H ++ [(lexer, buf)] → x ∈ H ∨ x = (lexer, buf) := by
    intro x hx
    rcases List.mem_append.mp hx with hx | hx
    · exact Or.inl hx
    · exact Or.inr (List.mem_singleton.mp hx)
  have hnew : (lexer, buf) ∈ H ++ [(lexer, buf)] :=
    List.mem_append_right _ (List.mem_singleton.mpr rfl)
  have hunique : ∀ c ∈ H ++ [(lexer, buf)], ∀ c1 ∈ H ++ [(lexer, buf)],
      isLabelReference c.1 → isLabelReference c1.1 →
      c.1.LexemesIndex = c1.1.LexemesIndex → c.1.BuiltString = c1.1.BuiltString := by
    intro x hx y hy hrx hry hxy
    rcases hmem x hx with hx | hx <;> rcases hmem y hy with hy | hy
    · exact h.unique x hx y hy hrx hry hxy
    · subst hy
      have := hold x hx hrx
      have hi := h.index
      simp only [] at hxy
      omega
    · subst hx
      have := hold y hy hry
      have hi := h.index
      simp only [] at hxy
      omega
    · subst hx hy
      rfl
  have hdeclared : ∀ (lti : List (Bytes × Nat)), lti = lexer.LabelToIndex →
      ∀ name v, mapGet lti name = some v → v ≤ e.length ∧
      ∃ d ∈ H ++ [(lexer, buf)], d.1.BuiltString = name ++ [58] ∧
        ∃ lx1 buf1, DumpCommand d.1 d.2 = Except.ok (lx1, buf1) ∧ lx1.LexemesIndex = v := by
    intro lti hlti name v hv
    rw [hlti] at hv
    obtain ⟨hle, d, hd, hd2⟩ := h.declared name v hv
    exact ⟨hle, d, List.mem_append_left _ hd, hd2⟩
  rcases hcases with ⟨v, hv, hl1⟩ | ⟨hnone, hl1⟩
  · subst hl1
    refine ⟨h.index, h.fits, ?_, ?_, ?_, ?_, hunique, hdeclared _ rfl, harity _⟩
    · exact wrapInt8_succ _ 1 _ h.counts (by omega) (by omega)
    · intro _
      exact ⟨v % 4294967296, by show some ([p].set lexer.ParametersIndex _) = _; rw [hset]⟩
    · intro c hc hrc
      rcases hmem c hc with hc | hc
      · obtain ⟨_, hval⟩ := h.refs c hc hrc
        have hl := hold c hc hrc
        refine ⟨Or.inl hl, ?_⟩
        rcases hval with ⟨v1, hv1, hh⟩ | hw
        · refine Or.inl ⟨v1, hv1, Or.inl ⟨hl, ?_⟩⟩
          rcases hh with ⟨_, hget⟩ | ⟨heq, _⟩
          · exact hget
          · omega
        · exact Or.inr hw
      · subst hc
        refine ⟨Or.inr ⟨h.index.symm, hone,
          v % 4294967296, by show some ([p].set lexer.ParametersIndex _) = _; rw [hset]⟩, ?_⟩
        exact Or.inl ⟨v, hv, Or.inr ⟨h.index.symm,
          by show some ([p].set lexer.ParametersIndex _) = _; rw [hset]⟩⟩
    · intro name val hval s hs
      obtain ⟨x, hx, hx2⟩ := h.origin name val hval s hs
      exact ⟨x, List.mem_append_left _ hx, hx2⟩
  · subst hl1
    refine ⟨h.index, h.fits, ?_, ?_, ?_, ?_, hunique, hdeclared _ rfl, harity _⟩
    · exact wrapInt8_succ _ 1 _ h.counts (by omega) (by omega)
    · intro _
      exact ⟨0, by show some ([p].set lexer.ParametersIndex _) = _; rw [hset]⟩
    · intro c hc hrc
      rcases hmem c hc with hc | hc
      · obtain ⟨_, hval⟩ := h.refs c hc hrc
        have hl := hold c hc hrc
        refine ⟨Or.inl hl, ?_⟩
        rcases hval with ⟨v1, hv1, hh⟩ | ⟨hn1, val, hval, hin⟩
        · refine Or.inl ⟨v1, hv1, Or.inl ⟨hl, ?_⟩⟩
          rcases hh with ⟨_, hget⟩ | ⟨heq, _⟩
          · exact hget
          · omega
        · refine Or.inr ⟨hn1, ?_⟩
          show ∃ val1, mapGet (mapSet lexer.LabelToInstructions lexer.BuiltString _)
            c.1.BuiltString = some val1 ∧ c.1.LexemesIndex ∈ val1
          rw [mapGet_mapSet]
          by_cases hk : lexer.BuiltString = c.1.BuiltString
          · rw [if_pos hk, hk, hval]
            exact ⟨_, rfl, List.mem_append_left _ hin⟩
          · rw [if_neg hk]
            exact ⟨val, hval, hin⟩
      · subst hc
        refine ⟨Or.inr ⟨h.index.symm, hone,
          0, by show some ([p].set lexer.ParametersIndex _) = _; rw [hset]⟩, ?_⟩
        refine Or.inr ⟨hnone, ?_⟩
        show ∃ val1, mapGet (mapSet lexer.LabelToInstructions lexer.BuiltString _)
          lexer.BuiltString = some val1 ∧ lexer.LexemesIndex ∈ val1
        rw [mapGet_mapSet, if_pos rfl]
        exact ⟨_, rfl, List.mem_append_right _ (List.mem_singleton.mpr rfl)⟩
    · intro name val hval s hs
      have hval1 : mapGet (mapSet lexer.LabelToInstructions lexer.BuiltString
          ((mapGet lexer.LabelToInstructions lexer.BuiltString).getD [] ++ [lexer.LexemesIndex]))
          name = some val := hval
      rw [mapGet_mapSet] at hval1
      by_cases hk : lexer.BuiltString = name
      · rw [if_pos hk] at hval1
        injection hval1 with hval1
        rw [← hval1] at hs
        rcases List.mem_append.mp hs with hs | hs
        · cases hw : mapGet lexer.LabelToInstructions lexer.BuiltString with
          | none => rw [hw] at hs; cases hs
          | some val0 =>
            rw [hw] at hs
            obtain ⟨x, hx, hx2⟩ := h.origin _ val0 hw s hs
            exact ⟨x, List.mem_append_left _ hx, hx2.1, hx2.2.1.trans hk, hx2.2.2⟩
        · rw [List.mem_singleton] at hs
          exact ⟨(lexer, buf), hnew, hr, hk, hs.symm⟩
      · rw [if_neg hk] at hval1
        obtain ⟨x, hx, hx2⟩ := h.origin name val hval1 s hs
        exact ⟨x, List.mem_append_left _ hx, hx2⟩

theorem LabelInvAt_decleration (n : Nat) (H : List (Lexer × List Nat)) (lexer : Lexer)
    (e : List Nat) (name built : Bytes)
    (hslot : ∀ c ∈ H, isLabelReference c.1 → c.1.LexemesIndex < e.length)
    (hzero : lexer.CurrentInstruction = 0)
    (habsent : mapGet lexer.LabelToIndex name = none)
    (hdecl : ∃ d ∈ H, d.1.BuiltString = name ++ [58] ∧
      ∃ lx1 buf1, DumpCommand d.1 d.2 = Except.ok (lx1, buf1) ∧ lx1.LexemesIndex = e.length)
    (h : LabelInvAt n H lexer e) :
    LabelInvAt n H
      { lexer with
        BuiltString := built,
        LabelToIndex := mapSet lexer.LabelToIndex name lexer.LexemesIndex,
        LabelToInstructions := mapDelete lexer.LabelToInstructions name,
        Parameters := none }
      (patch e ((mapGet lexer.LabelToInstructions name).getD [])
        (lexer.LexemesIndex % 4294967296)) := by
  have hlen := patch_length ((mapGet lexer.LabelToInstructions name).getD [])
    (lexer.LexemesIndex % 4294967296) e
  refine ⟨by rw [hlen]; exact h.index, by rw [hlen]; exact h.fits, h.counts, ?_, ?_, ?_,
    h.unique, ?_, fun ps hps => by cases hps⟩
  · intro hj
    have hj1 : lexer.CurrentInstruction = 0x40000011 ∨ lexer.CurrentInstruction = 0x40000012 := hj
    rw [hzero] at hj1
    rcases hj1 with hj1 | hj1 <;> cases hj1
  · intro c hc hrc
    have hl := hslot c hc hrc
    obtain ⟨_, hval⟩ := h.refs c hc hrc
    refine ⟨Or.inl (by rw [hlen]; exact hl), ?_⟩
    rcases hval with ⟨v, hv, hh⟩ | ⟨hn, val, hval, hin⟩
    · have hne : name ≠ c.1.BuiltString := by
        intro hk
        rw [hk, hv] at habsent
        cases habsent
      refine Or.inl ⟨v, ?_, Or.inl ⟨by rw [hlen]; exact hl, ?_⟩⟩
      · show mapGet (mapSet lexer.LabelToIndex name lexer.LexemesIndex) c.1.BuiltString = some v
        rw [mapGet_mapSet, if_neg hne]
        exact hv
      · have hnotin : c.1.LexemesIndex ∉ (mapGet lexer.LabelToInstructions name).getD [] := by
          intro hin
          cases hw : mapGet lexer.LabelToInstructions name with
          | none => rw [hw] at hin; cases hin
          | some val0 =>
            rw [hw] at hin
            obtain ⟨x, hx, hrx, hxn, hxs⟩ := h.origin name val0 hw _ hin
            have := h.unique x hx c hc hrx hrc hxs
            exact hne (hxn.symm.trans this)
        rw [patch_getElem?_not_mem _ _ _ _ hnotin]
        rcases hh with ⟨_, hget⟩ | ⟨heq, _⟩
        · exact hget
        · omega
    · by_cases hk : name = c.1.BuiltString
      · refine Or.inl ⟨lexer.LexemesIndex, ?_, Or.inl ⟨by rw [hlen]; exact hl, ?_⟩⟩
        · show mapGet (mapSet lexer.LabelToIndex name lexer.LexemesIndex) c.1.BuiltString = _
          rw [mapGet_mapSet, if_pos hk]
        · rw [hk, hval]
          exact patch_getElem?_mem val _ _ e hin hl
      · refine Or.inr ⟨?_, val, ?_, hin⟩
        · show mapGet (mapSet lexer.LabelToIndex name lexer.LexemesIndex) c.1.BuiltString = none
          rw [mapGet_mapSet, if_neg hk]
          exact hn
        · show mapGet (mapDelete lexer.LabelToInstructions name) c.1.BuiltString = some val
          rw [mapGet_mapDelete, if_neg hk]
          exact hval
  · intro name1 val hval s hs
    have hval1 : mapGet (mapDelete lexer.LabelToInstructions name) name1 = some val := hval
    rw [mapGet_mapDelete] at hval1
    by_cases hk : name = name1
    · rw [if_pos hk] at hval1
      cases hval1
    · rw [if_neg hk] at hval1
      exact h.origin name1 val hval1 s hs
  · intro name1 v hv
    have hv1 : mapGet (mapSet lexer.LabelToIndex name lexer.LexemesIndex) name1 = some v := hv
    rw [mapGet_mapSet] at hv1
    rw [hlen]
    by_cases hk : name = name1
    · rw [if_pos hk] at hv1
      injection hv1 with hv1
      subst hk
      obtain ⟨d, hd, hdb, lx1, buf1, hD, hidx⟩ := hdecl
      refine ⟨by rw [← hv1, h.index], d, hd, hdb, lx1, buf1, hD, ?_⟩
      rw [hidx, h.index, hv1]
    · rw [if_neg hk] at hv1
      exact h.declared name1 v hv1

theorem ite_some_pair (c : Prop) [Decidable c] (a b i k : Nat) (rest : Option (Nat × Nat))
    (h : (if c then some (a, b) else rest) = some (i, k)) :
    (a = i ∧ b = k) ∨ rest = some (i, k) := by
  by_cases hc : c
  · rw [if_pos hc] at h
    injection h with h
    injection h with h1 h2
    exact Or.inl ⟨h1, h2⟩
  · rw [if_neg hc] at h
    exact Or.inr h

theorem mnemonic_jump (s : Bytes) (instruction numParams : Nat)
    (h : mnemonic s = some (instruction, numParams))
    (hj : instruction = 0x40000011 ∨ instruction = 0x40000012) : numParams = 1 := by
  unfold mnemonic at h
  iterate 19 (rcases ite_some_pair _ _ _ _ _ _ h with ⟨h1, h2⟩ | h; omega)
  cases h

theorem mnemonic_arity_le (s : Bytes) (instruction numParams : Nat)
    (h : mnemonic s = some (instruction, numParams)) : numParams ≤ 2 := by
  unfold mnemonic at h
  iterate 19 (rcases ite_some_pair _ _ _ _ _ _ h with ⟨h1, h2⟩ | h; omega)
  cases h

theorem DumpCommand_padded_ok (n : Nat) (lexer lexer1 : Lexer) (e lexemes1 : List Nat)
    (he : e.length ≤ n) (hidx : e.length = lexer.LexemesIndex)
    (h : DumpCommand lexer (padded n e) = Except.ok (lexer1, lexemes1)) :
    lexer1 = flushed lexer (pendingWords lexer).length ∧
    lexemes1 = padded n (e ++ pendingWords lexer) ∧
    (e ++ pendingWords lexer).length ≤ n := by
  rw [DumpCommand_padded n lexer e he hidx.symm] at h
  cases hp : lexer.Parameters with
  | none =>
    rw [hp] at h
    simp only [] at h
    injection h with h
    injection h with h1 h2
    have hw : pendingWords lexer = [] := by unfold pendingWords; rw [hp]
    rw [hw, List.append_nil]
    exact ⟨h1.symm, h2.symm, he⟩
  | some params =>
    rw [hp] at h
    simp only [] at h
    split at h
    · cases h
    · split at h
      · rename_i hfit
        injection h with h
        injection h with h1 h2
        have hw : pendingWords lexer = params ++ [lexer.CurrentInstruction] := by
          unfold pendingWords; rw [hp]
        refine ⟨?_, h2.symm, ?_⟩
        · rw [← h1, hw, List.length_append, List.length_singleton]
        · rw [hw]
          simp only [List.length_append, List.length_singleton]
          omega
      · cases h

theorem LabelInv_core (n : Nat) (H : List (Lexer × List Nat)) (lexer lexer1 : Lexer)
    (lexemes : List Nat) (hc : lexCore lexer1 = lexCore lexer) (h : LabelInv n H lexer lexemes) :
    LabelInv n H lexer1 lexemes := by
  obtain ⟨e, hbuf, hinv⟩ := h
  simp only [lexCore, Prod.mk.injEq] at hc
  obtain ⟨h1, h2, h3, h4, h5, h6, h7⟩ := hc
  refine ⟨e, hbuf, ⟨?_, hinv.fits, ?_, ?_, ?_, ?_, hinv.unique, ?_, ?_⟩⟩
  · rw [h4]; exact hinv.index
  · rw [h2, h5]; exact hinv.counts
  · rw [h3, h1]; exact hinv.jump
  · intro c hcm hr
    have := hinv.refs c hcm hr
    simp only [refSettled, slotPending, slotHolds, h1, h5, h6, h7] at this ⊢
    exact this
  · rw [h7]; exact hinv.origin
  · rw [h6]; exact hinv.declared
  · rw [h1]; exact hinv.arity

theorem LabelInv_GetCommand (n : Nat) (H : List (Lexer × List Nat)) (lexer lexer1 : Lexer)
    (lexemes lexemes1 : List Nat) (hQ : LabelInv n H lexer lexemes)
    (hG : GetCommand lexer lexemes = Except.ok (lexer1, lexemes1)) :
    LabelInv n (H ++ [(lexer, lexemes)]) lexer1 lexemes1 := by
  obtain ⟨e, hbuf, hinv⟩ := hQ
  subst hbuf
  rcases GetCommand_cases _ _ _ _ hG with
    ⟨hlast, lxd, bufd, lx2, hD, hH, hl1⟩ | ⟨hnr, _, hb, w, params, hp, hlt, hl1⟩ |
    ⟨hr, hb, hP⟩ | ⟨hnr, _, lxd, instruction, numParams, hD, hm, hl1⟩
  · -- label declaration
    have hnr : ¬ isLabelReference (lexer, padded n e).1 := fun hr => hr.1 hlast
    have hinv1 := LabelInvAt_snoc n H lexer e (lexer, padded n e) hnr hinv
    obtain ⟨hlxd, hbufd, hfit⟩ := DumpCommand_padded_ok n _ _ _ _ hinv.fits hinv.index hD
    obtain ⟨hinv2, hslot⟩ := LabelInvAt_flush n _ lexer e hfit hinv1
    subst hlxd hbufd
    obtain ⟨_, habsent, hback, hl2⟩ := HandleLabelDecleration_frame _ _ _ _ hH
    have hwait : ∀ s ∈ (mapGet (flushed lexer (pendingWords lexer).length).LabelToInstructions
        (flushed lexer (pendingWords lexer).length).BuiltString.dropLast).getD [],
        s < (e ++ pendingWords lexer).length := by
      intro s hs
      cases hw : mapGet (flushed lexer (pendingWords lexer).length).LabelToInstructions
          (flushed lexer (pendingWords lexer).length).BuiltString.dropLast with
      | none => rw [hw] at hs; cases hs
      | some val =>
        rw [hw] at hs
        obtain ⟨x, hx, hrx, _, hxs⟩ := hinv2.origin _ val hw s hs
        rw [← hxs]
        exact hslot x hx hrx
    rw [backpatch_padded n _ _ _ hfit hwait] at hback
    injection hback with hback
    refine ⟨_, hback.symm, ?_⟩
    rw [hl1, hl2]
    refine LabelInvAt_decleration n _ (flushed lexer (pendingWords lexer).length) _
      lexer.BuiltString.dropLast lexer.BuiltString.dropLast hslot rfl habsent ?_ hinv2
    refine ⟨(lexer, padded n e), List.mem_append_right _ (List.mem_singleton.mpr rfl), ?_,
      _, _, hD, hinv2.index.symm⟩
    exact (List.dropLast_append_getLast? 58 (by rw [hlast]; exact rfl)).symm
  · -- integer or register operand
    subst hb
    have hinv1 := LabelInvAt_snoc n H lexer e (lexer, padded n e) hnr hinv
    refine ⟨e, rfl, ?_⟩
    rw [hl1]
    exact LabelInvAt_operand n _ lexer e params w hp hlt hinv1
  · -- label reference
    subst hb
    exact ⟨e, rfl, LabelInvAt_labelReference n H lexer lexer1 _ e hr hP hinv⟩
  · -- mnemonic
    have hinv1 := LabelInvAt_snoc n H lexer e (lexer, padded n e) hnr hinv
    obtain ⟨hlxd, hbufd, hfit⟩ := DumpCommand_padded_ok n _ _ _ _ hinv.fits hinv.index hD
    obtain ⟨hinv2, hslot⟩ := LabelInvAt_flush n _ lexer e hfit hinv1
    subst hlxd hbufd
    refine ⟨_, rfl, ?_⟩
    rw [hl1]
    exact LabelInvAt_mnemonic n _ _ _ instruction numParams (mnemonic_jump _ _ _ hm)
      (mnemonic_arity_le _ _ _ hm) hslot hinv2

/-! ### Assembly: the returned buffer and the label operands -/

theorem assemble_eq (source : Bytes) :
    assemble source =
      lexLoop (source ++ [10]) (2 * (source ++ [10]).length + 3) startLexer
        (List.replicate (source ++ [10]).length 0) := by
  unfold assemble Lex
  simp only []
  rw [if_neg (by simp)]
  rfl

theorem LabelInv_start (n : Nat) : LabelInv n [] startLexer (List.replicate n 0) := by
  refine ⟨[], by simp [padded], ⟨rfl, Nat.zero_le _, rfl, ?_, ?_, ?_, ?_, ?_, ?_⟩⟩
  · intro hj
    rcases hj with hj | hj <;> cases hj
  · intro c hc; cases hc
  · intro name val hv; cases hv
  · intro c hc; cases hc
  · intro name v hv; cases hv
  · intro ps hps; cases hps

theorem lexEnd_labels (n : Nat) (T : List (Lexer × List Nat)) (lxE : Lexer)
    (bufE out : List Nat) (hQ : LabelInv n T lxE bufE) (hE : lexEnd lxE bufE = Except.ok out) :
    ∃ prog, prog.length < n ∧ out = padded n (prog ++ [0x40000000]) ∧
      ∀ c ∈ T, isLabelReference c.1 →
        ∃ v, v ≤ prog.length ∧ out[c.1.LexemesIndex]? = some (v % 4294967296) ∧
          ∃ d ∈ T, d.1.BuiltString = c.1.BuiltString ++ [58] ∧
            ∃ lx1 buf1, DumpCommand d.1 d.2 = Except.ok (lx1, buf1) ∧ lx1.LexemesIndex = v := by
  obtain ⟨e, hbuf, hinv⟩ := hQ
  subst hbuf
  unfold lexEnd at hE
  cases hD : DumpCommand lxE (padded n e) with
  | error err => rw [hD] at hE; cases hE
  | ok r =>
    obtain ⟨lxd, bufd⟩ := r
    rw [hD] at hE
    simp only [] at hE
    obtain ⟨hlxd, hbufd, hfit⟩ := DumpCommand_padded_ok n _ _ _ _ hinv.fits hinv.index hD
    obtain ⟨hinv2, hslot⟩ := LabelInvAt_flush n _ lxE e hfit hinv
    subst hlxd hbufd
    unfold VerifyLabelResolution at hE
    by_cases hlen : (flushed lxE (pendingWords lxE).length).LabelToInstructions.length > 0
    · rw [if_pos hlen] at hE
      cases hE
    · rw [if_neg hlen] at hE
      simp only [] at hE
      rw [← hinv2.index] at hE
      have hlt : (e ++ pendingWords lxE).length < n := by
        by_contra hcon
        rw [writeWord_full n _ _ (by omega)] at hE
        cases hE
      rw [writeWord_end n _ _ hlt] at hE
      injection hE with hE
      refine ⟨e ++ pendingWords lxE, hlt, hE.symm, ?_⟩
      intro c hc hr
      obtain ⟨_, hval⟩ := hinv2.refs c hc hr
      have hs := hslot c hc hr
      rcases hval with ⟨v, hv, hh⟩ | ⟨_, val, hval, _⟩
      · obtain ⟨hle, hd⟩ := hinv2.declared _ v hv
        refine ⟨v, hle, ?_, hd⟩
        rw [← hE]
        unfold padded
        rw [List.getElem?_append_left (by rw [List.length_append]; omega),
          List.getElem?_append_left hs]
        rcases hh with ⟨_, hget⟩ | ⟨heq, _⟩
        · exact hget
        · omega
      · have := mapGet_of_length_zero
          (flushed lxE (pendingWords lxE).length).LabelToInstructions c.1.BuiltString hlen
        rw [this] at hval
        cases hval

theorem assemble_labels (source out : Bytes) (h : assemble source = some (Except.ok out)) :
    ∃ prog, prog.length ≤ source.length ∧
      out = prog ++ [0x40000000] ++ List.replicate (source.length - prog.length) 0 ∧
      ∀ c ∈ assembleTrace source, isLabelReference c.1 →
        ∃ v, v ≤ prog.length ∧ out[c.1.LexemesIndex]? = some (v % 4294967296) ∧
          ∃ d ∈ assembleTrace source, d.1.BuiltString = c.1.BuiltString ++ [58] ∧
            ∃ lx1 buf1, DumpCommand d.1 d.2 = Except.ok (lx1, buf1) ∧ lx1.LexemesIndex = v := by
  rw [assemble_eq] at h
  obtain ⟨lxE, bufE, hQ, hE⟩ := lexLoop_invariant (source ++ [10])
    (LabelInv (source ++ [10]).length)
    (fun H lx lx1 buf hc hq => LabelInv_core _ H lx lx1 buf hc hq)
    (fun H lx lx1 buf buf1 hq hg => LabelInv_GetCommand _ H lx lx1 buf buf1 hq hg)
    _ [] startLexer _ out (LabelInv_start _) h
  rw [List.nil_append] at hQ
  obtain ⟨prog, hlt, hout, hrefs⟩ := lexEnd_labels _ _ _ _ _ hQ hE
  have hn : (source ++ [10]).length = source.length + 1 := by simp
  rw [hn] at hlt
  refine ⟨prog, by omega, ?_, hrefs⟩
  rw [hout, hn]
  unfold padded
  rw [List.length_append, List.length_singleton,
    show source.length + 1 - (prog.length + 1) = source.length - prog.length from by omega]

/-! ### The returned buffer (C2) and label resolution (C5) -/

/-- C5. If `Lex` succeeds on a source (shorter than `2^32` bytes, so that an index
fits the 32-bit operand word), then for every call of `GetCommand` that takes its
token as the label operand of a JMP or JMPF there is a call whose token is that
label followed by `:` (the declaration, before or after the reference), and the
word of the returned buffer at the operand slot of the reference equals the
emission index right after the flush made by the declaration, which is at most
the index of the terminating HALT word. In particular a label that is referenced
and never declared makes assembly fail. -/
theorem label_references_resolved (source out : List Nat)
    (hsize : source.length < 4294967296)
    (h : assemble source = some (Except.ok out)) :
    ∃ prog, out = prog ++ [0x40000000] ++ List.replicate (source.length - prog.length) 0 ∧
      ∀ call ∈ assembleTrace source, isLabelReference call.1 →
        ∃ decl ∈ assembleTrace source, decl.1.BuiltString = call.1.BuiltString ++ [58] ∧
          ∃ lx1 buf1, DumpCommand decl.1 decl.2 = Except.ok (lx1, buf1) ∧
            out[call.1.LexemesIndex]? = some lx1.LexemesIndex ∧
            lx1.LexemesIndex ≤ prog.length := by
  obtain ⟨prog, hlen, hout, hrefs⟩ := assemble_labels source out h
  refine ⟨prog, hout, ?_⟩
  intro call hcall hr
  obtain ⟨v, hv, hget, d, hd, hname, lx1, buf1, hD, hidx⟩ := hrefs call hcall hr
  refine ⟨d, hd, hname, lx1, buf1, hD, ?_, by rw [hidx]; exact hv⟩
  rw [hget, hidx, Nat.mod_eq_of_lt (by omega)]

theorem label_references_resolved_witness :
    ∃ prog, [0, 0x40000011, 4, 0x40000011, 0x40000000, 0x40000000, 0, 0, 0, 0, 0, 0, 0, 0, 0, 0,
        0, 0, 0, 0, 0, 0, 0, 0, 0, 0, 0] =
        prog ++ [0x40000000] ++
          List.replicate ((ascii "ab: JMP ab JMP cd cd: HALT").length - prog.length) 0 ∧
      ∀ call ∈ assembleTrace (ascii "ab: JMP ab JMP cd cd: HALT"), isLabelReference call.1 →
        ∃ decl ∈ assembleTrace (ascii "ab: JMP ab JMP cd cd: HALT"),
          decl.1.BuiltString = call.1.BuiltString ++ [58] ∧
          ∃ lx1 buf1, DumpCommand decl.1 decl.2 = Except.ok (lx1, buf1) ∧
            ([0, 0x40000011, 4, 0x40000011, 0x40000000, 0x40000000, 0, 0, 0, 0, 0, 0, 0, 0, 0, 0,
              0, 0, 0, 0, 0, 0, 0, 0, 0, 0, 0] : List Nat)[call.1.LexemesIndex]? = some lx1.LexemesIndex ∧
            lx1.LexemesIndex ≤ prog.length :=
  label_references_resolved (ascii "ab: JMP ab JMP cd cd: HALT") _ (by decide) (by rfl)

/-- A reference to a label that is never declared: assembly stops with the
unresolved-labels diagnostic. -/
theorem undeclared_label_fails :
    assemble (ascii "JMP ab") = some (Except.error LexError.unresolvedLabels) := by rfl

/-! ### Scanning: whitespace and tokens -/

theorem Reaches_refl (data : Bytes) (lexer : Lexer) (lexemes : List Nat) :
    Reaches data 0 lexer lexemes lexer lexemes := fun _ => rfl

theorem Reaches_step (data : Bytes) (lexer lexer1 : Lexer) (lexemes lexemes1 : List Nat)
    (h : lexStep data lexer lexemes = Except.ok (LoopStep.next lexer1 lexemes1)) :
    Reaches data 1 lexer lexemes lexer1 lexemes1 := by
  intro fuel
  rw [lexLoop_succ, h]

theorem Reaches_trans (data : Bytes) (k1 k2 : Nat) (lx1 lx2 lx3 : Lexer) (b1 b2 b3 : List Nat)
    (h1 : Reaches data k1 lx1 b1 lx2 b2) (h2 : Reaches data k2 lx2 b2 lx3 b3) :
    Reaches data (k2 + k1) lx1 b1 lx3 b3 := by
  intro fuel
  rw [← Nat.add_assoc, h1, h2]

theorem sliceIs_of_ne (data : Bytes) (i c c1 c2 : Nat) (hc : data[i]? = some c) (hne : c ≠ c1) :
    sliceIs data i c1 c2 ≠ some true := by
  unfold sliceIs
  split
  · intro h
    injection h with h
    have hd : data.getD i 0 = c := by simp [List.getD, hc]
    rw [hd] at h
    simp [hne] at h
  · intro h; cases h

theorem advance_plain (data : Bytes) (lexer : Lexer) (c : Nat)
    (hc : data[lexer.Index]? = some c) (h13 : c ≠ 13) (h10 : c ≠ 10) :
    advance data lexer = Except.ok { lexer with Index := lexer.Index + 1 } := by
  unfold advance
  rw [if_neg (fun h => sliceIs_of_ne data _ c 13 10 hc h13 h.2), hc]
  simp only []
  rw [if_neg h10]

theorem advance_whitespace (data : Bytes) (lexer : Lexer) (c : Nat)
    (hc : data[lexer.Index]? = some c) :
    ∃ lexer1, advance data lexer = Except.ok lexer1 ∧
      lexer1.Current_State = lexer.Current_State ∧ lexCore lexer1 = lexCore lexer ∧
      lexer1.BuiltString = lexer.BuiltString ∧
      (lexer1.Index = lexer.Index + 1 ∨
        (lexer1.Index = lexer.Index + 2 ∧ c = 13 ∧ data[lexer.Index + 1]? = some 10)) := by
  unfold advance
  by_cases hcr : lexer.Index + 1 < data.length ∧ sliceIs data lexer.Index 13 10 = some true
  · rw [if_pos hcr]
    refine ⟨_, rfl, rfl, rfl, rfl, Or.inr ⟨rfl, ?_, ?_⟩⟩
    · by_contra hne
      exact sliceIs_of_ne data _ c 13 10 hc hne hcr.2
    · have h2 := hcr.2
      unfold sliceIs at h2
      split at h2
      · injection h2 with h2
        simp only [decide_eq_true_eq] at h2
        have h3 := h2.2
        rw [List.getD_eq_getElem?_getD, List.getElem?_eq_getElem hcr.1] at h3
        rw [List.getElem?_eq_getElem hcr.1]
        exact congrArg some h3
      · cases h2
  · rw [if_neg hcr, hc]
    simp only []
    split
    · exact ⟨_, rfl, rfl, rfl, rfl, Or.inl rfl⟩
    · exact ⟨_, rfl, rfl, rfl, rfl, Or.inl rfl⟩

theorem lexStep_advance (data : Bytes) (lexer lexer1 lexer2 : Lexer)
    (lexemes lexemes1 : List Nat)
    (hidx : lexer.Index < data.length) (hst : lexer.Current_State ≠ State.END)
    (hS : lexSwitch data lexer lexemes = Except.ok (lexer1, lexemes1, false))
    (hA : advance data lexer1 = Except.ok lexer2) :
    lexStep data lexer lexemes = Except.ok (LoopStep.next lexer2 lexemes1) := by
  unfold lexStep
  rw [if_neg (by
    intro h
    rcases h with h | h
    · omega
    · exact hst h), hS]
  simp only [hA]
  rfl

theorem lexStep_dumping (data : Bytes) (lexer lexer1 : Lexer) (lexemes lexemes1 : List Nat)
    (hidx : lexer.Index < data.length) (hst : lexer.Current_State ≠ State.END)
    (hS : lexSwitch data lexer lexemes = Except.ok (lexer1, lexemes1, true)) :
    lexStep data lexer lexemes = Except.ok (LoopStep.next lexer1 lexemes1) := by
  unfold lexStep
  rw [if_neg (by
    intro h
    rcases h with h | h
    · omega
    · exact hst h), hS]
  rfl

theorem lexSwitch_START_whitespace (data : Bytes) (lexer : Lexer) (lexemes : List Nat) (c : Nat)
    (hc : data[lexer.Index]? = some c) (hst : lexer.Current_State = State.START)
    (hws : IsWhitespace c = true) :
    lexSwitch data lexer lexemes = Except.ok ({ lexer with BuiltString := [] }, lexemes, false) := by
  unfold lexSwitch
  rw [hc]
  simp only [hst]
  rw [if_pos hws]

theorem lexSwitch_START_token (data : Bytes) (lexer : Lexer) (lexemes : List Nat) (c : Nat)
    (hc : data[lexer.Index]? = some c) (hst : lexer.Current_State = State.START)
    (hws : IsWhitespace c = false) (h47 : c ≠ 47) (h128 : c < 128) :
    lexSwitch data lexer lexemes =
      Except.ok ({ lexer with BuiltString := [c], Current_State := State.BUILDCOMM },
        lexemes, false) := by
  unfold lexSwitch
  rw [hc]
  simp only [hst]
  rw [if_neg (by rw [hws]; decide), if_neg h47]
  simp only [byteToString, if_pos h128, List.nil_append]

theorem lexSwitch_BUILDCOMM_byte (data : Bytes) (lexer : Lexer) (lexemes : List Nat) (c : Nat)
    (hc : data[lexer.Index]? = some c) (hst : lexer.Current_State = State.BUILDCOMM)
    (hws : IsWhitespace c = false) (h58 : c ≠ 58) (h128 : c < 128)
    (hlast : lexer.Index + 1 ≠ data.length) :
    lexSwitch data lexer lexemes =
      Except.ok ({ lexer with BuiltString := lexer.BuiltString ++ [c] }, lexemes, false) := by
  unfold lexSwitch
  rw [hc]
  simp only [hst]
  rw [if_neg (by rw [hws]; simp [h58])]
  simp only [byteToString, if_pos h128]
  rw [if_neg hlast]

theorem lexSwitch_BUILDCOMM_whitespace (data : Bytes) (lexer : Lexer) (lexemes : List Nat)
    (c : Nat) (hc : data[lexer.Index]? = some c) (hst : lexer.Current_State = State.BUILDCOMM)
    (hws : IsWhitespace c = true) :
    lexSwitch data lexer lexemes =
      Except.ok ({ lexer with Current_State := State.DUMP }, lexemes, true) := by
  have h58 : c ≠ 58 := by
    intro h
    rw [h] at hws
    exact absurd hws (by decide)
  unfold lexSwitch
  rw [hc]
  simp only [hst]
  rw [if_pos (Or.inl hws), if_neg h58]

theorem lexSwitch_DUMP (data : Bytes) (lexer lexer1 : Lexer) (lexemes lexemes1 : List Nat)
    (c : Nat) (hc : data[lexer.Index]? = some c) (hst : lexer.Current_State = State.DUMP)
    (hG : GetCommand lexer lexemes = Except.ok (lexer1, lexemes1)) :
    lexSwitch data lexer lexemes =
      Except.ok ({ lexer1 with Current_State := State.START }, lexemes1, false) := by
  unfold lexSwitch
  rw [hc]
  simp only [hst, hG]

theorem getElem?_after_prefix (pre rest : Bytes) (c : Nat) :
    (pre ++ c :: rest)[pre.length]? = some c := by
  rw [List.getElem?_append_right (Nat.le_refl _), Nat.sub_self]
  exact List.getElem?_cons_zero

theorem skip_whitespace (data : Bytes) (lexemes : List Nat) :
    ∀ (n : Nat) (ws pre rest : Bytes) (lexer : Lexer), ws.length ≤ n →
      data = pre ++ ws ++ rest → allWhitespace ws →
      (rest = [] ∨ ∃ c r, rest = c :: r ∧ c ≠ 10) →
      lexer.Index = pre.length → lexer.Current_State = State.START →
      ∃ k lexer1, Reaches data k lexer lexemes lexer1 lexemes ∧
        lexer1.Index = (pre ++ ws).length ∧ lexer1.Current_State = State.START ∧
        lexCore lexer1 = lexCore lexer := by
  intro n
  induction n with
  | zero =>
    intro ws pre rest lexer hn hdata _ _ hidx hst
    have : ws = [] := List.length_eq_zero.mp (by omega)
    subst this
    exact ⟨0, lexer, Reaches_refl _ _ _, by rw [List.append_nil]; exact hidx, hst, rfl⟩
  | succ n ih =>
    intro ws pre rest lexer hn hdata hws hrest hidx hst
    cases ws with
    | nil => exact ⟨0, lexer, Reaches_refl _ _ _, by rw [List.append_nil]; exact hidx, hst, rfl⟩
    | cons c ws1 =>
      have hc : data[lexer.Index]? = some c := by
        rw [hdata, hidx, List.append_assoc, List.cons_append]
        exact getElem?_after_prefix _ _ _
      have hlt : lexer.Index < data.length := by
        rw [hdata, hidx]
        simp only [List.length_append, List.length_cons]
        omega
      have hcw : IsWhitespace c = true := hws c (List.mem_cons_self _ _)
      have hS := lexSwitch_START_whitespace data lexer lexemes c hc hst hcw
      obtain ⟨lx1, hA, hst1, hcore1, _, hcase⟩ :=
        advance_whitespace data { lexer with BuiltString := [] } c hc
      have hstep := lexStep_advance data lexer _ lx1 lexemes lexemes hlt
        (by rw [hst]; decide) hS hA
      have hR1 := Reaches_step _ _ _ _ _ hstep
      rcases hcase with h1 | ⟨h2, hc13, hnext⟩
      · obtain ⟨k, lx2, hR2, hi2, hs2, hc2⟩ := ih ws1 (pre ++ [c]) rest lx1
          (by simp only [List.length_cons] at hn; omega)
          (by rw [hdata]; simp)
          (fun x hx => hws x (List.mem_cons_of_mem _ hx)) hrest
          (by rw [h1]; show lexer.Index + 1 = _; rw [hidx]; simp)
          (by rw [hst1]; exact hst)
        refine ⟨k + 1, lx2, Reaches_trans _ _ _ _ _ _ _ _ _ hR1 hR2, ?_, hs2, hc2.trans hcore1⟩
        rw [hi2]
        simp
      · have hnext1 : (ws1 ++ rest)[0]? = some 10 := by
          have : data[lexer.Index + 1]? = (ws1 ++ rest)[0]? := by
            rw [hdata, hidx, List.append_assoc, List.cons_append,
              List.getElem?_append_right (by omega)]
            rw [show pre.length + 1 - pre.length = 1 from by omega]
            exact List.getElem?_cons_succ
          rw [← this]
          exact hnext
        cases ws1 with
        | nil =>
          exfalso
          rcases hrest with hr | ⟨c1, r, hr, hne⟩
          · rw [hr] at hnext1
            simp at hnext1
          · rw [hr] at hnext1
            simp at hnext1
            exact hne hnext1
        | cons c2 ws2 =>
          have hc2 : c2 = 10 := by
            simpa using hnext1
          subst hc2
          obtain ⟨k, lx2, hR2, hi2, hs2, hcc2⟩ := ih ws2 (pre ++ [c, 10]) rest lx1
            (by simp only [List.length_cons] at hn; omega)
            (by rw [hdata]; simp)
            (fun x hx => hws x (List.mem_cons_of_mem _ (List.mem_cons_of_mem _ hx))) hrest
            (by rw [h2]; show lexer.Index + 2 = _; rw [hidx]; simp)
            (by rw [hst1]; exact hst)
          refine ⟨k + 1, lx2, Reaches_trans _ _ _ _ _ _ _ _ _ hR1 hR2, ?_, hs2,
            hcc2.trans hcore1⟩
          rw [hi2]
          simp

theorem build_token (data : Bytes) (lexemes : List Nat) :
    ∀ (more acc pre rest : Bytes) (w : Nat) (lexer : Lexer),
      data = pre ++ acc ++ more ++ w :: rest →
      (∀ c ∈ more, IsWhitespace c = false ∧ c ≠ 58 ∧ c < 128) →
      lexer.Index = (pre ++ acc).length → lexer.BuiltString = acc →
      lexer.Current_State = State.BUILDCOMM →
      ∃ lexer1, Reaches data more.length lexer lexemes lexer1 lexemes ∧
        lexer1.Index = (pre ++ acc ++ more).length ∧ lexer1.BuiltString = acc ++ more ∧
        lexer1.Current_State = State.BUILDCOMM ∧ lexCore lexer1 = lexCore lexer := by
  intro more
  induction more with
  | nil =>
    intro acc pre rest w lexer _ _ hidx hb hst
    exact ⟨lexer, Reaches_refl _ _ _, by rw [List.append_nil]; exact hidx,
      by rw [List.append_nil]; exact hb, hst, rfl⟩
  | cons c more1 ih =>
    intro acc pre rest w lexer hdata hclean hidx hb hst
    obtain ⟨hcw, hc58, hc128⟩ := hclean c (List.mem_cons_self _ _)
    have hc : data[lexer.Index]? = some c := by
      rw [hdata, hidx, List.append_assoc (pre ++ acc), List.cons_append]
      exact getElem?_after_prefix _ _ _
    have hlen : data.length = (pre ++ acc).length + (more1.length + 1 + (rest.length + 1)) := by
      rw [hdata]
      simp only [List.length_append, List.length_cons]
      omega
    have hlt : lexer.Index < data.length := by omega
    have hS := lexSwitch_BUILDCOMM_byte data lexer lexemes c hc hst hcw hc58 hc128 (by omega)
    have hc13 : c ≠ 13 := by
      intro h; rw [h] at hcw; exact absurd hcw (by decide)
    have hc10 : c ≠ 10 := by
      intro h; rw [h] at hcw; exact absurd hcw (by decide)
    have hA := advance_plain data { lexer with BuiltString := lexer.BuiltString ++ [c] } c hc
      hc13 hc10
    have hstep := lexStep_advance data lexer _ _ lexemes lexemes hlt (by rw [hst]; decide) hS hA
    have hR1 := Reaches_step _ _ _ _ _ hstep
    obtain ⟨lx2, hR2, hi2, hb2, hs2, hc2⟩ := ih (acc ++ [c]) pre rest w
      { lexer with BuiltString := lexer.BuiltString ++ [c], Index := lexer.Index + 1 }
      (by rw [hdata]; simp)
      (fun x hx => hclean x (List.mem_cons_of_mem _ hx))
      (by
        show lexer.Index + 1 = _
        rw [hidx]
        simp only [List.length_append, List.length_singleton]
        omega)
      (by show lexer.BuiltString ++ [c] = _; rw [hb])
      hst
    refine ⟨lx2, ?_, ?_, ?_, hs2, hc2⟩
    · have := Reaches_trans _ _ _ _ _ _ _ _ _ hR1 hR2
      simpa using this
    · rw [hi2]; simp
    · rw [hb2]; simp

theorem reach_dump (data : Bytes) (lexemes : List Nat) (tok pre rest : Bytes) (w : Nat)
    (lexer : Lexer) (hdata : data = pre ++ tok ++ w :: rest) (hclean : cleanToken tok)
    (hw : IsWhitespace w = true)
    (hidx : lexer.Index = pre.length) (hst : lexer.Current_State = State.START) :
    ∃ k lexerD, Reaches data k lexer lexemes lexerD lexemes ∧
      lexerD.Current_State = State.DUMP ∧ lexerD.BuiltString = tok ∧
      lexCore lexerD = lexCore lexer ∧ lexerD.Index = (pre ++ tok).length ∧
      data[lexerD.Index]? = some w ∧ lexerD.Index < data.length := by
  obtain ⟨hne, hhead, hbytes⟩ := hclean
  cases tok with
  | nil => exact absurd rfl hne
  | cons c more =>
    obtain ⟨hcw, hc58, hc128⟩ := hbytes c (List.mem_cons_self _ _)
    have hc47 : c ≠ 47 := fun h => hhead (by rw [h]; rfl)
    have hc : data[lexer.Index]? = some c := by
      rw [hdata, hidx, List.append_assoc, List.cons_append]
      exact getElem?_after_prefix _ _ _
    have hlen : data.length = pre.length + (more.length + 1 + (rest.length + 1)) := by
      rw [hdata]
      simp only [List.length_append, List.length_cons]
      omega
    have hS := lexSwitch_START_token data lexer lexemes c hc hst hcw hc47 hc128
    have hc13 : c ≠ 13 := by
      intro h; rw [h] at hcw; exact absurd hcw (by decide)
    have hc10 : c ≠ 10 := by
      intro h; rw [h] at hcw; exact absurd hcw (by decide)
    have hA := advance_plain data
      { lexer with BuiltString := [c], Current_State := State.BUILDCOMM } c hc hc13 hc10
    have hstep1 := lexStep_advance data lexer _ _ lexemes lexemes (by omega)
      (by rw [hst]; decide) hS hA
    have hR1 := Reaches_step _ _ _ _ _ hstep1
    obtain ⟨lx2, hR2, hi2, hb2, hs2, hc2⟩ := build_token data lexemes more [c] pre rest w
      { lexer with BuiltString := [c], Current_State := State.BUILDCOMM,
                   Index := lexer.Index + 1 }
      (by rw [hdata]; simp)
      (fun x hx => hbytes x (List.mem_cons_of_mem _ hx))
      (by show lexer.Index + 1 = _; rw [hidx]; simp)
      rfl rfl
    have hi2a : lx2.Index = pre.length + (more.length + 1) := by
      rw [hi2]
      simp only [List.length_append, List.length_singleton]
      omega
    have hcw2 : data[lx2.Index]? = some w := by
      rw [hdata, hi2a]
      have := getElem?_after_prefix (pre ++ c :: more) rest w
      simp only [List.length_append, List.length_cons] at this
      exact this
    have hS3 := lexSwitch_BUILDCOMM_whitespace data lx2 lexemes w hcw2 hs2 hw
    have hstep3 := lexStep_dumping data lx2 _ lexemes lexemes (by omega)
      (by rw [hs2]; decide) hS3
    have hR3 := Reaches_step _ _ _ _ _ hstep3
    refine ⟨_, { lx2 with Current_State := State.DUMP },
      Reaches_trans _ _ _ _ _ _ _ _ _ (Reaches_trans _ _ _ _ _ _ _ _ _ hR1 hR2) hR3,
      rfl, ?_, hc2, ?_, hcw2, ?_⟩
    · show lx2.BuiltString = _
      rw [hb2]; rfl
    · show lx2.Index = _
      rw [hi2a]
      simp only [List.length_append, List.length_cons]
    · show lx2.Index < _
      omega

theorem scan_token (data : Bytes) (lexemes : List Nat) (R : Lexer → List Nat → Prop)
    (tok pre rest : Bytes) (w : Nat) (lexer : Lexer)
    (hdata : data = pre ++ tok ++ w :: rest) (hclean : cleanToken tok)
    (hw : IsWhitespace w = true)
    (hidx : lexer.Index = pre.length) (hst : lexer.Current_State = State.START)
    (hG : ∀ lxT, lxT.BuiltString = tok → lexCore lxT = lexCore lexer →
      ∃ lx1 buf1, GetCommand lxT lexemes = Except.ok (lx1, buf1) ∧ R lx1 buf1)
    (hR : ∀ lx lx1 buf, lexCore lx1 = lexCore lx → R lx buf → R lx1 buf) :
    ∃ k lexer1 lexemes1, Reaches data k lexer lexemes lexer1 lexemes1 ∧
      lexer1.Current_State = State.START ∧ R lexer1 lexemes1 ∧
      (lexer1.Index = (pre ++ tok).length + 1 ∨
        (lexer1.Index = (pre ++ tok).length + 2 ∧ w = 13 ∧ rest.head? = some 10)) := by
  obtain ⟨k, lxD, hRD, hsD, hbD, hcD, hiD, hwD, hltD⟩ :=
    reach_dump data lexemes tok pre rest w lexer hdata hclean hw hidx hst
  obtain ⟨lx4, buf4, hG4, hR4⟩ := hG lxD hbD hcD
  have hi4 : lx4.Index = lxD.Index := GetCommand_Index lxD _ _ _ hG4
  have hS5 := lexSwitch_DUMP data lxD lx4 lexemes buf4 w hwD hsD hG4
  obtain ⟨lx5, hA5, hst5, hcore5, _, hcase⟩ :=
    advance_whitespace data { lx4 with Current_State := State.START } w
      (by show data[lx4.Index]? = _; rw [hi4]; exact hwD)
  have hstep5 := lexStep_advance data lxD _ lx5 lexemes buf4 hltD
    (by rw [hsD]; decide) hS5 hA5
  have hR5 := Reaches_step _ _ _ _ _ hstep5
  refine ⟨_, lx5, buf4, Reaches_trans _ _ _ _ _ _ _ _ _ hRD hR5,
    hst5, hR lx4 lx5 buf4 hcore5 hR4, ?_⟩
  rcases hcase with h1 | ⟨h2, h13, hnext⟩
  · left
    rw [h1]
    show lx4.Index + 1 = _
    omega
  · right
    refine ⟨?_, h13, ?_⟩
    · rw [h2]
      show lx4.Index + 2 = _
      omega
    · have hh : data[lx4.Index + 1]? = rest.head? := by
        rw [hdata, hi4, hiD]
        have e1 : pre ++ tok ++ w :: rest = (pre ++ tok ++ [w]) ++ rest := by simp
        rw [e1, List.getElem?_append_right (by
          simp only [List.length_append, List.length_cons, List.length_nil]; omega)]
        have e2 : (pre ++ tok).length + 1 - (pre ++ tok ++ [w]).length = 0 := by
          simp only [List.length_append, List.length_cons, List.length_nil]; omega
        rw [e2]
        cases rest <;> simp
      rw [← hh]
      exact hnext

theorem dump_error (data : Bytes) (lexemes : List Nat) (tok pre rest : Bytes) (w : Nat)
    (lexer : Lexer) (err : LexError)
    (hdata : data = pre ++ tok ++ w :: rest) (hclean : cleanToken tok)
    (hw : IsWhitespace w = true)
    (hidx : lexer.Index = pre.length) (hst : lexer.Current_State = State.START)
    (hG : ∀ lxT, lxT.BuiltString = tok → lexCore lxT = lexCore lexer →
      GetCommand lxT lexemes = Except.error err) :
    ∃ k, ∀ fuel, lexLoop data (fuel + 1 + k) lexer lexemes = some (Except.error err) := by
  obtain ⟨k, lxD, hRD, hsD, hbD, hcD, hiD, hwD, hltD⟩ :=
    reach_dump data lexemes tok pre rest w lexer hdata hclean hw hidx hst
  refine ⟨k, fun fuel => ?_⟩
  rw [hRD (fuel + 1), lexLoop_succ]
  have hstep : lexStep data lxD lexemes = Except.error err := by
    unfold lexStep
    rw [if_neg (by rw [hsD]; simp; omega)]
    unfold lexSwitch
    rw [hwD]
    simp only [hsD]
    rw [hG lxD hbD hcD]
  rw [hstep]

/-! ### Scanning: a sequence of tokens -/

theorem renderLayout_cons (p : Bytes × Bytes) (rest : List (Bytes × Bytes)) :
    renderLayout (p :: rest) = p.1 ++ p.2 ++ renderLayout rest := rfl

theorem cleanToken_head (tok : Bytes) (h : cleanToken tok) :
    ∃ c more, tok = c :: more ∧ IsWhitespace c = false := by
  obtain ⟨hne, _, hbytes⟩ := h
  cases tok with
  | nil => exact absurd rfl hne
  | cons c more => exact ⟨c, more, rfl, (hbytes c (List.mem_cons_self _ _)).1⟩

theorem renderLayout_head (layout : List (Bytes × Bytes)) (tail : Bytes)
    (hlayout : ∀ p ∈ layout, cleanToken p.1 ∧ p.2 ≠ [] ∧ allWhitespace p.2)
    (htail : tail = [] ∨ ∃ c r, tail = c :: r ∧ IsWhitespace c = false) :
    renderLayout layout ++ tail = [] ∨
      ∃ c r, renderLayout layout ++ tail = c :: r ∧ IsWhitespace c = false := by
  cases layout with
  | nil => exact htail
  | cons p rest =>
    obtain ⟨c, more, hp, hc⟩ := cleanToken_head p.1 (hlayout p (List.mem_cons_self _ _)).1
    right
    refine ⟨c, more ++ p.2 ++ renderLayout rest ++ tail, ?_, hc⟩
    rw [renderLayout_cons, hp]
    simp

theorem scan_tokens (data : Bytes) (P : Nat → Lexer → List Nat → Prop)
    (hcore : ∀ i lx lx1 buf, lexCore lx1 = lexCore lx → P i lx buf → P i lx1 buf) :
    ∀ (layout : List (Bytes × Bytes)) (pre ws tail : Bytes) (k : Nat) (lexer : Lexer)
      (lexemes : List Nat),
      data = pre ++ ws ++ renderLayout layout ++ tail → allWhitespace ws →
      (tail = [] ∨ ∃ c r, tail = c :: r ∧ IsWhitespace c = false) →
      (∀ p ∈ layout, cleanToken p.1 ∧ p.2 ≠ [] ∧ allWhitespace p.2) →
      (∀ i p, layout[i]? = some p → ∀ lx buf, P (k + i) lx buf → lx.BuiltString = p.1 →
        ∃ lx1 buf1, GetCommand lx buf = Except.ok (lx1, buf1) ∧ P (k + i + 1) lx1 buf1) →
      lexer.Index = pre.length → lexer.Current_State = State.START → P k lexer lexemes →
      ∃ steps lexer1 lexemes1 pre1 ws1, Reaches data steps lexer lexemes lexer1 lexemes1 ∧
        data = pre1 ++ ws1 ++ tail ∧ allWhitespace ws1 ∧ lexer1.Index = pre1.length ∧
        lexer1.Current_State = State.START ∧ P (k + layout.length) lexer1 lexemes1 ∧
        pre.length + 2 * layout.length ≤ pre1.length := by
  intro layout
  induction layout with
  | nil =>
    intro pre ws tail k lexer lexemes hdata hws _ _ _ hidx hst hP
    exact ⟨0, lexer, lexemes, pre, ws, Reaches_refl _ _ _,
      by rw [hdata]; simp [renderLayout], hws, hidx, hst, hP, by simp⟩
  | cons p layout1 ih =>
    intro pre ws tail k lexer lexemes hdata hws htail hlayout hstep hidx hst hP
    obtain ⟨hclean, hsepne, hsepws⟩ := hlayout p (List.mem_cons_self _ _)
    have hlayout1 : ∀ q ∈ layout1, cleanToken q.1 ∧ q.2 ≠ [] ∧ allWhitespace q.2 :=
      fun q hq => hlayout q (List.mem_cons_of_mem _ hq)
    obtain ⟨c, more, hp1, hcw⟩ := cleanToken_head p.1 hclean
    have hc10 : c ≠ 10 := by
      intro h; rw [h] at hcw; exact absurd hcw (by decide)
    -- skip the whitespace before the token
    obtain ⟨k1, lx1, hR1, hi1, hs1, hc1⟩ := skip_whitespace data lexemes ws.length ws pre
      (p.1 ++ p.2 ++ renderLayout layout1 ++ tail) lexer (Nat.le_refl _)
      (by rw [hdata, renderLayout_cons]; simp)
      hws (Or.inr ⟨c, more ++ p.2 ++ renderLayout layout1 ++ tail, by rw [hp1]; simp, hc10⟩)
      hidx hst
    -- the separator
    cases hsep : p.2 with
    | nil => exact absurd hsep hsepne
    | cons w sep1 =>
      have hww : IsWhitespace w = true := hsepws w (by rw [hsep]; exact List.mem_cons_self _ _)
      have hsep1 : allWhitespace sep1 :=
        fun x hx => hsepws x (by rw [hsep]; exact List.mem_cons_of_mem _ hx)
      obtain ⟨k2, lx2, buf2, hR2, hs2, hP2, hcase⟩ := scan_token data lexemes (P (k + 1)) p.1
        (pre ++ ws) (sep1 ++ renderLayout layout1 ++ tail) w lx1
        (by rw [hdata, renderLayout_cons, hsep]; simp)
        hclean hww hi1 hs1
        (fun lxT hb hcT => hstep 0 p List.getElem?_cons_zero lxT lexemes
          (hcore _ _ _ _ (hcT.trans hc1) hP) hb)
        (fun lx lx' buf hc hr => hcore _ _ _ _ hc hr)
      have hR12 := Reaches_trans _ _ _ _ _ _ _ _ _ hR1 hR2
      have hstep1 : ∀ i q, layout1[i]? = some q → ∀ lx buf, P (k + 1 + i) lx buf →
          lx.BuiltString = q.1 →
          ∃ lx1 buf1, GetCommand lx buf = Except.ok (lx1, buf1) ∧ P (k + 1 + i + 1) lx1 buf1 := by
        intro i q hq lx buf hPq hb
        have := hstep (i + 1) q (by rw [List.getElem?_cons_succ]; exact hq) lx buf
          (by rw [show k + (i + 1) = k + 1 + i from by omega]; exact hPq) hb
        rw [show k + (i + 1) + 1 = k + 1 + i + 1 from by omega] at this
        exact this
      have hfinal : ∀ (pre2 ws2 : Bytes), data = pre2 ++ ws2 ++ renderLayout layout1 ++ tail →
          allWhitespace ws2 → lx2.Index = pre2.length → pre.length + 2 ≤ pre2.length →
          ∃ steps lexer1 lexemes1 pre1 ws1, Reaches data steps lexer lexemes lexer1 lexemes1 ∧
            data = pre1 ++ ws1 ++ tail ∧ allWhitespace ws1 ∧ lexer1.Index = pre1.length ∧
            lexer1.Current_State = State.START ∧
            P (k + (p :: layout1).length) lexer1 lexemes1 ∧
            pre.length + 2 * (p :: layout1).length ≤ pre1.length := by
        intro pre2 ws2 hd2 hws2 hi2 hlen2
        obtain ⟨k3, lx3, buf3, pre3, ws3, hR3, hd3, hws3, hi3, hs3, hP3, hlen3⟩ :=
          ih pre2 ws2 tail (k + 1) lx2 buf2 hd2 hws2 htail hlayout1 hstep1 hi2 hs2 hP2
        refine ⟨_, lx3, buf3, pre3, ws3, Reaches_trans _ _ _ _ _ _ _ _ _ hR12 hR3, hd3, hws3,
          hi3, hs3, ?_, ?_⟩
        · rw [List.length_cons, show k + (layout1.length + 1) = k + 1 + layout1.length from by omega]
          exact hP3
        · rw [List.length_cons]
          omega
      have htoklen : 1 ≤ p.1.length := by rw [hp1]; simp
      rcases hcase with h1 | ⟨h2, h13, hnext⟩
      · exact hfinal (pre ++ ws ++ p.1 ++ [w]) sep1
          (by rw [hdata, renderLayout_cons, hsep]; simp) hsep1
          (by rw [h1]; simp only [List.length_append, List.length_singleton])
          (by simp only [List.length_append, List.length_singleton]; omega)
      · cases sep1 with
        | nil =>
          exfalso
          rcases renderLayout_head layout1 tail hlayout1 htail with he | ⟨c1, r, he, hc1w⟩
          · rw [List.nil_append, he] at hnext
            cases hnext
          · rw [List.nil_append, he] at hnext
            simp only [List.head?_cons, Option.some.injEq] at hnext
            rw [hnext] at hc1w
            exact absurd hc1w (by decide)
        | cons c2 sep2 =>
          have hc2 : c2 = 10 := by simpa using hnext
          subst hc2
          exact hfinal (pre ++ ws ++ p.1 ++ [w, 10]) sep2
            (by rw [hdata, renderLayout_cons, hsep]; simp)
            (fun x hx => hsep1 x (List.mem_cons_of_mem _ hx))
            (by rw [h2]; simp only [List.length_append, List.length_cons, List.length_nil])
            (by simp only [List.length_append, List.length_cons, List.length_nil]; omega)

/-! ### Tokens: integer literals, registers and mnemonics -/

theorem parseDigits_digits (s : Bytes) (hs : ∀ c ∈ s, 48 ≤ c ∧ c ≤ 57) :
    ∀ acc, parseDigits acc s = some (s.foldl (fun acc c => acc * 10 + (c - 48)) acc) := by
  induction s with
  | nil => intro acc; rfl
  | cons c rest ih =>
    intro acc
    unfold parseDigits
    rw [if_pos (hs c (List.mem_cons_self _ _))]
    exact ih (fun x hx => hs x (List.mem_cons_of_mem _ hx)) _

theorem isNumericFrom_digits (s : Bytes) (hs : ∀ c ∈ s, 48 ≤ c ∧ c ≤ 57) :
    ∀ i, isNumericFrom i s = true := by
  induction s with
  | nil => intro i; rfl
  | cons c rest ih =>
    intro i
    have hc := hs c (List.mem_cons_self _ _)
    unfold isNumericFrom
    rw [if_neg (by omega), if_neg (by omega)]
    exact ih (fun x hx => hs x (List.mem_cons_of_mem _ hx)) _

theorem isDigits_iff (s : Bytes) :
    isDigits s = true ↔ s ≠ [] ∧ ∀ c ∈ s, 48 ≤ c ∧ c ≤ 57 := by
  unfold isDigits
  cases s with
  | nil => simp
  | cons c rest => simp [List.all_eq_true]

/-- Shape of a token that is an integer literal. -/
theorem decimalValue_shape (tok : Bytes) (n : Int) (h : decimalValue tok = some n) :
    (∃ ds, tok = 45 :: ds ∧ ds ≠ [] ∧ (∀ c ∈ ds, 48 ≤ c ∧ c ≤ 57) ∧ n = -(digitsValue ds : Int)) ∨
    (tok ≠ [] ∧ (∀ c ∈ tok, 48 ≤ c ∧ c ≤ 57) ∧ n = (digitsValue tok : Int)) := by
  unfold decimalValue at h
  by_cases h45 : tok.head? = some 45
  · rw [if_pos h45] at h
    by_cases hd : isDigits tok.tail = true
    · rw [if_pos hd] at h
      left
      cases tok with
      | nil => cases h45
      | cons c ds =>
        have hc : c = 45 := by simpa using h45
        obtain ⟨h1, h2⟩ := (isDigits_iff _).mp hd
        exact ⟨ds, by rw [hc], h1, h2, by simpa using h.symm⟩
    · rw [if_neg hd] at h
      cases h
  · rw [if_neg h45] at h
    by_cases hd : isDigits tok = true
    · rw [if_pos hd] at h
      obtain ⟨h1, h2⟩ := (isDigits_iff _).mp hd
      exact Or.inr ⟨h1, h2, by simpa using h.symm⟩
    · rw [if_neg hd] at h
      cases h

theorem decimalValue_clean (tok : Bytes) (n : Int) (h : decimalValue tok = some n) :
    cleanToken tok ∧ tok.getLast? ≠ some 58 := by
  have hbytes : ∀ c ∈ tok, c = 45 ∨ (48 ≤ c ∧ c ≤ 57) := by
    rcases decimalValue_shape tok n h with ⟨ds, ht, _, hds, _⟩ | ⟨_, hds, _⟩
    · intro c hc
      rw [ht] at hc
      rcases List.mem_cons.mp hc with h1 | h1
      · exact Or.inl h1
      · exact Or.inr (hds c h1)
    · exact fun c hc => Or.inr (hds c hc)
  have hne : tok ≠ [] := by
    rcases decimalValue_shape tok n h with ⟨ds, ht, _, _, _⟩ | ⟨h1, _, _⟩
    · rw [ht]; simp
    · exact h1
  refine ⟨⟨hne, ?_, ?_⟩, ?_⟩
  · intro hh
    cases tok with
    | nil => cases hh
    | cons c rest =>
      have hc : c = 47 := by simpa using hh
      have := hbytes c (List.mem_cons_self _ _)
      omega
  · intro c hc
    have := hbytes c hc
    refine ⟨?_, by omega, by omega⟩
    unfold IsWhitespace
    simp only [Bool.or_eq_false_iff, decide_eq_false_iff_not]
    omega
  · intro hl
    have := hbytes 58 (List.mem_of_getLast?_eq_some hl)
    omega

/-- The library conversion and `IsNumeric` on an integer literal: the value when
it fits a 64-bit integer, otherwise a failure on a token that `IsNumeric` accepts. -/
theorem Atoi_decimal (tok : Bytes) (n : Int) (h : decimalValue tok = some n) :
    IsNumeric tok = true ∧
    (-9223372036854775808 ≤ n ∧ n ≤ 9223372036854775807 → Atoi tok = some n) ∧
    (¬ (-9223372036854775808 ≤ n ∧ n ≤ 9223372036854775807) → Atoi tok = none) := by
  rcases decimalValue_shape tok n h with ⟨ds, ht, hne, hds, hn⟩ | ⟨hne, hds, hn⟩
  · have hA : Atoi tok = if digitsValue ds ≤ 9223372036854775808
        then some (-(digitsValue ds : Int)) else none := by
      rw [ht]
      unfold Atoi
      cases ds with
      | nil => exact absurd rfl hne
      | cons d rest =>
        simp only [true_or, if_true, decide_True]
        rw [parseDigits_digits _ hds]
        rfl
    refine ⟨?_, ?_, ?_⟩
    · rw [ht]
      unfold IsNumeric isNumericFrom
      rw [if_pos ⟨rfl, rfl⟩]
      exact isNumericFrom_digits _ hds _
    · intro hr
      rw [hA, if_pos (by omega), hn]
    · intro hr
      rw [hA, if_neg (by omega)]
  · have hA : Atoi tok = if digitsValue tok ≤ 9223372036854775807
        then some (digitsValue tok : Int) else none := by
      unfold Atoi
      cases tok with
      | nil => exact absurd rfl hne
      | cons d rest =>
        have hd := hds d (List.mem_cons_self _ _)
        have h1 : ¬ (d = 45 ∨ d = 43) := by omega
        have h2 : decide (d = 45) = false := by simp; omega
        simp only [h1, if_false, h2]
        rw [parseDigits_digits _ hds]
        rfl
    refine ⟨isNumericFrom_digits _ hds _, ?_, ?_⟩
    · intro hr
      rw [hA, if_pos (by omega), hn]
    · intro hr
      rw [hA, if_neg (by omega)]

theorem mapGet_mem_keys {β : Type} (m : List (Bytes × β)) (k : Bytes) (v : β)
    (h : mapGet m k = some v) : k ∈ m.map Prod.fst := by
  induction m with
  | nil => cases h
  | cons p rest ih =>
    obtain ⟨k1, v1⟩ := p
    unfold mapGet at h
    by_cases hk : k1 = k
    · rw [List.map_cons, hk]
      exact List.mem_cons_self _ _
    · rw [if_neg hk] at h
      exact List.mem_cons_of_mem _ (ih h)

theorem ite_table (s k : Bytes) (x : Nat × Nat) (a : Option (Nat × Nat))
    (f : Nat × Nat → Nat × Nat) (v : Nat × Nat) (b : Option (Nat × Nat))
    (h1 : x = f v) (h2 : a = Option.map f b) :
    (if s = k then some x else a) = Option.map f (if k = s then some v else b) := by
  by_cases h : s = k
  · rw [if_pos h, if_pos h.symm, h1]
    rfl
  · rw [if_neg h, if_neg (fun hh => h hh.symm)]
    exact h2

/-- The `switch` of `GetCommand` is the opcode table of the specification: the
instruction word is `0x40000000 | value`. -/
theorem mnemonic_table (s : Bytes) :
    mnemonic s = (mapGet opcodeTable s).map (fun r => (0x40000000 ||| r.1, r.2)) := by
  unfold mnemonic opcodeTable
  simp only [mapGet]
  iterate 19 refine ite_table _ _ _ _ _ _ _ rfl ?_
  rfl

theorem table_tokens : ∀ s ∈ opcodeTable.map Prod.fst,
    (s ≠ [] ∧ s.head? ≠ some 47 ∧ ∀ c ∈ s, IsWhitespace c = false ∧ c ≠ 58 ∧ c < 128) ∧
    s.getLast? ≠ none ∧ s.getLast? ≠ some 58 ∧ Atoi s = none ∧ IsNumeric s = false ∧
    matchRegister s = false := by
  decide

theorem getLast?_some_of_ne (s : Bytes) (h : s ≠ []) : ∃ last, s.getLast? = some last := by
  cases hl : s.getLast? with
  | none => exact absurd (List.getLast?_eq_none_iff.mp hl) h
  | some last => exact ⟨last, rfl⟩

/-- An integer literal within the bounds becomes the next operand of the pending
command, as the word `encodeInt n`. -/
theorem GetCommand_integer (lexer : Lexer) (lexemes params : List Nat) (n : Int)
    (h : decimalValue lexer.BuiltString = some n)
    (hlo : -1073741823 ≤ n) (hhi : n ≤ 1073741823)
    (hp : lexer.Parameters = some params) (hlt : lexer.ParametersIndex < params.length)
    (hv : ValidateNumParameter lexer.CurrentInstruction lexer.ParametersIndex = true) :
    GetCommand lexer lexemes = Except.ok
      ({ lexer with Parameters := some (params.set lexer.ParametersIndex (encodeInt n)),
                    ParametersIndex := lexer.ParametersIndex + 1,
                    NumParams := wrapInt8 (lexer.NumParams + 1) }, lexemes) := by
  obtain ⟨⟨hne, _, _⟩, h58⟩ := decimalValue_clean _ n h
  obtain ⟨last, hlast⟩ := getLast?_some_of_ne _ hne
  have hA := (Atoi_decimal _ n h).2.1 (by omega)
  have hl58 : last ≠ 58 := fun hh => h58 (by rw [hlast, hh])
  have hlen : paramsLen lexer = params.length := by
    unfold paramsLen
    rw [hp]
  unfold GetCommand
  rw [hlast]
  simp only []
  rw [if_neg hl58, hA]
  simp only []
  rw [if_neg (show ¬ (n > 1073741823 ∨ n < -1073741823) from by omega),
    if_neg (show ¬ lexer.ParametersIndex = paramsLen lexer from by rw [hlen]; omega),
    if_neg (by rw [hv]; simp), setParameter_ok lexer params _ hp hlt]

/-- An integer literal beyond the bounds makes `GetCommand` fail, whatever the
pending command. -/
theorem GetCommand_overflow (lexer : Lexer) (lexemes : List Nat) (n : Int)
    (h : decimalValue lexer.BuiltString = some n)
    (hbig : n > 1073741823 ∨ n < -1073741823) :
    GetCommand lexer lexemes = Except.error LexError.maxAbsInt := by
  obtain ⟨⟨hne, _, _⟩, h58⟩ := decimalValue_clean _ n h
  obtain ⟨last, hlast⟩ := getLast?_some_of_ne _ hne
  have hl58 : last ≠ 58 := fun hh => h58 (by rw [hlast, hh])
  obtain ⟨hnum, hin, hout⟩ := Atoi_decimal _ n h
  unfold GetCommand
  rw [hlast]
  simp only []
  rw [if_neg hl58]
  by_cases hr : -9223372036854775808 ≤ n ∧ n ≤ 9223372036854775807
  · rw [hin hr]
    simp only []
    rw [if_pos hbig]
  · rw [hout hr]
    simp only []
    rw [hnum, if_pos rfl]

theorem registerToken_shape (tok : Bytes) (h : registerToken tok = true) :
    ∃ d, tok = [82, d] ∧ 49 ≤ d ∧ d ≤ 57 := by
  unfold registerToken at h
  split at h
  · rename_i r d
    simp only [Bool.and_eq_true, decide_eq_true_eq] at h
    exact ⟨d, by rw [h.1], h.2.1, h.2.2⟩
  · cases h

theorem registerToken_clean (tok : Bytes) (h : registerToken tok = true) : cleanToken tok := by
  obtain ⟨d, ht, h1, h2⟩ := registerToken_shape tok h
  rw [ht]
  refine ⟨by simp, by simp, ?_⟩
  intro c hc
  have hc2 : c = 82 ∨ c = d := by simpa using hc
  refine ⟨?_, by omega, by omega⟩
  unfold IsWhitespace
  simp only [Bool.or_eq_false_iff, decide_eq_false_iff_not]
  omega

theorem registerToken_not_decimal (tok : Bytes) (h : registerToken tok = true) :
    decimalValue tok = none := by
  obtain ⟨d, ht, h1, h2⟩ := registerToken_shape tok h
  cases hd : decimalValue tok with
  | none => rfl
  | some n =>
    exfalso
    rcases decimalValue_shape tok n hd with ⟨ds, hds, _⟩ | ⟨_, hds, _⟩
    · rw [ht] at hds
      cases hds
    · have := hds 82 (by rw [ht]; exact List.mem_cons_self _ _)
      omega

/-- A register token `R1` to `R9` becomes the next operand of the pending command,
unless that command is a jump. -/
theorem GetCommand_register (lexer : Lexer) (lexemes params : List Nat)
    (h : registerToken lexer.BuiltString = true)
    (hj : lexer.CurrentInstruction ≠ 0x40000011 ∧ lexer.CurrentInstruction ≠ 0x40000012)
    (hp : lexer.Parameters = some params) (hlt : lexer.ParametersIndex < params.length) :
    GetCommand lexer lexemes = Except.ok
      ({ lexer with Parameters := some (params.set lexer.ParametersIndex
                      (encodeRegister (lexer.BuiltString.getD 1 0))),
                    ParametersIndex := lexer.ParametersIndex + 1,
                    NumParams := wrapInt8 (lexer.NumParams + 1) }, lexemes) := by
  obtain ⟨d, ht, h1, h2⟩ := registerToken_shape _ h
  have hlast : lexer.BuiltString.getLast? = some d := by rw [ht]; rfl
  have hA : Atoi lexer.BuiltString = none := by
    rw [ht]
    unfold Atoi
    simp [parseDigits]
  have hN : IsNumeric lexer.BuiltString = false := by
    rw [ht]
    unfold IsNumeric isNumericFrom
    simp
  have hM : matchRegister lexer.BuiltString = true := by
    rw [ht]
    simp only [matchRegister, Bool.and_eq_true, decide_eq_true_eq, true_and]
    omega
  have hD : lexer.BuiltString.getD 1 0 = d := by rw [ht]; rfl
  have hlen : paramsLen lexer = params.length := by
    unfold paramsLen
    rw [hp]
  unfold GetCommand
  rw [hlast]
  simp only []
  rw [if_neg (by omega), hA]
  simp only []
  rw [hN, if_neg (by simp), hM, if_pos rfl,
    if_neg (show ¬ lexer.BuiltString.getD 1 0 = 48 from by rw [hD]; omega),
    if_neg (show ¬ (lexer.CurrentInstruction = 0x40000011 ∨
      lexer.CurrentInstruction = 0x40000012) from by omega),
    if_neg (show ¬ lexer.ParametersIndex = paramsLen lexer from by rw [hlen]; omega),
    setParameter_ok lexer params _ hp hlt]

theorem DumpCommand_BuiltString (lexer lexer1 : Lexer) (lexemes lexemes1 : List Nat)
    (h : DumpCommand lexer lexemes = Except.ok (lexer1, lexemes1)) :
    lexer1.BuiltString = lexer.BuiltString := by
  unfold DumpCommand at h
  split at h
  · split at h
    · cases h
    · split at h
      · cases h
      · split at h
        · cases h
        · injection h with h
          injection h with h1 h2
          rw [← h1]
  · injection h with h
    injection h with h1 h2
    rw [← h1]

/-- A mnemonic of the opcode table flushes the pending command and starts a new
one, with the instruction word `0x40000000 | value` and an operand array of the
arity of the table. -/
theorem GetCommand_mnemonic (lexer lexer1 : Lexer) (lexemes lexemes1 : List Nat)
    (value arity : Nat)
    (hm : mapGet opcodeTable lexer.BuiltString = some (value, arity))
    (hj : ¬ ((lexer.CurrentInstruction = 0x40000011 ∨ lexer.CurrentInstruction = 0x40000012) ∧
      lexer.NumParams = 0))
    (hD : DumpCommand lexer lexemes = Except.ok (lexer1, lexemes1)) :
    GetCommand lexer lexemes = Except.ok
      ({ lexer1 with CurrentInstruction := 0x40000000 ||| value,
                     Parameters := some (List.replicate arity 0) }, lexemes1) := by
  obtain ⟨_, hnone, h58, hA, hN, hM⟩ := table_tokens _ (mapGet_mem_keys _ _ _ hm)
  have hmn : mnemonic lexer1.BuiltString = some (0x40000000 ||| value, arity) := by
    rw [DumpCommand_BuiltString _ _ _ _ hD, mnemonic_table, hm]
    rfl
  cases hl : lexer.BuiltString.getLast? with
  | none => exact absurd hl hnone
  | some last =>
    have hl58 : last ≠ 58 := fun hh => h58 (by rw [hl, hh])
    unfold GetCommand
    rw [hl]
    simp only []
    rw [if_neg hl58, hA]
    simp only []
    rw [hN, if_neg (by simp), hM, if_neg (by simp), if_neg hj, hD]
    simp only []
    rw [hmn]

/-! ### Well-formed instructions -/

theorem lexCore_fields (lx1 lx : Lexer) (h : lexCore lx1 = lexCore lx) :
    lx1.Parameters = lx.Parameters ∧ lx1.ParametersIndex = lx.ParametersIndex ∧
    lx1.CurrentInstruction = lx.CurrentInstruction ∧ lx1.LexemesIndex = lx.LexemesIndex ∧
    lx1.NumParams = lx.NumParams ∧ lx1.LabelToIndex = lx.LabelToIndex ∧
    lx1.LabelToInstructions = lx.LabelToInstructions := by
  simpa only [lexCore, Prod.mk.injEq] using h

theorem AtBoundary_core (n : Nat) (e : List Nat) (lx lx1 : Lexer) (buf : List Nat)
    (hc : lexCore lx1 = lexCore lx) (h : AtBoundary n e lx buf) : AtBoundary n e lx1 buf := by
  obtain ⟨h1, h2, h3, h4, h5, h6, h7⟩ := lexCore_fields lx1 lx hc
  obtain ⟨a, b, c, e0, d1, d2, d3, d4⟩ := h
  refine ⟨by rw [h7]; exact a, by rw [h3]; exact b, by rw [h3]; exact c, e0, d1,
    by rw [h4]; exact d2, ?_, ?_⟩
  · rw [d3]
    unfold pendingWords
    rw [h1, h3]
  · intro params hp
    rw [h5]
    exact d4 params (by rw [← h1]; exact hp)

theorem Staged_core (n : Nat) (e : List Nat) (w arity : Nat) (ops : List Nat) (lx lx1 : Lexer)
    (buf : List Nat) (hc : lexCore lx1 = lexCore lx) (h : Staged n e w arity ops lx buf) :
    Staged n e w arity ops lx1 buf := by
  obtain ⟨h1, h2, h3, h4, h5, h6, h7⟩ := lexCore_fields lx1 lx hc
  obtain ⟨a, b, c, d, f, g, i, j⟩ := h
  exact ⟨a, by rw [h4]; exact b, by rw [h1]; exact c, by rw [h2]; exact d, by rw [h5]; exact f,
    by rw [h3]; exact g, by rw [h7]; exact i, j⟩

theorem InstrStage_core (n : Nat) (e : List Nat) (w arity : Nat) (ops : List Nat) (i : Nat)
    (lx lx1 : Lexer) (buf : List Nat) (hc : lexCore lx1 = lexCore lx)
    (h : InstrStage n e w arity ops i lx buf) : InstrStage n e w arity ops i lx1 buf := by
  rcases h with ⟨h0, h⟩ | ⟨j, hj, h⟩
  · exact Or.inl ⟨h0, AtBoundary_core n e lx lx1 buf hc h⟩
  · exact Or.inr ⟨j, hj, Staged_core n e w arity _ lx lx1 buf hc h⟩

theorem AtBoundary_start (n : Nat) : AtBoundary n [] startLexer (List.replicate n 0) := by
  refine ⟨rfl, by decide, by decide, [], ?_, rfl, rfl, ?_⟩
  · simp [padded]
  · intro params hp
    cases hp

theorem padded_self (e : List Nat) : padded e.length e = e := by
  simp [padded]

/-- A complete pending command that is not a jump closes the instruction. -/
theorem Staged_boundary (n : Nat) (e : List Nat) (w arity : Nat) (ops : List Nat) (lx : Lexer)
    (buf : List Nat) (h : Staged n e w arity ops lx buf) (hfull : ops.length = arity)
    (hw : w ≠ 0x40000011 ∧ w ≠ 0x40000012) : AtBoundary n (e ++ (ops ++ [w])) lx buf := by
  obtain ⟨a, b, c, d, f, g, i, j⟩ := h
  have hp : lx.Parameters = some ops := by rw [c, ← hfull, padded_self]
  refine ⟨i, by rw [g]; exact hw.1, by rw [g]; exact hw.2, e, a, b, ?_, ?_⟩
  · unfold pendingWords
    rw [hp, g]
  · intro params hps
    rw [hp] at hps
    injection hps with hps
    rw [← hps, f]

/-- At a boundary, `DumpCommand` flushes the pending command: the buffer then holds
all the words `e`. -/
theorem boundary_dump (n : Nat) (e : List Nat) (lx : Lexer) (buf : List Nat)
    (hB : AtBoundary n e lx buf) (hroom : e.length ≤ n) :
    DumpCommand lx buf = Except.ok (flushed lx (pendingWords lx).length, padded n e) ∧
    lx.LexemesIndex + (pendingWords lx).length = e.length := by
  obtain ⟨hL, hj1, hj2, e0, hbuf, hidx, he, hnp⟩ := hB
  have hlen0 : e0.length ≤ n := by
    rw [he, List.length_append] at hroom
    omega
  refine ⟨?_, by rw [he, List.length_append, hidx]⟩
  rw [hbuf, DumpCommand_padded n lx e0 hlen0 hidx]
  cases hp : lx.Parameters with
  | none =>
    have hpw : pendingWords lx = [] := by unfold pendingWords; rw [hp]
    simp only []
    rw [he, hpw, List.append_nil]
    rfl
  | some params =>
    have hpw : pendingWords lx = params ++ [lx.CurrentInstruction] := by
      unfold pendingWords; rw [hp]
    simp only []
    rw [if_neg (by simp only [ne_eq, not_not]; exact hnp params hp)]
    have hlt : e0.length + params.length < n := by
      rw [he, hpw] at hroom
      simp only [List.length_append, List.length_singleton] at hroom
      omega
    rw [if_pos hlt, he, hpw]
    simp only [List.length_append, List.length_singleton]

/-- A mnemonic of the opcode table takes the assembler from the boundary into the
new instruction. -/
theorem boundary_mnemonic (n : Nat) (e : List Nat) (lx : Lexer) (buf : List Nat)
    (value arity : Nat) (hB : AtBoundary n e lx buf) (hroom : e.length ≤ n)
    (hm : mapGet opcodeTable lx.BuiltString = some (value, arity)) :
    ∃ lx1, GetCommand lx buf = Except.ok (lx1, padded n e) ∧
      Staged n e (0x40000000 ||| value) arity [] lx1 (padded n e) := by
  obtain ⟨hD, hlen⟩ := boundary_dump n e lx buf hB hroom
  obtain ⟨hL, hj1, hj2, _⟩ := hB
  refine ⟨_, GetCommand_mnemonic lx _ buf _ value arity hm (fun hh => by omega) hD, ?_⟩
  refine ⟨rfl, hlen, ?_, rfl, rfl, rfl, hL, Nat.zero_le _⟩
  show some (List.replicate arity 0) = some (padded arity [])
  simp [padded]

/-- At a boundary with room for the terminator, the `END` case returns the
emitted words followed by `HALT`. -/
theorem boundary_end (n : Nat) (e : List Nat) (lx : Lexer) (buf : List Nat)
    (hB : AtBoundary n e lx buf) (hroom : e.length < n) :
    lexEnd lx buf = Except.ok (padded n (e ++ [0x40000000])) := by
  obtain ⟨hD, hlen⟩ := boundary_dump n e lx buf hB (Nat.le_of_lt hroom)
  have hV : VerifyLabelResolution (flushed lx (pendingWords lx).length) = Except.ok () := by
    unfold VerifyLabelResolution
    rw [if_neg]
    show ¬ lx.LabelToInstructions.length > 0
    rw [hB.1]
    simp
  unfold lexEnd
  rw [hD]
  simp only []
  rw [hV]
  simp only []
  show writeWord (padded n e) (lx.LexemesIndex + (pendingWords lx).length) 0x40000000 = _
  rw [hlen]
  exact writeWord_end n e _ hroom

theorem mapGet_mem {β : Type} (m : List (Bytes × β)) (k : Bytes) (v : β)
    (h : mapGet m k = some v) : (k, v) ∈ m := by
  induction m with
  | nil => cases h
  | cons p rest ih =>
    obtain ⟨k1, v1⟩ := p
    unfold mapGet at h
    by_cases hk : k1 = k
    · rw [if_pos hk] at h
      injection h with h
      rw [hk, h]
      exact List.mem_cons_self _ _
    · rw [if_neg hk] at h
      exact List.mem_cons_of_mem _ (ih h)

theorem table_rows : ∀ r ∈ opcodeTable,
    ((0x40000000 ||| r.2.1 = 0x40000011 ∨ 0x40000000 ||| r.2.1 = 0x40000012) →
      (r.2.1 = 17 ∨ r.2.1 = 18)) ∧
    ((r.2.1 = 17 ∨ r.2.1 = 18) → r.2.2 = 1) ∧
    (r.2.1 ≠ 9 → r.2.1 ≠ 17 → ValidateNumParameter (0x40000000 ||| r.2.1) 1 = true ∧
      (r.2.1 ≠ 10 → ValidateNumParameter (0x40000000 ||| r.2.1) 0 = true)) := by
  decide

theorem ValidateNumParameter_succ (w i : Nat) :
    ValidateNumParameter w (i + 1) = ValidateNumParameter w 1 := by
  unfold ValidateNumParameter
  simp

/-- The source's operand-kind check agrees with the rules of the specification on
the rows of the opcode table, jumps apart. -/
theorem ValidateNumParameter_table (name : Bytes) (value arity i : Nat)
    (hm : mapGet opcodeTable name = some (value, arity))
    (h9 : value ≠ 9) (h17 : value ≠ 17) (h10 : ¬ (value = 10 ∧ i = 0)) :
    ValidateNumParameter (0x40000000 ||| value) i = true := by
  obtain ⟨_, _, h⟩ := table_rows _ (mapGet_mem _ _ _ hm)
  obtain ⟨h1, h0⟩ := h h9 h17
  cases i with
  | zero => exact h0 (fun hv => h10 ⟨hv, rfl⟩)
  | succ j => rw [ValidateNumParameter_succ]; exact h1

theorem legalOperand_cases (value i : Nat) (tok : Bytes) (h : legalOperand value i tok = true) :
    value ≠ 17 ∧ value ≠ 18 ∧
    ((∃ n, decimalValue tok = some n ∧ -1073741823 ≤ n ∧ n ≤ 1073741823 ∧ value ≠ 9 ∧
        ¬ (value = 10 ∧ i = 0)) ∨
     (decimalValue tok = none ∧ registerToken tok = true)) := by
  unfold legalOperand at h
  rw [Bool.and_eq_true, decide_eq_true_eq] at h
  obtain ⟨⟨h17, h18⟩, h⟩ := h
  refine ⟨h17, h18, ?_⟩
  cases hd : decimalValue tok with
  | none =>
    rw [hd] at h
    exact Or.inr ⟨rfl, h⟩
  | some n =>
    rw [hd] at h
    simp only [decide_eq_true_eq] at h
    exact Or.inl ⟨n, rfl, h⟩

theorem legalOperand_clean (value i : Nat) (tok : Bytes) (h : legalOperand value i tok = true) :
    cleanToken tok := by
  rcases (legalOperand_cases value i tok h).2.2 with ⟨n, hn, _⟩ | ⟨_, hr⟩
  · exact (decimalValue_clean tok n hn).1
  · exact registerToken_clean tok hr

/-- A legal operand token becomes the next operand word of the pending command. -/
theorem staged_operand (n : Nat) (e : List Nat) (name : Bytes) (value arity : Nat)
    (ops : List Nat) (lx : Lexer) (buf : List Nat)
    (hm : mapGet opcodeTable name = some (value, arity))
    (hS : Staged n e (0x40000000 ||| value) arity ops lx buf) (hlt : ops.length < arity)
    (hlegal : legalOperand value ops.length lx.BuiltString = true) :
    ∃ lx1, GetCommand lx buf = Except.ok (lx1, buf) ∧
      Staged n e (0x40000000 ||| value) arity (ops ++ [operandWord lx.BuiltString]) lx1 buf := by
  obtain ⟨a, b, c, d, f, g, i, j⟩ := hS
  obtain ⟨h17, h18, hcase⟩ := legalOperand_cases _ _ _ hlegal
  have hplen : (padded arity ops).length = arity := padded_length arity ops j
  have hpi : lx.ParametersIndex < (padded arity ops).length := by rw [hplen, d]; exact hlt
  have hset : ∀ word, (padded arity ops).set lx.ParametersIndex word = padded arity (ops ++ [word]) := by
    intro word
    rw [d]
    exact padded_set_end arity ops word hlt
  have hnj : lx.CurrentInstruction ≠ 0x40000011 ∧ lx.CurrentInstruction ≠ 0x40000012 := by
    obtain ⟨hjump, _, _⟩ := table_rows _ (mapGet_mem _ _ _ hm)
    rw [g]
    constructor
    · intro hh
      rcases hjump (Or.inl hh) with h | h
      · exact h17 h
      · exact h18 h
    · intro hh
      rcases hjump (Or.inr hh) with h | h
      · exact h17 h
      · exact h18 h
  have hlen1 : (ops ++ [operandWord lx.BuiltString]).length = ops.length + 1 := by
    rw [List.length_append, List.length_singleton]
  have harity : arity ≤ 2 := by
    have key : ∀ r ∈ opcodeTable, r.2.2 ≤ 2 := by decide
    exact key _ (mapGet_mem _ _ _ hm)
  rcases hcase with ⟨v, hv, hlo, hhi, h9, h10⟩ | ⟨hnone, hreg⟩
  · have hword : operandWord lx.BuiltString = encodeInt v := by
      unfold operandWord
      rw [hv]
    have hval : ValidateNumParameter lx.CurrentInstruction lx.ParametersIndex = true := by
      rw [g, d]
      exact ValidateNumParameter_table name value arity _ hm h9 h17 h10
    refine ⟨_, GetCommand_integer lx buf _ v hv hlo hhi c hpi hval, ?_⟩
    refine ⟨a, b, ?_, ?_, ?_, g, i, ?_⟩
    · show some ((padded arity ops).set lx.ParametersIndex (encodeInt v)) = _
      rw [hset, hword]
    · show lx.ParametersIndex + 1 = _
      rw [hlen1, d]
    · show wrapInt8 (lx.NumParams + 1) = _
      rw [hlen1]
      exact (wrapInt8_succ _ arity _ f.symm hlt (by omega)).symm
    · rw [hlen1]; omega
  · have hword : operandWord lx.BuiltString = encodeRegister (lx.BuiltString.getD 1 0) := by
      unfold operandWord
      rw [hnone]
    refine ⟨_, GetCommand_register lx buf _ hreg hnj c hpi, ?_⟩
    refine ⟨a, b, ?_, ?_, ?_, g, i, ?_⟩
    · show some ((padded arity ops).set lx.ParametersIndex _) = _
      rw [hset, hword]
    · show lx.ParametersIndex + 1 = _
      rw [hlen1, d]
    · show wrapInt8 (lx.NumParams + 1) = _
      rw [hlen1]
      exact (wrapInt8_succ _ arity _ f.symm hlt (by omega)).symm
    · rw [hlen1]; omega

theorem enum_mem_of_getElem? {α : Type} (l : List α) (i : Nat) (p : α) (h : l[i]? = some p) :
    (i, p) ∈ l.enum := by
  have : l.enum[i]? = some (i, p) := by
    rw [List.getElem?_enum, h]
    rfl
  exact List.mem_iff_getElem?.mpr ⟨i, this⟩

theorem wellFormedInstr_tokens (ins : SourceInstr) (h : wellFormedInstr ins) :
    ∀ p ∈ ins.tokens, cleanToken p.1 ∧ p.2 ≠ [] ∧ allWhitespace p.2 := by
  obtain ⟨value, arity, hm, _, hlegal, hsep⟩ := h
  intro p hp
  refine ⟨?_, hsep p hp⟩
  rcases List.mem_cons.mp hp with h1 | h1
  · rw [h1]
    exact (table_tokens _ (mapGet_mem_keys _ _ _ hm)).1
  · obtain ⟨i, hi⟩ := List.getElem?_of_mem h1
    exact legalOperand_clean value i p.1 (hlegal (i, p) (enum_mem_of_getElem? _ _ _ hi))

theorem instrWords_length (ins : SourceInstr) :
    (instrWords ins).length = ins.tokens.length := by
  unfold instrWords SourceInstr.tokens
  simp

theorem take_succ_map (l : List (Bytes × Bytes)) (j : Nat) (p : Bytes × Bytes)
    (h : l[j]? = some p) :
    (l.map (fun p => operandWord p.1)).take (j + 1) =
      (l.map (fun p => operandWord p.1)).take j ++ [operandWord p.1] := by
  rw [List.take_succ, List.getElem?_map, h]
  rfl

/-- The scanner and `GetCommand` over one well-formed instruction: the words of
the instruction join the emitted words, and every token has taken at least two
bytes of the text. -/
theorem scan_instruction (data : Bytes) (n : Nat) (ins : SourceInstr)
    (hwf : wellFormedInstr ins) (pre ws tail : Bytes) (e : List Nat) (lexer : Lexer)
    (lexemes : List Nat)
    (hdata : data = pre ++ ws ++ renderLayout ins.tokens ++ tail) (hws : allWhitespace ws)
    (htail : tail = [] ∨ ∃ c r, tail = c :: r ∧ IsWhitespace c = false)
    (hidx : lexer.Index = pre.length) (hst : lexer.Current_State = State.START)
    (hB : AtBoundary n e lexer lexemes) (hroom : e.length ≤ n) :
    ∃ steps lexer1 lexemes1 pre1 ws1, Reaches data steps lexer lexemes lexer1 lexemes1 ∧
      data = pre1 ++ ws1 ++ tail ∧ allWhitespace ws1 ∧ lexer1.Index = pre1.length ∧
      lexer1.Current_State = State.START ∧
      AtBoundary n (e ++ instrWords ins) lexer1 lexemes1 ∧
      pre.length + 2 * (instrWords ins).length ≤ pre1.length := by
  have htok := wellFormedInstr_tokens ins hwf
  obtain ⟨value, arity, hm, harity, hlegal, hsep⟩ := hwf
  have hval : opcodeValue ins.name = value := by
    unfold opcodeValue
    rw [hm]
  let ops := ins.operands.map (fun p => operandWord p.1)
  have hopslen : ops.length = arity := by
    show (ins.operands.map _).length = arity
    rw [List.length_map, harity]
  obtain ⟨steps, lx1, buf1, pre1, ws1, hR, hd1, hws1, hi1, hs1, hP, hlen⟩ :=
    scan_tokens data (InstrStage n e (0x40000000 ||| value) arity ops)
      (fun i lx lx1 buf hc h => InstrStage_core n e _ arity ops i lx lx1 buf hc h)
      ins.tokens pre ws tail 0 lexer lexemes hdata hws htail htok
      (by
        intro i p hp lx buf hPi hb
        rw [Nat.zero_add] at hPi ⊢
        rcases hPi with ⟨h0, hAt⟩ | ⟨j, hj, hSt⟩
        · -- the mnemonic
          rw [h0] at hp
          have hp1 : p = (ins.name, ins.nameSep) := by
            simp only [SourceInstr.tokens, List.getElem?_cons_zero, Option.some.injEq] at hp
            exact hp.symm
          have hb1 : lx.BuiltString = ins.name := by rw [hb, hp1]
          obtain ⟨lx2, hG, hS2⟩ := boundary_mnemonic n e lx buf value arity hAt hroom
            (by rw [hb1]; exact hm)
          exact ⟨lx2, padded n e, hG, Or.inr ⟨0, by rw [h0], by rw [List.take_zero]; exact hS2⟩⟩
        · -- operand number j
          rw [hj] at hp
          have hp1 : ins.operands[j]? = some p := by
            simpa only [SourceInstr.tokens, List.getElem?_cons_succ] using hp
          have hjlt : j < ins.operands.length := by
            rcases Nat.lt_or_ge j ins.operands.length with h | h
            · exact h
            · rw [List.getElem?_eq_none h] at hp1
              cases hp1
          have htake : (ops.take j).length = j := by
            rw [List.length_take, hopslen, ← harity]
            omega
          have hleg : legalOperand value (ops.take j).length lx.BuiltString = true := by
            rw [htake, hb]
            exact hlegal (j, p) (enum_mem_of_getElem? _ _ _ hp1)
          obtain ⟨lx2, hG, hS2⟩ := staged_operand n e ins.name value arity (ops.take j) lx buf
            hm hSt (by rw [htake, ← harity]; exact hjlt) hleg
          refine ⟨lx2, buf, hG, Or.inr ⟨j + 1, by rw [hj], ?_⟩⟩
          rw [take_succ_map ins.operands j p hp1, ← hb]
          exact hS2)
      hidx hst (Or.inl ⟨rfl, hB⟩)
  refine ⟨steps, lx1, buf1, pre1, ws1, hR, hd1, hws1, hi1, hs1, ?_, ?_⟩
  · rw [Nat.zero_add] at hP
    rcases hP with ⟨h0, _⟩ | ⟨j, hj, hSt⟩
    · simp [SourceInstr.tokens] at h0
    · have hjj : j = ins.operands.length := by
        simp only [SourceInstr.tokens, List.length_cons] at hj
        omega
      have htake : ops.take j = ops := by
        have hl : ins.operands.length = ops.length := by rw [hopslen, harity]
        rw [hjj, hl]
        exact List.take_length _
      rw [htake] at hSt
      have hnj : (0x40000000 ||| value) ≠ 0x40000011 ∧ (0x40000000 ||| value) ≠ 0x40000012 := by
        obtain ⟨hjump, harity1, _⟩ := table_rows _ (mapGet_mem _ _ _ hm)
        have hnot : ¬ (value = 17 ∨ value = 18) := by
          intro hv
          have ha1 : arity = 1 := harity1 hv
          cases hops : ins.operands with
          | nil =>
            rw [hops] at harity
            simp at harity
            omega
          | cons p rest =>
            have := hlegal (0, p) (enum_mem_of_getElem? _ 0 p (by rw [hops]; exact List.getElem?_cons_zero))
            have := legalOperand_cases _ _ _ this
            omega
        exact ⟨fun hh => hnot (hjump (Or.inl hh)), fun hh => hnot (hjump (Or.inr hh))⟩
      have := Staged_boundary n e _ arity ops lx1 buf1 hSt hopslen hnj
      unfold instrWords
      rw [hval]
      exact this
  · rw [instrWords_length]
    omega

theorem renderProgram_head (prog : List SourceInstr) (hwf : ∀ ins ∈ prog, wellFormedInstr ins) :
    renderProgram prog = [] ∨
      ∃ c r, renderProgram prog = c :: r ∧ IsWhitespace c = false := by
  cases prog with
  | nil => exact Or.inl rfl
  | cons ins rest =>
    have h := renderLayout_head ins.tokens []
      (wellFormedInstr_tokens ins (hwf ins (List.mem_cons_self _ _))) (Or.inl rfl)
    right
    rcases h with h | h
    · rw [List.append_nil] at h
      simp [SourceInstr.tokens, renderLayout_cons] at h
      obtain ⟨hne, _⟩ := (wellFormedInstr_tokens ins (hwf ins (List.mem_cons_self _ _)))
        (ins.name, ins.nameSep) (List.mem_cons_self _ _)
      exact absurd h.1 hne.1
    · obtain ⟨c, r, hcr, hc⟩ := h
      rw [List.append_nil] at hcr
      exact ⟨c, r ++ renderProgram rest, by
        show renderLayout ins.tokens ++ renderProgram rest = _
        rw [hcr]; rfl, hc⟩

/-- The scanner and `GetCommand` over a sequence of well-formed instructions. -/
theorem scan_program (data : Bytes) (n : Nat) (hn : n = data.length) :
    ∀ (prog : List SourceInstr) (pre ws : Bytes) (e : List Nat) (lexer : Lexer)
      (lexemes : List Nat),
      data = pre ++ ws ++ renderProgram prog → allWhitespace ws →
      (∀ ins ∈ prog, wellFormedInstr ins) →
      lexer.Index = pre.length → lexer.Current_State = State.START →
      AtBoundary n e lexer lexemes → 2 * e.length ≤ pre.length →
      ∃ steps lexer1 lexemes1 pre1 ws1, Reaches data steps lexer lexemes lexer1 lexemes1 ∧
        data = pre1 ++ ws1 ∧ allWhitespace ws1 ∧ lexer1.Index = pre1.length ∧
        lexer1.Current_State = State.START ∧
        AtBoundary n (e ++ programWords prog) lexer1 lexemes1 ∧
        2 * (e ++ programWords prog).length ≤ pre1.length := by
  intro prog
  induction prog with
  | nil =>
    intro pre ws e lexer lexemes hdata hws _ hidx hst hB hroom
    refine ⟨0, lexer, lexemes, pre, ws, Reaches_refl _ _ _, ?_, hws, hidx, hst, ?_, ?_⟩
    · rw [hdata]; simp [renderProgram]
    · rw [show programWords [] = [] from rfl, List.append_nil]; exact hB
    · rw [show programWords [] = [] from rfl, List.append_nil]; exact hroom
  | cons ins rest ih =>
    intro pre ws e lexer lexemes hdata hws hwf hidx hst hB hroom
    have hwfr : ∀ i ∈ rest, wellFormedInstr i := fun i hi => hwf i (List.mem_cons_of_mem _ hi)
    have hprelen : pre.length ≤ data.length := by
      rw [hdata]
      simp only [List.length_append]
      omega
    obtain ⟨k1, lx1, buf1, pre1, ws1, hR1, hd1, hws1, hi1, hs1, hB1, hlen1⟩ :=
      scan_instruction data n ins (hwf ins (List.mem_cons_self _ _)) pre ws (renderProgram rest)
        e lexer lexemes
        (by rw [hdata]; show _ ++ (renderLayout ins.tokens ++ renderProgram rest) = _; simp)
        hws (renderProgram_head rest hwfr) hidx hst hB (by omega)
    obtain ⟨k2, lx2, buf2, pre2, ws2, hR2, hd2, hws2, hi2, hs2, hB2, hlen2⟩ :=
      ih pre1 ws1 (e ++ instrWords ins) lx1 buf1 hd1 hws1 hwfr hi1 hs1 hB1
        (by rw [List.length_append]; omega)
    have hwords : e ++ programWords (ins :: rest) = e ++ instrWords ins ++ programWords rest := by
      show e ++ (instrWords ins ++ programWords rest) = _
      rw [List.append_assoc]
    exact ⟨_, lx2, buf2, pre2, ws2, Reaches_trans _ _ _ _ _ _ _ _ _ hR1 hR2, hd2, hws2, hi2, hs2,
      by rw [hwords]; exact hB2, by rw [hwords]; exact hlen2⟩

/-- Assembly of a text made of well-formed instructions. -/
theorem assemble_program (source lead : Bytes) (prog : List SourceInstr)
    (hsrc : source ++ [10] = lead ++ renderProgram prog) (hlead : allWhitespace lead)
    (hwf : ∀ ins ∈ prog, wellFormedInstr ins) :
    assemble source =
      some (Except.ok (padded (source.length + 1) (programWords prog ++ [0x40000000]))) := by
  have hn : source.length + 1 = (source ++ [10]).length := by simp
  obtain ⟨k1, lx1, buf1, pre1, ws1, hR1, hd1, hws1, hi1, hs1, hB1, hlen1⟩ :=
    scan_program (source ++ [10]) (source.length + 1) hn prog [] lead [] startLexer
      (List.replicate (source.length + 1) 0) (by rw [hsrc]; rfl) hlead hwf rfl rfl
      (AtBoundary_start _) (by simp)
  obtain ⟨k2, lx2, hR2, hi2, hs2, hc2⟩ := skip_whitespace (source ++ [10]) buf1 ws1.length ws1
    pre1 [] lx1 (Nat.le_refl _) (by rw [List.append_nil]; exact hd1) hws1 (Or.inl rfl) hi1 hs1
  rw [List.nil_append] at hB1 hlen1
  have hB2 := AtBoundary_core _ _ lx1 lx2 buf1 hc2 hB1
  have hi2a : lx2.Index = (source ++ [10]).length := by rw [hi2, ← hd1]
  have hprelen : pre1.length ≤ source.length + 1 := by
    rw [hn, hd1]
    simp only [List.length_append]
    omega
  have hstep : lexStep (source ++ [10]) lx2 buf1 = Except.ok (LoopStep.done
      (padded (source.length + 1) (programWords prog ++ [0x40000000]))) := by
    unfold lexStep
    rw [if_pos (Or.inl (by rw [hi2a])),
      boundary_end _ _ lx2 buf1 hB2 (by omega)]
  have hrun : lexLoop (source ++ [10]) (1 + (k2 + k1)) startLexer
      (List.replicate (source.length + 1) 0) = some (Except.ok
        (padded (source.length + 1) (programWords prog ++ [0x40000000]))) := by
    rw [Reaches_trans _ _ _ _ _ _ _ _ _ hR1 hR2 1, lexLoop_succ, hstep]
  obtain ⟨r, hr⟩ := lexLoop_total (source ++ [10]) (2 * (source.length + 1) + 3) startLexer
    (List.replicate (source.length + 1) 0)
    (by have := lexMeasure_le (source ++ [10]) startLexer; omega)
  have h1 := lexLoop_mono _ (1 + (k2 + k1)) _ _ _ _ hr
  have h2 := lexLoop_mono _ (2 * (source.length + 1) + 3) _ _ _ _ hrun
  rw [Nat.add_comm] at h2
  rw [h1] at h2
  rw [assemble_eq, ← hn, hr, h2]

/-! ### Assembly of PUSH with an integer literal -/

theorem lexLoop_enough (data : Bytes) (fuel bound : Nat) (lexer : Lexer) (lexemes : List Nat)
    (r : Except LexError (List Nat)) (h : lexLoop data fuel lexer lexemes = some r)
    (hb : lexMeasure data lexer < bound) : lexLoop data bound lexer lexemes = some r := by
  obtain ⟨r1, hr1⟩ := lexLoop_total data bound lexer lexemes hb
  have h1 := lexLoop_mono data fuel bound lexer lexemes r1 hr1
  have h2 := lexLoop_mono data bound fuel lexer lexemes r h
  rw [Nat.add_comm, h1] at h2
  rw [hr1, h2]

/-- The tag-10 word of a negative literal, written with the payload
`n & 0x3FFFFFFF` of the 32-bit two's-complement pattern of `n`. -/
theorem encodeInt_neg_payload (n : Int) (h0 : -1073741823 ≤ n) (h1 : n < 0) :
    encodeInt n = 0x80000000 ||| ((n % 4294967296).toNat &&& 0x3FFFFFFF) := by
  rw [encodeInt_neg n h0 h1, and_low30]
  have hd : (n % 4294967296).toNat % 1073741824 < 1073741824 := Nat.mod_lt _ (by decide)
  have h := or_low30 2 _ hd
  rw [show (1073741824 * 2 : Nat) = 0x80000000 from rfl] at h
  rw [h]
  omega

theorem ascii_push : ascii "PUSH " = ascii "PUSH" ++ [32] := by decide

/-- Assembly of `PUSH tok` for an integer literal within the bounds. -/
theorem assemble_push_literal (tok : Bytes) (n : Int) (h : decimalValue tok = some n)
    (hlo : -1073741823 ≤ n) (hhi : n ≤ 1073741823) :
    assemble (ascii "PUSH " ++ tok) =
      some (Except.ok (padded (tok.length + 6) [encodeInt n, 0x40000008, 0x40000000])) := by
  have hlen : (ascii "PUSH " ++ tok).length + 1 = tok.length + 6 := by
    rw [List.length_append, show (ascii "PUSH ").length = 5 from by decide]
    omega
  have hw : operandWord tok = encodeInt n := by
    unfold operandWord
    rw [h]
  have hv : opcodeValue (ascii "PUSH") = 8 := by decide
  have := assemble_program (ascii "PUSH " ++ tok) []
    [{ name := ascii "PUSH", nameSep := [32], operands := [(tok, [10])] }]
    (by
      rw [ascii_push]
      simp [renderProgram, renderLayout, SourceInstr.tokens])
    (fun c hc => by cases hc)
    (by
      intro ins hins
      rw [List.mem_singleton] at hins
      rw [hins]
      refine ⟨8, 1, (show mapGet opcodeTable (ascii "PUSH") = some (8, 1) from by decide), rfl,
        ?_, ?_⟩
      · intro q hq
        have hq1 : q = (0, (tok, [10])) := by simpa using hq
        rw [hq1]
        show legalOperand 8 0 tok = true
        unfold legalOperand
        rw [h]
        simp only [Bool.and_eq_true, decide_eq_true_eq]
        omega
      · intro p hp
        have hp1 : p = (ascii "PUSH", [32]) ∨ p = (tok, [10]) := by
          simpa [SourceInstr.tokens] using hp
        rcases hp1 with hp1 | hp1 <;> rw [hp1] <;> exact ⟨by simp, by
          intro c hc
          rw [List.mem_singleton] at hc
          rw [hc]
          decide⟩)
  rw [this, hlen]
  show some (Except.ok (padded (tok.length + 6)
    ([operandWord tok, 0x40000000 ||| opcodeValue (ascii "PUSH")] ++ [] ++ [0x40000000]))) = _
  rw [hw, hv]
  rfl

/-- Assembly of `PUSH tok` for an integer literal beyond the bounds. -/
theorem assemble_push_overflow (tok : Bytes) (n : Int) (h : decimalValue tok = some n)
    (hbig : n > 1073741823 ∨ n < -1073741823) :
    assemble (ascii "PUSH " ++ tok) = some (Except.error LexError.maxAbsInt) := by
  have hdata : ascii "PUSH " ++ tok ++ [10] = [] ++ ascii "PUSH" ++ 32 :: (tok ++ [10]) := by
    rw [ascii_push]
    simp
  obtain ⟨k1, lx1, buf1, hR1, hs1, _, hcase⟩ := scan_token (ascii "PUSH " ++ tok ++ [10])
    (List.replicate (ascii "PUSH " ++ tok ++ [10]).length 0) (fun _ _ => True)
    (ascii "PUSH") [] (tok ++ [10]) 32 startLexer hdata (by unfold cleanToken; decide) (by decide)
    rfl rfl
    (by
      intro lxT hb hc
      obtain ⟨hD, _⟩ := boundary_dump _ [] lxT _
        (AtBoundary_core _ _ startLexer lxT _ hc (AtBoundary_start _)) (Nat.zero_le _)
      exact ⟨_, _, GetCommand_mnemonic lxT _ _ _ 8 1 (by rw [hb]; decide)
        (by
          obtain ⟨_, _, h3, _⟩ := lexCore_fields lxT startLexer hc
          rw [h3]
          show ¬ ((startLexer.CurrentInstruction = 0x40000011 ∨
            startLexer.CurrentInstruction = 0x40000012) ∧ lxT.NumParams = 0)
          exact fun hh => absurd hh.1 (by decide)) hD, trivial⟩)
    (fun _ _ _ _ _ => trivial)
  have hi1 : lx1.Index = 5 := by
    rcases hcase with h1 | ⟨_, h13, _⟩
    · rw [h1]; decide
    · exact absurd h13 (by decide)
  obtain ⟨k2, hk2⟩ := dump_error (ascii "PUSH " ++ tok ++ [10]) buf1 tok (ascii "PUSH ") [] 10
    lx1 LexError.maxAbsInt rfl (decimalValue_clean tok n h).1 (by decide)
    (by rw [hi1]; decide) hs1
    (fun lxT hb _ => GetCommand_overflow lxT buf1 n (by rw [hb]; exact h) hbig)
  have hrun := hR1 (0 + 1 + k2)
  rw [hk2 0] at hrun
  rw [assemble_eq]
  exact lexLoop_enough _ _ _ _ _ _ hrun
    (by have := lexMeasure_le (ascii "PUSH " ++ tok ++ [10]) startLexer; omega)

/-! ### Instruction encoding (C1) and integer operands (C3) -/

theorem emitsOperand_literal (tok : Bytes) (n : Int) (h : decimalValue tok = some n)
    (hlo : -1073741823 ≤ n) (hhi : n ≤ 1073741823) : emitsOperand tok (encodeInt n) := by
  refine ⟨?_, ?_, assemble_push_literal tok n h hlo hhi⟩
  · intro lexer lexemes params hb hp hlt hv
    exact GetCommand_integer lexer lexemes params n (by rw [hb]; exact h) hlo hhi hp hlt hv
  · unfold operandWord
    rw [h]

/-- C1. For every source text made only of well-formed, whitespace-separated
instructions, `Lex` succeeds and emits, per instruction in source order, the
operand words in source order followed by the opcode word `0x40000000 | value`,
`value` the opcode-table number of the mnemonic; the terminating `HALT` word and
the zero words of the unused buffer follow. The text that `Lex` scans, `source`
with the newline that `Lex` appends, is written as leading whitespace and then the
tokens of the instructions, each followed by at least one whitespace byte; an
instruction is well formed when its mnemonic is in the opcode table and it has
exactly the arity of legal operands (integer literal within the bounds or register
`R1` to `R9`, as the operand-kind rules allow; no labels, hence no jumps). -/
theorem instructions_emit_operands_then_opcode (source lead : Bytes) (prog : List SourceInstr)
    (hsrc : source ++ [10] = lead ++ renderProgram prog) (hlead : allWhitespace lead)
    (hwf : ∀ ins ∈ prog, wellFormedInstr ins) :
    assemble source =
      some (Except.ok (padded (source.length + 1) (programWords prog ++ [0x40000000]))) :=
  assemble_program source lead prog hsrc hlead hwf

theorem instructions_emit_operands_then_opcode_witness :
    assemble (ascii "ADD 3 4") =
      some (Except.ok [3, 4, 0x40000002, 0x40000000, 0, 0, 0, 0]) :=
  instructions_emit_operands_then_opcode (ascii "ADD 3 4") []
    [{ name := ascii "ADD", nameSep := [32], operands := [(ascii "3", [32]), (ascii "4", [10])] }]
    (by decide) (fun c hc => by cases hc)
    (fun ins hins => by
      rw [List.mem_singleton] at hins
      rw [hins]
      exact ⟨2, 2, by decide, rfl, by decide, by unfold allWhitespace; decide⟩)

/-- C3. For a token that is a decimal integer literal of value `n`: if
`0 ≤ n ≤ 2^30-1` the operand word is `n`, of tag 00; if `-(2^30-1) ≤ n < 0` the
operand word is `0x80000000 | (n & 0x3FFFFFFF)`, of tag 10; if `|n| > 2^30-1`
assembly fails (also when `n` is beyond the 64-bit range of the library
conversion). Each case holds for `GetCommand` on any pending command that admits
an integer operand, and for the whole assembler on the source `PUSH n`. In
particular `PUSH 1073741823` and `PUSH -1073741823` assemble and
`PUSH 1073741824` fails. -/
theorem decimal_operand_encoding (tok : Bytes) (n : Int) (h : decimalValue tok = some n) :
    (0 ≤ n ∧ n ≤ 1073741823 → emitsOperand tok n.toNat ∧ n.toNat >>> 30 = 0) ∧
    (-1073741823 ≤ n ∧ n < 0 →
      emitsOperand tok (0x80000000 ||| ((n % 4294967296).toNat &&& 0x3FFFFFFF)) ∧
      (0x80000000 ||| ((n % 4294967296).toNat &&& 0x3FFFFFFF)) >>> 30 = 2) ∧
    (n > 1073741823 ∨ n < -1073741823 → rejectsOperand tok) ∧
    assemble (ascii "PUSH 1073741823") =
      some (Except.ok (padded 16 [1073741823, 0x40000008, 0x40000000])) ∧
    assemble (ascii "PUSH -1073741823") =
      some (Except.ok (padded 17 [0x80000001, 0x40000008, 0x40000000])) ∧
    assemble (ascii "PUSH 1073741824") = some (Except.error LexError.maxAbsInt) := by
  refine ⟨?_, ?_, ?_, by rfl, by rfl, by rfl⟩
  · intro hr
    have := emitsOperand_literal tok n h (by omega) hr.2
    rw [encodeInt_nonneg n hr.1 hr.2] at this
    refine ⟨this, ?_⟩
    rw [Nat.shiftRight_eq_div_pow]
    have : n.toNat < 2 ^ 30 := by omega
    exact Nat.div_eq_of_lt this
  · intro hr
    have := emitsOperand_literal tok n h hr.1 (by omega)
    rw [encodeInt_neg_payload n hr.1 hr.2] at this
    refine ⟨this, ?_⟩
    rw [← encodeInt_neg_payload n hr.1 hr.2, encodeInt_neg n hr.1 hr.2,
      Nat.shiftRight_eq_div_pow]
    omega
  · intro hbig
    exact ⟨fun lexer lexemes hb => GetCommand_overflow lexer lexemes n (by rw [hb]; exact h) hbig,
      assemble_push_overflow tok n h hbig⟩

theorem decimal_operand_encoding_witness :
    decimalValue (ascii "-5") = some (-5) ∧
    emitsOperand (ascii "-5") (0x80000000 ||| (((-5 : Int) % 4294967296).toNat &&& 0x3FFFFFFF)) ∧
    (0x80000000 ||| (((-5 : Int) % 4294967296).toNat &&& 0x3FFFFFFF)) >>> 30 = 2 :=
  ⟨by decide, (decimal_operand_encoding (ascii "-5") (-5) (by decide)).2.1 (by decide)⟩

/-! ### Jumps (C11) -/

theorem fetchValue_small (t : Nat) (ht : t < 1073741824) : fetchValue t = (t : Int) := by
  have h := fetchValue_encodeInt (t : Int) (by omega) (by omega)
  rw [encodeInt_nonneg (t : Int) (by omega) (by omega)] at h
  simpa using h

theorem tag_small (t : Nat) (ht : t < 1073741824) : ((t &&& 0xC0000000) >>> 30) % 2 = 0 := by
  show ((t &&& 3221225472) >>> 30) % 2 = 0
  rw [tagOf]
  omega

/-- The fetch of a word of tag 00 followed by the pop made by an opcode: the
stack pointer is back where it was and the popped value is the word. -/
theorem pop_after_push (ms : MemStack) (t : Int) (hbp : ms.bp ≤ ms.sp)
    (hroom : ms.sp < ms.stack.length) (hsp : ms.sp + 1 < 4294967296) :
    MemStack.pop { ms with stack := ms.stack.set ms.sp t, sp := (ms.sp + 1) % 4294967296 } =
      Except.ok (t, { ms with stack := ms.stack.set ms.sp t }) := by
  have hmod : (ms.sp + 1) % 4294967296 = ms.sp + 1 := Nat.mod_eq_of_lt hsp
  rw [hmod]
  have h := pop_ok { ms with stack := ms.stack.set ms.sp t, sp := ms.sp + 1 } t
    (by show ms.bp < ms.sp + 1; omega) (by show ms.sp + 1 < 4294967296; omega)
    (by
      show (ms.stack.set ms.sp t)[ms.sp + 1 - 1]? = some t
      rw [Nat.add_sub_cancel, List.getElem?_set_self hroom])
  rw [h]
  rfl

/-- The two iterations of the loop of `VMExecute` over an operand word `t` at
index `q` and the opcode word `opw` at index `q + 1`, for an opcode that pops its
operand first. -/
theorem operand_then_opcode (ds : List Nat) (q t opw : Nat) (vm : VM) (fuel : Nat)
    (hop : ds[q]? = some t) (ht : t < 1073741824) (hj : ds[q + 1]? = some opw)
    (htag : (opw &&& 0xC0000000) >>> 30 = 1)
    (hroom : vm.memStack.sp < vm.memStack.stack.length) :
    vmLoop ds (fuel + 2) (q : Int) vm =
      match VMExecuteOpCode (opw &&& 0x3FFFFFFF)
          { vm with memStack := { vm.memStack with
              stack := vm.memStack.stack.set vm.memStack.sp (t : Int),
              sp := (vm.memStack.sp + 1) % 4294967296 } } with
      | Except.error e => some (Except.error e)
      | Except.ok (reassignIndex, vm1) =>
        if reassignIndex then vmLoop ds fuel (vm1.memStack.ip - 1 + 1) vm1
        else vmLoop ds fuel ((q : Int) + 1 + 1)
          { vm1 with memStack := { vm1.memStack with ip := vm1.memStack.ip + 1 } } := by
  have hq : q < ds.length := by
    rcases Nat.lt_or_ge q ds.length with h | h
    · exact h
    · rw [List.getElem?_eq_none h] at hop
      cases hop
  have hq1 : q + 1 < ds.length := by
    rcases Nat.lt_or_ge (q + 1) ds.length with h | h
    · exact h
    · rw [List.getElem?_eq_none h] at hj
      cases hj
  rw [show fuel + 2 = (fuel + 1) + 1 from rfl, vmLoop_succ, if_pos (by omega),
    vmStep_push ds q vm t hop (Or.inl (tag_small t ht)) hroom, fetchValue_small t ht]
  simp only []
  rw [vmLoop_succ, if_pos (by omega)]
  have s2 := vmStep_opcode ds (q + 1)
    { vm with memStack := { vm.memStack with
        stack := vm.memStack.stack.set vm.memStack.sp (t : Int),
        sp := (vm.memStack.sp + 1) % 4294967296 } } opw hj htag
  rw [show ((q + 1 : Nat) : Int) = (q : Int) + 1 from by push_cast; rfl] at s2
  rw [s2]
  generalize VMExecuteOpCode (opw &&& 0x3FFFFFFF) _ = r
  match r with
  | Except.error e => rfl
  | Except.ok (true, vm1) => rfl
  | Except.ok (false, vm1) => rfl

/-- C11. Conditional jump. The stream holds at index `q` an operand word of
value `t` (tag 00) and at index `p = q + 1` the opcode word of JMPF or of JMP.
The iteration of the loop of `VMExecute` at index `q` pushes `t` and hands index
`p` to the next iteration. On the machine so reached, `VMExecuteOpCode` for JMPF
(18) pops the operand in both cases (the stack pointer is back where it was),
returns the flag as `reassignIndex` and sets `ip` to `t` only when the flag is
true; the iteration of the loop at index `p` then hands to the next iteration the
index `t` when the flag is true and the index `p + 1` when it is false, with the
registers, the flag and the printed lines unchanged. `VMExecuteOpCode` for JMP
(17) pops the operand, returns `true` and sets `ip` to `t`, and the iteration at
index `p` hands on the index `t`, whatever the flag. The loop of `VMExecute`
therefore continues from these indices. -/
theorem conditional_jump (ds : List Nat) (q t : Nat) (vm : VM)
    (hop : ds[q]? = some t) (ht : t < 1073741824)
    (hbp : vm.memStack.bp ≤ vm.memStack.sp)
    (hroom : vm.memStack.sp < vm.memStack.stack.length)
    (hsp : vm.memStack.sp + 1 < 4294967296) :
    vmStep ds (q : Int) vm = Except.ok ((q : Int) + 1,
      { vm with memStack := { vm.memStack with
          stack := vm.memStack.stack.set vm.memStack.sp (t : Int),
          sp := (vm.memStack.sp + 1) % 4294967296 } }) ∧
    (ds[q + 1]? = some 0x40000012 →
      VMExecuteOpCode 18 { vm with memStack := { vm.memStack with
          stack := vm.memStack.stack.set vm.memStack.sp (t : Int),
          sp := (vm.memStack.sp + 1) % 4294967296 } } =
        Except.ok (vm.FlagRegister, { vm with memStack := { vm.memStack with
          stack := vm.memStack.stack.set vm.memStack.sp (t : Int),
          ip := if vm.FlagRegister then (t : Int) else vm.memStack.ip } }) ∧
      vmStep ds ((q : Int) + 1) { vm with memStack := { vm.memStack with
          stack := vm.memStack.stack.set vm.memStack.sp (t : Int),
          sp := (vm.memStack.sp + 1) % 4294967296 } } =
        Except.ok (if vm.FlagRegister then (t : Int) else (q : Int) + 1 + 1,
          { vm with memStack := { vm.memStack with
              stack := vm.memStack.stack.set vm.memStack.sp (t : Int),
              ip := if vm.FlagRegister then (t : Int) else vm.memStack.ip + 1 } }) ∧
      ∀ fuel, vmLoop ds (fuel + 2) (q : Int) vm =
        vmLoop ds fuel (if vm.FlagRegister then (t : Int) else (q : Int) + 1 + 1)
          { vm with memStack := { vm.memStack with
              stack := vm.memStack.stack.set vm.memStack.sp (t : Int),
              ip := if vm.FlagRegister then (t : Int) else vm.memStack.ip + 1 } }) ∧
    (ds[q + 1]? = some 0x40000011 →
      VMExecuteOpCode 17 { vm with memStack := { vm.memStack with
          stack := vm.memStack.stack.set vm.memStack.sp (t : Int),
          sp := (vm.memStack.sp + 1) % 4294967296 } } =
        Except.ok (true, { vm with memStack := { vm.memStack with
          stack := vm.memStack.stack.set vm.memStack.sp (t : Int), ip := (t : Int) } }) ∧
      vmStep ds ((q : Int) + 1) { vm with memStack := { vm.memStack with
          stack := vm.memStack.stack.set vm.memStack.sp (t : Int),
          sp := (vm.memStack.sp + 1) % 4294967296 } } =
        Except.ok ((t : Int),
          { vm with memStack := { vm.memStack with
              stack := vm.memStack.stack.set vm.memStack.sp (t : Int), ip := (t : Int) } }) ∧
      ∀ fuel, vmLoop ds (fuel + 2) (q : Int) vm =
        vmLoop ds fuel (t : Int)
          { vm with memStack := { vm.memStack with
              stack := vm.memStack.stack.set vm.memStack.sp (t : Int),
              ip := (t : Int) } }) := by
  have hpop := pop_after_push vm.memStack (t : Int) hbp hroom hsp
  have hpush := vmStep_push ds q vm t hop (Or.inl (tag_small t ht)) hroom
  rw [fetchValue_small t ht] at hpush
  have hcast : ((q + 1 : Nat) : Int) = (q : Int) + 1 := by push_cast; rfl
  have hex18 : VMExecuteOpCode 18 { vm with memStack := { vm.memStack with
        stack := vm.memStack.stack.set vm.memStack.sp (t : Int),
        sp := (vm.memStack.sp + 1) % 4294967296 } } =
      Except.ok (vm.FlagRegister, { vm with memStack := { vm.memStack with
        stack := vm.memStack.stack.set vm.memStack.sp (t : Int),
        ip := if vm.FlagRegister then (t : Int) else vm.memStack.ip } }) := by
    show (match MemStack.pop { vm.memStack with
        stack := vm.memStack.stack.set vm.memStack.sp (t : Int),
        sp := (vm.memStack.sp + 1) % 4294967296 } with
      | Except.error e => Except.error e
      | Except.ok (index, ms) =>
        if vm.FlagRegister then
          Except.ok (true, { vm with memStack := { ms with ip := index } })
        else Except.ok (false, { vm with memStack := ms })) = _
    rw [hpop]
    cases hf : vm.FlagRegister with
    | true => simp only [if_true]
    | false => simp only [Bool.false_eq_true, if_false]
  have hex17 : VMExecuteOpCode 17 { vm with memStack := { vm.memStack with
        stack := vm.memStack.stack.set vm.memStack.sp (t : Int),
        sp := (vm.memStack.sp + 1) % 4294967296 } } =
        Except.ok (true, { vm with memStack := { vm.memStack with
          stack := vm.memStack.stack.set vm.memStack.sp (t : Int), ip := (t : Int) } }) := by
    show (match MemStack.pop { vm.memStack with
        stack := vm.memStack.stack.set vm.memStack.sp (t : Int),
        sp := (vm.memStack.sp + 1) % 4294967296 } with
      | Except.error e => Except.error e
      | Except.ok (index, ms) =>
        Except.ok (true, { vm with memStack := { ms with ip := index } })) = _
    rw [hpop]
  refine ⟨hpush, fun hj => ⟨hex18, ?_, fun fuel => ?_⟩, fun hj => ⟨hex17, ?_, fun fuel => ?_⟩⟩
  · have s2 := vmStep_opcode ds (q + 1)
      { vm with memStack := { vm.memStack with
          stack := vm.memStack.stack.set vm.memStack.sp (t : Int),
          sp := (vm.memStack.sp + 1) % 4294967296 } } 0x40000012 hj (by decide)
    rw [hcast, show (0x40000012 &&& 0x3FFFFFFF : Nat) = 18 from by decide, hex18] at s2
    rw [s2]
    cases hf : vm.FlagRegister with
    | true =>
      simp only [if_true]
      show Except.ok ((t : Int) - 1 + 1, _) = _
      rw [Int.sub_add_cancel]
    | false =>
      simp only [Bool.false_eq_true, if_false]
  · rw [operand_then_opcode ds q t 0x40000012 vm fuel hop ht hj (by decide) hroom,
      show (0x40000012 &&& 0x3FFFFFFF : Nat) = 18 from by decide, hex18]
    cases hf : vm.FlagRegister with
    | true =>
      simp only [if_true]
      show vmLoop ds fuel ((t : Int) - 1 + 1) _ = _
      rw [Int.sub_add_cancel]
    | false =>
      simp only [Bool.false_eq_true, if_false]
  · have s2 := vmStep_opcode ds (q + 1)
      { vm with memStack := { vm.memStack with
          stack := vm.memStack.stack.set vm.memStack.sp (t : Int),
          sp := (vm.memStack.sp + 1) % 4294967296 } } 0x40000011 hj (by decide)
    rw [hcast, show (0x40000011 &&& 0x3FFFFFFF : Nat) = 17 from by decide, hex17] at s2
    rw [s2]
    simp only [if_true]
    show Except.ok ((t : Int) - 1 + 1, _) = _
    rw [Int.sub_add_cancel]
  · rw [operand_then_opcode ds q t 0x40000011 vm fuel hop ht hj (by decide) hroom,
      show (0x40000011 &&& 0x3FFFFFFF : Nat) = 17 from by decide, hex17]
    simp only [if_true]
    show vmLoop ds fuel ((t : Int) - 1 + 1) _ = _
    rw [Int.sub_add_cancel]

theorem conditional_jump_witness :
    (vmStep [3, 0x40000012, 7, 0x40000000] ((0 : Nat) : Int)
        { freshVM 4 with FlagRegister := true } =
      Except.ok (((0 : Nat) : Int) + 1,
        { freshVM 4 with
            FlagRegister := true,
            memStack := { (freshVM 4).memStack with
              stack := (freshVM 4).memStack.stack.set 0 ((3 : Nat) : Int),
              sp := (0 + 1) % 4294967296 } })) ∧
    (vmStep [3, 0x40000012, 7, 0x40000000] (((0 : Nat) : Int) + 1)
        { freshVM 4 with
            FlagRegister := true,
            memStack := { (freshVM 4).memStack with
              stack := (freshVM 4).memStack.stack.set 0 ((3 : Nat) : Int),
              sp := (0 + 1) % 4294967296 } } =
      Except.ok (((3 : Nat) : Int),
        { freshVM 4 with
            FlagRegister := true,
            memStack := { (freshVM 4).memStack with
              stack := (freshVM 4).memStack.stack.set 0 ((3 : Nat) : Int),
              ip := ((3 : Nat) : Int) } })) ∧
    (vmStep [3, 0x40000012, 7, 0x40000000] (((0 : Nat) : Int) + 1)
        { freshVM 4 with
            memStack := { (freshVM 4).memStack with
              stack := (freshVM 4).memStack.stack.set 0 ((3 : Nat) : Int),
              sp := (0 + 1) % 4294967296 } } =
      Except.ok (((0 : Nat) : Int) + 1 + 1,
        { freshVM 4 with
            memStack := { (freshVM 4).memStack with
              stack := (freshVM 4).memStack.stack.set 0 ((3 : Nat) : Int),
              ip := (freshVM 4).memStack.ip + 1 } })) ∧
    (vmStep [3, 0x40000011, 7, 0x40000000] (((0 : Nat) : Int) + 1)
        { freshVM 4 with
            memStack := { (freshVM 4).memStack with
              stack := (freshVM 4).memStack.stack.set 0 ((3 : Nat) : Int),
              sp := (0 + 1) % 4294967296 } } =
      Except.ok (((3 : Nat) : Int),
        { freshVM 4 with
            memStack := { (freshVM 4).memStack with
              stack := (freshVM 4).memStack.stack.set 0 ((3 : Nat) : Int),
              ip := ((3 : Nat) : Int) } })) :=
  ⟨(conditional_jump [3, 0x40000012, 7, 0x40000000] 0 3
      { freshVM 4 with FlagRegister := true }
      (by decide) (by decide) (by decide) (by decide) (by decide)).1,
    ((conditional_jump [3, 0x40000012, 7, 0x40000000] 0 3
      { freshVM 4 with FlagRegister := true }
      (by decide) (by decide) (by decide) (by decide) (by decide)).2.1 (by decide)).2.1,
    ((conditional_jump [3, 0x40000012, 7, 0x40000000] 0 3 (freshVM 4)
      (by decide) (by decide) (by decide) (by decide) (by decide)).2.1 (by decide)).2.1,
    ((conditional_jump [3, 0x40000011, 7, 0x40000000] 0 3 (freshVM 4)
      (by decide) (by decide) (by decide) (by decide) (by decide)).2.2 (by decide)).2.1⟩

/-! ### End-to-end run (C12) and the instruction pointer (C19) -/

theorem fetch_two_prefix (ds : List Nat) (size w1 w2 fuel : Nat) (hsize : 2 ≤ size)
    (h0 : ds[0]? = some w1) (h1 : ds[1]? = some w2)
    (ht1 : ((w1 &&& 0xC0000000) >>> 30) % 2 = 0 ∨ (w1 &&& 0xC0000000) >>> 30 = 3)
    (ht2 : ((w2 &&& 0xC0000000) >>> 30) % 2 = 0 ∨ (w2 &&& 0xC0000000) >>> 30 = 3) :
    VMExecute (fuel + 2) ds (freshVM size) =
      vmLoop ds fuel 2 (operandsVM size (fetchValue w1) (fetchValue w2)) := by
  have hl1 : 1 < ds.length := by
    rcases Nat.lt_or_ge 1 ds.length with h | h
    · exact h
    · rw [List.getElem?_eq_none h] at h1
      cases h1
  unfold VMExecute
  have hlen : ∀ a : Int, ((List.replicate size (0 : Int)).set 0 a).length = size := by
    intro a
    rw [List.length_set, List.length_replicate]
  rw [vmLoop_succ, if_pos (by omega)]
  have s1 := vmStep_push ds 0 (freshVM size) w1 h0 ht1
    (by show 0 < (List.replicate size (0 : Int)).length; rw [List.length_replicate]; omega)
  rw [show ((0 : Nat) : Int) = 0 from rfl] at s1
  rw [s1]
  simp only []
  rw [vmLoop_succ, if_pos (by omega)]
  have s2 := vmStep_push ds 1
    { freshVM size with memStack := { (freshVM size).memStack with
        stack := (freshVM size).memStack.stack.set (freshVM size).memStack.sp (fetchValue w1),
        sp := ((freshVM size).memStack.sp + 1) % 4294967296 } } w2 h1 ht2
    (by show 1 < ((List.replicate size (0 : Int)).set 0 (fetchValue w1)).length; rw [hlen]; omega)
  rw [show ((1 : Nat) : Int) = 0 + 1 from rfl] at s2
  rw [s2]
  rfl

theorem add_literals_opcode (size : Nat) (hsize : 2 ≤ size) :
    VMExecuteOpCode 2 (operandsVM size 2 3) = Except.ok (false,
      { operandsVM size 2 3 with memStack := { (operandsVM size 2 3).memStack with
          sp := 1, stack := (operandsVM size 2 3).memStack.stack.set 0 5 } }) := by
  show binaryArithmetic ArithmeticOperation.ADD (operandsVM size 2 3) = _
  unfold binaryArithmetic
  rw [popTwo_operandsVM size 2 3 hsize]
  simp only []
  unfold ArithmeticOperationHelper resolveOperand
  rw [checkReg_nonneg 2 (by omega) (by omega), checkReg_nonneg 3 (by omega) (by omega)]
  simp only [Bool.false_eq_true, if_false]
  have hex : ∀ vm : VM, ExecuteArithmatic 2 3 ArithmeticOperation.ADD vm = Except.ok (5, vm) :=
    fun _ => rfl
  rw [hex]
  simp only []
  rw [push_ok _ _ (by
    show 0 < (((List.replicate size (0 : Int)).set 0 2).set 1 3).length
    rw [List.length_set, List.length_set, List.length_replicate]
    omega)]
  rfl

/-- The run of the stream assembled from `ADD 2 3 PEEK HALT` on a fresh machine:
PEEK, at word index 3, prints `ip = 1` and the top of the stack `5`; HALT, at word
index 4, prints `ip = 2` and exits with status 0. -/
theorem run_add_peek_halt (ds : List Nat) (size fuel : Nat) (hsize : 2 ≤ size)
    (h0 : ds[0]? = some 2) (h1 : ds[1]? = some 3) (h2 : ds[2]? = some 0x40000002)
    (h3 : ds[3]? = some 0x40000001) (h4 : ds[4]? = some 0x40000000) :
    VMExecute (fuel + 5) ds (freshVM size) =
      some (Except.error (VMStop.exit 0 (haltedVM size))) := by
  have hl : 4 < ds.length := by
    rcases Nat.lt_or_ge 4 ds.length with h | h
    · exact h
    · rw [List.getElem?_eq_none h] at h4
      cases h4
  rw [show fuel + 5 = (fuel + 3) + 2 from rfl,
    fetch_two_prefix ds size 2 3 _ hsize h0 h1 (Or.inl (by decide)) (Or.inl (by decide)),
    show fetchValue 2 = 2 from by decide, show fetchValue 3 = 3 from by decide]
  -- ADD
  rw [vmLoop_succ, if_pos (by omega)]
  have s3 := vmStep_opcode ds 2 (operandsVM size 2 3) 0x40000002 h2 (by decide)
  rw [show ((2 : Nat) : Int) = 2 from rfl,
    show (0x40000002 &&& 0x3FFFFFFF : Nat) = 2 from by decide, add_literals_opcode size hsize] at s3
  rw [s3]
  simp only [Bool.false_eq_true, if_false]
  -- PEEK
  rw [vmLoop_succ, if_pos (by omega)]
  have s4 := vmStep_opcode ds 3
    { operandsVM size 2 3 with memStack := { (operandsVM size 2 3).memStack with
        sp := 1, stack := (operandsVM size 2 3).memStack.stack.set 0 5,
        ip := (operandsVM size 2 3).memStack.ip + 1 } } 0x40000001 h3 (by decide)
  have hpeek : MemStack.peek { (operandsVM size 2 3).memStack with
        sp := 1, stack := (operandsVM size 2 3).memStack.stack.set 0 5,
        ip := (operandsVM size 2 3).memStack.ip + 1 } = Except.ok 5 := by
    unfold MemStack.peek
    rw [if_neg (by show ¬ (1 = 0); omega)]
    have hg : ((((List.replicate size (0 : Int)).set 0 2).set 1 3).set 0 5)[(1 + 4294967296 - 1) % 4294967296]?
        = some 5 := by
      rw [show (1 + 4294967296 - 1) % 4294967296 = 0 from by decide, List.getElem?_set_self]
      rw [List.length_set, List.length_set, List.length_replicate]
      omega
    show (match ((((List.replicate size (0 : Int)).set 0 2).set 1 3).set 0 5)[(1 + 4294967296 - 1) % 4294967296]? with
      | none => Except.error VMStop.indexOutOfRange
      | some val => Except.ok val) = _
    rw [hg]
  have hop4 : VMExecuteOpCode 1
      { operandsVM size 2 3 with memStack := { (operandsVM size 2 3).memStack with
        sp := 1, stack := (operandsVM size 2 3).memStack.stack.set 0 5,
        ip := (operandsVM size 2 3).memStack.ip + 1 } } = Except.ok (false,
      { operandsVM size 2 3 with
        memStack := { (operandsVM size 2 3).memStack with
          sp := 1, stack := (operandsVM size 2 3).memStack.stack.set 0 5,
          ip := (operandsVM size 2 3).memStack.ip + 1 },
        printed := [Printed.peek 1 5] }) := by
    show (match MemStack.peek { (operandsVM size 2 3).memStack with
        sp := 1, stack := (operandsVM size 2 3).memStack.stack.set 0 5,
        ip := (operandsVM size 2 3).memStack.ip + 1 } with
      | Except.error e => Except.error e
      | Except.ok top => Except.ok (false, _)) = _
    rw [hpeek]
    rfl
  rw [show ((3 : Nat) : Int) = 2 + 1 from rfl,
    show (0x40000001 &&& 0x3FFFFFFF : Nat) = 1 from by decide, hop4] at s4
  rw [s4]
  simp only [Bool.false_eq_true, if_false]
  -- HALT
  rw [vmLoop_succ, if_pos (by omega)]
  have s5 := vmStep_opcode ds 4
    { operandsVM size 2 3 with
        memStack := { (operandsVM size 2 3).memStack with
          sp := 1, stack := (operandsVM size 2 3).memStack.stack.set 0 5,
          ip := (operandsVM size 2 3).memStack.ip + 1 + 1 },
        printed := [Printed.peek 1 5] } 0x40000000 h4 (by decide)
  rw [show ((4 : Nat) : Int) = 2 + 1 + 1 from rfl,
    show (0x40000000 &&& 0x3FFFFFFF : Nat) = 0 from by decide] at s5
  rw [s5]
  rfl

/-- C12, counterexample to the claim as stated: the source of scenario 1 does not
assemble. `ADD` has arity 2 in the assembler and takes its operands in the source;
when `PEEK` arrives the pending `ADD` has received none, and `DumpCommand` stops
with the arity diagnostic. -/
theorem scenario_one_fails_arity :
    assemble (ascii "PUSH 2 PUSH 3 ADD PEEK HALT") = some (Except.error LexError.arityMismatch) := by
  rfl

/-- C12, amended. With the operands of `ADD` given in the source, the scenario
holds end to end: `ADD 2 3 PEEK HALT` assembles to the words `2, 3, ADD, PEEK,
HALT` (then the terminator and zeros), and executing that stream on the fresh
machine of `main` reaches PEEK with the top-of-stack value 5 and then exits with
status 0 at HALT. -/
theorem scenario_add_peek_halt :
    assemble (ascii "ADD 2 3 PEEK HALT") = some (Except.ok
      (padded 18 [2, 3, 0x40000002, 0x40000001, 0x40000000, 0x40000000])) ∧
    VMExecute 5 (padded 18 [2, 3, 0x40000002, 0x40000001, 0x40000000, 0x40000000])
      (freshVM 1000000) = some (Except.error (VMStop.exit 0 (haltedVM 1000000))) ∧
    (haltedVM 1000000).printed = [Printed.peek 1 5, Printed.halt 2] :=
  ⟨by rfl,
    run_add_peek_halt _ 1000000 0 (by omega) (by decide) (by decide) (by decide) (by decide)
      (by decide),
    rfl⟩

/-- C19, at the failing input: in the stream assembled from `ADD 2 3 PEEK HALT`
the opcode word of PEEK is at word index 3 and that of HALT at word index 4, yet
PEEK reports `ip = 1` and HALT reports `ip = 2`: the loop of `VMExecute`
increments `ip` after an opcode only, not after the fetch of an operand word. -/
theorem ip_counts_opcodes :
    (padded 18 [2, 3, 0x40000002, 0x40000001, 0x40000000, 0x40000000])[3]? = some 0x40000001 ∧
    (padded 18 [2, 3, 0x40000002, 0x40000001, 0x40000000, 0x40000000])[4]? = some 0x40000000 ∧
    ∃ vm, VMExecute 5 (padded 18 [2, 3, 0x40000002, 0x40000001, 0x40000000, 0x40000000])
        (freshVM 1000000) = some (Except.error (VMStop.exit 0 vm)) ∧
      vm.printed = [Printed.peek 1 5, Printed.halt 2] :=
  ⟨by decide, by decide, haltedVM 1000000,
    run_add_peek_halt _ 1000000 0 (by omega) (by decide) (by decide) (by decide) (by decide)
      (by decide),
    rfl⟩

/-! ### Binary files (C13) -/

theorem fillBuff_word (inst : Nat) :
    fillBuff inst 4 (List.replicate 4 0) =
      [inst / 16777216 % 256, inst / 65536 % 256, inst / 256 % 256, inst % 256] := by
  have h255 : ∀ x : Nat, x &&& 0xFF = x % 256 := by
    intro x
    have h := Nat.and_pow_two_sub_one_eq_mod x 8
    norm_num at h
    exact h
  simp only [fillBuff, List.replicate, List.set, h255, Nat.shiftRight_eq_div_pow]
  norm_num

theorem bigEndian_word (inst : Nat) (h : inst < 4294967296) :
    bigEndianUint32 (inst / 16777216 % 256) (inst / 65536 % 256) (inst / 256 % 256)
      (inst % 256) = inst := by
  unfold bigEndianUint32
  have e1 : inst % 256 ||| (inst / 256 % 256) <<< 8 = inst % 65536 := by
    rw [Nat.lor_comm, Nat.shiftLeft_eq, Nat.mul_comm, ← Nat.mul_add_lt_is_or (by omega)]
    omega
  have e2 : inst % 65536 ||| (inst / 65536 % 256) <<< 16 = inst % 16777216 := by
    rw [Nat.lor_comm, Nat.shiftLeft_eq, Nat.mul_comm, ← Nat.mul_add_lt_is_or (by omega)]
    omega
  have e3 : inst % 16777216 ||| (inst / 16777216 % 256) <<< 24 = inst := by
    rw [Nat.lor_comm, Nat.shiftLeft_eq, Nat.mul_comm, ← Nat.mul_add_lt_is_or (by omega)]
    omega
  rw [e1, e2, e3, Nat.mod_eq_of_lt h]

theorem foldl_append_acc (f : Nat → List Nat) (W : List Nat) :
    ∀ acc : List Nat, W.foldl (fun file inst => file ++ f inst) acc =
      acc ++ W.foldl (fun file inst => file ++ f inst) [] := by
  induction W with
  | nil => intro acc; simp
  | cons w rest ih =>
    intro acc
    rw [List.foldl_cons, List.foldl_cons, ih (acc ++ f w), ih ([] ++ f w)]
    simp

theorem WriteBinaryFile_cons (w : Nat) (W : List Nat) :
    WriteBinaryFile (w :: W) =
      [w / 16777216 % 256, w / 65536 % 256, w / 256 % 256, w % 256] ++ WriteBinaryFile W := by
  unfold WriteBinaryFile
  rw [List.foldl_cons, foldl_append_acc, fillBuff_word]
  rfl

theorem WriteBinaryFile_length (W : List Nat) : (WriteBinaryFile W).length = 4 * W.length := by
  induction W with
  | nil => rfl
  | cons w rest ih =>
    rw [WriteBinaryFile_cons, List.length_append, ih]
    simp only [List.length_cons, List.length_nil]
    omega

theorem readWords_written (W : List Nat) (hW : ∀ w ∈ W, w < 4294967296) :
    ∀ (k : Nat) (L : List Nat), k + W.length ≤ L.length →
      readWords (WriteBinaryFile W) k L = Except.ok (L.take k ++ W ++ L.drop (k + W.length)) := by
  induction W with
  | nil =>
    intro k L _
    show Except.ok L = _
    simp
  | cons w rest ih =>
    intro k L hk
    have hlt : k < L.length := by
      simp only [List.length_cons] at hk
      omega
    rw [WriteBinaryFile_cons]
    show (if k < L.length then
        readWords (WriteBinaryFile rest) (k + 1)
          (L.set k (bigEndianUint32 (w / 16777216 % 256) (w / 65536 % 256) (w / 256 % 256)
            (w % 256)))
      else Except.error VMStop.indexOutOfRange) = _
    rw [if_pos hlt, bigEndian_word w (hW w (List.mem_cons_self _ _)),
      ih (fun x hx => hW x (List.mem_cons_of_mem _ hx)) (k + 1) (L.set k w)
        (by rw [List.length_set]; simp only [List.length_cons] at hk; omega)]
    have h1 : (L.set k w).take (k + 1) = L.take k ++ [w] := by
      rw [List.take_succ, List.getElem?_set_self hlt, List.set_take,
        List.set_eq_of_length_le (by rw [List.length_take]; omega)]
      rfl
    have h2 : (L.set k w).drop (k + 1 + rest.length) = L.drop (k + (w :: rest).length) := by
      rw [List.drop_set_of_lt w L (by omega)]
      simp only [List.length_cons]
      congr 1
      omega
    rw [h1, h2]
    simp

/-- C13. Binary round trip: for every sequence `W` of 32-bit words, the bytes
written by the loop of `WriteBinaryFile` (each word as four bytes, most
significant first) number `4 * |W|`, and the loop of `ReadBinaryFile` on these
bytes (each group of four decoded as a big-endian `uint32`) returns exactly `W`
without failing. -/
theorem binary_round_trip (W : List Nat) (hW : ∀ w ∈ W, w < 4294967296) :
    ReadBinaryFile (WriteBinaryFile W) = Except.ok W ∧
    (WriteBinaryFile W).length = 4 * W.length := by
  refine ⟨?_, WriteBinaryFile_length W⟩
  unfold ReadBinaryFile
  rw [readWords_written W hW 0 _ (by
    rw [List.length_replicate, WriteBinaryFile_length]
    omega)]
  rw [WriteBinaryFile_length, Nat.mul_div_cancel_left _ (by decide : 0 < 4)]
  simp

theorem binary_round_trip_witness :
    ReadBinaryFile (WriteBinaryFile [3, 4, 0x40000002, 0xBFFFFFFF, 0xC0000008]) =
      Except.ok [3, 4, 0x40000002, 0xBFFFFFFF, 0xC0000008] ∧
    (WriteBinaryFile [3, 4, 0x40000002, 0xBFFFFFFF, 0xC0000008]).length = 4 * 5 :=
  binary_round_trip [3, 4, 0x40000002, 0xBFFFFFFF, 0xC0000008] (by decide)

/-! ### Register operands (C14), jump operands (C15, C17) and the fetch step (C18) -/

/-- C14, counterexample to the claim as stated: the register token `R1` is
emitted with payload 0, not 1. -/
theorem register_one_has_payload_zero :
    assemble (ascii "PUSH R1") =
      some (Except.ok (padded 8 [0xC0000000, 0x40000008, 0x40000000])) ∧
    (0xC0000000 : Nat) ≠ 0xC0000000 ||| 1 := by
  constructor
  · rfl
  · decide

/-- C14, amended. For every `r` with `1 ≤ r ≤ 9` the register token `Rr` used as
an operand is emitted as the word with tag 11 and payload `r - 1`, that is
`0xC0000000 | (r - 1)`: the nine registers `R1` to `R9` are the cells 0 to 8 of
`MemRegisters`. -/
theorem register_operand_encoding (r : Nat) (h1 : 1 ≤ r) (h9 : r ≤ 9) :
    emitsRegister [82, 48 + r] (0xC0000000 ||| (r - 1)) ∧
    (0xC0000000 ||| (r - 1)) >>> 30 = 3 ∧
    (0xC0000000 ||| (r - 1)) &&& 0x3FFFFFFF = r - 1 := by
  have hreg : registerToken [82, 48 + r] = true := by
    simp only [registerToken, Bool.and_eq_true, decide_eq_true_eq, true_and]
    omega
  have hword : encodeRegister (48 + r) = 0xC0000000 ||| (r - 1) := by
    interval_cases r <;> decide
  refine ⟨⟨?_, ?_, ?_⟩, ?_, ?_⟩
  · intro lexer lexemes params hb hp hlt hj1 hj2
    have hG := GetCommand_register lexer lexemes params (by rw [hb]; exact hreg) ⟨hj1, hj2⟩ hp hlt
    have hd : lexer.BuiltString.getD 1 0 = 48 + r := by rw [hb]; rfl
    rw [hd, hword] at hG
    exact hG
  · unfold operandWord
    rw [registerToken_not_decimal _ hreg]
    exact hword
  · interval_cases r <;> rfl
  · interval_cases r <;> decide
  · interval_cases r <;> decide

theorem register_operand_encoding_witness :
    emitsRegister [82, 48 + 9] (0xC0000000 ||| (9 - 1)) ∧
    (0xC0000000 ||| (9 - 1)) >>> 30 = 3 ∧
    (0xC0000000 ||| (9 - 1)) &&& 0x3FFFFFFF = 9 - 1 :=
  register_operand_encoding 9 (by decide) (by decide)

/-- C15, at the failing input `JMPF 5`: an integer literal as the operand of
`JMPF` is accepted and emitted as the jump operand. The integer check
(`ValidateNumParameter`) knows `JMP` only, while the register check of
`GetCommand` knows both jumps: `JMP 5`, `JMP R1` and `JMPF R1` are rejected. -/
theorem jmpf_integer_operand_assembles :
    assemble (ascii "JMPF 5") =
      some (Except.ok (padded 7 [5, 0x40000012, 0x40000000])) ∧
    ValidateNumParameter 0x40000012 0 = true ∧
    ValidateNumParameter 0x40000011 0 = false ∧
    assemble (ascii "JMP 5") = some (Except.error LexError.registerExpected) ∧
    assemble (ascii "JMP R1") = some (Except.error LexError.labelExpected) ∧
    assemble (ascii "JMPF R1") = some (Except.error LexError.labelExpected) := by
  refine ⟨by rfl, by decide, by decide, by rfl, by rfl, by rfl⟩

/-- C17, at the failing input `x: JMP x`: a label of one character can be
declared but not referenced. `HandleLabelParameter` stops with the diagnostic for
an empty label reference when the token has length 1, the test that
`HandleLabelDecleration` makes on a token that still carries its `:`. With a name
of two characters the same source assembles, the jump operand being 0. -/
theorem one_character_label_reference_fails :
    assemble (ascii "x: JMP x") = some (Except.error LexError.emptyLabelReference) ∧
    assemble (ascii "x: HALT") = some (Except.ok (padded 8 [0x40000000, 0x40000000])) ∧
    assemble (ascii "xy: JMP xy") =
      some (Except.ok (padded 11 [0, 0x40000011, 0x40000000])) := by
  refine ⟨by rfl, by rfl, by rfl⟩

theorem fetchValue_eq (w : Nat) :
    fetchValue w = toInt32 ((((if (w / 1073741824 % 4) % 2 = 0 ∧ w / 1073741824 % 4 = 2 then 3
      else w / 1073741824 % 4) <<< 30) % 4294967296) ||| (w % 1073741824)) := by
  unfold fetchValue
  simp only []
  show toInt32 ((((if ((w &&& 3221225472) >>> 30) % 2 = 0 ∧ (w &&& 3221225472) >>> 30 = 2 then 3
    else (w &&& 3221225472) >>> 30) <<< 30) % 4294967296) ||| (w &&& 1073741823)) = _
  rw [tagOf, and_low30]

theorem fetchValue_tag (w tag : Nat) (htag : w / 1073741824 % 4 = tag) (hne : tag ≠ 2) :
    fetchValue w = toInt32 (1073741824 * tag + w % 1073741824) := by
  rw [fetchValue_eq, htag, if_neg (by omega), Nat.shiftLeft_eq, Nat.mul_comm,
    show (2 : Nat) ^ 30 = 1073741824 from by norm_num,
    Nat.mod_eq_of_lt (by omega), or_low30 _ _ (Nat.mod_lt _ (by decide))]

theorem fetchValue_tag_two (w : Nat) (htag : w / 1073741824 % 4 = 2) :
    fetchValue w = toInt32 (3221225472 + w % 1073741824) := by
  rw [fetchValue_eq, htag, if_pos ⟨by decide, rfl⟩,
    show ((3 : Nat) <<< 30) % 4294967296 = 1073741824 * 3 from by decide,
    or_low30 _ _ (Nat.mod_lt _ (by decide))]

/-- The streams of `ADD -1073741823 1` and of `ADD R2 1` run alike on the fresh
machine: after the fetch step the literal is the word of register `R2`, the
handler of ADD reads and writes that register, and nothing is pushed. -/
theorem negative_literal_any_size (size : Nat) (hsize : 2 ≤ size) :
    VMExecute 4 [0x80000001, 1, 0x40000002] (freshVM size) =
      some (Except.ok { operandsVM size (fetchValue 0xC0000001) 1 with
        MemRegisters := (List.replicate 9 0).set 1 1,
        memStack := { (operandsVM size (fetchValue 0xC0000001) 1).memStack with
          sp := 0, ip := 1 } }) ∧
    VMExecute 4 [0xC0000001, 1, 0x40000002] (freshVM size) =
      some (Except.ok { operandsVM size (fetchValue 0xC0000001) 1 with
        MemRegisters := (List.replicate 9 0).set 1 1,
        memStack := { (operandsVM size (fetchValue 0xC0000001) 1).memStack with
          sp := 0, ip := 1 } }) := by
  have hd1 := dispatch_two_operands size 0x80000001 1 0x40000002 1 hsize
    (Or.inl (by decide)) (Or.inl (by decide)) (by decide)
  have hd2 := dispatch_two_operands size 0xC0000001 1 0x40000002 1 hsize
    (Or.inr (by decide)) (Or.inl (by decide)) (by decide)
  rw [show (1 + 3 : Nat) = 4 from rfl, show fetchValue 0x80000001 = fetchValue 0xC0000001 from
    by decide, show fetchValue 1 = 1 from by decide,
    show (0x40000002 &&& 0x3FFFFFFF : Nat) = 2 from by decide] at hd1
  rw [show (1 + 3 : Nat) = 4 from rfl, show fetchValue 1 = 1 from by decide,
    show (0x40000002 &&& 0x3FFFFFFF : Nat) = 2 from by decide] at hd2
  have hlen : ∀ a b : Int, (((List.replicate size (0 : Int)).set 0 a).set 1 b).length = size := by
    intro a b
    rw [List.length_set, List.length_set, List.length_replicate]
  have hop := arithmetic_register_destination 2 (operandsVM size (fetchValue 0xC0000001) 1) 1 1 1
    (by omega) (by show (List.replicate 9 (0 : Int)).length = 9; decide) (by omega)
    (by show 0 + 2 ≤ 2; omega) (by show 2 < 4294967296; omega)
    (by
      show (((List.replicate size (0 : Int)).set 0 _).set 1 1)[0]? = _
      rw [List.getElem?_set_ne (by omega), List.getElem?_set_self (by
        rw [List.length_replicate]; omega)]
      rfl)
    (by
      show (((List.replicate size (0 : Int)).set 0 _).set 1 1)[1]? = _
      rw [List.getElem?_set_self (by rw [List.length_set, List.length_replicate]; omega)])
    (Or.inr (by omega)) (by omega)
  rw [hd1, hd2, hop]
  exact ⟨rfl, rfl⟩

/-- C18, the defect at the failing input. The word `0xBFFFFFFF`, which the
assembler emits for the literal `-1`, has tag 10, and the fetch step pushes `-1`,
a word whose two most significant bits are 11 and which `CheckIfRegister` takes
for a register word: the tag is not preserved and a negative integer on the
stack is tagged as a register. The word `0x80000001` of the literal
`-1073741823` (tag 10) and the word `0xC0000001` of the register token `R2`
(tag 11) are pushed as the same stack word, and on the fresh machine of `main`
the stream of `ADD -1073741823 1` runs as the stream of `ADD R2 1`: it adds 1 to
the register and pushes nothing. -/
theorem fetch_retags_negative_word :
    ((0xBFFFFFFF : Nat) >>> 30 = 2 ∧ fetchValue 0xBFFFFFFF = -1 ∧
      toUint32 (fetchValue 0xBFFFFFFF) >>> 30 = 3 ∧
      CheckIfRegister (toUint32 (fetchValue 0xBFFFFFFF)) = true) ∧
    (encodeInt (-1073741823) = 0x80000001 ∧ encodeRegister 50 = 0xC0000001 ∧
      (0x80000001 : Nat) >>> 30 = 2 ∧ (0xC0000001 : Nat) >>> 30 = 3 ∧
      fetchValue 0x80000001 = fetchValue 0xC0000001 ∧
      CheckIfRegister (toUint32 (fetchValue 0x80000001)) = true) ∧
    VMExecute 4 [0x80000001, 1, 0x40000002] (freshVM 1000000) =
      some (Except.ok { operandsVM 1000000 (fetchValue 0xC0000001) 1 with
        MemRegisters := (List.replicate 9 0).set 1 1,
        memStack := { (operandsVM 1000000 (fetchValue 0xC0000001) 1).memStack with
          sp := 0, ip := 1 } }) ∧
    VMExecute 4 [0xC0000001, 1, 0x40000002] (freshVM 1000000) =
      some (Except.ok { operandsVM 1000000 (fetchValue 0xC0000001) 1 with
        MemRegisters := (List.replicate 9 0).set 1 1,
        memStack := { (operandsVM 1000000 (fetchValue 0xC0000001) 1).memStack with
          sp := 0, ip := 1 } }) :=
  ⟨by decide, by decide, negative_literal_any_size 1000000 (by omega)⟩

/-- The fetch step and the tags. For a stream word `w` (the tag being `w >> 30`):
when its tag is 00 the fetch step of `VMExecute` pushes `w` itself, of tag 00;
when its tag is 11 it pushes the word with the same 32 bits, of tag 11; when its
tag is 10 it pushes the two's-complement negative `payload - 2^30`, the 32 bits
of `w` with bit 30 set, so that the pushed word has the two most significant bits
11 and the value `n` for the word of the literal `n < 0`. -/
theorem fetch_tags (w : Nat) :
    (w >>> 30 = 0 → fetchValue w = (w : Int) ∧ toUint32 (fetchValue w) >>> 30 = 0) ∧
    (w >>> 30 = 3 → toUint32 (fetchValue w) = w ∧ toUint32 (fetchValue w) >>> 30 = 3) ∧
    (w >>> 30 = 2 → fetchValue w = ((w % 1073741824 : Nat) : Int) - 1073741824 ∧
      toUint32 (fetchValue w) = w + 1073741824 ∧ toUint32 (fetchValue w) >>> 30 = 3) := by
  have hs : w >>> 30 = w / 1073741824 := by
    rw [Nat.shiftRight_eq_div_pow]
  rw [hs]
  refine ⟨fun h0 => ?_, fun h3 => ?_, fun h2 => ?_⟩
  · have hv : fetchValue w = (w : Int) := by
      rw [fetchValue_tag w 0 (by omega) (by decide)]
      unfold toInt32 wrap32
      omega
    rw [hv]
    refine ⟨rfl, ?_⟩
    unfold toUint32
    rw [Nat.shiftRight_eq_div_pow]
    omega
  · have hv : fetchValue w = (w : Int) - 4294967296 := by
      rw [fetchValue_tag w 3 (by omega) (by decide)]
      unfold toInt32 wrap32
      omega
    rw [hv]
    unfold toUint32
    rw [Nat.shiftRight_eq_div_pow]
    omega
  · have hv : fetchValue w = ((w % 1073741824 : Nat) : Int) - 1073741824 := by
      rw [fetchValue_tag_two w (by omega)]
      unfold toInt32 wrap32
      omega
    rw [hv]
    refine ⟨rfl, ?_⟩
    unfold toUint32
    rw [Nat.shiftRight_eq_div_pow]
    omega

theorem fetch_tags_witness :
    (0x80000005 : Nat) >>> 30 = 2 ∧
    fetchValue 0x80000005 = ((0x80000005 % 1073741824 : Nat) : Int) - 1073741824 ∧
    toUint32 (fetchValue 0x80000005) = 0x80000005 + 1073741824 ∧
    toUint32 (fetchValue 0x80000005) >>> 30 = 3 :=
  ⟨by decide, (fetch_tags 0x80000005).2.2 (by decide)⟩

/-! ### Word tags and the kinds of token -/

theorem wordTag_eq (w : Nat) : wordTag w = w / 1073741824 % 4 := by
  unfold wordTag
  exact tagOf w

theorem wordTag_small (v : Nat) (h : v < 1073741824) : wordTag v = 0 := by
  rw [wordTag_eq]
  omega

theorem wordTag_encodeInt (num : Int) (h0 : -1073741823 ≤ num) (h1 : num ≤ 1073741823) :
    wordTag (encodeInt num) ≠ 1 ∧ wordTag (encodeInt num) ≠ 3 := by
  have h := encodeInt_tag num h0 h1
  unfold wordTag
  constructor <;> omega

theorem wordTag_encodeRegister (d : Nat) : wordTag (encodeRegister d) = 3 := by
  unfold encodeRegister
  rw [wordTag_eq]
  have h15 : ((d + 256 - 49) % 256) &&& 15 < 16 := by
    have h := Nat.and_pow_two_sub_one_eq_mod ((d + 256 - 49) % 256) 4
    norm_num at h
    rw [h]
    omega
  have h := or_low30 3 (((d + 256 - 49) % 256) &&& 15) (by omega)
  rw [show (1073741824 * 3 : Nat) = 0xC0000000 from rfl] at h
  rw [h]
  omega

theorem mnemonic_facts (s : Bytes) (instruction numParams : Nat)
    (h : mnemonic s = some (instruction, numParams)) :
    wordTag instruction = 1 ∧ numParams ≤ 2 ∧
    (instruction = 0x40000009 → numParams = 1) ∧
    (instruction = 0x4000000A → numParams = 2) ∧
    ((instruction = 0x40000011 ∨ instruction = 0x40000012) → numParams = 1) := by
  have key : ∀ r ∈ opcodeTable,
      wordTag (0x40000000 ||| r.2.1) = 1 ∧ r.2.2 ≤ 2 ∧
      (0x40000000 ||| r.2.1 = 0x40000009 → r.2.2 = 1) ∧
      (0x40000000 ||| r.2.1 = 0x4000000A → r.2.2 = 2) ∧
      ((0x40000000 ||| r.2.1 = 0x40000011 ∨ 0x40000000 ||| r.2.1 = 0x40000012) → r.2.2 = 1) := by
    decide
  rw [mnemonic_table] at h
  cases hg : mapGet opcodeTable s with
  | none => rw [hg] at h; cases h
  | some r =>
    rw [hg] at h
    have hr := key (s, r) (mapGet_mem _ _ _ hg)
    simp only [Option.map_some', Option.some.injEq, Prod.mk.injEq] at h
    rw [← h.1, ← h.2]
    exact hr

/-- The five ways in which `GetCommand` succeeds: label declaration, integer
operand, register operand, label reference, mnemonic. -/
theorem GetCommand_kinds (lexer lexer1 : Lexer) (lexemes lexemes1 : List Nat)
    (h : GetCommand lexer lexemes = Except.ok (lexer1, lexemes1)) :
    (∃ lx1 buf1 lx2, DumpCommand lexer lexemes = Except.ok (lx1, buf1) ∧
        HandleLabelDecleration lx1 buf1 = Except.ok (lx2, lexemes1) ∧
        lexer1 = { lx2 with Parameters := none }) ∨
    (lexemes1 = lexemes ∧ ∃ num params, Atoi lexer.BuiltString = some num ∧
        -1073741823 ≤ num ∧ num ≤ 1073741823 ∧
        ValidateNumParameter lexer.CurrentInstruction lexer.ParametersIndex = true ∧
        lexer.Parameters = some params ∧ lexer.ParametersIndex < params.length ∧
        lexer1 = { lexer with
          Parameters := some (params.set lexer.ParametersIndex (encodeInt num)),
          ParametersIndex := lexer.ParametersIndex + 1,
          NumParams := wrapInt8 (lexer.NumParams + 1) }) ∨
    (lexemes1 = lexemes ∧ ∃ params, lexer.CurrentInstruction ≠ 0x40000011 ∧
        lexer.CurrentInstruction ≠ 0x40000012 ∧
        lexer.Parameters = some params ∧ lexer.ParametersIndex < params.length ∧
        lexer1 = { lexer with
          Parameters := some (params.set lexer.ParametersIndex
            (encodeRegister (lexer.BuiltString.getD 1 0))),
          ParametersIndex := lexer.ParametersIndex + 1,
          NumParams := wrapInt8 (lexer.NumParams + 1) }) ∨
    ((lexer.CurrentInstruction = 0x40000011 ∨ lexer.CurrentInstruction = 0x40000012) ∧
        lexer.NumParams = 0 ∧ lexemes1 = lexemes ∧
        HandleLabelParameter lexer = Except.ok lexer1) ∨
    (∃ lx1 instruction numParams, DumpCommand lexer lexemes = Except.ok (lx1, lexemes1) ∧
        mnemonic lx1.BuiltString = some (instruction, numParams) ∧
        lexer1 = { lx1 with CurrentInstruction := instruction,
                            Parameters := some (List.replicate numParams 0) }) := by
  unfold GetCommand at h
  cases hlast : lexer.BuiltString.getLast? with
  | none => rw [hlast] at h; cases h
  | some c =>
    rw [hlast] at h
    simp only [] at h
    by_cases hc : c = 58
    · rw [if_pos hc] at h
      left
      cases hD : DumpCommand lexer lexemes with
      | error e => rw [hD] at h; cases h
      | ok r =>
        obtain ⟨lx1, buf1⟩ := r
        rw [hD] at h
        simp only [] at h
        cases hH : HandleLabelDecleration lx1 buf1 with
        | error e => rw [hH] at h; cases h
        | ok r2 =>
          obtain ⟨lx2, buf2⟩ := r2
          rw [hH] at h
          simp only [] at h
          injection h with h
          injection h with h1 h2
          subst h2
          exact ⟨lx1, buf1, lx2, rfl, hH, h1.symm⟩
    · rw [if_neg hc] at h
      right
      cases hA : Atoi lexer.BuiltString with
      | some num =>
        rw [hA] at h
        simp only [] at h
        left
        split at h
        · cases h
        · rename_i hrange
          split at h
          · cases h
          · split at h
            · cases h
            · rename_i hval
              cases hs : setParameter lexer (encodeInt num) with
              | error e => rw [hs] at h; cases h
              | ok lx2 =>
                rw [hs] at h
                simp only [] at h
                obtain ⟨params, hp, hlt, h3⟩ := setParameter_frame _ _ _ hs
                injection h with h
                injection h with h1 h2
                refine ⟨h2.symm, num, params, rfl, by omega, by omega, ?_, hp, hlt, ?_⟩
                · simpa using hval
                · rw [← h1, h3]
      | none =>
        rw [hA] at h
        simp only [] at h
        right
        split at h
        · cases h
        · split at h
          · left
            split at h
            · cases h
            · split at h
              · cases h
              · rename_i hjump
                split at h
                · cases h
                · cases hs : setParameter lexer (encodeRegister (lexer.BuiltString.getD 1 0)) with
                  | error e => rw [hs] at h; cases h
                  | ok lx2 =>
                    rw [hs] at h
                    simp only [] at h
                    obtain ⟨params, hp, hlt, h3⟩ := setParameter_frame _ _ _ hs
                    injection h with h
                    injection h with h1 h2
                    refine ⟨h2.symm, params, fun hh => hjump (Or.inl hh),
                      fun hh => hjump (Or.inr hh), hp, hlt, ?_⟩
                    rw [← h1, h3]
          · right
            split at h
            · rename_i hjump
              left
              cases hP : HandleLabelParameter lexer with
              | error e => rw [hP] at h; cases h
              | ok lx2 =>
                rw [hP] at h
                simp only [] at h
                injection h with h
                injection h with h1 h2
                exact ⟨hjump.1, hjump.2, h2.symm, by rw [h1]⟩
            · right
              cases hD : DumpCommand lexer lexemes with
              | error e => rw [hD] at h; cases h
              | ok r =>
                obtain ⟨lx1, buf1⟩ := r
                rw [hD] at h
                simp only [] at h
                cases hm : mnemonic lx1.BuiltString with
                | none => rw [hm] at h; cases h
                | some r2 =>
                  obtain ⟨instruction, numParams⟩ := r2
                  rw [hm] at h
                  simp only [] at h
                  injection h with h
                  injection h with h1 h2
                  subst h2
                  exact ⟨lx1, instruction, numParams, rfl, hm, h1.symm⟩

/-! ### Register-required positions: the flush -/

theorem DumpCommand_arity (lexer lexer1 : Lexer) (lexemes lexemes1 params : List Nat)
    (h : DumpCommand lexer lexemes = Except.ok (lexer1, lexemes1))
    (hp : lexer.Parameters = some params) : params.length = lexer.NumParams := by
  unfold DumpCommand at h
  rw [hp] at h
  simp only [] at h
  by_cases hne : (params.length : Int) ≠ lexer.NumParams
  · rw [if_pos hne] at h
    cases h
  · exact not_not.mp hne

theorem getElem?_append_pending (e params : List Nat) (w j : Nat) :
    (e ++ (params ++ [w]))[e.length + j]? = (params ++ [w])[j]? := by
  rw [List.getElem?_append_right (by omega), Nat.add_sub_cancel_left]

theorem jumpSlot_append (e extra : List Nat) (s : Nat) (h : jumpSlot e s) :
    jumpSlot (e ++ extra) s := by
  obtain ⟨q, j, h1, h2, h3, h4⟩ := h
  have hs1 : s + 1 < e.length := by
    rcases Nat.lt_or_ge (s + 1) e.length with h | h
    · exact h
    · rw [List.getElem?_eq_none h] at h3
      cases h3
  exact ⟨q, j, by rw [List.getElem?_append_left (by omega)]; exact h1, h2,
    by rw [List.getElem?_append_left hs1]; exact h3, h4⟩

/-- The flush made by `DumpCommand` keeps the register-required positions. -/
theorem OperandInv_flush (n : Nat) (lexer lexer1 : Lexer) (e lexemes1 : List Nat)
    (hI : OperandInvAt n lexer e)
    (hD : DumpCommand lexer (padded n e) = Except.ok (lexer1, lexemes1)) :
    lexer1 = flushed lexer (pendingWords lexer).length ∧
    lexemes1 = padded n (e ++ pendingWords lexer) ∧
    FlushedInv n lexer1 (e ++ pendingWords lexer) := by
  obtain ⟨h1, h2, h3⟩ := DumpCommand_padded_ok n lexer lexer1 e lexemes1 hI.fits hI.index hD
  refine ⟨h1, h2, ?_⟩
  cases hp : lexer.Parameters with
  | none =>
    have hpw : pendingWords lexer = [] := by unfold pendingWords; rw [hp]
    have hnp := hI.idle hp
    rw [hpw, List.append_nil]
    refine ⟨by rw [h1, hpw]; exact hI.index, hI.fits, hI.positions, ?_, ?_⟩
    · intro name val hv s hs
      rw [h1] at hv
      rcases hI.slots name val hv s hs with h | ⟨_, h, _⟩
      · exact h
      · omega
    · intro name v hv
      rw [h1] at hv
      exact hI.labels name v hv
  | some params =>
    have hpw : pendingWords lexer = params ++ [lexer.CurrentInstruction] := by
      unfold pendingWords; rw [hp]
    have harity := DumpCommand_arity lexer lexer1 _ lexemes1 params hD hp
    obtain ⟨hle, htags, hci, hpop, hmov, hjmp⟩ := hI.pending params hp
    rw [hpw] at h3 ⊢
    refine ⟨?_, h3, ⟨?_, ?_⟩, ?_, ?_⟩
    · rw [h1, hpw]
      show _ = lexer.LexemesIndex + _
      rw [List.length_append, hI.index]
    · -- POP
      intro i hi
      rcases Nat.lt_or_ge i e.length with hlt | hge
      · rw [List.getElem?_append_left hlt] at hi
        obtain ⟨h1i, p, hp1, hp2⟩ := hI.positions.1 i hi
        exact ⟨h1i, p, by rw [List.getElem?_append_left (by omega)]; exact hp1, hp2⟩
      · obtain ⟨j, hj⟩ : ∃ j, i = e.length + j := ⟨i - e.length, by omega⟩
        rw [hj, getElem?_append_pending] at hi
        rcases Nat.lt_or_ge j params.length with hjl | hjg
        · rw [List.getElem?_append_left hjl] at hi
          have := htags _ (List.getElem?_mem hi)
          exact absurd (show wordTag 0x40000009 = 1 from by decide) this
        · have hjl : j < (params ++ [lexer.CurrentInstruction]).length := by
            rcases Nat.lt_or_ge j (params ++ [lexer.CurrentInstruction]).length with h | h
            · exact h
            · rw [List.getElem?_eq_none h] at hi
              cases hi
          rw [List.length_append, List.length_singleton] at hjl
          have hjp : j = params.length := by omega
          rw [hjp, List.getElem?_append_right (Nat.le_refl _), Nat.sub_self] at hi
          have hci9 : lexer.CurrentInstruction = 0x40000009 := by simpa using hi
          obtain ⟨hl1, hreg⟩ := hpop hci9
          obtain ⟨p, hp0, hpt⟩ := hreg (by omega)
          refine ⟨by omega, p, ?_, hpt⟩
          rw [hj, hjp, hl1, show e.length + 1 - 1 = e.length + 0 from by omega,
            getElem?_append_pending, List.getElem?_append_left (by omega)]
          exact hp0
    · -- MOV
      intro i hi
      rcases Nat.lt_or_ge i e.length with hlt | hge
      · rw [List.getElem?_append_left hlt] at hi
        obtain ⟨h1i, ⟨p, hp1, hp2⟩, q, hq1, hq2⟩ := hI.positions.2 i hi
        exact ⟨h1i, ⟨p, by rw [List.getElem?_append_left (by omega)]; exact hp1, hp2⟩,
          q, by rw [List.getElem?_append_left (by omega)]; exact hq1, hq2⟩
      · obtain ⟨j, hj⟩ : ∃ j, i = e.length + j := ⟨i - e.length, by omega⟩
        rw [hj, getElem?_append_pending] at hi
        rcases Nat.lt_or_ge j params.length with hjl | hjg
        · rw [List.getElem?_append_left hjl] at hi
          have := htags _ (List.getElem?_mem hi)
          exact absurd (show wordTag 0x4000000A = 1 from by decide) this
        · have hjl : j < (params ++ [lexer.CurrentInstruction]).length := by
            rcases Nat.lt_or_ge j (params ++ [lexer.CurrentInstruction]).length with h | h
            · exact h
            · rw [List.getElem?_eq_none h] at hi
              cases hi
          rw [List.length_append, List.length_singleton] at hjl
          have hjp : j = params.length := by omega
          rw [hjp, List.getElem?_append_right (Nat.le_refl _), Nat.sub_self] at hi
          have hciA : lexer.CurrentInstruction = 0x4000000A := by simpa using hi
          obtain ⟨hl2, hreg⟩ := hmov hciA
          obtain ⟨p, hp0, hpt⟩ := hreg (by omega)
          obtain ⟨q, hq⟩ : ∃ q, params[1]? = some q := by
            rcases hq1 : params[1]? with _ | q
            · rw [List.getElem?_eq_none_iff] at hq1
              omega
            · exact ⟨q, rfl⟩
          refine ⟨by omega, ⟨p, ?_, hpt⟩, q, ?_, htags q (List.getElem?_mem hq)⟩
          · rw [hj, hjp, hl2, show e.length + 2 - 2 = e.length + 0 from by omega,
              getElem?_append_pending, List.getElem?_append_left (by omega)]
            exact hp0
          · rw [hj, hjp, hl2, show e.length + 2 - 1 = e.length + 1 from by omega,
              getElem?_append_pending, List.getElem?_append_left (by omega)]
            exact hq
    · -- waiting slots
      intro name val hv s hs
      rw [h1] at hv
      rcases hI.slots name val hv s hs with h | ⟨hse, hnp1, hj⟩
      · exact jumpSlot_append e _ s h
      · have hl1 := hjmp hj
        obtain ⟨q, hq⟩ : ∃ q, params[0]? = some q := by
          rcases hq1 : params[0]? with _ | q
          · rw [List.getElem?_eq_none_iff] at hq1
            omega
          · exact ⟨q, rfl⟩
        refine ⟨q, lexer.CurrentInstruction, ?_, htags q (List.getElem?_mem hq), ?_, hj⟩
        · rw [hse, show e.length = e.length + 0 from rfl, getElem?_append_pending,
            List.getElem?_append_left (by omega)]
          exact hq
        · rw [hse, getElem?_append_pending, ← hl1,
            List.getElem?_append_right (Nat.le_refl _), Nat.sub_self]
          rfl
    · intro name v hv
      rw [h1] at hv
      exact hI.labels name v hv

/-! ### Register-required positions: backpatching -/

theorem jumpSlot_lt (e : List Nat) (s : Nat) (h : jumpSlot e s) : s + 1 < e.length := by
  obtain ⟨q, j, _, _, h3, _⟩ := h
  rcases Nat.lt_or_ge (s + 1) e.length with h | h
  · exact h
  · rw [List.getElem?_eq_none h] at h3
    cases h3

theorem patch_getElem?_cases (val : List Nat) (w s : Nat) (e : List Nat) (x : Nat)
    (h : (patch e val w)[s]? = some x) : (s ∈ val ∧ x = w) ∨ (s ∉ val ∧ e[s]? = some x) := by
  by_cases hs : s ∈ val
  · left
    have hlt : s < e.length := by
      rcases Nat.lt_or_ge s e.length with h1 | h1
      · exact h1
      · rw [List.getElem?_eq_none (by rw [patch_length]; exact h1)] at h
        cases h
    rw [patch_getElem?_mem val w s e hs hlt] at h
    exact ⟨hs, (Option.some.inj h).symm⟩
  · right
    rw [patch_getElem?_not_mem val w s e hs] at h
    exact ⟨hs, h⟩

theorem jumpSlot_patch (e val : List Nat) (w s : Nat) (hw : wordTag w ≠ 1)
    (hval : ∀ t ∈ val, jumpSlot e t) (h : jumpSlot e s) : jumpSlot (patch e val w) s := by
  obtain ⟨q, j, h1, h2, h3, h4⟩ := h
  have hs1 : s + 1 ∉ val := by
    intro hmem
    obtain ⟨q1, _, hq1, hq2, _, _⟩ := hval _ hmem
    rw [h3] at hq1
    have : j = q1 := Option.some.inj hq1
    rw [← this] at hq2
    rcases h4 with h4 | h4 <;> rw [h4] at hq2 <;> exact hq2 (by decide)
  have hlt : s < e.length := by
    have := jumpSlot_lt e s ⟨q, j, h1, h2, h3, h4⟩
    omega
  by_cases hs : s ∈ val
  · exact ⟨w, j, patch_getElem?_mem val w s e hs hlt, hw,
      by rw [patch_getElem?_not_mem val w _ e hs1]; exact h3, h4⟩
  · exact ⟨q, j, by rw [patch_getElem?_not_mem val w s e hs]; exact h1, h2,
      by rw [patch_getElem?_not_mem val w _ e hs1]; exact h3, h4⟩

/-- Backpatching the operand slots of jumps keeps the register-required
positions. -/
theorem RegisterPositions_patch (e val : List Nat) (w : Nat) (hw : wordTag w ≠ 1)
    (hval : ∀ t ∈ val, jumpSlot e t) (h : RegisterPositions e) :
    RegisterPositions (patch e val w) := by
  have hnot : ∀ x, wordTag x = 1 → ∀ i, (patch e val w)[i]? = some x → i ∉ val ∧ e[i]? = some x := by
    intro x hx i hi
    rcases patch_getElem?_cases val w i e x hi with ⟨_, h2⟩ | h2
    · rw [h2] at hx
      exact absurd hx hw
    · exact h2
  have hprev : ∀ i x, e[i + 1]? = some x → wordTag x = 1 →
      (x ≠ 0x40000011 ∧ x ≠ 0x40000012) → i ∉ val := by
    intro i x hi hx hne hmem
    obtain ⟨_, j, _, _, hj, hj2⟩ := hval _ hmem
    rw [hi] at hj
    have : x = j := Option.some.inj hj
    rcases hj2 with hj2 | hj2
    · exact hne.1 (by rw [this, hj2])
    · exact hne.2 (by rw [this, hj2])
  constructor
  · intro i hi
    obtain ⟨hiv, hie⟩ := hnot _ (by decide) i hi
    obtain ⟨h1, p, hp1, hp2⟩ := h.1 i hie
    refine ⟨h1, p, ?_, hp2⟩
    have : i - 1 ∉ val := hprev (i - 1) 0x40000009
      (by rw [show i - 1 + 1 = i from by omega]; exact hie) (by decide) (by decide)
    rw [patch_getElem?_not_mem val w _ e this]
    exact hp1
  · intro i hi
    obtain ⟨hiv, hie⟩ := hnot _ (by decide) i hi
    obtain ⟨h1, ⟨p, hp1, hp2⟩, q, hq1, hq2⟩ := h.2 i hie
    refine ⟨h1, ⟨p, ?_, hp2⟩, ?_⟩
    · have : i - 2 ∉ val := by
        intro hmem
        obtain ⟨_, j, _, _, hj, hj2⟩ := hval _ hmem
        rw [show i - 2 + 1 = i - 1 from by omega, hq1] at hj
        have hqj : q = j := Option.some.inj hj
        rw [hqj] at hq2
        rcases hj2 with hj2 | hj2 <;> rw [hj2] at hq2 <;> exact hq2 (by decide)
      rw [patch_getElem?_not_mem val w _ e this]
      exact hp1
    · by_cases hm : i - 1 ∈ val
      · have hlt : i - 1 < e.length := by
          have := jumpSlot_lt e _ (hval _ hm)
          omega
        exact ⟨w, patch_getElem?_mem val w _ e hm hlt, hw⟩
      · exact ⟨q, by rw [patch_getElem?_not_mem val w _ e hm]; exact hq1, hq2⟩

/-! ### Register-required positions: GetCommand -/

theorem mem_set_cases (params : List Nat) (i w p : Nat) (h : p ∈ params.set i w) :
    p = w ∨ p ∈ params := by
  rcases List.mem_or_eq_of_mem_set h with h1 | h1
  · exact Or.inr h1
  · exact Or.inl h1

/-- An operand (integer, register or resolved label) stored in the pending
command keeps the invariant, when the first operand of POP and MOV receives a
register. -/
theorem OperandInv_store (n : Nat) (lexer : Lexer) (e params : List Nat) (w : Nat)
    (hI : OperandInvAt n lexer e) (hp : lexer.Parameters = some params)
    (hlt : lexer.ParametersIndex < params.length) (hw : wordTag w ≠ 1)
    (hpop : lexer.CurrentInstruction = 0x40000009 → wordTag w = 3)
    (hmov : lexer.CurrentInstruction = 0x4000000A → lexer.ParametersIndex = 0 → wordTag w = 3)
    (hslots : ∀ name val, mapGet lexer.LabelToInstructions name = some val → ∀ s ∈ val,
      jumpSlot e s) :
    OperandInvAt n { lexer with
      Parameters := some (params.set lexer.ParametersIndex w),
      ParametersIndex := lexer.ParametersIndex + 1,
      NumParams := wrapInt8 (lexer.NumParams + 1) } e := by
  obtain ⟨hle, htags, hci, hpopI, hmovI, hjmp⟩ := hI.pending params hp
  have hcnt := hI.counts
  have hA2 := hI.arity params hp
  have hw8 : wrapInt8 (lexer.NumParams + 1) = lexer.NumParams + 1 :=
    wrapInt8_small _ (by omega) (by omega)
  have harity : ∀ ps, some (params.set lexer.ParametersIndex w) = some ps → ps.length ≤ 2 := by
    intro ps hps
    injection hps with hps
    rw [← hps, List.length_set]
    exact hA2
  refine ⟨hI.index, hI.fits, hI.positions, fun name val hv s hs => Or.inl (hslots name val hv s hs),
    hI.labels, ?_, ?_, ?_, harity⟩
  · exact wrapInt8_succ _ _ _ hcnt hlt (by omega)
  · intro h
    cases h
  · intro params1 hp1
    have hp1e : params1 = params.set lexer.ParametersIndex w := by
      have : some (params.set lexer.ParametersIndex w) = some params1 := hp1
      exact (Option.some.inj this).symm
    rw [hp1e]
    refine ⟨?_, ?_, hci, ?_, ?_, ?_⟩
    · show wrapInt8 (lexer.NumParams + 1) ≤ _
      rw [List.length_set, hw8]
      omega
    · intro p hpm
      rcases mem_set_cases params _ w p hpm with h | h
      · rw [h]; exact hw
      · exact htags p h
    · intro h9
      obtain ⟨hl1, _⟩ := hpopI h9
      refine ⟨by rw [List.length_set]; exact hl1, fun _ => ⟨w, ?_, hpop h9⟩⟩
      have h0 : lexer.ParametersIndex = 0 := by omega
      rw [h0, List.getElem?_set_self (by omega)]
    · intro hA
      obtain ⟨hl2, hreg⟩ := hmovI hA
      refine ⟨by rw [List.length_set]; exact hl2, fun _ => ?_⟩
      by_cases h0 : lexer.ParametersIndex = 0
      · refine ⟨w, ?_, hmov hA h0⟩
        rw [h0, List.getElem?_set_self (by omega)]
      · obtain ⟨p, hp0, hpt⟩ := hreg (by omega)
        refine ⟨p, ?_, hpt⟩
        rw [List.getElem?_set_ne h0]
        exact hp0
    · intro hj
      rw [List.length_set]
      exact hjmp hj

theorem Validate_pop (i : Nat) : ValidateNumParameter 0x40000009 i = false := rfl

theorem Validate_mov_zero : ValidateNumParameter 0x4000000A 0 = false := rfl

/-- The slots that wait for a label are flushed operand slots as soon as the
pending command is not a jump that has received its operand. -/
theorem OperandInv_slots_flushed (n : Nat) (lexer : Lexer) (e : List Nat)
    (hI : OperandInvAt n lexer e)
    (hnot : ¬ (lexer.NumParams = 1 ∧
      (lexer.CurrentInstruction = 0x40000011 ∨ lexer.CurrentInstruction = 0x40000012))) :
    ∀ name val, mapGet lexer.LabelToInstructions name = some val → ∀ s ∈ val, jumpSlot e s := by
  intro name val hv s hs
  rcases hI.slots name val hv s hs with h | ⟨_, h1, h2⟩
  · exact h
  · exact absurd ⟨h1, h2⟩ hnot

/-- `GetCommand` keeps the invariant of the register-required positions, in a
buffer of fewer than `2^30` words (so that a label index is not an opcode word). -/
theorem OperandInv_GetCommand (n : Nat) (hsmall : n < 1073741824) (lexer lexer1 : Lexer)
    (lexemes lexemes1 : List Nat) (hQ : OperandInv n lexer lexemes)
    (hG : GetCommand lexer lexemes = Except.ok (lexer1, lexemes1)) :
    OperandInv n lexer1 lexemes1 := by
  obtain ⟨e, hbuf, hI⟩ := hQ
  rw [hbuf] at hG
  rcases GetCommand_kinds lexer lexer1 _ lexemes1 hG with
    ⟨lxa, bufa, lxb, hD, hH, h1⟩ | ⟨hb, num, params, hA, hlo, hhi, hval, hp, hlt, h1⟩ |
    ⟨hb, params, hj1, hj2, hp, hlt, h1⟩ | ⟨hj, hnp, hb, hP⟩ | ⟨lxa, instruction, k, hD, hm, h1⟩
  · -- label declaration
    obtain ⟨ha, hba, hF⟩ := OperandInv_flush n lexer lxa e bufa hI hD
    obtain ⟨hlen1, hnone, hbp, hlxb⟩ := HandleLabelDecleration_frame lxa lxb bufa lexemes1 hH
    have hval : ∀ t ∈ (mapGet lxa.LabelToInstructions lxa.BuiltString.dropLast).getD [],
        jumpSlot (e ++ pendingWords lexer) t := by
      intro t ht
      cases hg : mapGet lxa.LabelToInstructions lxa.BuiltString.dropLast with
      | none => rw [hg] at ht; cases ht
      | some val =>
        rw [hg] at ht
        exact hF.slots _ val hg t ht
    have hw : wordTag (lxa.LexemesIndex % 4294967296) ≠ 1 := by
      rw [wordTag_small _ (by have := hF.index; have := hF.fits; omega)]
      decide
    rw [hba, backpatch_padded n _ _ _ hF.fits (fun s hs => by
      have := jumpSlot_lt _ s (hval s hs); omega)] at hbp
    have hbuf1 : lexemes1 = padded n (patch (e ++ pendingWords lexer)
        ((mapGet lxa.LabelToInstructions lxa.BuiltString.dropLast).getD [])
        (lxa.LexemesIndex % 4294967296)) := by
      injection hbp with hbp
      exact hbp.symm
    refine ⟨_, hbuf1, ?_⟩
    rw [h1, hlxb]
    refine ⟨?_, ?_, RegisterPositions_patch _ _ _ hw hval hF.positions, ?_, ?_, ?_, ?_, ?_,
      fun ps hps => by cases hps⟩
    · rw [patch_length]; exact hF.index
    · rw [patch_length]; exact hF.fits
    · intro name val hv s hs
      left
      have hv1 : mapGet (mapDelete lxa.LabelToInstructions lxa.BuiltString.dropLast) name =
          some val := hv
      rw [mapGet_mapDelete] at hv1
      by_cases hk : lxa.BuiltString.dropLast = name
      · rw [if_pos hk] at hv1; cases hv1
      · rw [if_neg hk] at hv1
        exact jumpSlot_patch _ _ _ s hw hval (hF.slots name val hv1 s hs)
    · intro name v hv
      have hv1 : mapGet (mapSet lxa.LabelToIndex lxa.BuiltString.dropLast lxa.LexemesIndex) name =
          some v := hv
      rw [mapGet_mapSet] at hv1
      by_cases hk : lxa.BuiltString.dropLast = name
      · rw [if_pos hk] at hv1
        have : lxa.LexemesIndex = v := Option.some.inj hv1
        have := hF.index; have := hF.fits
        omega
      · rw [if_neg hk] at hv1
        exact hF.labels name v hv1
    · show (lxa.ParametersIndex : Int) = lxa.NumParams
      rw [ha]; rfl
    · intro _
      show lxa.NumParams = 0
      rw [ha]; rfl
    · intro params hp
      cases hp
  · -- integer operand
    refine ⟨e, by rw [hb], ?_⟩
    rw [h1]
    obtain ⟨ht1, ht3⟩ := wordTag_encodeInt num hlo hhi
    refine OperandInv_store n lexer e params _ hI hp hlt ht1 ?_ ?_ ?_
    · intro h9
      rw [h9, Validate_pop] at hval
      cases hval
    · intro hA1 h0
      rw [hA1, h0, Validate_mov_zero] at hval
      cases hval
    · refine OperandInv_slots_flushed n lexer e hI ?_
      rintro ⟨hn1, hj⟩
      have := ((hI.pending params hp).2.2.2.2.2) hj
      have := hI.counts
      omega
  · -- register operand
    refine ⟨e, by rw [hb], ?_⟩
    rw [h1]
    have ht := wordTag_encodeRegister (lexer.BuiltString.getD 1 0)
    refine OperandInv_store n lexer e params _ hI hp hlt (by rw [ht]; decide) (fun _ => ht)
      (fun _ _ => ht) ?_
    refine OperandInv_slots_flushed n lexer e hI ?_
    rintro ⟨_, hj⟩
    rcases hj with hj | hj
    · exact hj1 hj
    · exact hj2 hj
  · -- label reference
    refine ⟨e, by rw [hb], ?_⟩
    obtain ⟨hlen1, params, hp, hlt, hcase⟩ := HandleLabelParameter_frame lexer lexer1 hP
    have hflushed := OperandInv_slots_flushed n lexer e hI (by
      rintro ⟨hn1, _⟩; omega)
    have h9 : lexer.CurrentInstruction ≠ 0x40000009 := by
      rcases hj with hj | hj <;> rw [hj] <;> decide
    have hA : lexer.CurrentInstruction ≠ 0x4000000A := by
      rcases hj with hj | hj <;> rw [hj] <;> decide
    rcases hcase with ⟨v, hv, h1⟩ | ⟨hv, h1⟩
    · rw [h1]
      have hvn := hI.labels _ v hv
      refine OperandInv_store n lexer e params _ hI hp hlt ?_ (fun h => absurd h h9)
        (fun h => absurd h hA) hflushed
      rw [wordTag_small _ (by omega)]
      decide
    · have hst := OperandInv_store n lexer e params 0 hI hp hlt (by decide)
        (fun h => absurd h h9) (fun h => absurd h hA) hflushed
      rw [h1]
      refine ⟨hst.index, hst.fits, hst.positions, ?_, hst.labels, hst.counts, hst.idle,
        hst.pending, hst.arity⟩
      intro name val hval s hs
      have hv1 : mapGet (mapSet lexer.LabelToInstructions lexer.BuiltString
          ((mapGet lexer.LabelToInstructions lexer.BuiltString).getD [] ++ [lexer.LexemesIndex]))
          name = some val := hval
      rw [mapGet_mapSet] at hv1
      by_cases hk : lexer.BuiltString = name
      · rw [if_pos hk] at hv1
        have hval1 := Option.some.inj hv1
        rw [← hval1] at hs
        rcases List.mem_append.mp hs with hs1 | hs1
        · left
          cases hg : mapGet lexer.LabelToInstructions lexer.BuiltString with
          | none => rw [hg] at hs1; cases hs1
          | some old =>
            rw [hg] at hs1
            exact hflushed _ old hg s hs1
        · right
          rw [List.mem_singleton] at hs1
          refine ⟨by rw [hs1]; exact hI.index.symm, ?_, hj⟩
          show wrapInt8 (lexer.NumParams + 1) = 1
          rw [hnp]
          rfl
      · rw [if_neg hk] at hv1
        exact Or.inl (hflushed name val hv1 s hs)
  · -- mnemonic
    obtain ⟨ha, hba, hF⟩ := OperandInv_flush n lexer lxa e lexemes1 hI hD
    obtain ⟨htag, hk2, hpop, hmov, hjmp⟩ := mnemonic_facts _ _ _ hm
    refine ⟨_, hba, ?_⟩
    rw [h1]
    refine ⟨hF.index, hF.fits, hF.positions, fun name val hv s hs => Or.inl (hF.slots name val hv s hs),
      hF.labels, ?_, ?_, ?_, ?_⟩
    rotate_right
    · intro ps hps
      have hps1 : some (List.replicate k 0) = some ps := hps
      injection hps1 with hps1
      rw [← hps1, List.length_replicate]
      exact hk2
    · show (lxa.ParametersIndex : Int) = lxa.NumParams
      rw [ha]; rfl
    · intro h
      cases h
    · intro params hp
      have hpe : params = List.replicate k 0 := by
        have : some (List.replicate k 0) = some params := hp
        exact (Option.some.inj this).symm
      have hnp : lxa.NumParams = 0 := by rw [ha]; rfl
      rw [hpe]
      refine ⟨?_, ?_, htag, ?_, ?_, ?_⟩
      · show lxa.NumParams ≤ _
        omega
      · intro p hpm
        rw [List.eq_of_mem_replicate hpm]
        decide
      · intro h9
        exact ⟨by rw [List.length_replicate]; exact hpop h9, fun h => by
          have : 1 ≤ lxa.NumParams := h
          omega⟩
      · intro hA
        exact ⟨by rw [List.length_replicate]; exact hmov hA, fun h => by
          have : 1 ≤ lxa.NumParams := h
          omega⟩
      · intro hj
        rw [List.length_replicate]
        exact hjmp hj

/-! ### Register-required positions: the end of the run -/

theorem OperandInv_core (n : Nat) (lexer lexer1 : Lexer) (lexemes : List Nat)
    (hc : lexCore lexer1 = lexCore lexer) (h : OperandInv n lexer lexemes) :
    OperandInv n lexer1 lexemes := by
  obtain ⟨h1, h2, h3, h4, h5, h6, h7⟩ := lexCore_fields lexer1 lexer hc
  obtain ⟨e, hbuf, hI⟩ := h
  refine ⟨e, hbuf, ⟨by rw [h4]; exact hI.index, hI.fits, hI.positions, ?_, ?_, ?_, ?_, ?_, ?_⟩⟩
  · rw [h7, h5, h3]; exact hI.slots
  · rw [h6]; exact hI.labels
  · rw [h2, h5]; exact hI.counts
  · rw [h1, h5]; exact hI.idle
  · rw [h1, h5, h3]; exact hI.pending
  · rw [h1]; exact hI.arity

theorem OperandInv_start (n : Nat) : OperandInv n startLexer (List.replicate n 0) := by
  refine ⟨[], by simp [padded], ⟨rfl, Nat.zero_le _, ⟨?_, ?_⟩, ?_, ?_, rfl, fun _ => rfl, ?_, ?_⟩⟩
  · intro i hi; cases hi
  · intro i hi; cases hi
  · intro name val hv; cases hv
  · intro name v hv; cases hv
  · intro params hp; cases hp
  · intro params hp; cases hp

theorem CheckIfRegister_of_tag (p : Nat) (h : wordTag p = 3) : CheckIfRegister p = true := by
  unfold CheckIfRegister
  unfold wordTag at h
  rw [h]
  rfl

/-- The `END` case on a state that satisfies the invariant: in the returned
buffer the word before a POP opcode word and the word two places before a MOV
opcode word carry the register tag. -/
theorem lexEnd_positions (n : Nat) (lxE : Lexer) (bufE out : List Nat)
    (hQ : OperandInv n lxE bufE) (hE : lexEnd lxE bufE = Except.ok out) :
    (∀ i, out[i]? = some 0x40000009 → 1 ≤ i ∧ ∃ p, out[i - 1]? = some p ∧
      CheckIfRegister p = true) ∧
    (∀ i, out[i]? = some 0x4000000A → 2 ≤ i ∧ ∃ p, out[i - 2]? = some p ∧
      CheckIfRegister p = true) := by
  obtain ⟨e, hbuf, hI⟩ := hQ
  subst hbuf
  unfold lexEnd at hE
  cases hD : DumpCommand lxE (padded n e) with
  | error err => rw [hD] at hE; cases hE
  | ok r =>
    obtain ⟨lxd, bufd⟩ := r
    rw [hD] at hE
    simp only [] at hE
    obtain ⟨hlxd, hbufd, hF⟩ := OperandInv_flush n lxE lxd e bufd hI hD
    cases hV : VerifyLabelResolution lxd with
    | error err => rw [hV] at hE; cases hE
    | ok u =>
      rw [hV] at hE
      simp only [] at hE
      rw [hbufd, ← hF.index] at hE
      have hlt : (e ++ pendingWords lxE).length < n := by
        by_contra hcon
        have := hF.fits
        rw [writeWord_full n _ _ (by omega)] at hE
        cases hE
      rw [writeWord_end n _ _ hlt] at hE
      injection hE with hE
      -- a word of tag 01 other than the terminator lies among the emitted words
      have hin : ∀ i x, out[i]? = some x → x ≠ 0x40000000 → x ≠ 0 →
          i < (e ++ pendingWords lxE).length ∧ (e ++ pendingWords lxE)[i]? = some x := by
        intro i x hi hx hx0
        rw [← hE] at hi
        unfold padded at hi
        rcases Nat.lt_or_ge i (e ++ pendingWords lxE).length with hlt1 | hge1
        · refine ⟨hlt1, ?_⟩
          rw [List.getElem?_append_left (by rw [List.length_append]; omega),
            List.getElem?_append_left hlt1] at hi
          exact hi
        · exfalso
          rcases Nat.lt_or_ge i ((e ++ pendingWords lxE) ++ [0x40000000]).length with hlt2 | hge2
          · rw [List.getElem?_append_left hlt2, List.getElem?_append_right hge1] at hi
            rw [List.length_append, List.length_singleton] at hlt2
            rw [show i - (e ++ pendingWords lxE).length = 0 from by omega] at hi
            exact hx (Option.some.inj hi).symm
          · rw [List.getElem?_append_right hge2] at hi
            have := List.getElem?_mem hi
            exact hx0 (List.eq_of_mem_replicate this)
      have hout : ∀ i x, i < (e ++ pendingWords lxE).length →
          (e ++ pendingWords lxE)[i]? = some x → out[i]? = some x := by
        intro i x hi hx
        rw [← hE]
        unfold padded
        rw [List.getElem?_append_left (by rw [List.length_append]; omega),
          List.getElem?_append_left hi]
        exact hx
      constructor
      · intro i hi
        obtain ⟨hlt1, hie⟩ := hin i _ hi (by decide) (by decide)
        obtain ⟨h1, p, hp1, hp2⟩ := hF.positions.1 i hie
        exact ⟨h1, p, hout _ p (by omega) hp1, CheckIfRegister_of_tag p hp2⟩
      · intro i hi
        obtain ⟨hlt1, hie⟩ := hin i _ hi (by decide) (by decide)
        obtain ⟨h1, ⟨p, hp1, hp2⟩, _⟩ := hF.positions.2 i hie
        exact ⟨h1, p, hout _ p (by omega) hp1, CheckIfRegister_of_tag p hp2⟩

/-- In a successful program the register-required positions hold a register
word, for a source shorter than `2^30 - 1` bytes. -/
theorem assemble_positions (source out : Bytes) (hsmall : source.length + 1 < 1073741824)
    (h : assemble source = some (Except.ok out)) :
    (∀ i, out[i]? = some 0x40000009 → 1 ≤ i ∧ ∃ p, out[i - 1]? = some p ∧
      CheckIfRegister p = true) ∧
    (∀ i, out[i]? = some 0x4000000A → 2 ≤ i ∧ ∃ p, out[i - 2]? = some p ∧
      CheckIfRegister p = true) := by
  rw [assemble_eq] at h
  have hn : (source ++ [10]).length = source.length + 1 := by simp
  obtain ⟨lxE, bufE, hQ, hE⟩ := lexLoop_invariant (source ++ [10])
    (fun _ lx buf => OperandInv (source ++ [10]).length lx buf)
    (fun _ lx lx1 buf hc hq => OperandInv_core (source ++ [10]).length lx lx1 buf hc hq)
    (fun _ lx lx1 buf buf1 hq hg =>
      OperandInv_GetCommand (source ++ [10]).length (by rw [hn]; exact hsmall)
        lx lx1 buf buf1 hq hg)
    _ [] startLexer _ out (OperandInv_start _) h
  exact lexEnd_positions _ _ _ _ hQ hE

/-- When `Lex` succeeds, every call of `GetCommand` that it made succeeded. -/
theorem trace_calls_succeed (data : Bytes) :
    ∀ (fuel : Nat) (lexer : Lexer) (lexemes out : List Nat),
      lexLoop data fuel lexer lexemes = some (Except.ok out) →
      ∀ c ∈ lexTrace data fuel lexer lexemes, ∃ r, GetCommand c.1 c.2 = Except.ok r := by
  intro fuel
  induction fuel with
  | zero => intro lexer lexemes out h; simp [lexLoop] at h
  | succ fuel ih =>
    intro lexer lexemes out h c hc
    rw [lexLoop_succ] at h
    unfold lexTrace at hc
    cases hs : lexStep data lexer lexemes with
    | error e => rw [hs] at h; cases h
    | ok st =>
      cases st with
      | done o =>
        rw [hs] at hc
        simp only [] at hc
        have hnd := (lexStep_done data lexer lexemes o hs).1
        rw [if_neg hnd] at hc
        cases hc
      | next lexer1 lexemes1 =>
        rw [hs] at h hc
        simp only [] at h hc
        rcases List.mem_append.mp hc with hc1 | hc1
        · by_cases hd : lexer.Index < data.length ∧ lexer.Current_State = State.DUMP
          · rw [if_pos hd, List.mem_singleton] at hc1
            rcases lexStep_cases data lexer lexer1 lexemes lexemes1 hs with
              ⟨_, lxg, hG, _⟩ | ⟨hnd, _⟩
            · rw [hc1]
              exact ⟨_, hG⟩
            · exact absurd hd hnd
          · rw [if_neg hd] at hc1
            cases hc1
        · exact ih lexer1 lexemes1 out h c hc1

/-! ### Register-required positions: integer literals -/

/-- `GetCommand` on an integer literal fails when the pending instruction is POP,
or is MOV with no operand stored yet. -/
theorem GetCommand_integer_rejected (lexer : Lexer) (lexemes : List Nat) (n : Int)
    (h : decimalValue lexer.BuiltString = some n)
    (hpos : lexer.CurrentInstruction = 0x40000009 ∨
      (lexer.CurrentInstruction = 0x4000000A ∧ lexer.ParametersIndex = 0)) :
    ∀ r, GetCommand lexer lexemes ≠ Except.ok r := by
  intro r hG
  by_cases hbig : n > 1073741823 ∨ n < -1073741823
  · rw [GetCommand_overflow lexer lexemes n h hbig] at hG
    cases hG
  · obtain ⟨⟨hne, _, _⟩, h58⟩ := decimalValue_clean _ n h
    obtain ⟨last, hlast⟩ := getLast?_some_of_ne _ hne
    have hl58 : last ≠ 58 := fun hh => h58 (by rw [hlast, hh])
    obtain ⟨_, hin, _⟩ := Atoi_decimal _ n h
    have hA := hin (by omega)
    have hV : ValidateNumParameter lexer.CurrentInstruction lexer.ParametersIndex = false := by
      rcases hpos with hp | ⟨hp, hi⟩
      · rw [hp]; exact Validate_pop _
      · rw [hp, hi]; exact Validate_mov_zero
    unfold GetCommand at hG
    rw [hlast] at hG
    simp only [] at hG
    rw [if_neg hl58, hA] at hG
    simp only [] at hG
    rw [if_neg hbig] at hG
    rw [hV] at hG
    split at hG
    · cases hG
    · rw [if_pos rfl] at hG
      cases hG

/-! ### Scanning fields are a frame of the lexer methods -/

theorem DumpCommand_reframe (s : State) (b i l : Nat) (lexer : Lexer) (lexemes : List Nat) :
    DumpCommand (reframe s b i l lexer) lexemes =
      reframeResult s b i l (DumpCommand lexer lexemes) := by
  unfold DumpCommand reframe reframeResult
  cases hp : lexer.Parameters with
  | none => simp only [hp]; rfl
  | some params =>
    simp only [hp]
    split
    · rfl
    · cases hd : dumpParams params lexemes lexer.LexemesIndex with
      | error e => rfl
      | ok r =>
        obtain ⟨l1, idx⟩ := r
        simp only []
        cases hw : writeWord l1 idx lexer.CurrentInstruction with
        | error e => rfl
        | ok l2 => rfl

theorem setParameter_reframe (s : State) (b i l : Nat) (lexer : Lexer) (w : Nat) :
    setParameter (reframe s b i l lexer) w =
      (match setParameter lexer w with
        | Except.error e => Except.error e
        | Except.ok lexer1 => Except.ok (reframe s b i l lexer1)) := by
  unfold setParameter reframe
  cases hp : lexer.Parameters with
  | none => rfl
  | some params =>
    simp only [hp]
    split <;> rfl

theorem HandleLabelParameter_reframe (s : State) (b i l : Nat) (lexer : Lexer) :
    HandleLabelParameter (reframe s b i l lexer) =
      (match HandleLabelParameter lexer with
        | Except.error e => Except.error e
        | Except.ok lexer1 => Except.ok (reframe s b i l lexer1)) := by
  unfold HandleLabelParameter
  have hbs : (reframe s b i l lexer).BuiltString = lexer.BuiltString := rfl
  have hli : (reframe s b i l lexer).LabelToIndex = lexer.LabelToIndex := rfl
  rw [hbs, hli]
  split
  · rfl
  · simp only [setParameter_reframe]
    cases hm : mapGet lexer.LabelToIndex lexer.BuiltString with
    | some v =>
      simp only []
      cases hs : setParameter lexer (v % 4294967296) with
      | error e => rfl
      | ok lx1 => rfl
    | none =>
      simp only []
      cases hs : setParameter lexer 0 with
      | error e => rfl
      | ok lx1 =>
        simp only []
        have h1 : (reframe s b i l lx1).LabelToInstructions = lx1.LabelToInstructions := rfl
        have h2 : (reframe s b i l lx1).BuiltString = lx1.BuiltString := rfl
        rw [h1, h2]
        cases hm2 : mapGet lx1.LabelToInstructions lx1.BuiltString with
        | some v => rfl
        | none => rfl

theorem HandleLabelDecleration_reframe (s : State) (b i l : Nat) (lexer : Lexer)
    (lexemes : List Nat) :
    HandleLabelDecleration (reframe s b i l lexer) lexemes =
      reframeResult s b i l (HandleLabelDecleration lexer lexemes) := by
  unfold HandleLabelDecleration reframeResult
  have hbs : (reframe s b i l lexer).BuiltString = lexer.BuiltString := rfl
  have hli : (reframe s b i l lexer).LabelToIndex = lexer.LabelToIndex := rfl
  rw [hbs, hli]
  split
  · rfl
  · split
    · rfl
    · cases hm : mapGet lexer.LabelToIndex lexer.BuiltString.dropLast with
      | some v => simp only [hm]
      | none =>
        simp only [hm]
        have h1 : (reframe s b i l lexer).LabelToInstructions = lexer.LabelToInstructions := rfl
        have h2 : (reframe s b i l lexer).LexemesIndex = lexer.LexemesIndex := rfl
        rw [h1, h2]
        cases hm2 : mapGet lexer.LabelToInstructions lexer.BuiltString.dropLast with
        | none => rfl
        | some val =>
          simp only []
          cases hb : backpatch val (lexer.LexemesIndex % 4294967296) lexemes with
          | error e => rfl
          | ok l1 => rfl

theorem GetCommand_reframe (s : State) (b i l : Nat) (lexer : Lexer) (lexemes : List Nat) :
    GetCommand (reframe s b i l lexer) lexemes =
      reframeResult s b i l (GetCommand lexer lexemes) := by
  unfold GetCommand
  have hbs : (reframe s b i l lexer).BuiltString = lexer.BuiltString := rfl
  have hpi : (reframe s b i l lexer).ParametersIndex = lexer.ParametersIndex := rfl
  have hci : (reframe s b i l lexer).CurrentInstruction = lexer.CurrentInstruction := rfl
  have hnp : (reframe s b i l lexer).NumParams = lexer.NumParams := rfl
  have hpl : paramsLen (reframe s b i l lexer) = paramsLen lexer := rfl
  rw [hbs, hpi, hci, hnp, hpl, DumpCommand_reframe, HandleLabelParameter_reframe]
  cases hlast : lexer.BuiltString.getLast? with
  | none => rfl
  | some last =>
    simp only []
    by_cases h58 : last = 58
    · rw [if_pos h58, if_pos h58]
      cases hD : DumpCommand lexer lexemes with
      | error e => rfl
      | ok r =>
        obtain ⟨lx1, buf1⟩ := r
        simp only [reframeResult]
        rw [HandleLabelDecleration_reframe]
        cases hH : HandleLabelDecleration lx1 buf1 with
        | error e => rfl
        | ok r2 => rfl
    · rw [if_neg h58, if_neg h58]
      cases hA : Atoi lexer.BuiltString with
      | some num =>
        simp only []
        split
        · rfl
        · split
          · rfl
          · split
            · rfl
            · rw [setParameter_reframe]
              cases hS : setParameter lexer (encodeInt num) with
              | error e => rfl
              | ok lx1 => rfl
      | none =>
        simp only []
        split
        · rfl
        · split
          · split
            · rfl
            · split
              · rfl
              · split
                · rfl
                · rw [setParameter_reframe]
                  cases hS : setParameter lexer (encodeRegister (lexer.BuiltString.getD 1 0)) with
                  | error e => rfl
                  | ok lx1 => rfl
          · split
            · cases hS : HandleLabelParameter lexer with
              | error e => rfl
              | ok lx1 => rfl
            · cases hD : DumpCommand lexer lexemes with
              | error e => rfl
              | ok r =>
                obtain ⟨lx1, buf1⟩ := r
                simp only [reframeResult]
                have hb1 : (reframe s b i l lx1).BuiltString = lx1.BuiltString := rfl
                rw [hb1]
                cases hM : mnemonic lx1.BuiltString with
                | none => rfl
                | some p => rfl

/-! ### The scanner as a function of the text -/

/-! ### elementary facts about the text -/

theorem drop_of_getElem? (data : Bytes) (i c : Nat) (h : data[i]? = some c) :
    data.drop i = c :: data.drop (i + 1) := by
  have hlt : i < data.length := by
    by_contra hcon
    rw [List.getElem?_eq_none (by omega)] at h
    cases h
  rw [List.getElem?_eq_getElem hlt] at h
  injection h with h
  rw [← h]
  exact List.drop_eq_getElem_cons hlt

theorem drop_of_none (data : Bytes) (i : Nat) (h : data[i]? = none) : data.drop i = [] := by
  rw [List.getElem?_eq_none_iff] at h
  exact List.drop_of_length_le h

theorem sliceIs_some (data : Bytes) (i c c1 a b : Nat) (hc : data[i]? = some c)
    (hc1 : data[i + 1]? = some c1) :
    sliceIs data i a b = some (decide (c = a ∧ c1 = b)) := by
  have hlt : i + 1 < data.length := by
    by_contra hcon
    rw [List.getElem?_eq_none (by omega)] at hc1
    cases hc1
  unfold sliceIs
  rw [if_pos (by omega), List.getD_eq_getElem?_getD, List.getD_eq_getElem?_getD, hc, hc1]
  rfl

theorem sliceIs_none (data : Bytes) (i a b : Nat) (hc1 : data[i + 1]? = none) :
    sliceIs data i a b = none := by
  rw [List.getElem?_eq_none_iff] at hc1
  unfold sliceIs
  rw [if_neg (by omega)]

/-- The advance step of the loop: over both bytes of a CR LF, else over one byte. -/
theorem advance_cases (data : Bytes) (lexer : Lexer) (c : Nat)
    (hc : data[lexer.Index]? = some c) :
    (c = 13 ∧ data[lexer.Index + 1]? = some 10 ∧
      advance data lexer =
        Except.ok { lexer with Line := lexer.Line + 1, Index := lexer.Index + 1 + 1 }) ∨
    (¬ (c = 13 ∧ data[lexer.Index + 1]? = some 10) ∧
      ∃ l, advance data lexer = Except.ok { lexer with Line := l, Index := lexer.Index + 1 }) := by
  unfold advance
  rw [hc]
  cases hc1 : data[lexer.Index + 1]? with
  | none =>
    right
    refine ⟨fun h => (by cases h.2), ?_⟩
    rw [sliceIs_none data _ 13 10 hc1]
    rw [if_neg (fun h => (by cases h.2))]
    simp only []
    by_cases h10 : c = 10
    · rw [if_pos h10]; exact ⟨_, rfl⟩
    · rw [if_neg h10]; exact ⟨lexer.Line, rfl⟩
  | some c1 =>
    have hlt : lexer.Index + 1 < data.length := by
      by_contra hcon
      rw [List.getElem?_eq_none (by omega)] at hc1
      cases hc1
    rw [sliceIs_some data _ c c1 13 10 hc hc1]
    by_cases hcr : c = 13 ∧ c1 = 10
    · left
      refine ⟨hcr.1, by rw [hcr.2], ?_⟩
      rw [if_pos ⟨hlt, by rw [decide_eq_true hcr]⟩]
    · right
      refine ⟨fun h => hcr ⟨h.1, (Option.some.inj h.2)⟩, ?_⟩
      rw [if_neg (fun h => by
        have := h.2
        rw [decide_eq_false hcr] at this
        cases this)]
      simp only []
      by_cases h10 : c = 10
      · rw [if_pos h10]; exact ⟨_, rfl⟩
      · rw [if_neg h10]; exact ⟨lexer.Line, rfl⟩

/-! ### unfolding the scanner -/

theorem scan_nil (m : Mode) : scan m [] = ([], some m) := by
  cases m <;> rfl

theorem scan_code_ws (c : Nat) (rest : Bytes) (h : IsWhitespace c = true) :
    scan Mode.code (c :: rest) = scan Mode.code rest := by
  cases rest <;> simp [scan, h]

theorem scan_code_slash_end : scan Mode.code [47] = ([], none) := by decide

theorem scan_code_line (rest : Bytes) : scan Mode.code (47 :: 47 :: rest) = scan Mode.line rest := by
  rw [scan]
  rw [if_neg (by decide), if_pos rfl, if_pos rfl]

theorem scan_code_block (rest : Bytes) :
    scan Mode.code (47 :: 42 :: rest) = scan Mode.block rest := by
  rw [scan]
  rw [if_neg (by decide), if_pos rfl, if_neg (by decide), if_pos rfl]

theorem scan_code_slash (c1 : Nat) (rest : Bytes) (h47 : c1 ≠ 47) (h42 : c1 ≠ 42) :
    scan Mode.code (47 :: c1 :: rest) = scan (Mode.token (byteToString 47)) (c1 :: rest) := by
  rw [scan]
  rw [if_neg (by decide), if_pos rfl, if_neg h47, if_neg h42]

theorem scan_code_byte (c : Nat) (rest : Bytes) (hws : IsWhitespace c = false) (h47 : c ≠ 47) :
    scan Mode.code (c :: rest) = scan (Mode.token (byteToString c)) rest := by
  cases rest <;> simp [scan, hws, h47]

theorem scan_token_ws (tok : Bytes) (c : Nat) (rest : Bytes) (h : IsWhitespace c = true) :
    scan (Mode.token tok) (c :: rest) =
      (tok :: (scan Mode.code rest).1, (scan Mode.code rest).2) := by
  cases rest <;> simp [scan, h]

theorem scan_token_colon (tok : Bytes) (rest : Bytes) :
    scan (Mode.token tok) (58 :: rest) =
      ((tok ++ [58]) :: (scan Mode.code rest).1, (scan Mode.code rest).2) := by
  have h : IsWhitespace 58 = false := by decide
  cases rest <;> simp [scan, h]

theorem scan_token_last (tok : Bytes) (c : Nat) (hws : IsWhitespace c = false) (h58 : c ≠ 58) :
    scan (Mode.token tok) [c] = ([tok ++ byteToString c], some Mode.code) := by
  simp [scan, hws, h58]

theorem scan_token_byte (tok : Bytes) (c c1 : Nat) (rest : Bytes) (hws : IsWhitespace c = false)
    (h58 : c ≠ 58) :
    scan (Mode.token tok) (c :: c1 :: rest) =
      scan (Mode.token (tok ++ byteToString c)) (c1 :: rest) := by
  simp [scan, hws, h58]

theorem scan_line_newline (rest : Bytes) : scan Mode.line (10 :: rest) = scan Mode.code rest := by
  rw [scan, if_pos rfl]

theorem scan_line_byte (c : Nat) (rest : Bytes) (h : c ≠ 10) :
    scan Mode.line (c :: rest) = scan Mode.line rest := by
  rw [scan, if_neg h]

theorem scan_block_last (c : Nat) : scan Mode.block [c] = ([], none) := by
  rw [scan]

theorem scan_block_end (rest : Bytes) : scan Mode.block (42 :: 47 :: rest) = scan Mode.code rest := by
  rw [scan, if_pos ⟨rfl, rfl⟩]

theorem scan_block_crlf (rest : Bytes) : scan Mode.block (13 :: 10 :: rest) = scan Mode.block rest := by
  rw [scan, if_neg (by decide), if_pos ⟨rfl, rfl⟩]

theorem scan_block_byte (c c1 : Nat) (rest : Bytes) (h1 : ¬ (c = 42 ∧ c1 = 47))
    (h2 : ¬ (c = 13 ∧ c1 = 10)) :
    scan Mode.block (c :: c1 :: rest) = scan Mode.block (c1 :: rest) := by
  rw [scan, if_neg h1, if_neg h2]

/-! ### the tokens are processed alike by lexers that agree on the core fields -/

theorem lexEnd_core (lexer lexer1 : Lexer) (lexemes : List Nat)
    (hc : lexCore lexer1 = lexCore lexer) : lexEnd lexer1 lexemes = lexEnd lexer lexemes := by
  obtain ⟨h1, h2, h3, h4, h5, h6, h7⟩ := lexCore_fields lexer1 lexer hc
  unfold lexEnd DumpCommand VerifyLabelResolution
  rw [h1, h3, h4, h5]
  cases lexer.Parameters with
  | none => simp only [h7]
  | some params =>
    simp only []
    by_cases hl : (params.length : Int) ≠ lexer.NumParams
    · rw [if_pos hl, if_pos hl]
    · rw [if_neg hl, if_neg hl]
      cases dumpParams params lexemes lexer.LexemesIndex with
      | error e => rfl
      | ok r =>
        obtain ⟨l1, idx⟩ := r
        simp only []
        cases writeWord l1 idx lexer.CurrentInstruction with
        | error e => rfl
        | ok l2 => simp only [h7]

theorem eq_reframe_of_core (lexer lexer1 : Lexer) (hc : lexCore lexer1 = lexCore lexer)
    (hb : lexer1.BuiltString = lexer.BuiltString) :
    lexer1 = reframe lexer1.Current_State lexer1.BeginningChar lexer1.Index lexer1.Line lexer := by
  obtain ⟨h1, h2, h3, h4, h5, h6, h7⟩ := lexCore_fields lexer1 lexer hc
  cases lexer
  cases lexer1
  simp only [reframe] at *
  simp only [h1, h2, h3, h4, h5, h6, h7, hb]

theorem runTokens_core (toks : List Bytes) (fin : Option Mode) :
    ∀ (lexer lexer1 : Lexer) (lexemes : List Nat), lexCore lexer1 = lexCore lexer →
      runTokens toks fin lexer1 lexemes = runTokens toks fin lexer lexemes := by
  induction toks with
  | nil =>
    intro lexer lexer1 lexemes hc
    unfold runTokens
    cases fin with
    | none => rfl
    | some m => exact lexEnd_core lexer lexer1 lexemes hc
  | cons tok rest ih =>
    intro lexer lexer1 lexemes hc
    unfold runTokens
    have hc1 : lexCore { lexer1 with BuiltString := tok } = lexCore { lexer with BuiltString := tok } :=
      hc
    rw [eq_reframe_of_core _ _ hc1 rfl, GetCommand_reframe]
    cases hG : GetCommand { lexer with BuiltString := tok } lexemes with
    | error e => rfl
    | ok r =>
      obtain ⟨lx1, buf1⟩ := r
      simp only [reframeResult]
      exact ih lx1 _ buf1 rfl

/-! ### The loop of Lex computes the scan -/

theorem modeOf_START (lexer : Lexer) (h : lexer.Current_State = State.START) :
    modeOf lexer = Mode.code := by
  unfold modeOf; rw [h]

theorem modeOf_BUILDCOMM (lexer : Lexer) (h : lexer.Current_State = State.BUILDCOMM) :
    modeOf lexer = Mode.token lexer.BuiltString := by
  unfold modeOf; rw [h]

theorem modeOf_block (lexer : Lexer) (h : lexer.Current_State = State.COMMENT)
    (hb : lexer.BeginningChar = 42) : modeOf lexer = Mode.block := by
  unfold modeOf; rw [h]; simp only []; rw [if_pos hb]

theorem modeOf_line (lexer : Lexer) (h : lexer.Current_State = State.COMMENT)
    (hb : lexer.BeginningChar ≠ 42) : modeOf lexer = Mode.line := by
  unfold modeOf; rw [h]; simp only []; rw [if_neg hb]

theorem getElem?_lt (data : Bytes) (i c : Nat) (h : data[i]? = some c) : i < data.length := by
  by_contra hcon
  rw [List.getElem?_eq_none (by omega)] at h
  cases h

/-- An iteration of the loop whose switch does not dump: the advance step follows. -/
theorem step_after_switch (data : Bytes) (lexer lexerS : Lexer) (lexemes : List Nat) (c1 : Nat)
    (hidx : lexer.Index < data.length) (hst : lexer.Current_State ≠ State.END)
    (lexemes1 : List Nat)
    (hS : lexSwitch data lexer lexemes = Except.ok (lexerS, lexemes1, false))
    (hc1 : data[lexerS.Index]? = some c1) :
    ∃ lexerA, lexStep data lexer lexemes = Except.ok (LoopStep.next lexerA lexemes1) ∧
      lexerA.Current_State = lexerS.Current_State ∧
      lexerA.BeginningChar = lexerS.BeginningChar ∧
      lexerA.BuiltString = lexerS.BuiltString ∧
      lexCore lexerA = lexCore lexerS ∧
      ((c1 = 13 ∧ data[lexerS.Index + 1]? = some 10 ∧ lexerA.Index = lexerS.Index + 2) ∨
        (¬ (c1 = 13 ∧ data[lexerS.Index + 1]? = some 10) ∧ lexerA.Index = lexerS.Index + 1)) := by
  rcases advance_cases data lexerS c1 hc1 with ⟨h13, h10, hA⟩ | ⟨hn, l, hA⟩
  · exact ⟨_, lexStep_advance data lexer lexerS _ lexemes lexemes1 hidx hst hS hA,
      rfl, rfl, rfl, rfl, Or.inl ⟨h13, h10, rfl⟩⟩
  · exact ⟨_, lexStep_advance data lexer lexerS _ lexemes lexemes1 hidx hst hS hA,
      rfl, rfl, rfl, rfl, Or.inr ⟨hn, rfl⟩⟩

theorem lexLoop_of_error (data : Bytes) (lexer : Lexer) (lexemes : List Nat) (e : LexError)
    (h : lexStep data lexer lexemes = Except.error e) :
    lexLoop data 1 lexer lexemes = some (Except.error e) := by
  rw [lexLoop_succ, h]

theorem lexLoop_of_next (data : Bytes) (fuel : Nat) (lexer lexer1 : Lexer)
    (lexemes lexemes1 : List Nat) (r : Except LexError (List Nat))
    (h : lexStep data lexer lexemes = Except.ok (LoopStep.next lexer1 lexemes1))
    (hr : lexLoop data fuel lexer1 lexemes1 = some r) :
    lexLoop data (fuel + 1) lexer lexemes = some r := by
  rw [lexLoop_succ, h]
  exact hr

theorem lexStep_of_switch_error (data : Bytes) (lexer : Lexer) (lexemes : List Nat)
    (e : LexError) (hidx : lexer.Index < data.length) (hst : lexer.Current_State ≠ State.END)
    (hS : lexSwitch data lexer lexemes = Except.error e) :
    lexStep data lexer lexemes = Except.error e := by
  unfold lexStep
  rw [if_neg (by
    intro h
    rcases h with h | h
    · omega
    · exact hst h), hS]

/-- The loop at the end of the text runs the `END` case. -/
theorem lexLoop_at_end (data : Bytes) (lexer : Lexer) (lexemes : List Nat)
    (h : data.length ≤ lexer.Index) :
    lexLoop data 1 lexer lexemes = some (runScan (modeOf lexer) (data.drop lexer.Index)
      lexer lexemes) := by
  rw [List.drop_of_length_le h]
  unfold runScan
  rw [scan_nil]
  unfold runTokens
  simp only []
  rw [lexLoop_succ]
  unfold lexStep
  rw [if_pos (Or.inl h)]
  cases lexEnd lexer lexemes with
  | error e => rfl
  | ok out => rfl

/-- A silent iteration: the scanner moves on without completing a token. -/
theorem lexLoop_silent (data : Bytes) (lexer lexerA : Lexer) (lexemes : List Nat)
    (hstep : lexStep data lexer lexemes = Except.ok (LoopStep.next lexerA lexemes))
    (hcore : lexCore lexerA = lexCore lexer)
    (hscan : scan (modeOf lexer) (data.drop lexer.Index) =
      scan (modeOf lexerA) (data.drop lexerA.Index))
    (hIH : ∃ fuel, lexLoop data fuel lexerA lexemes =
      some (runScan (modeOf lexerA) (data.drop lexerA.Index) lexerA lexemes)) :
    ∃ fuel, lexLoop data fuel lexer lexemes =
      some (runScan (modeOf lexer) (data.drop lexer.Index) lexer lexemes) := by
  obtain ⟨fuel, hf⟩ := hIH
  refine ⟨fuel + 1, ?_⟩
  rw [lexLoop_of_next data fuel lexer lexerA lexemes lexemes _ hstep hf]
  unfold runScan
  rw [hscan, runTokens_core _ _ lexer lexerA lexemes hcore]

theorem scan_code_advance (data : Bytes) (i c j : Nat)
    (h : (c = 13 ∧ data[i + 1]? = some 10 ∧ j = i + 2) ∨
      (¬ (c = 13 ∧ data[i + 1]? = some 10) ∧ j = i + 1)) :
    scan Mode.code (data.drop (i + 1)) = scan Mode.code (data.drop j) := by
  rcases h with ⟨_, h10, hj⟩ | ⟨_, hj⟩
  · rw [hj, drop_of_getElem? data (i + 1) 10 h10, scan_code_ws 10 _ (by decide)]
  · rw [hj]

/-- The two iterations that complete a token: the dumping iteration of
`BUILDCOMM` and the iteration of `DUMP`, which calls `GetCommand`. -/
theorem lexLoop_token (data : Bytes) (lexer lexerD : Lexer) (lexemes : List Nat) (c : Nat)
    (tok : Bytes)
    (hc : data[lexer.Index]? = some c)
    (hst : lexer.Current_State = State.BUILDCOMM) (hb : lexer.BeginningChar ≠ 42)
    (hS : lexSwitch data lexer lexemes = Except.ok (lexerD, lexemes, true))
    (hD : lexerD = reframe State.DUMP lexer.BeginningChar lexer.Index lexer.Line
      { lexer with BuiltString := tok })
    (hscan : scan (modeOf lexer) (data.drop lexer.Index) =
      (tok :: (scan Mode.code (data.drop (lexer.Index + 1))).1,
        (scan Mode.code (data.drop (lexer.Index + 1))).2))
    (hIH : ∀ (lexerA : Lexer) (lexemes1 : List Nat), lexer.Index < lexerA.Index →
      lexerA.Current_State = State.START → lexerA.BeginningChar ≠ 42 →
      ∃ fuel, lexLoop data fuel lexerA lexemes1 =
        some (runScan (modeOf lexerA) (data.drop lexerA.Index) lexerA lexemes1)) :
    ∃ fuel, lexLoop data fuel lexer lexemes =
      some (runScan (modeOf lexer) (data.drop lexer.Index) lexer lexemes) := by
  have hidx := getElem?_lt data _ c hc
  have hstep1 : lexStep data lexer lexemes = Except.ok (LoopStep.next lexerD lexemes) :=
    lexStep_dumping data lexer lexerD lexemes lexemes hidx (by rw [hst]; decide) hS
  have hDi : lexerD.Index = lexer.Index := by rw [hD]; rfl
  have hDs : lexerD.Current_State = State.DUMP := by rw [hD]; rfl
  have hDc : data[lexerD.Index]? = some c := by rw [hDi]; exact hc
  have hG : GetCommand lexerD lexemes = reframeResult State.DUMP lexer.BeginningChar lexer.Index
      lexer.Line (GetCommand { lexer with BuiltString := tok } lexemes) := by
    rw [hD, GetCommand_reframe]
  have hrun : runScan (modeOf lexer) (data.drop lexer.Index) lexer lexemes =
      match GetCommand { lexer with BuiltString := tok } lexemes with
      | Except.error e => Except.error e
      | Except.ok (lexer1, lexemes1) =>
        runScan Mode.code (data.drop (lexer.Index + 1)) lexer1 lexemes1 := by
    unfold runScan
    rw [hscan]
    simp only []
    rw [runTokens]
  rw [hrun]
  cases hG0 : GetCommand { lexer with BuiltString := tok } lexemes with
  | error e =>
    rw [hG0] at hG
    refine ⟨1 + 1, ?_⟩
    have hSD : lexSwitch data lexerD lexemes = Except.error e := by
      unfold lexSwitch
      rw [hDc]
      simp only [hDs, hG, reframeResult]
    have := lexStep_of_switch_error data lexerD lexemes e (by rw [hDi]; exact hidx)
      (by rw [hDs]; decide) hSD
    exact lexLoop_of_next data 1 lexer lexerD lexemes lexemes _ hstep1
      (lexLoop_of_error data lexerD lexemes e this)
  | ok r =>
    obtain ⟨lx1, buf1⟩ := r
    rw [hG0] at hG
    simp only [reframeResult] at hG
    have hSD := lexSwitch_DUMP data lexerD _ lexemes buf1 c hDc hDs hG
    obtain ⟨lexerA, hstep2, hAs, hAb, _, hAc, hAi⟩ := step_after_switch data lexerD _ lexemes c
      (by rw [hDi]; exact hidx) (by rw [hDs]; decide) buf1 hSD hc
    have hAi1 : (c = 13 ∧ data[lexer.Index + 1]? = some 10 ∧ lexerA.Index = lexer.Index + 2) ∨
        (¬ (c = 13 ∧ data[lexer.Index + 1]? = some 10) ∧ lexerA.Index = lexer.Index + 1) := hAi
    obtain ⟨fuel, hf⟩ := hIH lexerA buf1 (by rcases hAi1 with ⟨_, _, h⟩ | ⟨_, h⟩ <;> omega)
      hAs (by rw [hAb]; exact hb)
    refine ⟨fuel + 1 + 1, ?_⟩
    rw [lexLoop_of_next data (fuel + 1) lexer lexerD lexemes lexemes _ hstep1
      (lexLoop_of_next data fuel lexerD lexerA lexemes buf1 _ hstep2 hf)]
    simp only []
    unfold runScan
    rw [modeOf_START lexerA hAs, scan_code_advance data lexer.Index c lexerA.Index hAi1]
    rw [runTokens_core _ _ lx1 lexerA buf1 hAc]

/-! ### the switch of the loop of `Lex`, case by case -/

theorem lexSwitch_START_slash_end (data : Bytes) (lexer : Lexer) (lexemes : List Nat)
    (c : Nat) (hc : data[lexer.Index]? = some c) (h47c : c = 47) (hst : lexer.Current_State = State.START)
    (hc1 : data[lexer.Index + 1]? = none) :
    lexSwitch data lexer lexemes = Except.error LexError.indexOutOfRange := by
  unfold lexSwitch
  rw [hc]
  simp only [hst]
  rw [if_neg (by rw [h47c]; decide), if_pos h47c, hc1]

theorem lexSwitch_START_line (data : Bytes) (lexer : Lexer) (lexemes : List Nat)
    (c : Nat) (hc : data[lexer.Index]? = some c) (h47c : c = 47) (hst : lexer.Current_State = State.START)
    (c1 : Nat) (hc1 : data[lexer.Index + 1]? = some c1) (h1 : c1 = 47) :
    lexSwitch data lexer lexemes =
      Except.ok ({ lexer with BuiltString := [], Index := lexer.Index + 1,
                              Current_State := State.COMMENT }, lexemes, false) := by
  unfold lexSwitch
  rw [hc]
  simp only [hst]
  rw [if_neg (by rw [h47c]; decide), if_pos h47c, hc1]
  simp only []
  rw [if_pos h1]

theorem lexSwitch_START_block (data : Bytes) (lexer : Lexer) (lexemes : List Nat)
    (c : Nat) (hc : data[lexer.Index]? = some c) (h47c : c = 47) (hst : lexer.Current_State = State.START)
    (c1 : Nat) (hc1 : data[lexer.Index + 1]? = some c1) (h1 : c1 = 42) :
    lexSwitch data lexer lexemes =
      Except.ok ({ lexer with BuiltString := [], BeginningChar := 42, Index := lexer.Index + 1,
                              Current_State := State.COMMENT }, lexemes, false) := by
  unfold lexSwitch
  rw [hc]
  simp only [hst]
  rw [if_neg (by rw [h47c]; decide), if_pos h47c, hc1]
  simp only []
  rw [if_neg (by rw [h1]; decide), if_pos h1]

theorem lexSwitch_START_slash (data : Bytes) (lexer : Lexer) (lexemes : List Nat) (c1 : Nat)
    (c : Nat) (hc : data[lexer.Index]? = some c) (h47c : c = 47) (hst : lexer.Current_State = State.START)
    (hc1 : data[lexer.Index + 1]? = some c1) (h47 : c1 ≠ 47) (h42 : c1 ≠ 42) :
    lexSwitch data lexer lexemes =
      Except.ok ({ lexer with BuiltString := byteToString c,
                              Current_State := State.BUILDCOMM }, lexemes, false) := by
  unfold lexSwitch
  rw [hc]
  simp only [hst]
  rw [if_neg (by rw [h47c]; decide), if_pos h47c, hc1]
  simp only []
  rw [if_neg h47, if_neg h42]
  rfl

theorem lexSwitch_START_byte (data : Bytes) (lexer : Lexer) (lexemes : List Nat) (c : Nat)
    (hc : data[lexer.Index]? = some c) (hst : lexer.Current_State = State.START)
    (hws : IsWhitespace c = false) (h47 : c ≠ 47) :
    lexSwitch data lexer lexemes =
      Except.ok ({ lexer with BuiltString := byteToString c,
                              Current_State := State.BUILDCOMM }, lexemes, false) := by
  unfold lexSwitch
  rw [hc]
  simp only [hst]
  rw [if_neg (by rw [hws]; decide), if_neg h47]
  rfl

theorem lexSwitch_BUILDCOMM_colon (data : Bytes) (lexer : Lexer) (lexemes : List Nat)
    (c : Nat) (hc : data[lexer.Index]? = some c) (h58 : c = 58) (hst : lexer.Current_State = State.BUILDCOMM) :
    lexSwitch data lexer lexemes =
      Except.ok ({ lexer with BuiltString := lexer.BuiltString ++ [58],
                              Current_State := State.DUMP }, lexemes, true) := by
  unfold lexSwitch
  rw [hc]
  simp only [hst]
  rw [if_pos (Or.inr h58), if_pos h58]

theorem lexSwitch_BUILDCOMM_last (data : Bytes) (lexer : Lexer) (lexemes : List Nat) (c : Nat)
    (hc : data[lexer.Index]? = some c) (hst : lexer.Current_State = State.BUILDCOMM)
    (hws : IsWhitespace c = false) (h58 : c ≠ 58) (hlast : lexer.Index + 1 = data.length) :
    lexSwitch data lexer lexemes =
      Except.ok ({ lexer with BuiltString := lexer.BuiltString ++ byteToString c,
                              Current_State := State.DUMP }, lexemes, true) := by
  unfold lexSwitch
  rw [hc]
  simp only [hst]
  rw [if_neg (by rw [hws]; simp [h58])]
  exact if_pos hlast

theorem lexSwitch_BUILDCOMM_append (data : Bytes) (lexer : Lexer) (lexemes : List Nat) (c : Nat)
    (hc : data[lexer.Index]? = some c) (hst : lexer.Current_State = State.BUILDCOMM)
    (hws : IsWhitespace c = false) (h58 : c ≠ 58) (hlast : lexer.Index + 1 ≠ data.length) :
    lexSwitch data lexer lexemes =
      Except.ok ({ lexer with BuiltString := lexer.BuiltString ++ byteToString c },
        lexemes, false) := by
  unfold lexSwitch
  rw [hc]
  simp only [hst]
  rw [if_neg (by rw [hws]; simp [h58])]
  exact if_neg hlast

theorem lexSwitch_block_end (data : Bytes) (lexer : Lexer) (lexemes : List Nat) (c : Nat)
    (hc : data[lexer.Index]? = some c) (hst : lexer.Current_State = State.COMMENT)
    (hb : lexer.BeginningChar = 42) (hc1 : data[lexer.Index + 1]? = none) :
    lexSwitch data lexer lexemes = Except.error LexError.indexOutOfRange := by
  unfold lexSwitch
  rw [hc]
  simp only [hst]
  rw [if_pos hb, sliceIs_none data _ 42 47 hc1]

theorem lexSwitch_block_close (data : Bytes) (lexer : Lexer) (lexemes : List Nat)
    (c c1 : Nat) (hc : data[lexer.Index]? = some c) (hst : lexer.Current_State = State.COMMENT)
    (hb : lexer.BeginningChar = 42) (hc1 : data[lexer.Index + 1]? = some c1) (hcl : c = 42 ∧ c1 = 47) :
    lexSwitch data lexer lexemes =
      Except.ok ({ lexer with Current_State := State.START, BeginningChar := 0,
                              Index := lexer.Index + 1 }, lexemes, false) := by
  unfold lexSwitch
  rw [hc]
  simp only [hst]
  rw [if_pos hb, sliceIs_some data _ c c1 42 47 hc hc1, decide_eq_true hcl]

theorem lexSwitch_block_stay (data : Bytes) (lexer : Lexer) (lexemes : List Nat) (c c1 : Nat)
    (hc : data[lexer.Index]? = some c) (hst : lexer.Current_State = State.COMMENT)
    (hb : lexer.BeginningChar = 42) (hc1 : data[lexer.Index + 1]? = some c1)
    (hne : ¬ (c = 42 ∧ c1 = 47)) :
    lexSwitch data lexer lexemes = Except.ok (lexer, lexemes, false) := by
  unfold lexSwitch
  rw [hc]
  simp only [hst]
  rw [if_pos hb, sliceIs_some data _ c c1 42 47 hc hc1, decide_eq_false hne]

theorem lexSwitch_line_end (data : Bytes) (lexer : Lexer) (lexemes : List Nat) (c : Nat)
    (hc : data[lexer.Index]? = some c) (hst : lexer.Current_State = State.COMMENT)
    (hb : lexer.BeginningChar ≠ 42)
    (h : c = 10 ∨ (c = 13 ∧ data[lexer.Index + 1]? = some 10)) :
    lexSwitch data lexer lexemes =
      Except.ok ({ lexer with Current_State := State.START }, lexemes, false) := by
  unfold lexSwitch
  rw [hc]
  simp only [hst]
  rw [if_neg hb, if_pos]
  rcases h with h | ⟨h13, h10⟩
  · exact Or.inl h
  · right
    refine ⟨getElem?_lt data _ 10 h10, ?_⟩
    rw [sliceIs_some data _ c 10 13 10 hc h10, decide_eq_true ⟨h13, rfl⟩]

theorem lexSwitch_line_stay (data : Bytes) (lexer : Lexer) (lexemes : List Nat) (c : Nat)
    (hc : data[lexer.Index]? = some c) (hst : lexer.Current_State = State.COMMENT)
    (hb : lexer.BeginningChar ≠ 42)
    (h10 : c ≠ 10) (hcr : ¬ (c = 13 ∧ data[lexer.Index + 1]? = some 10)) :
    lexSwitch data lexer lexemes = Except.ok (lexer, lexemes, false) := by
  unfold lexSwitch
  rw [hc]
  simp only [hst]
  rw [if_neg hb, if_neg]
  intro h
  rcases h with h | ⟨hlt, hs⟩
  · exact h10 h
  · obtain ⟨c1, hc1⟩ : ∃ c1, data[lexer.Index + 1]? = some c1 :=
      ⟨_, List.getElem?_eq_getElem hlt⟩
    rw [sliceIs_some data _ c c1 13 10 hc hc1] at hs
    have := of_decide_eq_true (Option.some.inj hs)
    exact hcr ⟨this.1, by rw [hc1, this.2]⟩

/-- The loop of `Lex` computes what the scanner and `GetCommand` compute: from a
lexer in a scanning state, the loop ends (with enough fuel) with the result of
handing the tokens of the rest of the text to `GetCommand` and running the `END`
case. -/
theorem lexLoop_scan (data : Bytes) :
    ∀ (k : Nat) (lexer : Lexer) (lexemes : List Nat),
      data.length - lexer.Index ≤ k →
      (lexer.Current_State = State.START ∨ lexer.Current_State = State.BUILDCOMM ∨
        lexer.Current_State = State.COMMENT) →
      (lexer.Current_State ≠ State.COMMENT → lexer.BeginningChar ≠ 42) →
      ∃ fuel, lexLoop data fuel lexer lexemes =
        some (runScan (modeOf lexer) (data.drop lexer.Index) lexer lexemes) := by
  intro k
  induction k with
  | zero =>
    intro lexer lexemes hk _ _
    exact ⟨1, lexLoop_at_end data lexer lexemes (by omega)⟩
  | succ k ih =>
    intro lexer lexemes hk hstate hbc
    by_cases hend : data.length ≤ lexer.Index
    · exact ⟨1, lexLoop_at_end data lexer lexemes hend⟩
    have hidx : lexer.Index < data.length := by omega
    obtain ⟨c, hc⟩ : ∃ c, data[lexer.Index]? = some c := ⟨_, List.getElem?_eq_getElem hidx⟩
    have hdrop := drop_of_getElem? data _ c hc
    have hIH : ∀ (lexerA : Lexer) (lexemes1 : List Nat), lexer.Index < lexerA.Index →
        (lexerA.Current_State = State.START ∨ lexerA.Current_State = State.BUILDCOMM ∨
          lexerA.Current_State = State.COMMENT) →
        (lexerA.Current_State ≠ State.COMMENT → lexerA.BeginningChar ≠ 42) →
        ∃ fuel, lexLoop data fuel lexerA lexemes1 =
          some (runScan (modeOf lexerA) (data.drop lexerA.Index) lexerA lexemes1) :=
      fun lexerA lexemes1 hlt hs hb => ih lexerA lexemes1 (by omega) hs hb
    rcases hstate with hst | hst | hst
    · -- START
      have hb : lexer.BeginningChar ≠ 42 := hbc (by rw [hst]; decide)
      have hne : lexer.Current_State ≠ State.END := by rw [hst]; decide
      by_cases hws : IsWhitespace c = true
      · obtain ⟨lexerA, hstep, hAs, hAb, _, hAc, hAi⟩ := step_after_switch data lexer _ lexemes c
          hidx hne lexemes (lexSwitch_START_whitespace data lexer lexemes c hc hst hws) hc
        have hAs1 : lexerA.Current_State = State.START := hAs.trans hst
        refine lexLoop_silent data lexer lexerA lexemes hstep hAc ?_
          (hIH lexerA lexemes (by rcases hAi with ⟨_, _, h⟩ | ⟨_, h⟩ <;> rw [h] <;> simp)
            (Or.inl hAs1) (fun _ => by rw [hAb]; exact hb))
        rw [modeOf_START lexer hst, modeOf_START lexerA hAs1, hdrop, scan_code_ws c _ hws]
        exact scan_code_advance data lexer.Index c lexerA.Index hAi
      · have hws1 : IsWhitespace c = false := by
          cases h : IsWhitespace c
          · rfl
          · exact absurd h hws
        have h13 : ¬ (c = 13 ∧ data[lexer.Index + 1]? = some 10) := by
          intro h
          rw [h.1] at hws1
          exact absurd hws1 (by decide)
        by_cases h47 : c = 47
        · cases hc1 : data[lexer.Index + 1]? with
          | none =>
            refine ⟨1, ?_⟩
            rw [lexLoop_of_error data lexer lexemes _ (lexStep_of_switch_error data lexer lexemes _
              hidx hne (lexSwitch_START_slash_end data lexer lexemes c hc h47 hst hc1))]
            rw [modeOf_START lexer hst, hdrop, drop_of_none data _ hc1, h47]
            rfl
          | some c1 =>
            have hdrop1 := drop_of_getElem? data _ c1 hc1
            by_cases h1 : c1 = 47
            · obtain ⟨lexerA, hstep, hAs, hAb, _, hAc, hAi⟩ := step_after_switch data lexer _
                lexemes c1 hidx hne lexemes
                (lexSwitch_START_line data lexer lexemes c hc h47 hst c1 hc1 h1) hc1
              have hAi1 : lexerA.Index = lexer.Index + 1 + 1 := by
                rcases hAi with ⟨h, _, _⟩ | ⟨_, h⟩
                · omega
                · exact h
              have hbA : lexerA.BeginningChar ≠ 42 := by rw [hAb]; exact hb
              refine lexLoop_silent data lexer lexerA lexemes hstep hAc ?_
                (hIH lexerA lexemes (by omega) (Or.inr (Or.inr hAs)) (fun _ => hbA))
              rw [modeOf_START lexer hst, modeOf_line lexerA hAs hbA, hdrop, hdrop1, hAi1, h47, h1,
                scan_code_line]
            · by_cases h2 : c1 = 42
              · obtain ⟨lexerA, hstep, hAs, hAb, _, hAc, hAi⟩ := step_after_switch data lexer _
                  lexemes c1 hidx hne lexemes
                  (lexSwitch_START_block data lexer lexemes c hc h47 hst c1 hc1 h2) hc1
                have hAi1 : lexerA.Index = lexer.Index + 1 + 1 := by
                  rcases hAi with ⟨h, _, _⟩ | ⟨_, h⟩
                  · omega
                  · exact h
                refine lexLoop_silent data lexer lexerA lexemes hstep hAc ?_
                  (hIH lexerA lexemes (by omega) (Or.inr (Or.inr hAs))
                    (fun h => absurd hAs h))
                rw [modeOf_START lexer hst, modeOf_block lexerA hAs hAb, hdrop, hdrop1, hAi1, h47,
                  h2, scan_code_block]
              · obtain ⟨lexerA, hstep, hAs, hAb, hAt, hAc, hAi⟩ := step_after_switch data lexer _
                  lexemes c hidx hne lexemes
                  (lexSwitch_START_slash data lexer lexemes c1 c hc h47 hst hc1 h1 h2) hc
                have hAi1 : lexerA.Index = lexer.Index + 1 := by
                  rcases hAi with ⟨h, h10, _⟩ | ⟨_, h⟩
                  · exact absurd ⟨h, h10⟩ h13
                  · exact h
                refine lexLoop_silent data lexer lexerA lexemes hstep hAc ?_
                  (hIH lexerA lexemes (by omega) (Or.inr (Or.inl hAs))
                    (fun _ => by rw [hAb]; exact hb))
                rw [modeOf_START lexer hst, modeOf_BUILDCOMM lexerA hAs, hAt, hdrop, hdrop1, hAi1,
                  h47, scan_code_slash c1 _ h1 h2, ← hdrop1]
        · obtain ⟨lexerA, hstep, hAs, hAb, hAt, hAc, hAi⟩ := step_after_switch data lexer _
            lexemes c hidx hne lexemes
            (lexSwitch_START_byte data lexer lexemes c hc hst hws1 h47) hc
          have hAi1 : lexerA.Index = lexer.Index + 1 := by
            rcases hAi with ⟨h, h10, _⟩ | ⟨_, h⟩
            · exact absurd ⟨h, h10⟩ h13
            · exact h
          refine lexLoop_silent data lexer lexerA lexemes hstep hAc ?_
            (hIH lexerA lexemes (by omega) (Or.inr (Or.inl hAs))
              (fun _ => by rw [hAb]; exact hb))
          rw [modeOf_START lexer hst, modeOf_BUILDCOMM lexerA hAs, hAt, hdrop, hAi1,
            scan_code_byte c _ hws1 h47]
    · -- BUILDCOMM
      have hb : lexer.BeginningChar ≠ 42 := hbc (by rw [hst]; decide)
      have hne : lexer.Current_State ≠ State.END := by rw [hst]; decide
      have hIHs : ∀ (lexerA : Lexer) (lexemes1 : List Nat), lexer.Index < lexerA.Index →
          lexerA.Current_State = State.START → lexerA.BeginningChar ≠ 42 →
          ∃ fuel, lexLoop data fuel lexerA lexemes1 =
            some (runScan (modeOf lexerA) (data.drop lexerA.Index) lexerA lexemes1) :=
        fun lexerA lexemes1 hlt hs hb => hIH lexerA lexemes1 hlt (Or.inl hs) (fun _ => hb)
      by_cases hws : IsWhitespace c = true
      · refine lexLoop_token data lexer _ lexemes c lexer.BuiltString hc hst hb
          (lexSwitch_BUILDCOMM_whitespace data lexer lexemes c hc hst hws) rfl ?_ hIHs
        rw [modeOf_BUILDCOMM lexer hst, hdrop, scan_token_ws _ c _ hws]
      · have hws1 : IsWhitespace c = false := by
          cases h : IsWhitespace c
          · rfl
          · exact absurd h hws
        have h13 : ¬ (c = 13 ∧ data[lexer.Index + 1]? = some 10) := by
          intro h
          rw [h.1] at hws1
          exact absurd hws1 (by decide)
        by_cases h58 : c = 58
        · refine lexLoop_token data lexer _ lexemes c (lexer.BuiltString ++ [58]) hc hst hb
            (lexSwitch_BUILDCOMM_colon data lexer lexemes c hc h58 hst) rfl ?_ hIHs
          rw [modeOf_BUILDCOMM lexer hst, hdrop, h58, scan_token_colon]
        · by_cases hlast : lexer.Index + 1 = data.length
          · refine lexLoop_token data lexer _ lexemes c (lexer.BuiltString ++ byteToString c) hc
              hst hb (lexSwitch_BUILDCOMM_last data lexer lexemes c hc hst hws1 h58 hlast) rfl ?_
              hIHs
            rw [modeOf_BUILDCOMM lexer hst, hdrop, List.drop_of_length_le (by omega),
              scan_token_last _ c hws1 h58, scan_nil]
          · obtain ⟨lexerA, hstep, hAs, hAb, hAt, hAc, hAi⟩ := step_after_switch data lexer _
              lexemes c hidx hne lexemes
              (lexSwitch_BUILDCOMM_append data lexer lexemes c hc hst hws1 h58 hlast) hc
            have hAi1 : lexerA.Index = lexer.Index + 1 := by
              rcases hAi with ⟨h, h10, _⟩ | ⟨_, h⟩
              · exact absurd ⟨h, h10⟩ h13
              · exact h
            have hAs1 : lexerA.Current_State = State.BUILDCOMM := hAs.trans hst
            obtain ⟨c1, hc1⟩ : ∃ c1, data[lexer.Index + 1]? = some c1 :=
              ⟨_, List.getElem?_eq_getElem (by omega)⟩
            refine lexLoop_silent data lexer lexerA lexemes hstep hAc ?_
              (hIH lexerA lexemes (by omega) (Or.inr (Or.inl hAs1))
                (fun _ => by rw [hAb]; exact hb))
            rw [modeOf_BUILDCOMM lexer hst, modeOf_BUILDCOMM lexerA hAs1, hAt, hdrop, hAi1,
              drop_of_getElem? data _ c1 hc1, scan_token_byte _ c c1 _ hws1 h58]
    · -- COMMENT
      have hne : lexer.Current_State ≠ State.END := by rw [hst]; decide
      by_cases hb : lexer.BeginningChar = 42
      · cases hc1 : data[lexer.Index + 1]? with
        | none =>
          refine ⟨1, ?_⟩
          rw [lexLoop_of_error data lexer lexemes _ (lexStep_of_switch_error data lexer lexemes _
            hidx hne (lexSwitch_block_end data lexer lexemes c hc hst hb hc1))]
          rw [modeOf_block lexer hst hb, hdrop, drop_of_none data _ hc1]
          unfold runScan
          rw [scan_block_last]
          rfl
        | some c1 =>
          have hdrop1 := drop_of_getElem? data _ c1 hc1
          by_cases hcl : c = 42 ∧ c1 = 47
          · obtain ⟨lexerA, hstep, hAs, hAb, _, hAc, hAi⟩ := step_after_switch data lexer _
              lexemes c1 hidx hne lexemes
              (lexSwitch_block_close data lexer lexemes c c1 hc hst hb hc1 hcl) hc1
            have hAi1 : lexerA.Index = lexer.Index + 1 + 1 := by
              rcases hAi with ⟨h, _, _⟩ | ⟨_, h⟩
              · omega
              · exact h
            refine lexLoop_silent data lexer lexerA lexemes hstep hAc ?_
              (hIH lexerA lexemes (by omega) (Or.inl hAs) (fun _ => by rw [hAb]; exact (by decide : (0 : Nat) ≠ 42)))
            rw [modeOf_block lexer hst hb, modeOf_START lexerA hAs, hdrop, hdrop1, hAi1, hcl.1,
              hcl.2, scan_block_end]
          · obtain ⟨lexerA, hstep, hAs, hAb, _, hAc, hAi⟩ := step_after_switch data lexer _
              lexemes c hidx hne lexemes
              (lexSwitch_block_stay data lexer lexemes c c1 hc hst hb hc1 hcl) hc
            have hAs1 : lexerA.Current_State = State.COMMENT := hAs.trans hst
            refine lexLoop_silent data lexer lexerA lexemes hstep hAc ?_
              (hIH lexerA lexemes (by rcases hAi with ⟨_, _, h⟩ | ⟨_, h⟩ <;> rw [h] <;> simp)
                (Or.inr (Or.inr hAs1)) (fun h => absurd hAs1 h))
            rw [modeOf_block lexer hst hb, modeOf_block lexerA hAs1 (hAb.trans hb), hdrop, hdrop1]
            rcases hAi with ⟨h13, h10, hi⟩ | ⟨hn, hi⟩
            · rw [hc1] at h10
              rw [hi, h13, Option.some.inj h10, scan_block_crlf]
            · rw [hi, scan_block_byte c c1 _ hcl (fun h => hn ⟨h.1, by rw [hc1, h.2]⟩), ← hdrop1]
      · by_cases hnl : c = 10 ∨ (c = 13 ∧ data[lexer.Index + 1]? = some 10)
        · obtain ⟨lexerA, hstep, hAs, hAb, _, hAc, hAi⟩ := step_after_switch data lexer _
            lexemes c hidx hne lexemes
            (lexSwitch_line_end data lexer lexemes c hc hst hb hnl) hc
          refine lexLoop_silent data lexer lexerA lexemes hstep hAc ?_
            (hIH lexerA lexemes (by rcases hAi with ⟨_, _, h⟩ | ⟨_, h⟩ <;> rw [h] <;> simp)
              (Or.inl hAs) (fun _ => by rw [hAb]; exact hb))
          rw [modeOf_line lexer hst hb, modeOf_START lexerA hAs, hdrop]
          rcases hAi with ⟨h13, h10, hi⟩ | ⟨hn, hi⟩
          · rw [hi, h13, drop_of_getElem? data _ 10 h10, scan_line_byte 13 _ (by decide),
              scan_line_newline]
          · rcases hnl with h10 | hcr
            · rw [hi, h10, scan_line_newline]
            · exact absurd hcr hn
        · have h10 : c ≠ 10 := fun h => hnl (Or.inl h)
          have hcr : ¬ (c = 13 ∧ data[lexer.Index + 1]? = some 10) := fun h => hnl (Or.inr h)
          obtain ⟨lexerA, hstep, hAs, hAb, _, hAc, hAi⟩ := step_after_switch data lexer _
            lexemes c hidx hne lexemes
            (lexSwitch_line_stay data lexer lexemes c hc hst hb h10 hcr) hc
          have hAs1 : lexerA.Current_State = State.COMMENT := hAs.trans hst
          have hAi1 : lexerA.Index = lexer.Index + 1 := by
            rcases hAi with ⟨h, h10, _⟩ | ⟨_, h⟩
            · exact absurd ⟨h, h10⟩ hcr
            · exact h
          refine lexLoop_silent data lexer lexerA lexemes hstep hAc ?_
            (hIH lexerA lexemes (by omega) (Or.inr (Or.inr hAs1)) (fun h => absurd hAs1 h))
          rw [modeOf_line lexer hst hb, modeOf_line lexerA hAs1 (by rw [hAb]; exact hb), hdrop,
            hAi1, scan_line_byte c _ h10]

/-- Assembly is the scan of the text followed by the processing of its tokens:
`assemble` never runs out of fuel, and its result is that of handing the tokens
of `source ++ "\n"`, in order, to `GetCommand` and then running the `END` case. -/
theorem assemble_scan (source : Bytes) :
    assemble source = some (runScan Mode.code (source ++ [10]) startLexer
      (List.replicate (source ++ [10]).length 0)) := by
  obtain ⟨fuel, hf⟩ := lexLoop_scan (source ++ [10]) (source ++ [10]).length startLexer
    (List.replicate (source ++ [10]).length 0) (Nat.sub_le _ _) (Or.inl rfl)
    (fun _ => by decide)
  rw [assemble_eq]
  exact lexLoop_enough _ _ _ _ _ _ hf
    (by have := lexMeasure_le (source ++ [10]) startLexer; omega)

/-! ### The scanner: token count, concatenation and comments -/

/-- Every token takes at least two bytes of the text: itself and the byte that
ends it. -/
theorem scan_count (m : Mode) (text : Bytes) :
    2 * (scan m text).1.length ≤ text.length + modeSlack m := by
  induction m, text using scan.induct with
  | case1 mode => rw [scan_nil]; simp
  | case2 c rest hws ih =>
    rw [scan_code_ws c rest hws]
    simp only [List.length_cons, modeSlack] at *
    omega
  | case3 _ => rw [scan_code_slash_end]; simp
  | case4 tail _ ih =>
    rw [scan_code_line]
    simp only [List.length_cons, modeSlack] at *
    omega
  | case5 tail _ _ ih =>
    rw [scan_code_block]
    simp only [List.length_cons, modeSlack] at *
    omega
  | case6 head tail h1 h2 _ ih =>
    rw [scan_code_slash head tail h1 h2]
    simp only [List.length_cons, modeSlack] at *
    omega
  | case7 c rest hws h47 ih =>
    rw [scan_code_byte c rest (by simpa using hws) h47]
    simp only [List.length_cons, modeSlack] at *
    omega
  | case8 tok c rest hws ih =>
    rw [scan_token_ws tok c rest hws]
    simp only [List.length_cons, modeSlack] at *
    omega
  | case9 tok rest _ ih =>
    rw [scan_token_colon]
    simp only [List.length_cons, modeSlack] at *
    omega
  | case10 tok c hws h58 =>
    rw [scan_token_last tok c (by simpa using hws) h58]
    simp [modeSlack]
  | case11 tok c hws h58 head tail ih =>
    rw [scan_token_byte tok c head tail (by simpa using hws) h58]
    simp only [List.length_cons, modeSlack] at *
    omega
  | case12 rest ih =>
    rw [scan_line_newline]
    simp only [List.length_cons, modeSlack] at *
    omega
  | case13 c rest h10 ih =>
    rw [scan_line_byte c rest h10]
    simp only [List.length_cons, modeSlack] at *
    omega
  | case14 head => rw [scan_block_last]; simp
  | case15 c c1 rest h ih =>
    rw [h.1, h.2, scan_block_end]
    simp only [List.length_cons, modeSlack] at *
    omega
  | case16 c c1 rest _ h ih =>
    rw [h.1, h.2, scan_block_crlf]
    simp only [List.length_cons, modeSlack] at *
    omega
  | case17 c c1 rest h1 h2 ih =>
    rw [scan_block_byte c c1 rest h1 h2]
    simp only [List.length_cons, modeSlack] at *
    omega

theorem getLast?_tail (x : Nat) (rest : Bytes) (sep : Nat)
    (h : (x :: rest).getLast? = some sep) :
    (rest = [] ∧ x = sep) ∨ (rest ≠ [] ∧ rest.getLast? = some sep) := by
  cases rest with
  | nil =>
    left
    rw [List.getLast?_singleton] at h
    exact ⟨rfl, Option.some.inj h⟩
  | cons z t =>
    right
    rw [List.getLast?_cons_cons] at h
    exact ⟨List.cons_ne_nil _ _, h⟩

/-- Scanning a text that ends with a newline or a space, followed by more text:
the tokens of the first part, then the scan of the rest from the mode in which the
first part ends. -/
theorem scan_append (sep : Nat) (hsep : sep = 10 ∨ sep = 32) (rest2 : Bytes) (m : Mode)
    (text : Bytes) :
    ∀ m1, text.getLast? = some sep → (scan m text).2 = some m1 →
      scan m (text ++ rest2) = ((scan m text).1 ++ (scan m1 rest2).1, (scan m1 rest2).2) := by
  have hws : IsWhitespace sep = true := by rcases hsep with h | h <;> rw [h] <;> decide
  have h47 : sep ≠ 47 := by rcases hsep with h | h <;> rw [h] <;> decide
  have h58 : sep ≠ 58 := by rcases hsep with h | h <;> rw [h] <;> decide
  induction m, text using scan.induct with
  | case1 mode => intro m1 hl _; cases hl
  | case2 c rest hc ih =>
    intro m1 hl hm
    rw [scan_code_ws c rest hc] at hm ⊢
    rw [List.cons_append, scan_code_ws c _ hc]
    rcases getLast?_tail c rest sep hl with ⟨hr, _⟩ | ⟨_, hr⟩
    · subst hr
      rw [scan_nil] at hm ⊢
      cases Option.some.inj hm
      rfl
    · exact ih m1 hr hm
  | case3 _ =>
    intro m1 hl _
    exact absurd (Option.some.inj hl).symm h47
  | case4 tail _ ih =>
    intro m1 hl hm
    rw [scan_code_line] at hm ⊢
    rw [List.cons_append, List.cons_append, scan_code_line]
    rw [List.getLast?_cons_cons] at hl
    rcases getLast?_tail 47 tail sep hl with ⟨_, hr⟩ | ⟨_, hr⟩
    · exact absurd hr.symm h47
    · exact ih m1 hr hm
  | case5 tail _ _ ih =>
    intro m1 hl hm
    rw [scan_code_block] at hm ⊢
    rw [List.cons_append, List.cons_append, scan_code_block]
    rw [List.getLast?_cons_cons] at hl
    rcases getLast?_tail 42 tail sep hl with ⟨_, hr⟩ | ⟨_, hr⟩
    · exact absurd hr.symm (by rcases hsep with h | h <;> rw [h] <;> decide)
    · exact ih m1 hr hm
  | case6 head tail h1 h2 _ ih =>
    intro m1 hl hm
    rw [scan_code_slash head tail h1 h2] at hm ⊢
    rw [List.cons_append, List.cons_append, scan_code_slash head _ h1 h2]
    rw [List.getLast?_cons_cons] at hl
    exact ih m1 hl hm
  | case7 c rest hc hc47 ih =>
    intro m1 hl hm
    have hc1 : IsWhitespace c = false := by simpa using hc
    rw [scan_code_byte c rest hc1 hc47] at hm ⊢
    rw [List.cons_append, scan_code_byte c _ hc1 hc47]
    rcases getLast?_tail c rest sep hl with ⟨_, hr⟩ | ⟨_, hr⟩
    · rw [hr] at hc
      exact absurd hws hc
    · exact ih m1 hr hm
  | case8 tok c rest hc ih =>
    intro m1 hl hm
    rw [scan_token_ws tok c rest hc] at hm ⊢
    rw [List.cons_append, scan_token_ws tok c _ hc]
    rcases getLast?_tail c rest sep hl with ⟨hr, _⟩ | ⟨_, hr⟩
    · subst hr
      rw [scan_nil] at hm ⊢
      cases Option.some.inj hm
      rfl
    · rw [ih m1 hr hm]
      rfl
  | case9 tok rest _ ih =>
    intro m1 hl hm
    rw [scan_token_colon] at hm ⊢
    rw [List.cons_append, scan_token_colon]
    rcases getLast?_tail 58 rest sep hl with ⟨_, hr⟩ | ⟨_, hr⟩
    · exact absurd hr.symm h58
    · rw [ih m1 hr hm]
      rfl
  | case10 tok c hc hc58 =>
    intro m1 hl _
    rw [List.getLast?_singleton] at hl
    rw [Option.some.inj hl] at hc
    exact absurd hws hc
  | case11 tok c hc hc58 head tail ih =>
    intro m1 hl hm
    have hc1 : IsWhitespace c = false := by simpa using hc
    rw [scan_token_byte tok c head tail hc1 hc58] at hm ⊢
    rw [List.cons_append, List.cons_append, scan_token_byte tok c head _ hc1 hc58]
    rw [List.getLast?_cons_cons] at hl
    exact ih m1 hl hm
  | case12 rest ih =>
    intro m1 hl hm
    rw [scan_line_newline] at hm ⊢
    rw [List.cons_append, scan_line_newline]
    rcases getLast?_tail 10 rest sep hl with ⟨hr, _⟩ | ⟨_, hr⟩
    · subst hr
      rw [scan_nil] at hm ⊢
      cases Option.some.inj hm
      rfl
    · exact ih m1 hr hm
  | case13 c rest hc10 ih =>
    intro m1 hl hm
    rw [scan_line_byte c rest hc10] at hm ⊢
    rw [List.cons_append, scan_line_byte c _ hc10]
    rcases getLast?_tail c rest sep hl with ⟨hr, _⟩ | ⟨_, hr⟩
    · subst hr
      rw [scan_nil] at hm ⊢
      cases Option.some.inj hm
      rfl
    · exact ih m1 hr hm
  | case14 head =>
    intro m1 _ hm
    rw [scan_block_last] at hm
    cases hm
  | case15 c c1 rest h ih =>
    intro m1 hl hm
    rw [h.1, h.2] at hm hl ⊢
    rw [scan_block_end] at hm ⊢
    rw [List.cons_append, List.cons_append, scan_block_end]
    rw [List.getLast?_cons_cons] at hl
    rcases getLast?_tail 47 rest sep hl with ⟨_, hr⟩ | ⟨_, hr⟩
    · exact absurd hr.symm h47
    · exact ih m1 hr hm
  | case16 c c1 rest _ h ih =>
    intro m1 hl hm
    rw [h.1, h.2] at hm hl ⊢
    rw [scan_block_crlf] at hm ⊢
    rw [List.cons_append, List.cons_append, scan_block_crlf]
    rw [List.getLast?_cons_cons] at hl
    rcases getLast?_tail 10 rest sep hl with ⟨hr, _⟩ | ⟨_, hr⟩
    · subst hr
      rw [scan_nil] at hm ⊢
      cases Option.some.inj hm
      rfl
    · exact ih m1 hr hm
  | case17 c c1 rest h1 h2 ih =>
    intro m1 hl hm
    rw [scan_block_byte c c1 rest h1 h2] at hm ⊢
    rw [List.cons_append, List.cons_append, scan_block_byte c c1 _ h1 h2]
    rw [List.getLast?_cons_cons] at hl
    exact ih m1 hl hm

/-- A line comment is scanned without a token and ends in code mode. -/
theorem scan_line_comment (c : Bytes) (hc : ∀ x ∈ c, x ≠ 10) (rest : Bytes) :
    scan Mode.line (c ++ 10 :: rest) = scan Mode.code rest := by
  induction c with
  | nil => exact scan_line_newline rest
  | cons x c1 ih =>
    rw [List.cons_append, scan_line_byte x _ (hc x (List.mem_cons_self _ _))]
    exact ih (fun y hy => hc y (List.mem_cons_of_mem _ hy))

/-- A block comment whose text does not contain `*/` is scanned without a token
and ends in code mode. -/
theorem scan_block_comment (rest : Bytes) :
    ∀ (n : Nat) (c : Bytes), c.length ≤ n → ¬ [42, 47] <:+: c →
      scan Mode.block (c ++ 42 :: 47 :: rest) = scan Mode.code rest := by
  intro n
  induction n with
  | zero =>
    intro c hn _
    rw [List.length_eq_zero.mp (Nat.le_zero.mp hn)]
    exact scan_block_end rest
  | succ n ih =>
    intro c hn hc
    cases c with
    | nil => exact scan_block_end rest
    | cons x c1 =>
      have htail : ¬ [42, 47] <:+: c1 := fun h => by
        obtain ⟨s, t, hst⟩ := h
        exact hc ⟨x :: s, t, by rw [← hst]; rfl⟩
      cases c1 with
      | nil =>
        rw [List.cons_append, List.nil_append, scan_block_byte x 42 _ (fun h => by
          have := h.2
          exact absurd this (by decide)) (fun h => by
          have := h.2
          exact absurd this (by decide))]
        exact scan_block_end rest
      | cons y c2 =>
        rw [List.cons_append, List.cons_append]
        have hxy : ¬ (x = 42 ∧ y = 47) := by
          intro h
          apply hc
          rw [h.1, h.2]
          exact ⟨[], c2, rfl⟩
        by_cases hcr : x = 13 ∧ y = 10
        · rw [hcr.1, hcr.2, scan_block_crlf]
          exact ih c2 (by simp only [List.length_cons] at hn; omega)
            (fun h => by
              obtain ⟨s, t, hst⟩ := h
              exact htail ⟨y :: s, t, by rw [← hst]; rfl⟩)
        · rw [scan_block_byte x y _ hxy hcr, ← List.cons_append]
          exact ih (y :: c2) (by simp only [List.length_cons] at hn ⊢; omega) htail

/-! ### Room in the buffer: the result does not depend on its size -/

theorem DumpCommand_room (lexer : Lexer) (e : List Nat) (hidx : lexer.LexemesIndex = e.length) :
    ∃ r : Except LexError (Lexer × List Nat),
      (∀ n, weight lexer e ≤ n → DumpCommand lexer (padded n e) = repad n r) ∧
      (r = Except.error LexError.arityMismatch ∨
        (r = Except.ok (flushed lexer (pendingWords lexer).length, e ++ pendingWords lexer) ∧
          weight lexer e = (e ++ pendingWords lexer).length)) := by
  cases hp : lexer.Parameters with
  | none =>
    have hpw : pendingWords lexer = [] := by unfold pendingWords; rw [hp]
    have hw : weight lexer e = e.length := by unfold weight; rw [hp]; rfl
    refine ⟨Except.ok (flushed lexer (pendingWords lexer).length, e ++ pendingWords lexer),
      fun n hn => ?_, Or.inr ⟨rfl, by rw [hw, hpw, List.append_nil]⟩⟩
    rw [DumpCommand_padded n lexer e (by omega) hidx, hp, hpw, List.append_nil]
    rfl
  | some params =>
    have hpw : pendingWords lexer = params ++ [lexer.CurrentInstruction] := by
      unfold pendingWords; rw [hp]
    have hw : weight lexer e = e.length + (lexer.NumParams + 1).toNat := by
      unfold weight; rw [hp]
    by_cases har : (params.length : Int) ≠ lexer.NumParams
    · refine ⟨Except.error LexError.arityMismatch, fun n hn => ?_, Or.inl rfl⟩
      rw [DumpCommand_padded n lexer e (by omega) hidx, hp]
      simp only []
      rw [if_pos har]
      rfl
    · have har1 : (params.length : Int) = lexer.NumParams := not_not.mp har
      refine ⟨Except.ok (flushed lexer (pendingWords lexer).length, e ++ pendingWords lexer),
        fun n hn => ?_, Or.inr ⟨rfl, by
          rw [hw, hpw, List.length_append, List.length_append, List.length_singleton]
          omega⟩⟩
      rw [DumpCommand_padded n lexer e (by omega) hidx, hp]
      simp only []
      rw [if_neg har, if_pos (by omega), hpw, List.length_append, List.length_singleton]
      rfl

theorem HandleLabelDecleration_room (lexer : Lexer) (e : List Nat)
    (hslots : ∀ name val, mapGet lexer.LabelToInstructions name = some val → ∀ s ∈ val,
      s < e.length) :
    ∃ r : Except LexError (Lexer × List Nat),
      (∀ n, e.length ≤ n → HandleLabelDecleration lexer (padded n e) = repad n r) ∧
      (∀ lx1 e1, r = Except.ok (lx1, e1) → e1.length = e.length ∧
        lx1.LexemesIndex = lexer.LexemesIndex ∧
        (∀ name val, mapGet lx1.LabelToInstructions name = some val →
          mapGet lexer.LabelToInstructions name = some val) ∧
        lx1.NumParams = lexer.NumParams) := by
  by_cases hlen : lexer.BuiltString.length = 1
  · refine ⟨Except.error LexError.emptyLabelDecleration, fun n _ => ?_, fun _ _ h => by cases h⟩
    unfold HandleLabelDecleration
    rw [if_pos hlen]
    rfl
  · by_cases hlen0 : lexer.BuiltString.length = 0
    · refine ⟨Except.error LexError.indexOutOfRange, fun n _ => ?_, fun _ _ h => by cases h⟩
      unfold HandleLabelDecleration
      rw [if_neg hlen, if_pos hlen0]
      rfl
    cases hm : mapGet lexer.LabelToIndex lexer.BuiltString.dropLast with
    | some v =>
      refine ⟨Except.error LexError.duplicateLabel, fun n _ => ?_, fun _ _ h => by cases h⟩
      unfold HandleLabelDecleration
      rw [if_neg hlen, if_neg hlen0]
      simp only [hm]
      rfl
    | none =>
      cases hm2 : mapGet lexer.LabelToInstructions lexer.BuiltString.dropLast with
      | none =>
        refine ⟨Except.ok ({ lexer with
            BuiltString := lexer.BuiltString.dropLast,
            LabelToIndex := mapSet lexer.LabelToIndex lexer.BuiltString.dropLast
              lexer.LexemesIndex }, e), fun n _ => ?_, fun lx1 e1 h => ?_⟩
        · unfold HandleLabelDecleration
          rw [if_neg hlen, if_neg hlen0]
          simp only [hm, hm2]
          rfl
        · injection h with h
          injection h with h1 h2
          subst h1
          subst h2
          exact ⟨rfl, rfl, fun _ _ h => h, rfl⟩
      | some val =>
        refine ⟨Except.ok ({ lexer with
            BuiltString := lexer.BuiltString.dropLast,
            LabelToIndex := mapSet lexer.LabelToIndex lexer.BuiltString.dropLast
              lexer.LexemesIndex,
            LabelToInstructions := mapDelete lexer.LabelToInstructions
              lexer.BuiltString.dropLast },
            patch e val (lexer.LexemesIndex % 4294967296)), fun n hn => ?_, fun lx1 e1 h => ?_⟩
        · unfold HandleLabelDecleration
          rw [if_neg hlen, if_neg hlen0]
          simp only [hm, hm2]
          rw [backpatch_padded n val _ e hn (hslots _ val hm2)]
          rfl
        · injection h with h
          injection h with h1 h2
          subst h1
          subst h2
          refine ⟨patch_length _ _ _, rfl, fun name v hv => ?_, rfl⟩
          have hv1 : mapGet (mapDelete lexer.LabelToInstructions lexer.BuiltString.dropLast) name =
              some v := hv
          rw [mapGet_mapDelete] at hv1
          split at hv1
          · cases hv1
          · exact hv1

theorem pendingWords_length_some (lexer : Lexer) (params : List Nat)
    (hp : lexer.Parameters = some params) : (pendingWords lexer).length = params.length + 1 := by
  unfold pendingWords
  rw [hp]
  simp

theorem weight_some (lexer : Lexer) (e params : List Nat) (hp : lexer.Parameters = some params) :
    weight lexer e = e.length + (lexer.NumParams + 1).toNat := by
  unfold weight
  rw [hp]

theorem setParameter_room (lexer lexer1 : Lexer) (e : List Nat) (w : Nat)
    (hR : RoomInv lexer e) (h : setParameter lexer w = Except.ok lexer1) :
    RoomInv { lexer1 with ParametersIndex := lexer1.ParametersIndex + 1,
                          NumParams := wrapInt8 (lexer1.NumParams + 1) } e ∧
    weight { lexer1 with ParametersIndex := lexer1.ParametersIndex + 1,
                         NumParams := wrapInt8 (lexer1.NumParams + 1) } e ≤ weight lexer e + 1 := by
  obtain ⟨params, hp, hlt, h1⟩ := setParameter_frame lexer lexer1 w h
  subst h1
  constructor
  · refine ⟨hR.index, fun name val hv s hs => ?_, wrapInt8_range _⟩
    have := hR.slots name val hv s hs
    rw [pendingWords_length_some lexer params hp] at this
    rw [pendingWords_length_some _ (params.set lexer.ParametersIndex w) rfl, List.length_set]
    exact this
  · rw [weight_some lexer e params hp, weight_some _ e (params.set lexer.ParametersIndex w) rfl]
    show e.length + (wrapInt8 (lexer.NumParams + 1) + 1).toNat ≤
      e.length + (lexer.NumParams + 1).toNat + 1
    have := wrapInt8_le _ hR.range.1 hR.range.2
    omega

theorem HandleLabelParameter_room (lexer lexer1 : Lexer) (e : List Nat)
    (hR : RoomInv lexer e) (h : HandleLabelParameter lexer = Except.ok lexer1) :
    RoomInv lexer1 e ∧ weight lexer1 e ≤ weight lexer e + 1 := by
  obtain ⟨_, params, hp, hlt, h1 | h1⟩ := HandleLabelParameter_frame lexer lexer1 h
  · obtain ⟨v, _, h1⟩ := h1
    subst h1
    constructor
    · refine ⟨hR.index, fun name val hv s hs => ?_, wrapInt8_range _⟩
      have := hR.slots name val hv s hs
      rw [pendingWords_length_some lexer params hp] at this
      rw [pendingWords_length_some _ (params.set lexer.ParametersIndex (v % 4294967296)) rfl,
        List.length_set]
      exact this
    · rw [weight_some lexer e params hp,
        weight_some _ e (params.set lexer.ParametersIndex (v % 4294967296)) rfl]
      show e.length + (wrapInt8 (lexer.NumParams + 1) + 1).toNat ≤
        e.length + (lexer.NumParams + 1).toNat + 1
      have := wrapInt8_le _ hR.range.1 hR.range.2
      omega
  · obtain ⟨_, h1⟩ := h1
    subst h1
    constructor
    · refine ⟨hR.index, fun name val hv s hs => ?_, wrapInt8_range _⟩
      rw [pendingWords_length_some _ (params.set lexer.ParametersIndex 0) rfl, List.length_set]
      have hv1 : mapGet (mapSet lexer.LabelToInstructions lexer.BuiltString
          ((mapGet lexer.LabelToInstructions lexer.BuiltString).getD [] ++ [lexer.LexemesIndex]))
          name = some val := hv
      rw [mapGet_mapSet] at hv1
      split at hv1
      · injection hv1 with hv1
        rw [← hv1] at hs
        rcases List.mem_append.mp hs with hs1 | hs1
        · cases hg : mapGet lexer.LabelToInstructions lexer.BuiltString with
          | none => rw [hg] at hs1; cases hs1
          | some old =>
            rw [hg] at hs1
            have := hR.slots _ old hg s hs1
            rw [pendingWords_length_some lexer params hp] at this
            exact this
        · rw [List.mem_singleton] at hs1
          rw [hs1, hR.index]
          omega
      · have := hR.slots name val hv1 s hs
        rw [pendingWords_length_some lexer params hp] at this
        exact this
    · rw [weight_some lexer e params hp, weight_some _ e (params.set lexer.ParametersIndex 0) rfl]
      show e.length + (wrapInt8 (lexer.NumParams + 1) + 1).toNat ≤
        e.length + (lexer.NumParams + 1).toNat + 1
      have := wrapInt8_le _ hR.range.1 hR.range.2
      omega

/-- The result of `GetCommand` on a buffer that has room for the pending command
does not depend on the size of the buffer, the invariant is kept and at most one
word is added to the words to emit. -/
theorem GetCommand_room (lexer : Lexer) (e : List Nat) (hR : RoomInv lexer e) :
    ∃ r : Except LexError (Lexer × List Nat),
      (∀ n, weight lexer e ≤ n → GetCommand lexer (padded n e) = repad n r) ∧
      (∀ lx1 e1, r = Except.ok (lx1, e1) →
        RoomInv lx1 e1 ∧ weight lx1 e1 ≤ weight lexer e + 1) := by
  obtain ⟨rD, hD, hDr⟩ := DumpCommand_room lexer e hR.index
  have hflush : ∀ s, (∃ name val, mapGet lexer.LabelToInstructions name = some val ∧ s ∈ val) →
      s < (e ++ pendingWords lexer).length := by
    intro s hs
    obtain ⟨name, val, hv, hs⟩ := hs
    rw [List.length_append]
    exact hR.slots name val hv s hs
  cases hlast : lexer.BuiltString.getLast? with
  | none =>
    refine ⟨Except.error LexError.indexOutOfRange, fun n _ => ?_, fun _ _ h => by cases h⟩
    unfold GetCommand
    rw [hlast]
    rfl
  | some last =>
    by_cases h58 : last = 58
    · -- a label declaration
      rcases hDr with hDr | ⟨hDr, hw⟩
      · refine ⟨Except.error LexError.arityMismatch, fun n hn => ?_, fun _ _ h => by cases h⟩
        unfold GetCommand
        rw [hlast]
        simp only []
        rw [if_pos h58, hD n hn, hDr]
        rfl
      · obtain ⟨rH, hH, hHr⟩ := HandleLabelDecleration_room
          (flushed lexer (pendingWords lexer).length) (e ++ pendingWords lexer)
          (fun name val hv s hs => hflush s ⟨name, val, hv, hs⟩)
        cases hrH : rH with
        | error err =>
          refine ⟨Except.error err, fun n hn => ?_, fun _ _ h => by cases h⟩
          unfold GetCommand
          rw [hlast]
          simp only []
          rw [if_pos h58, hD n hn, hDr]
          simp only [repad]
          rw [hH n (by omega), hrH]
          rfl
        | ok p =>
          obtain ⟨lxH, eH⟩ := p
          obtain ⟨hlen, hidx, hsl, hnum⟩ := hHr lxH eH hrH
          refine ⟨Except.ok ({ lxH with Parameters := none }, eH), fun n hn => ?_,
            fun lx1 e1 h => ?_⟩
          · unfold GetCommand
            rw [hlast]
            simp only []
            rw [if_pos h58, hD n hn, hDr]
            simp only [repad]
            rw [hH n (by omega), hrH]
            rfl
          · injection h with h
            injection h with h1 h2
            rw [← h1, ← h2]
            constructor
            · refine ⟨?_, fun name val hv s hs => ?_,
                by show -128 ≤ lxH.NumParams ∧ lxH.NumParams ≤ 127; rw [hnum]; exact (by decide :
                  (-128 : Int) ≤ 0 ∧ (0 : Int) ≤ 127)⟩
              · show lxH.LexemesIndex = eH.length
                rw [hidx, hlen, List.length_append]
                show lexer.LexemesIndex + _ = _
                rw [hR.index]
              · have := hflush s ⟨name, val, hsl name val hv, hs⟩
                rw [hlen]
                omega
            · have hw1 : weight { lxH with Parameters := none } eH = eH.length := rfl
              rw [hw1, hlen, ← hw]
              omega
    · cases hA : Atoi lexer.BuiltString with
      | some num =>
        -- an integer operand
        by_cases hbig : num > 1073741823 ∨ num < -1073741823
        · refine ⟨Except.error LexError.maxAbsInt, fun n _ => ?_, fun _ _ h => by cases h⟩
          unfold GetCommand
          rw [hlast]
          simp only []
          rw [if_neg h58, hA]
          simp only []
          rw [if_pos hbig]
          rfl
        by_cases hfull : lexer.ParametersIndex = paramsLen lexer
        · refine ⟨Except.error LexError.arityMismatch, fun n _ => ?_, fun _ _ h => by cases h⟩
          unfold GetCommand
          rw [hlast]
          simp only []
          rw [if_neg h58, hA]
          simp only []
          rw [if_neg hbig, if_pos hfull]
          rfl
        by_cases hval : ValidateNumParameter lexer.CurrentInstruction lexer.ParametersIndex = false
        · refine ⟨Except.error LexError.registerExpected, fun n _ => ?_, fun _ _ h => by cases h⟩
          unfold GetCommand
          rw [hlast]
          simp only []
          rw [if_neg h58, hA]
          simp only []
          rw [if_neg hbig, if_neg hfull, if_pos hval]
          rfl
        cases hS : setParameter lexer (encodeInt num) with
        | error err =>
          refine ⟨Except.error err, fun n _ => ?_, fun _ _ h => by cases h⟩
          unfold GetCommand
          rw [hlast]
          simp only []
          rw [if_neg h58, hA]
          simp only []
          rw [if_neg hbig, if_neg hfull, if_neg hval, hS]
          rfl
        | ok lxS =>
          refine ⟨Except.ok
            ({ lxS with ParametersIndex := lxS.ParametersIndex + 1,
                        NumParams := wrapInt8 (lxS.NumParams + 1) }, e), fun n _ => ?_, fun lx1 e1 h => ?_⟩
          · unfold GetCommand
            rw [hlast]
            simp only []
            rw [if_neg h58, hA]
            simp only []
            rw [if_neg hbig, if_neg hfull, if_neg hval, hS]
            rfl
          · injection h with h
            injection h with h1 h2
            rw [← h1, ← h2]
            exact setParameter_room lexer lxS e _ hR hS
      | none =>
        by_cases hnum : IsNumeric lexer.BuiltString = true
        · refine ⟨Except.error LexError.maxAbsInt, fun n _ => ?_, fun _ _ h => by cases h⟩
          unfold GetCommand
          rw [hlast]
          simp only []
          rw [if_neg h58, hA]
          simp only []
          rw [if_pos hnum]
          rfl
        by_cases hreg : matchRegister lexer.BuiltString = true
        · -- a register operand
          by_cases hr0 : lexer.BuiltString.getD 1 0 = 48
          · refine ⟨Except.error LexError.invalidR0, fun n _ => ?_, fun _ _ h => by cases h⟩
            unfold GetCommand
            rw [hlast]
            simp only []
            rw [if_neg h58, hA]
            simp only []
            rw [if_neg hnum, if_pos hreg, if_pos hr0]
            rfl
          by_cases hj : lexer.CurrentInstruction = 0x40000011 ∨ lexer.CurrentInstruction = 0x40000012
          · refine ⟨Except.error LexError.labelExpected, fun n _ => ?_, fun _ _ h => by cases h⟩
            unfold GetCommand
            rw [hlast]
            simp only []
            rw [if_neg h58, hA]
            simp only []
            rw [if_neg hnum, if_pos hreg, if_neg hr0, if_pos hj]
            rfl
          by_cases hfull : lexer.ParametersIndex = paramsLen lexer
          · refine ⟨Except.error LexError.arityMismatch, fun n _ => ?_, fun _ _ h => by cases h⟩
            unfold GetCommand
            rw [hlast]
            simp only []
            rw [if_neg h58, hA]
            simp only []
            rw [if_neg hnum, if_pos hreg, if_neg hr0, if_neg hj, if_pos hfull]
            rfl
          cases hS : setParameter lexer (encodeRegister (lexer.BuiltString.getD 1 0)) with
          | error err =>
            refine ⟨Except.error err, fun n _ => ?_, fun _ _ h => by cases h⟩
            unfold GetCommand
            rw [hlast]
            simp only []
            rw [if_neg h58, hA]
            simp only []
            rw [if_neg hnum, if_pos hreg, if_neg hr0, if_neg hj, if_neg hfull, hS]
            rfl
          | ok lxS =>
            refine ⟨Except.ok
              ({ lxS with ParametersIndex := lxS.ParametersIndex + 1,
                          NumParams := wrapInt8 (lxS.NumParams + 1) }, e), fun n _ => ?_, fun lx1 e1 h => ?_⟩
            · unfold GetCommand
              rw [hlast]
              simp only []
              rw [if_neg h58, hA]
              simp only []
              rw [if_neg hnum, if_pos hreg, if_neg hr0, if_neg hj, if_neg hfull, hS]
              rfl
            · injection h with h
              injection h with h1 h2
              rw [← h1, ← h2]
              exact setParameter_room lexer lxS e _ hR hS
        by_cases hlab : (lexer.CurrentInstruction = 0x40000011 ∨
            lexer.CurrentInstruction = 0x40000012) ∧ lexer.NumParams = 0
        · -- a label reference
          cases hS : HandleLabelParameter lexer with
          | error err =>
            refine ⟨Except.error err, fun n _ => ?_, fun _ _ h => by cases h⟩
            unfold GetCommand
            rw [hlast]
            simp only []
            rw [if_neg h58, hA]
            simp only []
            rw [if_neg hnum, if_neg hreg, if_pos hlab, hS]
            rfl
          | ok lxS =>
            refine ⟨Except.ok (lxS, e), fun n _ => ?_, fun lx1 e1 h => ?_⟩
            · unfold GetCommand
              rw [hlast]
              simp only []
              rw [if_neg h58, hA]
              simp only []
              rw [if_neg hnum, if_neg hreg, if_pos hlab, hS]
              rfl
            · injection h with h
              injection h with h1 h2
              rw [← h1, ← h2]
              exact HandleLabelParameter_room lexer lxS e hR hS
        · -- a mnemonic
          rcases hDr with hDr | ⟨hDr, hw⟩
          · refine ⟨Except.error LexError.arityMismatch, fun n hn => ?_, fun _ _ h => by cases h⟩
            unfold GetCommand
            rw [hlast]
            simp only []
            rw [if_neg h58, hA]
            simp only []
            rw [if_neg hnum, if_neg hreg, if_neg hlab, hD n hn, hDr]
            rfl
          · cases hM : mnemonic lexer.BuiltString with
            | none =>
              refine ⟨Except.error LexError.unrecognizedCommand, fun n hn => ?_,
                fun _ _ h => by cases h⟩
              unfold GetCommand
              rw [hlast]
              simp only []
              rw [if_neg h58, hA]
              simp only []
              rw [if_neg hnum, if_neg hreg, if_neg hlab, hD n hn, hDr]
              simp only [repad]
              have hb : (flushed lexer (pendingWords lexer).length).BuiltString =
                  lexer.BuiltString := rfl
              rw [hb, hM]
            | some p =>
              obtain ⟨instruction, numParams⟩ := p
              refine ⟨Except.ok ({ flushed lexer (pendingWords lexer).length with
                  CurrentInstruction := instruction,
                  Parameters := some (List.replicate numParams 0) }, e ++ pendingWords lexer),
                fun n hn => ?_, fun lx1 e1 h => ?_⟩
              · unfold GetCommand
                rw [hlast]
                simp only []
                rw [if_neg h58, hA]
                simp only []
                rw [if_neg hnum, if_neg hreg, if_neg hlab, hD n hn, hDr]
                simp only [repad]
                have hb : (flushed lexer (pendingWords lexer).length).BuiltString =
                    lexer.BuiltString := rfl
                rw [hb, hM]
              · injection h with h
                injection h with h1 h2
                rw [← h1, ← h2]
                constructor
                · refine ⟨?_, fun name val hv s hs => ?_,
                    (by decide : (-128 : Int) ≤ 0 ∧ (0 : Int) ≤ 127)⟩
                  · show lexer.LexemesIndex + _ = _
                    rw [hR.index, List.length_append]
                  · have := hflush s ⟨name, val, hv, hs⟩
                    omega
                · rw [weight_some _ _ (List.replicate numParams 0) rfl, ← hw]
                  show weight lexer e + (0 + 1) ≤ _
                  omega

/-! ### Sources with the same scan assemble alike -/

theorem lexEnd_room (lexer : Lexer) (e : List Nat) (hR : RoomInv lexer e) :
    ∃ r : Except LexError (List Nat),
      (∀ n, weight lexer e < n → lexEnd lexer (padded n e) = repadOut n r) ∧
      (∀ e1, r = Except.ok e1 → ∃ prog, e1 = prog ++ [0x40000000]) := by
  obtain ⟨rD, hD, hDr⟩ := DumpCommand_room lexer e hR.index
  rcases hDr with hDr | ⟨hDr, hw⟩
  · refine ⟨Except.error LexError.arityMismatch, fun n hn => ?_, fun _ h => by cases h⟩
    unfold lexEnd
    rw [hD n (by omega), hDr]
    rfl
  · by_cases hlen : (flushed lexer (pendingWords lexer).length).LabelToInstructions.length > 0
    · refine ⟨Except.error LexError.unresolvedLabels, fun n hn => ?_, fun _ h => by cases h⟩
      unfold lexEnd
      rw [hD n (by omega), hDr]
      simp only [repad, VerifyLabelResolution]
      rw [if_pos hlen]
      rfl
    · refine ⟨Except.ok (e ++ pendingWords lexer ++ [0x40000000]), fun n hn => ?_,
        fun e1 h => ⟨e ++ pendingWords lexer, (Except.ok.inj h).symm⟩⟩
      unfold lexEnd
      rw [hD n (by omega), hDr]
      simp only [repad, VerifyLabelResolution]
      rw [if_neg hlen]
      simp only []
      have hi : (flushed lexer (pendingWords lexer).length).LexemesIndex =
          (e ++ pendingWords lexer).length := by
        show lexer.LexemesIndex + _ = _
        rw [hR.index, List.length_append]
      rw [hi, writeWord_end n _ _ (by omega)]
      rfl

/-- The tokens are processed alike in every buffer that has a word for each of them
and one for the terminator. -/
theorem runTokens_room (fin : Option Mode) (toks : List Bytes) :
    ∀ (lexer : Lexer) (e : List Nat), RoomInv lexer e →
      ∃ r : Except LexError (List Nat),
        (∀ n, weight lexer e + toks.length < n →
          runTokens toks fin lexer (padded n e) = repadOut n r) ∧
        (∀ e1, r = Except.ok e1 → ∃ prog, e1 = prog ++ [0x40000000]) := by
  induction toks with
  | nil =>
    intro lexer e hR
    cases fin with
    | none =>
      exact ⟨Except.error LexError.indexOutOfRange, fun n _ => rfl, fun _ h => by cases h⟩
    | some m =>
      obtain ⟨r, hr, hp⟩ := lexEnd_room lexer e hR
      refine ⟨r, fun n hn => ?_, hp⟩
      unfold runTokens
      exact hr n (by simpa using hn)
  | cons tok rest ih =>
    intro lexer e hR
    have hR1 : RoomInv { lexer with BuiltString := tok } e := ⟨hR.index, hR.slots, hR.range⟩
    obtain ⟨rG, hG, hGp⟩ := GetCommand_room { lexer with BuiltString := tok } e hR1
    have hw : weight { lexer with BuiltString := tok } e = weight lexer e := rfl
    cases hrG : rG with
    | error err =>
      refine ⟨Except.error err, fun n hn => ?_, fun _ h => by cases h⟩
      unfold runTokens
      rw [hG n (by rw [hw]; omega), hrG]
      rfl
    | ok p =>
      obtain ⟨lx1, e1⟩ := p
      obtain ⟨hR2, hw2⟩ := hGp lx1 e1 hrG
      obtain ⟨r, hr, hp⟩ := ih lx1 e1 hR2
      refine ⟨r, fun n hn => ?_, hp⟩
      unfold runTokens
      rw [hG n (by rw [hw]; omega), hrG]
      simp only [repad]
      exact hr n (by
        rw [hw] at hw2
        simp only [List.length_cons] at hn
        omega)

/-- Sources with the same scan assemble alike. -/
theorem sameAssembly_of_scan (s1 s2 : Bytes)
    (h : scan Mode.code (s1 ++ [10]) = scan Mode.code (s2 ++ [10])) : sameAssembly s1 s2 := by
  have hstart : RoomInv startLexer [] :=
    ⟨rfl, fun name val hv => (by cases hv), (by decide : (-128 : Int) ≤ 0 ∧ (0 : Int) ≤ 127)⟩
  obtain ⟨r, hr, hp⟩ := runTokens_room (scan Mode.code (s1 ++ [10])).2
    (scan Mode.code (s1 ++ [10])).1 startLexer [] hstart
  have hpad : ∀ n, List.replicate n 0 = padded n [] := fun n => by simp [padded]
  have hc1 := scan_count Mode.code (s1 ++ [10])
  have hc2 := scan_count Mode.code (s2 ++ [10])
  rw [← h] at hc2
  have hl1 : (s1 ++ [10]).length = s1.length + 1 := by simp
  have hl2 : (s2 ++ [10]).length = s2.length + 1 := by simp
  have hw0 : weight startLexer [] = 0 := rfl
  have h1 : assemble s1 = some (repadOut (s1.length + 1) r) := by
    rw [assemble_scan, hl1, hpad]
    unfold runScan
    rw [hr _ (by rw [hw0]; simp only [modeSlack] at hc1; omega)]
  have h2 : assemble s2 = some (repadOut (s2.length + 1) r) := by
    rw [assemble_scan, hl2, hpad]
    unfold runScan
    rw [← h, hr _ (by rw [hw0]; simp only [modeSlack] at hc2; omega)]
  rw [sameAssembly, h1, h2]
  cases hr0 : r with
  | error err =>
    refine ⟨⟨fun ⟨_, ho⟩ => (by cases ho), fun ⟨_, ho⟩ => (by cases ho)⟩,
      fun _ _ ho => (by cases ho)⟩
  | ok e1 =>
    obtain ⟨prog, hprog⟩ := hp e1 hr0
    refine ⟨⟨fun _ => ⟨_, rfl⟩, fun _ => ⟨_, rfl⟩⟩, fun out1 out2 ho1 ho2 => ⟨prog, ?_, ?_⟩⟩
    · have := Except.ok.inj (Option.some.inj ho1)
      rw [← this, hprog]
      simp [padded]
    · have := Except.ok.inj (Option.some.inj ho2)
      rw [← this, hprog]
      simp [padded]

/-! ### Comments (C20) -/

theorem scan_line_skip (c : Bytes) (hc : ∀ x ∈ c, x ≠ 10) (rest : Bytes) :
    scan Mode.line (c ++ rest) = scan Mode.line rest := by
  induction c with
  | nil => rfl
  | cons x c1 ih =>
    rw [List.cons_append, scan_line_byte x _ (hc x (List.mem_cons_self _ _))]
    exact ih (fun y hy => hc y (List.mem_cons_of_mem _ hy))

/-- C20, counterexample: a block comment opened inside a line comment is not a
comment. With `A = "PUSH 1 //"` (no block comment in it), `c = " a\nb "` (no `*/`
in it) and `B = "PEEK"`, the source `A ++ " /*" ++ c ++ "*/ " ++ B` does not
assemble (the line comment ends at the newline inside `c`, and `b` is read as a
token), while `A ++ "  " ++ B` assembles to `PUSH 1`, `HALT`. -/
theorem block_comment_after_line_comment :
    ¬ [42, 47] <:+: ascii " a\nb " ∧
    assemble (ascii "PUSH 1 //" ++ ascii " /*" ++ ascii " a\nb " ++ ascii "*/ " ++ ascii "PEEK") =
      some (Except.error LexError.unrecognizedCommand) ∧
    assemble (ascii "PUSH 1 //" ++ ascii "  " ++ ascii "PEEK") =
      some (Except.ok [1, 0x40000008, 0x40000000, 0, 0, 0, 0, 0, 0, 0, 0, 0, 0, 0, 0, 0]) :=
  ⟨by decide, by rfl, by rfl⟩

/-- C20, amended: comments are invisible to assembly. For all sources `A` and `B`
and every text `c`: (i) if `c` contains no newline and the scan of `A` followed by
the newline ends outside any comment (`A` has no unterminated block comment), then
`A ++ "\n//" ++ c ++ "\n" ++ B` assembles exactly when `A ++ "\n" ++ B` does, with
the same program words up to and including the terminating HALT; (ii) if `c` does
not contain `*/` and the scan of `A` followed by the space ends outside any
comment, or ends inside a line comment and `c` contains no newline, then
`A ++ " /*" ++ c ++ "*/ " ++ B` assembles exactly when `A ++ "  " ++ B` does, with
the same program words up to and including the terminating HALT. -/
theorem comments_are_invisible (A B c : Bytes) :
    ((∀ x ∈ c, x ≠ 10) → endMode (A ++ [10]) = some Mode.code →
      sameAssembly (A ++ [10, 47, 47] ++ c ++ [10] ++ B) (A ++ [10] ++ B)) ∧
    (¬ [42, 47] <:+: c →
      (endMode (A ++ [32]) = some Mode.code ∨
        (endMode (A ++ [32]) = some Mode.line ∧ ∀ x ∈ c, x ≠ 10)) →
      sameAssembly (A ++ [32, 47, 42] ++ c ++ [42, 47, 32] ++ B) (A ++ [32, 32] ++ B)) := by
  constructor
  · intro hc hA
    apply sameAssembly_of_scan
    have e1 : A ++ [10, 47, 47] ++ c ++ [10] ++ B ++ [10] =
        (A ++ [10]) ++ (47 :: 47 :: (c ++ 10 :: (B ++ [10]))) := by simp
    have e2 : A ++ [10] ++ B ++ [10] = (A ++ [10]) ++ (B ++ [10]) := by simp
    rw [e1, e2, scan_append 10 (Or.inl rfl) _ Mode.code (A ++ [10]) Mode.code (by simp) hA,
      scan_append 10 (Or.inl rfl) _ Mode.code (A ++ [10]) Mode.code (by simp) hA,
      scan_code_line, scan_line_comment c hc]
  · intro hc hA
    apply sameAssembly_of_scan
    have e1 : A ++ [32, 47, 42] ++ c ++ [42, 47, 32] ++ B ++ [10] =
        (A ++ [32]) ++ (47 :: 42 :: (c ++ 42 :: 47 :: (32 :: (B ++ [10])))) := by simp
    have e2 : A ++ [32, 32] ++ B ++ [10] = (A ++ [32]) ++ (32 :: (B ++ [10])) := by simp
    rcases hA with hA | ⟨hA, hnl⟩
    · rw [e1, e2, scan_append 32 (Or.inr rfl) _ Mode.code (A ++ [32]) Mode.code (by simp) hA,
        scan_append 32 (Or.inr rfl) _ Mode.code (A ++ [32]) Mode.code (by simp) hA,
        scan_code_block, scan_block_comment _ c.length c (Nat.le_refl _) hc]
    · have e3 : 47 :: 42 :: (c ++ 42 :: 47 :: (32 :: (B ++ [10]))) =
          ([47, 42] ++ c ++ [42, 47, 32]) ++ (B ++ [10]) := by simp
      have e4 : 32 :: (B ++ [10]) = [32] ++ (B ++ [10]) := rfl
      rw [e1, e2, scan_append 32 (Or.inr rfl) _ Mode.code (A ++ [32]) Mode.line (by simp) hA,
        scan_append 32 (Or.inr rfl) _ Mode.code (A ++ [32]) Mode.line (by simp) hA,
        e3, e4, scan_line_skip _ _ (B ++ [10]), scan_line_skip [32] (by decide) (B ++ [10])]
      intro x hx
      simp only [List.mem_append, List.mem_cons, List.mem_singleton, List.not_mem_nil,
        or_false] at hx
      rcases hx with (hx | hx) | hx
      · rcases hx with hx | hx <;> rw [hx] <;> decide
      · exact hnl x hx
      · rcases hx with hx | hx | hx <;> rw [hx] <;> decide

theorem comments_are_invisible_witness :
    ((∀ x ∈ ascii " note", x ≠ 10) ∧ endMode (ascii "PUSH 1" ++ [10]) = some Mode.code ∧
      sameAssembly (ascii "PUSH 1" ++ [10, 47, 47] ++ ascii " note" ++ [10] ++ ascii "PEEK")
        (ascii "PUSH 1" ++ [10] ++ ascii "PEEK")) ∧
    (¬ [42, 47] <:+: ascii " a\nb " ∧ endMode (ascii "PUSH 1" ++ [32]) = some Mode.code ∧
      sameAssembly (ascii "PUSH 1" ++ [32, 47, 42] ++ ascii " a\nb " ++ [42, 47, 32] ++ ascii "PEEK")
        (ascii "PUSH 1" ++ [32, 32] ++ ascii "PEEK")) :=
  ⟨⟨by decide, by decide,
      (comments_are_invisible (ascii "PUSH 1") (ascii "PEEK") (ascii " note")).1
        (by decide) (by decide)⟩,
    by decide, by decide,
    (comments_are_invisible (ascii "PUSH 1") (ascii "PEEK") (ascii " a\nb ")).2
      (by decide) (Or.inl (by decide))⟩

/-! ### The assembled program as a sequence of instructions -/

theorem programOf_append (a b : List (List Nat × Nat)) :
    programOf (a ++ b) = programOf a ++ programOf b := by
  induction a with
  | nil => rfl
  | cons x rest ih =>
    rw [List.cons_append, programOf, programOf, ih]
    simp only [List.append_assoc]

theorem programOf_single (b : List Nat × Nat) : programOf [b] = b.1 ++ [b.2] := by
  rw [programOf, programOf, List.append_nil]

/-- Replacing the operand of a one-operand instruction by `w` is writing `w` at
its word index. -/
theorem programOf_set (w : Nat) : ∀ (blocks : List (List Nat × Nat)) (k q op : Nat),
    blocks[k]? = some ([q], op) →
    (programOf blocks).set (programOf (blocks.take k)).length w =
      programOf (blocks.set k ([w], op)) := by
  intro blocks
  induction blocks with
  | nil => intro k q op h; cases h
  | cons b rest ih =>
    intro k q op h
    cases k with
    | zero =>
      rw [List.getElem?_cons_zero] at h
      rw [Option.some.inj h]
      rfl
    | succ j =>
      rw [List.getElem?_cons_succ] at h
      rw [List.take_succ_cons, List.set_cons_succ, programOf, programOf, programOf,
        List.length_append, List.set_append_right _ _ (by omega), Nat.add_sub_cancel_left,
        ih j q op h]

/-- An update of the operand of an instruction keeps the word index of every
instruction and its opcode. -/
theorem take_set_length (nb : List Nat × Nat) :
    ∀ (blocks : List (List Nat × Nat)) (k j : Nat) (b : List Nat × Nat),
      blocks[k]? = some b → nb.1.length = b.1.length →
      (programOf ((blocks.set k nb).take j)).length = (programOf (blocks.take j)).length := by
  intro blocks
  induction blocks with
  | nil => intro k j b h; cases h
  | cons x rest ih =>
    intro k j b h hl
    cases j with
    | zero => rfl
    | succ j1 =>
      cases k with
      | zero =>
        rw [List.getElem?_cons_zero] at h
        rw [List.set_cons_zero, List.take_succ_cons, List.take_succ_cons, programOf, programOf]
        simp only [List.length_append, List.length_singleton, hl, Option.some.inj h]
      | succ k1 =>
        rw [List.getElem?_cons_succ] at h
        rw [List.set_cons_succ, List.take_succ_cons, List.take_succ_cons, programOf, programOf]
        simp only [List.length_append, List.length_singleton]
        rw [ih k1 j1 b h hl]

theorem jumpBlockAt_set (blocks : List (List Nat × Nat)) (k : Nat) (b nb : List Nat × Nat)
    (h : blocks[k]? = some b) (hl : nb.1.length = b.1.length) (hop : nb.2 = b.2) (s : Nat)
    (hs : jumpBlockAt blocks s) : jumpBlockAt (blocks.set k nb) s := by
  obtain ⟨j, hj, hsj, c, hc, hcj⟩ := hs
  refine ⟨j, by rw [List.length_set]; exact hj, ?_, ?_⟩
  · rw [take_set_length nb blocks k j b h hl]
    exact hsj
  · by_cases hkj : k = j
    · subst hkj
      rw [h] at hc
      refine ⟨nb, ?_, ?_⟩
      · rw [List.getElem?_set_self hj]
      · rw [hop, Option.some.inj hc]
        exact hcj
    · exact ⟨c, by rw [List.getElem?_set_ne hkj]; exact hc, hcj⟩

theorem mnemonic_jump_arity (s : Bytes) (op k : Nat) (h : mnemonic s = some (op, k))
    (hj : isJump op) : k = 1 :=
  (mnemonic_facts s op k h).2.2.2.2 hj

/-- The backpatch loop on the words of a sequence of well-formed instructions, at
operand slots of jumps: the result is again such a sequence, with the same jump
slots and the same number of words. -/
theorem patch_blocks (w : Nat) : ∀ (val : List Nat) (blocks : List (List Nat × Nat)),
    (∀ s ∈ val, jumpBlockAt blocks s) → (∀ b ∈ blocks, wellFormedBlock b) →
    ∃ blocks1, patch (programOf blocks) val w = programOf blocks1 ∧
      (∀ b ∈ blocks1, wellFormedBlock b) ∧
      (∀ s, jumpBlockAt blocks s → jumpBlockAt blocks1 s) ∧
      (programOf blocks1).length = (programOf blocks).length := by
  intro val
  induction val with
  | nil => intro blocks _ hwf; exact ⟨blocks, rfl, hwf, fun _ h => h, rfl⟩
  | cons s rest ih =>
    intro blocks hval hwf
    obtain ⟨k, hk, hsk, b, hb, hbj⟩ := hval s (List.mem_cons_self _ _)
    have hbm : b ∈ blocks := List.mem_iff_getElem?.mpr ⟨k, hb⟩
    obtain ⟨⟨nm, hnm⟩, _⟩ := hwf b hbm
    have hlen : b.1.length = 1 := mnemonic_jump_arity nm b.2 _ hnm hbj
    obtain ⟨q, hq⟩ : ∃ q, b.1 = [q] := List.length_eq_one.mp hlen
    have hb1 : blocks[k]? = some ([q], b.2) := by rw [hb, ← hq]
    have hset := programOf_set w blocks k q b.2 hb1
    have hwf1 : ∀ c ∈ blocks.set k ([w], b.2), wellFormedBlock c := by
      intro c hc
      rcases List.mem_or_eq_of_mem_set hc with h | h
      · exact hwf c h
      · rw [h]
        refine ⟨⟨nm, by rw [hnm, hlen]; rfl⟩, fun h9 => ?_⟩
        exfalso
        rcases hbj with hj | hj <;> rcases h9 with h9 | h9 <;>
          (have h9' : b.2 = _ := h9; rw [hj] at h9'; exact absurd h9' (by decide))
    have hjump1 : ∀ t, jumpBlockAt blocks t → jumpBlockAt (blocks.set k ([w], b.2)) t :=
      fun t ht => jumpBlockAt_set blocks k b ([w], b.2) hb (by rw [hlen]; rfl) rfl t ht
    obtain ⟨blocks1, hp, hwf2, hj2, hl2⟩ := ih (blocks.set k ([w], b.2))
      (fun t ht => hjump1 t (hval t (List.mem_cons_of_mem _ ht))) hwf1
    refine ⟨blocks1, ?_, hwf2, fun t ht => hj2 t (hjump1 t ht), ?_⟩
    · rw [← hp, ← hset, hsk]
      rfl
    · rw [hl2, ← hset, List.length_set]

/-! ### The assembled program as a sequence of instructions: the invariant -/

theorem jumpBlockAt_append (blocks : List (List Nat × Nat)) (nb : List Nat × Nat) (s : Nat)
    (h : jumpBlockAt blocks s) : jumpBlockAt (blocks ++ [nb]) s := by
  obtain ⟨k, hk, hs, b, hb, hj⟩ := h
  refine ⟨k, by rw [List.length_append]; omega, ?_, b, ?_, hj⟩
  · rw [List.take_append_of_le_length (by omega)]
    exact hs
  · rw [List.getElem?_append_left hk]
    exact hb

theorem jumpBlockAt_last (blocks : List (List Nat × Nat)) (nb : List Nat × Nat)
    (h : isJump nb.2) : jumpBlockAt (blocks ++ [nb]) (programOf blocks).length := by
  refine ⟨blocks.length, by rw [List.length_append]; simp, ?_, nb, ?_, h⟩
  · rw [List.take_left']
    rfl
  · rw [List.getElem?_append_right (Nat.le_refl _), Nat.sub_self]
    rfl

theorem jumpBlockAt_lt (blocks : List (List Nat × Nat)) (s : Nat) (h : jumpBlockAt blocks s) :
    s < (programOf blocks).length := by
  obtain ⟨k, hk, hs, b, hb, _⟩ := h
  have hsplit : blocks = blocks.take k ++ b :: blocks.drop (k + 1) := by
    have h1 := List.take_append_drop k blocks
    have h2 : blocks.drop k = b :: blocks.drop (k + 1) := by
      rw [List.getElem?_eq_getElem hk] at hb
      rw [← Option.some.inj hb]
      exact List.drop_eq_getElem_cons hk
    rw [h2] at h1
    exact h1.symm
  have hl : (programOf blocks).length =
      (programOf (blocks.take k)).length + (programOf (b :: blocks.drop (k + 1))).length := by
    conv_lhs => rw [hsplit]
    rw [programOf_append, List.length_append]
  rw [hl, hs, programOf]
  simp only [List.length_append, List.length_singleton]
  omega

/-- The flush of the pending command keeps the sequence of instructions
well-formed. -/
theorem BlockInv_flush (n : Nat) (lexer lexer1 : Lexer) (blocks : List (List Nat × Nat))
    (buf1 : List Nat) (hI : BlockInvAt lexer blocks) (hfit : (programOf blocks).length ≤ n)
    (hD : DumpCommand lexer (padded n (programOf blocks)) = Except.ok (lexer1, buf1)) :
    lexer1 = flushed lexer (pendingWords lexer).length ∧
    ∃ blocks1, buf1 = padded n (programOf blocks1) ∧ (programOf blocks1).length ≤ n ∧
      FlushedBlocks lexer1 blocks1 := by
  obtain ⟨h1, h2, h3⟩ := DumpCommand_padded_ok n lexer lexer1 (programOf blocks) buf1 hfit
    hI.index hD
  refine ⟨h1, ?_⟩
  cases hp : lexer.Parameters with
  | none =>
    have hpw : pendingWords lexer = [] := by unfold pendingWords; rw [hp]
    rw [hpw, List.append_nil] at h2 h3
    refine ⟨blocks, h2, h3, ⟨?_, hI.wf, fun name val hv s hs => ?_⟩⟩
    · rw [h1, hpw]
      exact hI.index
    · have hv1 : mapGet lexer.LabelToInstructions name = some val := by rw [h1] at hv; exact hv
      rcases hI.slots name val hv1 s hs with h | ⟨_, hnp, _⟩
      · exact h
      · rw [hI.idle hp] at hnp
        cases hnp
  | some params =>
    have hpw : pendingWords lexer = params ++ [lexer.CurrentInstruction] := by
      unfold pendingWords; rw [hp]
    have har := DumpCommand_arity lexer lexer1 _ buf1 params hD hp
    obtain ⟨_, hmn, hreg⟩ := hI.pending params hp
    have hprog : programOf (blocks ++ [(params, lexer.CurrentInstruction)]) =
        programOf blocks ++ pendingWords lexer := by
      rw [programOf_append, programOf_single, hpw]
    refine ⟨blocks ++ [(params, lexer.CurrentInstruction)], by rw [hprog]; exact h2,
      by rw [hprog]; exact h3, ⟨?_, ?_, fun name val hv s hs => ?_⟩⟩
    · rw [hprog, h1, List.length_append, hI.index]
      rfl
    · intro b hb
      rcases List.mem_append.mp hb with hb1 | hb1
      · exact hI.wf b hb1
      · rw [List.mem_singleton] at hb1
        rw [hb1]
        refine ⟨hmn, fun h9 => hreg h9 ?_⟩
        obtain ⟨nm, hnm⟩ := hmn
        have hf := mnemonic_facts nm _ _ hnm
        rcases h9 with h9 | h9
        · have := hf.2.2.1 h9
          omega
        · have := hf.2.2.2.1 h9
          omega
    · have hv1 : mapGet lexer.LabelToInstructions name = some val := by rw [h1] at hv; exact hv
      rcases hI.slots name val hv1 s hs with h | ⟨hs1, _, hj⟩
      · exact jumpBlockAt_append blocks _ s h
      · rw [hs1]
        exact jumpBlockAt_last blocks _ hj

theorem BlockInv_core (n : Nat) (lexer lexer1 : Lexer) (lexemes : List Nat)
    (hc : lexCore lexer1 = lexCore lexer) (h : BlockInv n lexer lexemes) :
    BlockInv n lexer1 lexemes := by
  obtain ⟨h1, h2, h3, h4, h5, h6, h7⟩ := lexCore_fields lexer1 lexer hc
  obtain ⟨blocks, hbuf, hfit, hI⟩ := h
  refine ⟨blocks, hbuf, hfit, ⟨by rw [h4]; exact hI.index, hI.wf, ?_, ?_, ?_, ?_⟩⟩
  · rw [h2, h5]; exact hI.counts
  · rw [h1, h5]; exact hI.idle
  · rw [h7, h5, h3]; exact hI.slots
  · rw [h1, h5, h3]; exact hI.pending

theorem BlockInv_start (n : Nat) : BlockInv n startLexer (List.replicate n 0) := by
  refine ⟨[], by simp [padded, programOf], Nat.zero_le _, ⟨rfl, ?_, rfl, fun _ => rfl, ?_, ?_⟩⟩
  · intro b hb; cases hb
  · intro name val hv; cases hv
  · intro params hp; cases hp

/-- An operand stored in the pending command keeps the invariant, when the first
operand of POP and MOV receives a register. -/
theorem BlockInv_store (lexer : Lexer) (blocks : List (List Nat × Nat)) (params : List Nat)
    (w : Nat) (hI : BlockInvAt lexer blocks) (hp : lexer.Parameters = some params)
    (hlt : lexer.ParametersIndex < params.length)
    (hreg : (lexer.CurrentInstruction = 0x40000009 ∨ lexer.CurrentInstruction = 0x4000000A) →
      lexer.ParametersIndex = 0 → CheckIfRegister w = true)
    (hslots : ∀ name val, mapGet lexer.LabelToInstructions name = some val → ∀ s ∈ val,
      jumpBlockAt blocks s) :
    BlockInvAt { lexer with
      Parameters := some (params.set lexer.ParametersIndex w),
      ParametersIndex := lexer.ParametersIndex + 1,
      NumParams := wrapInt8 (lexer.NumParams + 1) } blocks := by
  obtain ⟨hle, hmn, hfirst⟩ := hI.pending params hp
  have hcnt := hI.counts
  have hA2 : params.length ≤ 2 := by
    obtain ⟨s, hs⟩ := hmn
    exact mnemonic_arity_le _ _ _ hs
  have hw8 : wrapInt8 (lexer.NumParams + 1) = lexer.NumParams + 1 :=
    wrapInt8_small _ (by omega) (by omega)
  refine ⟨hI.index, hI.wf, ?_, ?_, fun name val hv s hs => Or.inl (hslots name val hv s hs), ?_⟩
  · exact wrapInt8_succ _ _ _ hcnt hlt (by omega)
  · intro h
    cases h
  · intro params1 hp1
    have hp1e : params1 = params.set lexer.ParametersIndex w := by
      have : some (params.set lexer.ParametersIndex w) = some params1 := hp1
      exact (Option.some.inj this).symm
    rw [hp1e]
    refine ⟨?_, ?_, fun h9 _ => ?_⟩
    · show wrapInt8 (lexer.NumParams + 1) ≤ _
      rw [List.length_set, hw8]
      omega
    · rw [List.length_set]
      exact hmn
    · by_cases h0 : lexer.ParametersIndex = 0
      · refine ⟨w, ?_, hreg h9 h0⟩
        rw [h0, List.getElem?_set_self (by omega)]
      · obtain ⟨p, hp0, hpt⟩ := hfirst h9 (by omega)
        refine ⟨p, ?_, hpt⟩
        rw [List.getElem?_set_ne h0]
        exact hp0

/-- The slots that wait for a label are operand slots of emitted jumps as soon as
the pending command can take one more operand and is not a jump that has received
its operand. -/
theorem BlockInv_slots_emitted (lexer : Lexer) (blocks : List (List Nat × Nat))
    (hI : BlockInvAt lexer blocks)
    (h : ¬ (lexer.NumParams = 1 ∧ isJump lexer.CurrentInstruction)) :
    ∀ name val, mapGet lexer.LabelToInstructions name = some val → ∀ s ∈ val,
      jumpBlockAt blocks s := by
  intro name val hv s hs
  rcases hI.slots name val hv s hs with h1 | ⟨_, h2, h3⟩
  · exact h1
  · exact absurd ⟨h2, h3⟩ h

/-- A successful call of `GetCommand` keeps the invariant. -/
theorem BlockInv_GetCommand (n : Nat) (lexer lexer1 : Lexer) (lexemes lexemes1 : List Nat)
    (hQ : BlockInv n lexer lexemes)
    (hG : GetCommand lexer lexemes = Except.ok (lexer1, lexemes1)) :
    BlockInv n lexer1 lexemes1 := by
  obtain ⟨blocks, hbuf, hfit, hI⟩ := hQ
  subst hbuf
  -- a pending jump that has its operand takes no further operand
  have hfull : ∀ params, lexer.Parameters = some params →
      lexer.ParametersIndex < params.length →
      ¬ (lexer.NumParams = 1 ∧ isJump lexer.CurrentInstruction) := by
    intro params hp hlt ⟨h1, hj⟩
    obtain ⟨_, ⟨nm, hnm⟩, _⟩ := hI.pending params hp
    have := mnemonic_jump_arity nm _ _ hnm hj
    have := hI.counts
    omega
  rcases GetCommand_kinds lexer lexer1 _ lexemes1 hG with
    ⟨lx1, buf1, lx2, hD, hH, h1⟩ | ⟨hb, num, params, _, _, _, hval, hp, hlt, h1⟩ |
    ⟨hb, params, hn1, hn2, hp, hlt, h1⟩ | ⟨hj, hnp, hb, hH⟩ | ⟨lx1, instruction, numParams, hD, hM, h1⟩
  · -- label declaration
    obtain ⟨hlx1, blocks1, hbuf1, hfit1, hF⟩ := BlockInv_flush n lexer lx1 blocks buf1 hI hfit hD
    obtain ⟨_, _, hB, hlx2⟩ := HandleLabelDecleration_frame lx1 lx2 buf1 lexemes1 hH
    have hval : ∀ s ∈ (mapGet lx1.LabelToInstructions lx1.BuiltString.dropLast).getD [],
        jumpBlockAt blocks1 s := by
      intro s hs
      cases hm : mapGet lx1.LabelToInstructions lx1.BuiltString.dropLast with
      | none => rw [hm] at hs; cases hs
      | some val =>
        rw [hm] at hs
        exact hF.slots _ val hm s hs
    obtain ⟨blocks2, hpatch, hwf2, hj2, hl2⟩ := patch_blocks (lx1.LexemesIndex % 4294967296) _
      blocks1 hval hF.wf
    rw [hbuf1, backpatch_padded n _ _ _ hfit1 (fun s hs => jumpBlockAt_lt blocks1 s (hval s hs))]
      at hB
    have hout : lexemes1 = padded n (programOf blocks2) := by
      rw [← hpatch]
      exact (Except.ok.inj hB).symm
    refine ⟨blocks2, hout, by rw [hl2]; exact hfit1, ?_⟩
    rw [h1, hlx2]
    refine ⟨?_, hwf2, ?_, ?_, fun name val hv s hs => Or.inl ?_, ?_⟩
    · show _ = lx1.LexemesIndex
      rw [hl2]
      exact hF.index
    · show lx1.ParametersIndex = lx1.NumParams
      rw [hlx1]
      rfl
    · intro _
      show lx1.NumParams = 0
      rw [hlx1]
      rfl
    · have hv1 : mapGet (mapDelete lx1.LabelToInstructions lx1.BuiltString.dropLast) name =
          some val := hv
      rw [mapGet_mapDelete] at hv1
      split at hv1
      · cases hv1
      · exact hj2 s (hF.slots name val hv1 s hs)
    · intro params hp
      cases hp
  · -- integer operand
    rw [hb, h1]
    refine ⟨blocks, rfl, hfit, BlockInv_store lexer blocks params _ hI hp hlt ?_
      (BlockInv_slots_emitted lexer blocks hI (hfull params hp hlt))⟩
    intro h9 h0
    exfalso
    rcases h9 with h9 | h9
    · rw [h9, Validate_pop] at hval
      cases hval
    · rw [h9, h0, Validate_mov_zero] at hval
      cases hval
  · -- register operand
    rw [hb, h1]
    exact ⟨blocks, rfl, hfit, BlockInv_store lexer blocks params _ hI hp hlt
      (fun _ _ => CheckIfRegister_of_tag _ (wordTag_encodeRegister _))
      (BlockInv_slots_emitted lexer blocks hI (hfull params hp hlt))⟩
  · -- label reference
    rw [hb]
    obtain ⟨_, params, hp, hlt, hk | hu⟩ := HandleLabelParameter_frame lexer lexer1 hH
    · obtain ⟨v, _, h1⟩ := hk
      rw [h1]
      refine ⟨blocks, rfl, hfit, BlockInv_store lexer blocks params _ hI hp hlt ?_
        (BlockInv_slots_emitted lexer blocks hI (hfull params hp hlt))⟩
      intro h9 _
      exfalso
      rcases hj with hj | hj <;> rcases h9 with h9 | h9 <;>
        (rw [hj] at h9; exact absurd h9 (by decide))
    · obtain ⟨_, h1⟩ := hu
      have hst := BlockInv_store lexer blocks params 0 hI hp hlt (by
        intro h9 _
        exfalso
        rcases hj with hj | hj <;> rcases h9 with h9 | h9 <;>
          (rw [hj] at h9; exact absurd h9 (by decide)))
        (BlockInv_slots_emitted lexer blocks hI (hfull params hp hlt))
      rw [h1]
      refine ⟨blocks, rfl, hfit, ⟨hst.index, hst.wf, hst.counts, hst.idle, ?_, hst.pending⟩⟩
      intro name val hv s hs
      have hv1 : mapGet (mapSet lexer.LabelToInstructions lexer.BuiltString
          ((mapGet lexer.LabelToInstructions lexer.BuiltString).getD [] ++ [lexer.LexemesIndex]))
          name = some val := hv
      rw [mapGet_mapSet] at hv1
      have hold := BlockInv_slots_emitted lexer blocks hI (hfull params hp hlt)
      split at hv1
      · injection hv1 with hv1
        rw [← hv1] at hs
        rcases List.mem_append.mp hs with hs1 | hs1
        · cases hg : mapGet lexer.LabelToInstructions lexer.BuiltString with
          | none => rw [hg] at hs1; cases hs1
          | some old =>
            rw [hg] at hs1
            exact Or.inl (hold _ old hg s hs1)
        · rw [List.mem_singleton] at hs1
          right
          refine ⟨by rw [hs1]; exact hI.index.symm, ?_, hj⟩
          show wrapInt8 (lexer.NumParams + 1) = 1
          rw [hnp]
          rfl
      · exact Or.inl (hold name val hv1 s hs)
  · -- mnemonic
    obtain ⟨hlx1, blocks1, hbuf1, hfit1, hF⟩ := BlockInv_flush n lexer lx1 blocks lexemes1 hI hfit hD
    refine ⟨blocks1, hbuf1, hfit1, ?_⟩
    rw [h1]
    refine ⟨hF.index, hF.wf, ?_, fun h => (by cases h),
      fun name val hv s hs => Or.inl (hF.slots name val hv s hs), ?_⟩
    · show lx1.ParametersIndex = lx1.NumParams
      rw [hlx1]
      rfl
    · intro params hp
      have hpe : params = List.replicate numParams 0 :=
        (Option.some.inj (show some (List.replicate numParams 0) = some params from hp)).symm
      have hnp0 : lx1.NumParams = 0 := by rw [hlx1]; rfl
      refine ⟨?_, ⟨lx1.BuiltString, ?_⟩, fun _ h1 => ?_⟩
      · show lx1.NumParams ≤ _
        rw [hnp0]
        exact Int.ofNat_nonneg _
      · rw [hpe, List.length_replicate]
        exact hM
      · have h1' : 1 ≤ lx1.NumParams := h1
        rw [hnp0] at h1'
        cases h1'

/-- The `END` case on a state that satisfies the invariant: the returned buffer
is a sequence of well-formed instructions, the terminator, and zeros. -/
theorem lexEnd_blocks (n : Nat) (lxE : Lexer) (bufE out : List Nat)
    (hQ : BlockInv n lxE bufE) (hE : lexEnd lxE bufE = Except.ok out) :
    ∃ blocks, out = padded n (programOf blocks ++ [0x40000000]) ∧
      (programOf blocks).length < n ∧ ∀ b ∈ blocks, wellFormedBlock b := by
  obtain ⟨blocks, hbuf, hfit, hI⟩ := hQ
  subst hbuf
  unfold lexEnd at hE
  cases hD : DumpCommand lxE (padded n (programOf blocks)) with
  | error err => rw [hD] at hE; cases hE
  | ok r =>
    obtain ⟨lxd, bufd⟩ := r
    rw [hD] at hE
    simp only [] at hE
    obtain ⟨_, blocks1, hbuf1, hfit1, hF⟩ := BlockInv_flush n lxE lxd blocks bufd hI hfit hD
    cases hV : VerifyLabelResolution lxd with
    | error err => rw [hV] at hE; cases hE
    | ok u =>
      rw [hV] at hE
      simp only [] at hE
      rw [hbuf1, ← hF.index] at hE
      have hlt : (programOf blocks1).length < n := by
        by_contra hcon
        rw [writeWord_full n _ _ (by omega)] at hE
        cases hE
      rw [writeWord_end n _ _ hlt] at hE
      exact ⟨blocks1, (Except.ok.inj hE).symm, hlt, hF.wf⟩

/-- Every successfully assembled program is a sequence of well-formed
instructions (operand words, then the opcode word), the terminator and zeros; in
particular every POP and every MOV instruction in it has a register word as its
first operand. -/
theorem assemble_blocks (source out : Bytes) (h : assemble source = some (Except.ok out)) :
    ∃ blocks, out = programOf blocks ++ [0x40000000] ++
        List.replicate (source.length - (programOf blocks).length) 0 ∧
      ∀ b ∈ blocks, wellFormedBlock b := by
  rw [assemble_eq] at h
  have hn : (source ++ [10]).length = source.length + 1 := by simp
  obtain ⟨lxE, bufE, hQ, hE⟩ := lexLoop_invariant (source ++ [10])
    (fun _ lx buf => BlockInv (source ++ [10]).length lx buf)
    (fun _ lx lx1 buf hc hq => BlockInv_core (source ++ [10]).length lx lx1 buf hc hq)
    (fun _ lx lx1 buf buf1 hq hg =>
      BlockInv_GetCommand (source ++ [10]).length lx lx1 buf buf1 hq hg)
    _ [] startLexer _ out (BlockInv_start _) h
  obtain ⟨blocks, hout, hlt, hwf⟩ := lexEnd_blocks _ _ _ _ hQ hE
  refine ⟨blocks, ?_, hwf⟩
  rw [hout, hn]
  unfold padded
  rw [List.length_append, List.length_singleton]
  congr 2
  omega

theorem programOf_ne_nil (b : List Nat × Nat) (rest : List (List Nat × Nat)) :
    programOf (b :: rest) ≠ [] := by
  rw [programOf]
  simp

/-- The arity of an instruction is determined by its opcode word. -/
theorem mnemonic_arity_unique (s s1 : Bytes) (op k k1 : Nat) (h : mnemonic s = some (op, k))
    (h1 : mnemonic s1 = some (op, k1)) : k = k1 := by
  have key : ∀ r ∈ opcodeTable, ∀ r1 ∈ opcodeTable,
      0x40000000 ||| r.2.1 = 0x40000000 ||| r1.2.1 → r.2.2 = r1.2.2 := by decide
  rw [mnemonic_table] at h h1
  cases hg : mapGet opcodeTable s with
  | none => rw [hg] at h; cases h
  | some r =>
    cases hg1 : mapGet opcodeTable s1 with
    | none => rw [hg1] at h1; cases h1
    | some r1 =>
      rw [hg] at h
      rw [hg1] at h1
      simp only [Option.map_some', Option.some.injEq, Prod.mk.injEq] at h h1
      have := key (s, r) (mapGet_mem _ _ _ hg) (s1, r1) (mapGet_mem _ _ _ hg1)
        (by rw [h.1, h1.1])
      rw [← h.2, ← h1.2]
      exact this

/-- The words of a program determine its instructions: two sequences of
well-formed instructions with the same words are equal. -/
theorem programOf_unique (bs : List (List Nat × Nat)) :
    (∀ b ∈ bs, wellFormedBlock b) → ∀ cs : List (List Nat × Nat),
      (∀ c ∈ cs, wellFormedBlock c) → programOf bs = programOf cs → bs = cs := by
  induction bs using List.reverseRecOn with
  | nil =>
    intro _ cs _ h
    cases cs with
    | nil => rfl
    | cons c rest => exact absurd h.symm (programOf_ne_nil c rest)
  | append_singleton bs1 b ih =>
    intro hb cs hc h
    rcases List.eq_nil_or_concat cs with hcs | ⟨cs1, c, hcs⟩
    · subst hcs
      rw [programOf_append, programOf_single] at h
      have := congrArg List.length h
      simp [programOf] at this
    · subst hcs
      rw [List.concat_eq_append] at h hc ⊢
      rw [programOf_append, programOf_single, programOf_append, programOf_single,
        ← List.append_assoc, ← List.append_assoc] at h
      have hlast := List.append_inj_right' h rfl
      have hinit := List.append_inj_left' h rfl
      have hop : b.2 = c.2 := by
        injection hlast
      obtain ⟨⟨nm, hnm⟩, _⟩ := hb b (List.mem_append.mpr (Or.inr (List.mem_singleton.mpr rfl)))
      obtain ⟨⟨nm1, hnm1⟩, _⟩ := hc c (List.mem_append.mpr (Or.inr (List.mem_singleton.mpr rfl)))
      rw [hop] at hnm
      have hlen := mnemonic_arity_unique nm nm1 c.2 _ _ hnm hnm1
      have hb1 := List.append_inj_right' hinit hlen
      have hpre := List.append_inj_left' hinit hlen
      have hbs := ih (fun x hx => hb x (List.mem_append.mpr (Or.inl hx))) cs1
        (fun x hx => hc x (List.mem_append.mpr (Or.inl hx))) hpre
      rw [hbs]
      congr 2
      exact Prod.ext hb1 hop

/-! ### Register-required positions (C16) -/

/-- C16: register-required positions. Every successfully assembled program is a
sequence of instructions, each made of as many operand words as the arity of its
mnemonic followed by its opcode word, then the terminator and zeros, in which the
first operand word of every POP and of every MOV instruction carries the register
tag, top two bits 11, as tested by `CheckIfRegister`. For a source shorter than
2^30 - 1 bytes the instructions are moreover found by the value of the opcode
word: the word just before each POP opcode word and the word two places before
each MOV opcode word carries the register tag. And when an integer literal of the
lexical grammar is handed to `GetCommand` while the pending instruction is POP, or
is MOV with no operand stored yet, the source does not assemble. -/
theorem register_required_positions (source : Bytes) :
    (∀ out, assemble source = some (Except.ok out) →
      ∃ blocks, out = programOf blocks ++ [0x40000000] ++
          List.replicate (source.length - (programOf blocks).length) 0 ∧
        ∀ b ∈ blocks, (∃ s, mnemonic s = some (b.2, b.1.length)) ∧
          ((b.2 = 0x40000009 ∨ b.2 = 0x4000000A) →
            ∃ p, b.1[0]? = some p ∧ CheckIfRegister p = true)) ∧
    (source.length + 1 < 1073741824 → ∀ out, assemble source = some (Except.ok out) →
      (∀ i, out[i]? = some 0x40000009 → 1 ≤ i ∧ ∃ p, out[i - 1]? = some p ∧
        CheckIfRegister p = true) ∧
      (∀ i, out[i]? = some 0x4000000A → 2 ≤ i ∧ ∃ p, out[i - 2]? = some p ∧
        CheckIfRegister p = true)) ∧
    (∀ call ∈ assembleTrace source,
      (call.1.CurrentInstruction = 0x40000009 ∨
        (call.1.CurrentInstruction = 0x4000000A ∧ call.1.ParametersIndex = 0)) →
      decimalValue call.1.BuiltString ≠ none →
      ∀ out, assemble source ≠ some (Except.ok out)) := by
  refine ⟨fun out h => assemble_blocks source out h,
    fun hsmall out h => assemble_positions source out hsmall h, ?_⟩
  intro call hcall hpos hlit out h
  rw [assemble_eq] at h
  obtain ⟨r, hr⟩ := trace_calls_succeed _ _ _ _ _ h call hcall
  cases hd : decimalValue call.1.BuiltString with
  | none => exact hlit hd
  | some n => exact GetCommand_integer_rejected call.1 call.2 n hd hpos r hr

theorem register_required_positions_witness :
    (assemble (ascii "MOV R2 5 POP R1") = some (Except.ok
        [0xC0000001, 5, 0x4000000A, 0xC0000000, 0x40000009, 0x40000000,
          0, 0, 0, 0, 0, 0, 0, 0, 0, 0]) ∧
      (∃ blocks, [0xC0000001, 5, 0x4000000A, 0xC0000000, 0x40000009, 0x40000000,
          0, 0, 0, 0, 0, 0, 0, 0, 0, 0] = programOf blocks ++ [0x40000000] ++
          List.replicate ((ascii "MOV R2 5 POP R1").length - (programOf blocks).length) 0 ∧
        ∀ b ∈ blocks, (∃ s, mnemonic s = some (b.2, b.1.length)) ∧
          ((b.2 = 0x40000009 ∨ b.2 = 0x4000000A) →
            ∃ p, b.1[0]? = some p ∧ CheckIfRegister p = true)) ∧
      (ascii "MOV R2 5 POP R1").length + 1 < 1073741824 ∧
      (∀ i, [0xC0000001, 5, 0x4000000A, 0xC0000000, 0x40000009, 0x40000000,
          0, 0, 0, 0, 0, 0, 0, 0, 0, 0][i]? = some 0x40000009 → 1 ≤ i ∧
        ∃ p, [0xC0000001, 5, 0x4000000A, 0xC0000000, 0x40000009, 0x40000000,
          0, 0, 0, 0, 0, 0, 0, 0, 0, 0][i - 1]? = some p ∧ CheckIfRegister p = true) ∧
      (∀ i, [0xC0000001, 5, 0x4000000A, 0xC0000000, 0x40000009, 0x40000000,
          0, 0, 0, 0, 0, 0, 0, 0, 0, 0][i]? = some 0x4000000A → 2 ≤ i ∧
        ∃ p, [0xC0000001, 5, 0x4000000A, 0xC0000000, 0x40000009, 0x40000000,
          0, 0, 0, 0, 0, 0, 0, 0, 0, 0][i - 2]? = some p ∧ CheckIfRegister p = true)) ∧
    (∀ out, assemble (ascii "POP 5") ≠ some (Except.ok out)) :=
  ⟨⟨by rfl,
      (register_required_positions (ascii "MOV R2 5 POP R1")).1 _ (by rfl),
      by decide,
      (register_required_positions (ascii "MOV R2 5 POP R1")).2.1 (by decide) _ (by rfl)⟩,
    (register_required_positions (ascii "POP 5")).2.2
      ((assembleTrace (ascii "POP 5")).getD 1 (startLexer, []))
      (by decide) (Or.inl (by decide)) (by decide)⟩

/-! ### The index of the loop of Lex and the bytes of a token -/

theorem lexSwitch_slack (data : Bytes) (lexer lexer1 : Lexer) (lexemes lexemes1 : List Nat)
    (dumping : Bool) (h : lexSwitch data lexer lexemes = Except.ok (lexer1, lexemes1, dumping))
    (hnd : lexer.Current_State ≠ State.DUMP) :
    lexer.Index + slack lexer1.Current_State ≤
      lexer1.Index + slack lexer.Current_State + (if dumping = true then 0 else 1) := by
  unfold lexSwitch at h
  split at h
  · cases h
  · split at h
    · -- START
      rename_i hst
      simp only [] at h
      split at h
      · injection h with h; injection h with h1 h2; injection h2 with h2 h3
        subst h1 h3
        simp only [hst, slack]
        omega
      · split at h
        · split at h
          · cases h
          · split at h
            · injection h with h; injection h with h1 h2; injection h2 with h2 h3
              subst h1 h3
              simp only [hst, slack]
              omega
            · split at h
              · injection h with h; injection h with h1 h2; injection h2 with h2 h3
                subst h1 h3
                simp only [hst, slack]
                omega
              · injection h with h; injection h with h1 h2; injection h2 with h2 h3
                subst h1 h3
                simp only [hst, slack]
                simp
        · injection h with h; injection h with h1 h2; injection h2 with h2 h3
          subst h1 h3
          simp only [hst, slack]
          simp
    · -- COMMENT
      rename_i hst
      split at h
      · split at h
        · cases h
        · injection h with h; injection h with h1 h2; injection h2 with h2 h3
          subst h1 h3
          simp only [hst, slack]
          omega
        · injection h with h; injection h with h1 h2; injection h2 with h2 h3
          subst h1 h3
          simp only [hst, slack]
          omega
      · split at h
        · injection h with h; injection h with h1 h2; injection h2 with h2 h3
          subst h1 h3
          simp only [hst, slack]
          omega
        · injection h with h; injection h with h1 h2; injection h2 with h2 h3
          subst h1 h3
          simp only [hst, slack]
          omega
    · -- BUILDCOMM
      rename_i hst
      split at h
      · injection h with h; injection h with h1 h2; injection h2 with h2 h3
        subst h1 h3
        simp only [hst, slack]
        show lexer.Index + 1 ≤ (if _ then _ else lexer).Index + 1 + _
        split <;> simp
      · simp only [] at h
        split at h
        · injection h with h; injection h with h1 h2; injection h2 with h2 h3
          subst h1 h3
          simp only [hst, slack]
          omega
        · injection h with h; injection h with h1 h2; injection h2 with h2 h3
          subst h1 h3
          simp only [hst, slack]
          omega
    · rename_i hst
      exact absurd hst hnd
    · rename_i hst
      injection h with h; injection h with h1 h2; injection h2 with h2 h3
      subst h1 h3
      simp only [hst, slack]
      omega
    · rename_i hst
      injection h with h; injection h with h1 h2; injection h2 with h2 h3
      subst h1 h3
      simp only [hst, slack]
      omega

theorem lexSwitch_DUMP_state (data : Bytes) (lexer lexer1 : Lexer) (lexemes lexemes1 : List Nat)
    (dumping : Bool) (h : lexSwitch data lexer lexemes = Except.ok (lexer1, lexemes1, dumping))
    (hd : lexer.Current_State = State.DUMP) :
    dumping = false ∧ lexer1.Current_State = State.START ∧ lexer1.Index = lexer.Index := by
  unfold lexSwitch at h
  split at h
  · cases h
  · rw [hd] at h
    simp only [] at h
    split at h
    · cases h
    · rename_i lx1 buf1 hG
      injection h with h; injection h with h1 h2; injection h2 with h2 h3
      subst h1 h3
      exact ⟨rfl, rfl, GetCommand_Index lexer lx1 lexemes buf1 hG⟩

theorem advance_le (data : Bytes) (lexer lexer1 : Lexer)
    (h : advance data lexer = Except.ok lexer1) :
    lexer1.Index ≤ data.length ∧ lexer1.Current_State = lexer.Current_State := by
  unfold advance at h
  split at h
  · rename_i hc
    injection h with h
    rw [← h]
    exact ⟨by show lexer.Index + 1 + 1 ≤ _; omega, rfl⟩
  · split at h
    · cases h
    · rename_i c hc
      have hlt := getElem?_lt data _ c hc
      split at h
      · injection h with h
        rw [← h]
        exact ⟨by show lexer.Index + 1 ≤ _; omega, rfl⟩
      · injection h with h
        rw [← h]
        exact ⟨by show lexer.Index + 1 ≤ _; omega, rfl⟩

/-- One iteration of the loop, as far as the index and the state are concerned:
the index stays inside the text and moves on by at least the bytes of the token
being read; after the iteration of `DUMP` the state is `START`, one byte further
at least. -/
theorem lexStep_progress (data : Bytes) (lexer lexer1 : Lexer) (lexemes lexemes1 : List Nat)
    (h : lexStep data lexer lexemes = Except.ok (LoopStep.next lexer1 lexemes1)) :
    lexer.Index < data.length ∧ lexer1.Index ≤ data.length ∧
    (lexer.Current_State ≠ State.DUMP →
      lexer.Index + slack lexer1.Current_State ≤ lexer1.Index + slack lexer.Current_State) ∧
    (lexer.Current_State = State.DUMP →
      lexer1.Current_State = State.START ∧ lexer.Index + 1 ≤ lexer1.Index) := by
  unfold lexStep at h
  split at h
  · split at h
    · cases h
    · injection h with h; cases h
  · rename_i hcond
    have hlt : lexer.Index < data.length := by omega
    split at h
    · cases h
    · rename_i lxS bufS dumping hS
      have hI := lexSwitch_Index _ _ _ _ _ _ hS
      cases dumping with
      | true =>
        simp only [if_true] at h
        injection h with h; injection h with h1 h2
        subst h1
        obtain ⟨hi, hds, hnd⟩ := hI.2 rfl
        refine ⟨hlt, by omega, fun hn => ?_, fun hd => absurd hd hnd⟩
        have := lexSwitch_slack _ _ _ _ _ _ hS hn
        simp only [if_true] at this
        omega
      | false =>
        simp only [Bool.false_eq_true, if_false] at h
        split at h
        · cases h
        · rename_i lxA hA
          injection h with h; injection h with h1 h2
          subst h1
          obtain ⟨hle, hst⟩ := advance_le _ _ _ hA
          have hadv := advance_Index _ _ _ hA
          refine ⟨hlt, hle, fun hn => ?_, fun hd => ?_⟩
          · have := lexSwitch_slack _ _ _ _ _ _ hS hn
            simp only [Bool.false_eq_true, if_false] at this
            rw [hst]
            omega
          · obtain ⟨_, hs, hi⟩ := lexSwitch_DUMP_state _ _ _ _ _ _ hS hd
            exact ⟨hst.trans hs, by omega⟩

/-! ### The room in the buffer along the loop of Lex -/

theorem RoomInv_core (lexer lexer1 : Lexer) (e : List Nat)
    (hc : lexCore lexer1 = lexCore lexer) (h : RoomInv lexer e) : RoomInv lexer1 e := by
  obtain ⟨h1, h2, h3, h4, h5, h6, h7⟩ := lexCore_fields lexer1 lexer hc
  refine ⟨by rw [h4]; exact h.index, ?_, by rw [h5]; exact h.range⟩
  have hpw : pendingWords lexer1 = pendingWords lexer := by
    unfold pendingWords
    rw [h1, h3]
  rw [h7, hpw]
  exact h.slots

theorem weight_core (lexer lexer1 : Lexer) (e : List Nat)
    (hc : lexCore lexer1 = lexCore lexer) : weight lexer1 e = weight lexer e := by
  obtain ⟨h1, h2, h3, h4, h5, h6, h7⟩ := lexCore_fields lexer1 lexer hc
  unfold weight
  rw [h1, h5]

theorem SafeInv_start (n : Nat) : SafeInv n startLexer (List.replicate n 0) := by
  refine ⟨[], by simp [padded], ⟨rfl, fun name val hv => (by cases hv),
    (by decide : (-128 : Int) ≤ 0 ∧ (0 : Int) ≤ 127)⟩, ?_, Nat.zero_le _⟩
  show 2 * 0 + 0 ≤ 0
  omega

/-- An iteration of the loop keeps the invariant. -/
theorem SafeInv_step (data : Bytes) (lexer lexer1 : Lexer) (lexemes lexemes1 : List Nat)
    (hQ : SafeInv data.length lexer lexemes)
    (h : lexStep data lexer lexemes = Except.ok (LoopStep.next lexer1 lexemes1)) :
    SafeInv data.length lexer1 lexemes1 := by
  obtain ⟨e, hbuf, hR, hw, hi⟩ := hQ
  obtain ⟨hlt, hle, hnd, hd⟩ := lexStep_progress data lexer lexer1 lexemes lexemes1 h
  rcases lexStep_cases data lexer lexer1 lexemes lexemes1 h with
    ⟨⟨_, hst⟩, lxg, hG, hc⟩ | ⟨hns, hb, hc⟩
  · obtain ⟨hs1, hi1⟩ := hd hst
    obtain ⟨r, hr, hpost⟩ := GetCommand_room lexer e hR
    rw [hst] at hw
    have hw1 : 2 * weight lexer e + 1 ≤ lexer.Index := hw
    rw [hbuf, hr data.length (by omega)] at hG
    cases hr0 : r with
    | error err => rw [hr0] at hG; cases hG
    | ok p =>
      obtain ⟨lx2, e1⟩ := p
      rw [hr0] at hG
      simp only [repad] at hG
      injection hG with hG
      injection hG with hG1 hG2
      obtain ⟨hR2, hw2⟩ := hpost lx2 e1 hr0
      rw [hG1] at hR2 hw2
      refine ⟨e1, hG2.symm, RoomInv_core lxg lexer1 e1 hc hR2, ?_, hle⟩
      rw [weight_core lxg lexer1 e1 hc, hs1]
      show 2 * weight lxg e1 + 0 ≤ _
      omega
  · have hn : lexer.Current_State ≠ State.DUMP := fun hh => hns ⟨hlt, hh⟩
    have := hnd hn
    refine ⟨e, by rw [hb]; exact hbuf, RoomInv_core lexer lexer1 e hc hR, ?_, hle⟩
    rw [weight_core lexer lexer1 e hc]
    omega

/-- Every state at the head of the loop satisfies the invariant. -/
theorem lexStates_safe (data : Bytes) :
    ∀ (fuel : Nat) (lexer : Lexer) (lexemes : List Nat), SafeInv data.length lexer lexemes →
      ∀ st ∈ lexStates data fuel lexer lexemes, SafeInv data.length st.1 st.2 := by
  intro fuel
  induction fuel with
  | zero => intro lexer lexemes _ st hst; cases hst
  | succ fuel ih =>
    intro lexer lexemes hQ st hst
    unfold lexStates at hst
    rcases List.mem_cons.mp hst with h | h
    · rw [h]
      exact hQ
    · cases hs : lexStep data lexer lexemes with
      | error err => rw [hs] at h; cases h
      | ok step =>
        cases step with
        | done out => rw [hs] at h; cases h
        | next lexer1 lexemes1 =>
          rw [hs] at h
          exact ih lexer1 lexemes1 (SafeInv_step data lexer lexer1 lexemes lexemes1 hQ hs) st h

/-! ### Writes in a state with room in the buffer -/

theorem HandleLabelDecleration_safe (n : Nat) (lexer : Lexer) (e : List Nat)
    (hfit : e.length ≤ n) (htok : lexer.BuiltString ≠ [])
    (hslots : ∀ name val, mapGet lexer.LabelToInstructions name = some val → ∀ s ∈ val,
      s < e.length) :
    HandleLabelDecleration lexer (padded n e) ≠ Except.error LexError.indexOutOfRange := by
  intro h
  unfold HandleLabelDecleration at h
  split at h
  · cases h
  · split at h
    · rename_i h0
      exact htok (List.length_eq_zero.mp h0)
    · simp only [] at h
      split at h
      · cases h
      · split at h
        · rename_i val hm
          rw [backpatch_padded n val _ e hfit (hslots _ val hm)] at h
          cases h
        · cases h

/-- In a state that satisfies the invariant, with a buffer of at least one
word: the flush, the backpatch loop after it and the write of the terminator
stay inside the buffer. -/
theorem SafeInv_writes (n : Nat) (hn : 1 ≤ n) (lexer : Lexer) (lexemes : List Nat)
    (hQ : SafeInv n lexer lexemes) :
    lexemes.length = n ∧ lexer.LexemesIndex + 1 ≤ n ∧
    DumpCommand lexer lexemes ≠ Except.error LexError.indexOutOfRange ∧
    (∀ lx1 buf1, DumpCommand lexer lexemes = Except.ok (lx1, buf1) →
      buf1.length = n ∧
      (lexer.BuiltString ≠ [] →
        HandleLabelDecleration lx1 buf1 ≠ Except.error LexError.indexOutOfRange) ∧
      lx1.LexemesIndex < buf1.length ∧
      ∃ out, writeWord buf1 lx1.LexemesIndex 0x40000000 = Except.ok out) ∧
    lexEnd lexer lexemes ≠ Except.error LexError.indexOutOfRange := by
  obtain ⟨e, hbuf, hR, hw, hi⟩ := hQ
  subst hbuf
  have hwn : weight lexer e < n := by omega
  have hel : e.length ≤ weight lexer e := by unfold weight; omega
  obtain ⟨rD, hD, hDr⟩ := DumpCommand_room lexer e hR.index
  have hDn := hD n (by omega)
  have hflush : ∀ lx1 buf1, DumpCommand lexer (padded n e) = Except.ok (lx1, buf1) →
      lx1 = flushed lexer (pendingWords lexer).length ∧
      buf1 = padded n (e ++ pendingWords lexer) ∧
      (e ++ pendingWords lexer).length < n := by
    intro lx1 buf1 h
    rw [hDn] at h
    rcases hDr with hDr | ⟨hDr, hwe⟩
    · rw [hDr] at h; cases h
    · rw [hDr] at h
      simp only [repad] at h
      injection h with h
      injection h with h1 h2
      exact ⟨h1.symm, h2.symm, by omega⟩
  have hsafe : ∀ lx1 buf1, DumpCommand lexer (padded n e) = Except.ok (lx1, buf1) →
      buf1.length = n ∧
      (lexer.BuiltString ≠ [] →
        HandleLabelDecleration lx1 buf1 ≠ Except.error LexError.indexOutOfRange) ∧
      lx1.LexemesIndex < buf1.length ∧
      ∃ out, writeWord buf1 lx1.LexemesIndex 0x40000000 = Except.ok out := by
    intro lx1 buf1 h
    obtain ⟨h1, h2, h3⟩ := hflush lx1 buf1 h
    have hidx : lx1.LexemesIndex = (e ++ pendingWords lexer).length := by
      rw [h1, List.length_append]
      show lexer.LexemesIndex + _ = _
      rw [hR.index]
    have hlen : buf1.length = n := by rw [h2]; exact padded_length n _ (by omega)
    refine ⟨hlen, ?_, by rw [hidx, hlen]; exact h3, ?_⟩
    · intro htok
      rw [h2]
      apply HandleLabelDecleration_safe n lx1 _ (by omega) (by rw [h1]; exact htok)
      intro name val hv s hs
      rw [h1] at hv
      rw [List.length_append]
      exact hR.slots name val hv s hs
    · rw [h2, hidx]
      exact ⟨_, writeWord_end n _ _ h3⟩
  refine ⟨padded_length n e (by omega), by rw [hR.index]; omega, ?_, hsafe, ?_⟩
  · rw [hDn]
    rcases hDr with hDr | ⟨hDr, _⟩
    · rw [hDr]
      intro h
      cases h
    · rw [hDr]
      intro h
      cases h
  · intro h
    unfold lexEnd at h
    cases hDc : DumpCommand lexer (padded n e) with
    | error err =>
      rw [hDc] at h
      simp only [] at h
      rw [hDn] at hDc
      rcases hDr with hDr | ⟨hDr, _⟩
      · rw [hDr] at hDc
        injection hDc with hDc
        injection h with h
        rw [← hDc] at h
        cases h
      · rw [hDr] at hDc
        cases hDc
    | ok p =>
      obtain ⟨lx1, buf1⟩ := p
      rw [hDc] at h
      simp only [] at h
      obtain ⟨_, _, _, out, hout⟩ := hsafe lx1 buf1 hDc
      unfold VerifyLabelResolution at h
      split at h
      · rename_i heq
        split at heq
        · injection heq with heq
          injection h with h
          rw [← heq] at h
          cases h
        · cases heq
      · rw [hout] at h
        cases h

/-! ### The last state of the loop of Lex -/

/-- The states at the head of the loop include the one at which the loop
stops: one more iteration from it gives the result of the loop. -/
theorem lexStates_last (data : Bytes) :
    ∀ (fuel : Nat) (lexer : Lexer) (lexemes : List Nat) (r : Except LexError (List Nat)),
      lexLoop data fuel lexer lexemes = some r →
      ∃ st ∈ lexStates data fuel lexer lexemes, lexLoop data 1 st.1 st.2 = some r := by
  intro fuel
  induction fuel with
  | zero => intro lexer lexemes r h; cases h
  | succ fuel ih =>
    intro lexer lexemes r h
    unfold lexLoop at h
    unfold lexStates
    cases hs : lexStep data lexer lexemes with
    | error e =>
      rw [hs] at h
      refine ⟨(lexer, lexemes), List.mem_cons_self _ _, ?_⟩
      show lexLoop data 1 lexer lexemes = some r
      unfold lexLoop
      rw [hs]
      exact h
    | ok step =>
      cases step with
      | done out =>
        rw [hs] at h
        refine ⟨(lexer, lexemes), List.mem_cons_self _ _, ?_⟩
        show lexLoop data 1 lexer lexemes = some r
        unfold lexLoop
        rw [hs]
        exact h
      | next lexer1 lexemes1 =>
        rw [hs] at h
        obtain ⟨st, hst, hr⟩ := ih lexer1 lexemes1 r h
        exact ⟨st, List.mem_cons_of_mem _ hst, hr⟩

/-! ### Tokens handed to GetCommand are not empty -/

theorem byteToString_ne_nil (b : Nat) : byteToString b ≠ [] := by
  unfold byteToString
  split <;> exact List.cons_ne_nil _ _

theorem append_byte_ne_nil (s : Bytes) (b : Nat) : s ++ byteToString b ≠ [] := by
  intro h
  exact byteToString_ne_nil b (List.append_eq_nil.mp h).2

theorem lexSwitch_token (data : Bytes) (lexer lexer1 : Lexer) (lexemes lexemes1 : List Nat)
    (dumping : Bool) (h : lexSwitch data lexer lexemes = Except.ok (lexer1, lexemes1, dumping))
    (hT : TokenInv lexer) : TokenInv lexer1 := by
  unfold lexSwitch at h
  split at h
  · cases h
  · split at h
    · -- START
      rename_i hst
      simp only [] at h
      split at h
      · injection h with h; injection h with h1 h2; injection h2 with h2 h3
        subst h1 h3
        intro hs
        have hs1 : lexer.Current_State = State.BUILDCOMM ∨ lexer.Current_State = State.DUMP := hs
        rw [hst] at hs1
        rcases hs1 with hs1 | hs1 <;> cases hs1
      · split at h
        · split at h
          · cases h
          · split at h
            · injection h with h; injection h with h1 h2; injection h2 with h2 h3
              subst h1 h3
              intro hs
              rcases hs with hs | hs <;> cases hs
            · split at h
              · injection h with h; injection h with h1 h2; injection h2 with h2 h3
                subst h1 h3
                intro hs
                rcases hs with hs | hs <;> cases hs
              · injection h with h; injection h with h1 h2; injection h2 with h2 h3
                subst h1 h3
                intro _
                exact append_byte_ne_nil _ _
        · injection h with h; injection h with h1 h2; injection h2 with h2 h3
          subst h1 h3
          intro _
          exact append_byte_ne_nil _ _
    · -- COMMENT
      rename_i hst
      have hkeep : TokenInv lexer → ∀ lx : Lexer, lx.Current_State = State.START ∨
          lx.Current_State = State.COMMENT → TokenInv lx := by
        intro _ lx hlx hs
        rcases hlx with hlx | hlx <;> rw [hlx] at hs <;> rcases hs with hs | hs <;> cases hs
      split at h
      · split at h
        · cases h
        · injection h with h; injection h with h1 h2; injection h2 with h2 h3
          subst h1 h3
          exact hkeep hT _ (Or.inl rfl)
        · injection h with h; injection h with h1 h2; injection h2 with h2 h3
          subst h1 h3
          exact hkeep hT _ (Or.inr hst)
      · split at h
        · injection h with h; injection h with h1 h2; injection h2 with h2 h3
          subst h1 h3
          exact hkeep hT _ (Or.inl rfl)
        · injection h with h; injection h with h1 h2; injection h2 with h2 h3
          subst h1 h3
          exact hkeep hT _ (Or.inr hst)
    · -- BUILDCOMM
      rename_i hst
      have hne : lexer.BuiltString ≠ [] := hT (Or.inl hst)
      split at h
      · injection h with h; injection h with h1 h2; injection h2 with h2 h3
        subst h1 h3
        intro _
        show (if _ then _ else lexer).BuiltString ≠ []
        split
        · intro h0
          exact hne (List.append_eq_nil.mp h0).1
        · exact hne
      · simp only [] at h
        split at h
        · injection h with h; injection h with h1 h2; injection h2 with h2 h3
          subst h1 h3
          intro _
          exact append_byte_ne_nil _ _
        · injection h with h; injection h with h1 h2; injection h2 with h2 h3
          subst h1 h3
          intro _
          exact append_byte_ne_nil _ _
    · -- DUMP
      split at h
      · cases h
      · injection h with h; injection h with h1 h2; injection h2 with h2 h3
        subst h1 h3
        intro hs
        rcases hs with hs | hs <;> cases hs
    · rename_i hst
      injection h with h; injection h with h1 h2; injection h2 with h2 h3
      subst h1 h3
      intro hs
      rw [hst] at hs
      rcases hs with hs | hs <;> cases hs
    · rename_i hst
      injection h with h; injection h with h1 h2; injection h2 with h2 h3
      subst h1 h3
      intro hs
      rw [hst] at hs
      rcases hs with hs | hs <;> cases hs

theorem advance_token (data : Bytes) (lexer lexer1 : Lexer)
    (h : advance data lexer = Except.ok lexer1) (hT : TokenInv lexer) : TokenInv lexer1 := by
  unfold advance at h
  split at h
  · injection h with h
    rw [← h]
    exact hT
  · split at h
    · cases h
    · split at h
      · injection h with h
        rw [← h]
        exact hT
      · injection h with h
        rw [← h]
        exact hT

theorem lexStep_token (data : Bytes) (lexer lexer1 : Lexer) (lexemes lexemes1 : List Nat)
    (h : lexStep data lexer lexemes = Except.ok (LoopStep.next lexer1 lexemes1))
    (hT : TokenInv lexer) : TokenInv lexer1 := by
  unfold lexStep at h
  split at h
  · split at h
    · cases h
    · injection h with h; cases h
  · split at h
    · cases h
    · rename_i lxS bufS dumping hS
      have hT1 := lexSwitch_token _ _ _ _ _ _ hS hT
      cases dumping with
      | true =>
        simp only [if_true] at h
        injection h with h; injection h with h1 h2
        subst h1
        exact hT1
      | false =>
        simp only [Bool.false_eq_true, if_false] at h
        split at h
        · cases h
        · rename_i lxA hA
          injection h with h; injection h with h1 h2
          subst h1
          exact advance_token _ _ _ hA hT1

theorem lexStates_token (data : Bytes) :
    ∀ (fuel : Nat) (lexer : Lexer) (lexemes : List Nat), TokenInv lexer →
      ∀ st ∈ lexStates data fuel lexer lexemes, TokenInv st.1 := by
  intro fuel
  induction fuel with
  | zero => intro lexer lexemes _ st hst; cases hst
  | succ fuel ih =>
    intro lexer lexemes hQ st hst
    unfold lexStates at hst
    rcases List.mem_cons.mp hst with h | h
    · rw [h]
      exact hQ
    · cases hs : lexStep data lexer lexemes with
      | error err => rw [hs] at h; cases h
      | ok step =>
        cases step with
        | done out => rw [hs] at h; cases h
        | next lexer1 lexemes1 =>
          rw [hs] at h
          exact ih lexer1 lexemes1 (lexStep_token data lexer lexer1 lexemes lexemes1 hs hQ) st h

theorem TokenInv_start : TokenInv startLexer := by
  intro hs
  rcases hs with hs | hs <;> cases hs

/-! ### Output-buffer safety (C21) -/

/-- C21: output-buffer safety. For every source text the loop of `Lex` stops,
and the states at the head of its iterations include the one at which it
stops. In each of these states the output buffer has the length
`len(source)+1` with which it was allocated, and every write into it is at an
index inside it: the operand and opcode writes of `DumpCommand` on that state
(the call made by `GetCommand` and by the `END` case) do not fail with an
index out of range; in the state `DUMP`, where `GetCommand` is called, the
token is not empty, and after the flush the backpatch writes of
`HandleLabelDecleration` on a token that is not empty do not fail with an index
out of range; after a flush the index at which the `END` case writes `HALT` is
inside the buffer, so that this write succeeds; the `END` case as a whole does
not fail with an index out of range. The number of words emitted so far, with
one more for the terminator, is at most `len(source)+1`. -/
theorem buffer_writes_in_bounds (source : Bytes) :
    (∃ r, assemble source = some r ∧
      ∃ st ∈ assembleStates source, lexLoop (source ++ [10]) 1 st.1 st.2 = some r) ∧
    ∀ st ∈ assembleStates source,
      st.2.length = source.length + 1 ∧
      st.1.LexemesIndex + 1 ≤ source.length + 1 ∧
      (st.1.Current_State = State.DUMP → st.1.BuiltString ≠ []) ∧
      DumpCommand st.1 st.2 ≠ Except.error LexError.indexOutOfRange ∧
      (∀ lx1 buf1, DumpCommand st.1 st.2 = Except.ok (lx1, buf1) →
        buf1.length = source.length + 1 ∧
        (st.1.BuiltString ≠ [] →
          HandleLabelDecleration lx1 buf1 ≠ Except.error LexError.indexOutOfRange) ∧
        lx1.LexemesIndex < buf1.length ∧
        ∃ out, writeWord buf1 lx1.LexemesIndex 0x40000000 = Except.ok out) ∧
      lexEnd st.1 st.2 ≠ Except.error LexError.indexOutOfRange := by
  have hlen : (source ++ [10]).length = source.length + 1 := by simp
  constructor
  · obtain ⟨r, hr⟩ := Lex_total freshLexer source
    refine ⟨r, hr, ?_⟩
    have h : assemble source = some r := hr
    rw [assemble_eq] at h
    exact lexStates_last (source ++ [10]) _ _ _ r h
  · intro st hst
    have hQ := lexStates_safe (source ++ [10]) _ startLexer _
      (SafeInv_start (source ++ [10]).length) st hst
    have hT := lexStates_token (source ++ [10]) _ startLexer _ TokenInv_start st hst
    obtain ⟨h1, h2, h3, h4, h5⟩ :=
      SafeInv_writes (source ++ [10]).length (by omega) st.1 st.2 hQ
    rw [hlen] at h1 h2 h4
    exact ⟨h1, h2, fun hd => hT (Or.inr hd), h3, h4, h5⟩

theorem buffer_writes_in_bounds_witness :
    labelDumpState ∈ assembleStates (ascii "JMP ab ab:") ∧
    labelDumpState.1.Current_State = State.DUMP ∧
    labelDumpState.1.BuiltString = ascii "ab:" ∧
    DumpCommand labelDumpState.1 labelDumpState.2 =
      Except.ok ({ startLexer with Index := 9, BuiltString := ascii "ab:", LexemesIndex := 2,
                                   Current_State := State.DUMP, Parameters := some [0],
                                   LabelToInstructions := [(ascii "ab", [0])] },
                 [0, 0x40000011, 0, 0, 0, 0, 0, 0, 0, 0, 0]) ∧
    (labelDumpState.2.length = (ascii "JMP ab ab:").length + 1 ∧
      labelDumpState.1.LexemesIndex + 1 ≤ (ascii "JMP ab ab:").length + 1 ∧
      (labelDumpState.1.Current_State = State.DUMP → labelDumpState.1.BuiltString ≠ []) ∧
      DumpCommand labelDumpState.1 labelDumpState.2 ≠ Except.error LexError.indexOutOfRange ∧
      (∀ lx1 buf1, DumpCommand labelDumpState.1 labelDumpState.2 = Except.ok (lx1, buf1) →
        buf1.length = (ascii "JMP ab ab:").length + 1 ∧
        (labelDumpState.1.BuiltString ≠ [] →
          HandleLabelDecleration lx1 buf1 ≠ Except.error LexError.indexOutOfRange) ∧
        lx1.LexemesIndex < buf1.length ∧
        ∃ out, writeWord buf1 lx1.LexemesIndex 0x40000000 = Except.ok out) ∧
      lexEnd labelDumpState.1 labelDumpState.2 ≠ Except.error LexError.indexOutOfRange) :=
  ⟨by decide, by decide, by decide, by rfl,
    (buffer_writes_in_bounds (ascii "JMP ab ab:")).2 labelDumpState (by decide)⟩

end PAL
